import Mathlib

/-!
# Star Wars Mobile: entity update, collision and scoring core

A shallow embedding of `src/js/utils.js`, `src/js/particles.js`, `src/js/player.js`,
`src/js/grid.js` and `src/js/enemies.js`.

Conventions of the embedding.

* JavaScript numbers are idealised: rationals for coordinates, sizes and speeds, integers for
  the tick counters and the score. Rounding of doubles is not modelled.
* The library functions of the host (`Math.sqrt`, `Math.cos`, `Math.sin`, `Math.atan2`,
  `Math.PI`) and the successive results of `Math.random()` and `Date.now()` are gathered in a
  `Platform` record; every definition is executable once a platform is given.
* The objects of one game session (player, particle system, backdrop, enemy manager) reference
  each other; they are gathered in one `World` record and every method is a function
  `World → World` (or returns a result paired with the new world).
* Enemy objects are shared by reference (an enemy can be stored twice in the active list), so
  they live in `World.heap` and the active list holds heap indices.
-/

namespace StarWars

/-! ## Data model -/

/-- Host services: the `Math` functions used by the scripts, the stream of `Math.random()`
results (each in `[0, 1)`) and the stream of `Date.now()` results. -/
structure Platform where
  sqrt : ℚ → ℚ
  cos : ℚ → ℚ
  sin : ℚ → ℚ
  atan2 : ℚ → ℚ → ℚ
  PI : ℚ
  randomSeq : ℕ → ℚ
  random_range : ∀ n, 0 ≤ randomSeq n ∧ randomSeq n < 1
  nowSeq : ℕ → ℤ

/-- Class `Vector` of `utils.js`: the two coordinates. -/
structure Vector where
  x : ℚ
  y : ℚ
deriving DecidableEq

/-- Object literal pushed on `ParticleSystem.particles`; a field that some creation paths leave
out is optional. -/
structure Particle where
  position : Vector
  velocity : Vector
  size : ℚ
  color : String
  alpha : ℚ
  decay : ℚ
  rotation : ℚ
  rotationSpeed : ℚ
  shape : Option String := none
  isFlash : Bool := false
  isScore : Bool := false
  text : Option String := none
  initialSize : Option ℚ := none
  maxSize : Option ℚ := none
  growthRate : Option ℚ := none
  lifetime : Option ℚ := none
  maxLifetime : Option ℚ := none
deriving DecidableEq

/-- Object literal pushed on `ParticleSystem.trailParticles`. -/
structure TrailParticle where
  position : Vector
  size : ℚ
  color : String
  alpha : ℚ
  decay : ℚ
deriving DecidableEq

/-- Fields of class `ParticleSystem` (canvas and drawing context left out). -/
structure ParticleSystem where
  particles : List Particle
  trailParticles : List TrailParticle
  maxParticles : ℤ
  maxTrailParticles : ℤ
deriving DecidableEq

/-- Callback registered with `setTimeout` by `createMassiveExplosion`: the delay drawn for it and
the centre `(x, y)` its closure captured. -/
structure SecondaryTimer where
  delay : ℚ
  x : ℚ
  y : ℚ
deriving DecidableEq

/-- Projectile literal of `Player.shoot`, `fireProjectile` and `fireProjectileAngle`;
`isReflected` is absent (falsy) until the shield sets it. -/
structure Projectile where
  position : Vector
  velocity : Vector
  size : ℚ
  color : String
  isReflected : Bool := false
deriving DecidableEq

/-- Field `keys` of the player. -/
structure Keys where
  up : Bool
  down : Bool
  left : Bool
  right : Bool
deriving DecidableEq

/-- Field `mouse` of the player. -/
structure Mouse where
  x : ℚ
  y : ℚ
  shooting : Bool
deriving DecidableEq

/-- Field `gyroOrientation` of the player. -/
structure GyroOrientation where
  alpha : ℚ
  beta : ℚ
  gamma : ℚ
deriving DecidableEq

/-- Fields of class `Player` (canvas, context, sound and the shared particle system left out:
the particle system is `World.particles`). `shotsFired` is a ghost field no operation reads:
`shoot()` counts its calls in it, so that "this update fired a projectile" can be stated. -/
structure Player where
  gameScale : ℚ
  position : Vector
  velocity : Vector
  acceleration : Vector
  rotation : ℚ
  size : ℚ
  color : String
  maxSpeed : ℚ
  friction : ℚ
  alive : Bool
  invulnerable : Bool
  invulnerableTimer : ℤ
  blinkTimer : ℤ
  visible : Bool
  godMode : Bool
  isInvincible : Bool
  shieldRadius : ℚ
  shieldOpacity : ℚ
  shootCooldown : ℤ
  shootDelay : ℤ
  projectiles : List Projectile
  keys : Keys
  mouse : Mouse
  isMobile : Bool
  hasGyroscope : Bool
  gyroEnabled : Bool
  gyroOrientation : GyroOrientation
  shotsFired : ℕ := 0
deriving DecidableEq

/-- Camera-shake fields of class `Grid`, the backdrop collaborator (`undefined` read as `0` and
`false`). -/
structure Grid where
  shakeTime : ℚ
  shakeIntensity : ℚ
  isShaking : Bool
deriving DecidableEq

/-- Field `type` of an enemy object. -/
inductive EnemyType where
  | seeker
  | wanderer
  | spinner
  | boss
deriving DecidableEq

/-- Enemy object literal: the union of the fields of the four factories `createSeeker`,
`createWanderer`, `createSpinner` and `createBoss`. `value` and `health` are the two fields the
code tests for presence; a counter a factory leaves out is `0`. -/
structure Enemy where
  type : EnemyType
  isBoss : Bool := false
  position : Vector
  velocity : Vector
  size : ℚ
  color : String
  speed : ℚ
  rotation : ℚ := 0
  rotationSpeed : ℚ := 0
  value : Option ℤ := none
  health : Option ℤ := none
  maxHealth : ℚ := 0
  directionTimer : ℤ := 0
  directionChangeInterval : ℤ := 0
  shootTimer : ℤ := 0
  shootDelay : ℤ := 0
  orbitRadius : ℚ := 0
  orbitAngle : ℚ := 0
  orbitSpeed : ℚ := 0
  targetPosition : Vector := ⟨0, 0⟩
  burstCount : ℤ := 0
  burstSize : ℤ := 0
  burstDelay : ℤ := 0
  attackPhase : ℤ := 0
  phaseTimer : ℤ := 0
  shotTimer : ℤ := 0
  shotDelay : ℤ := 0
  lastHitTime : ℤ := 0
  lastScoreTime : ℤ := 0
  phaseTimerCoefficient : ℚ := 0
deriving DecidableEq

/-- Fields of class `EnemyManager`. The shared player, particle system and backdrop are fields
of `World`; the canvas context and the `tieFighter` and `interceptor` fields, which only the
constructor mentions, are left out. `enemies` holds indices into `World.heap`.
`killLog` is a ghost field no operation reads: `updateScore`, which only `destroyEnemy` calls,
appends the combo it has just reached, so that "an enemy was destroyed during this update" can
be stated. -/
structure EnemyManager where
  gameScale : ℚ
  enemies : List ℕ
  enemyProjectiles : List Projectile
  spawnTimer : ℤ
  spawnRate : ℤ
  difficultyTimer : ℤ
  difficultyInterval : ℤ
  maxEnemies : ℤ
  score : ℤ
  scoreMultiplier : ℤ
  combo : ℕ
  comboTimer : ℤ
  multiplierTimer : ℤ
  bossActive : Bool
  bossTimer : ℤ
  bossSpawnThreshold : ℤ
  killLog : List ℕ := []
deriving DecidableEq

/-- Size of the canvas element. -/
structure Canvas where
  width : ℚ
  height : ℚ
deriving DecidableEq

/-- One game session: the mutually referencing objects, the enemy heap, the pending
`setTimeout` callbacks and the number of `Math.random()` and `Date.now()` calls made so far. -/
structure World where
  platform : Platform
  randomCalls : ℕ
  nowCalls : ℕ
  canvas : Canvas
  particles : ParticleSystem
  player : Player
  grid : Grid
  enemyManager : EnemyManager
  heap : List Enemy
  timers : List SecondaryTimer

/-! ## utils.js -/

/-- Result of the `k`-th next call of `Math.random()`. -/
def World.rand (w : World) (k : ℕ) : ℚ :=
  w.platform.randomSeq (w.randomCalls + k)

/-- Function `random(min, max)` evaluated on the `k`-th next draw:
`Math.random() * (max - min) + min`. -/
def World.random (w : World) (k : ℕ) (min max : ℚ) : ℚ :=
  w.rand k * (max - min) + min

/-- Function `randomInt(min, max)` evaluated on the `k`-th next draw:
`Math.floor(random(min, max + 1))`. -/
def World.randomInt (w : World) (k : ℕ) (min max : ℚ) : ℤ :=
  Int.floor (w.random k min (max + 1))

/-- Record that `n` draws of `Math.random()` were consumed. -/
def World.advance (w : World) (n : ℕ) : World :=
  { w with randomCalls := w.randomCalls + n }

/-- Number of iterations of `for (let i = 0; i < n; i++)` for a numeric bound `n`. -/
def loopCount (n : ℚ) : ℕ :=
  (Int.ceil n).toNat

/-- Function `distance(x1, y1, x2, y2)`. -/
def distance (P : Platform) (x1 y1 x2 y2 : ℚ) : ℚ :=
  let dx := x2 - x1
  let dy := y2 - y1
  P.sqrt (dx * dx + dy * dy)

/-- Function `circleCollision(x1, y1, r1, x2, y2, r2)`. -/
def circleCollision (P : Platform) (x1 y1 r1 x2 y2 r2 : ℚ) : Bool :=
  decide (distance P x1 y1 x2 y2 < r1 + r2)

/-- Method `Vector.add(v)`. -/
def Vector.add (u v : Vector) : Vector :=
  ⟨u.x + v.x, u.y + v.y⟩

/-- Method `Vector.subtract(v)`. -/
def Vector.subtract (u v : Vector) : Vector :=
  ⟨u.x - v.x, u.y - v.y⟩

/-- Method `Vector.multiply(scalar)`. -/
def Vector.multiply (u : Vector) (scalar : ℚ) : Vector :=
  ⟨u.x * scalar, u.y * scalar⟩

/-- Method `Vector.divide(scalar)`. -/
def Vector.divide (u : Vector) (scalar : ℚ) : Vector :=
  if scalar ≠ 0 then ⟨u.x / scalar, u.y / scalar⟩ else u

/-- Method `Vector.getMagnitude()`. -/
def Vector.getMagnitude (P : Platform) (u : Vector) : ℚ :=
  P.sqrt (u.x * u.x + u.y * u.y)

/-- Method `Vector.normalize()`. -/
def Vector.normalize (P : Platform) (u : Vector) : Vector :=
  let magnitude := u.getMagnitude P
  if magnitude ≠ 0 then u.divide magnitude else u

/-- Method `Vector.limit(max)`. -/
def Vector.limit (P : Platform) (u : Vector) (max : ℚ) : Vector :=
  if u.getMagnitude P > max then (u.normalize P).multiply max else u

/-! ## particles.js -/

/-- Statement `this.particles.push(p)`. -/
def World.pushParticle (w : World) (p : Particle) : World :=
  { w with particles := { w.particles with particles := w.particles.particles ++ [p] } }

/-- Particle built by one iteration of the loop of `createExplosion`; the eight draws are
numbered in evaluation order. -/
def explosionParticle (w : World) (x y : ℚ) (color : String) (speed size decay : ℚ) : Particle :=
  let angle := w.random 0 0 (w.platform.PI * 2)
  { position := ⟨x, y⟩
    velocity := ⟨w.platform.cos angle * w.random 1 0.5 speed,
                 w.platform.sin angle * w.random 2 0.5 speed⟩
    size := w.random 3 1 size
    color := color
    alpha := 1
    decay := decay * w.random 4 0.8 1.2
    rotation := w.random 5 0 (w.platform.PI * 2)
    rotationSpeed := w.random 6 (-0.1) 0.1
    shape := some (if w.rand 7 > 0.7 then "square" else "circle") }

/-- One iteration of the loop of `createExplosion`. -/
def createExplosionStep (x y : ℚ) (color : String) (speed size decay : ℚ) (w : World) : World :=
  (w.pushParticle (explosionParticle w x y color speed size decay)).advance 8

/-- Method `ParticleSystem.createExplosion(x, y, count, color, speed, size, decay)`. -/
def createExplosion (x y count : ℚ) (color : String) (speed size decay : ℚ) (w : World) :
    World :=
  let availableSlots : ℚ := w.particles.maxParticles - w.particles.particles.length
  if availableSlots ≤ 0 then w
  else
    let adjustedCount := min count availableSlots
    (createExplosionStep x y color speed size decay)^[loopCount adjustedCount] w

/-- The array `colors` of `createMassiveExplosion`. -/
def explosionColors : List String :=
  ["#ffffff", "#ffff00", "#ffa500", "#ff4500", "#ff0000"]

/-- Expression `colors[Math.floor(r)]` (`"undefined"` outside the array). -/
def colorAt (r : ℚ) : String :=
  if Int.floor r < 0 then "undefined" else explosionColors.getD (Int.floor r).toNat "undefined"

/-- The central flash pushed first by `createMassiveExplosion`. -/
def flashParticle (x y : ℚ) : Particle :=
  { position := ⟨x, y⟩, velocity := ⟨0, 0⟩, size := 120, color := "#ffffff", alpha := 1,
    decay := 0.03, rotation := 0, rotationSpeed := 0, shape := some "circle", isFlash := true }

/-- The shockwave ring pushed second by `createMassiveExplosion`. -/
def ringParticle (x y : ℚ) : Particle :=
  { position := ⟨x, y⟩, velocity := ⟨0, 0⟩, initialSize := some 10, size := 10,
    maxSize := some 300, growthRate := some 5, color := "#ffcc00", alpha := 0.7, decay := 0.02,
    rotation := 0, rotationSpeed := 0, shape := some "ring" }

/-- One iteration of the core wave of `createMassiveExplosion` (ten draws). -/
def coreWaveStep (x y : ℚ) (w : World) : World :=
  let angle := w.random 0 0 (w.platform.PI * 2)
  let speed := w.random 1 3 8
  (w.pushParticle
    { position := ⟨x, y⟩
      velocity := ⟨w.platform.cos angle * speed, w.platform.sin angle * speed⟩
      size := w.random 3 5 12
      color := colorAt (w.random 2 0 2)
      alpha := w.random 4 0.8 1
      decay := w.random 5 0.01 0.02
      rotation := w.random 6 0 (w.platform.PI * 2)
      rotationSpeed := w.random 7 (-0.2) 0.2
      shape := some (if w.rand 8 > 0.5 then "circle" else "square")
      lifetime := some 0
      maxLifetime := some (60 + w.rand 9 * 60) }).advance 10

/-- One iteration of the medium wave of `createMassiveExplosion` (ten draws). -/
def mediumWaveStep (x y : ℚ) (w : World) : World :=
  let angle := w.random 0 0 (w.platform.PI * 2)
  let speed := w.random 1 1.5 4
  (w.pushParticle
    { position := ⟨x, y⟩
      velocity := ⟨w.platform.cos angle * speed, w.platform.sin angle * speed⟩
      size := w.random 3 3 8
      color := colorAt (w.random 2 1 4)
      alpha := w.random 4 0.6 0.9
      decay := w.random 5 0.008 0.015
      rotation := w.random 6 0 (w.platform.PI * 2)
      rotationSpeed := w.random 7 (-0.15) 0.15
      shape := some (if w.rand 8 > 0.3 then "circle" else "square")
      lifetime := some 0
      maxLifetime := some (90 + w.rand 9 * 90) }).advance 10

/-- One iteration of the outer wave of `createMassiveExplosion` (nine draws). -/
def outerWaveStep (x y : ℚ) (w : World) : World :=
  let angle := w.random 0 0 (w.platform.PI * 2)
  let speed := w.random 1 0.5 2
  (w.pushParticle
    { position := ⟨x, y⟩
      velocity := ⟨w.platform.cos angle * speed, w.platform.sin angle * speed⟩
      size := w.random 3 1 4
      color := colorAt (w.random 2 2 5)
      alpha := w.random 4 0.3 0.7
      decay := w.random 5 0.005 0.01
      rotation := w.random 6 0 (w.platform.PI * 2)
      rotationSpeed := w.random 7 (-0.1) 0.1
      shape := some "circle"
      lifetime := some 0
      maxLifetime := some (120 + w.rand 8 * 120) }).advance 9

/-- One iteration of the last loop of `createMassiveExplosion`: `setTimeout(callback,
random(100, 500))` registers a callback and runs nothing yet. -/
def scheduleSecondary (x y : ℚ) (w : World) : World :=
  ({ w with timers := w.timers ++ [⟨w.random 0 100 500, x, y⟩] } : World).advance 1

/-- Remaining capacity `this.maxParticles - this.particles.length`. -/
def World.freeSlots (w : World) : ℚ :=
  w.particles.maxParticles - w.particles.particles.length

/-- Method `ParticleSystem.createMassiveExplosion(x, y)`, its synchronous part: flash, ring,
three waves, and the registration of five delayed secondary explosions. -/
def createMassiveExplosion (x y : ℚ) (w : World) : World :=
  let w1 := w.pushParticle (flashParticle x y)
  let w2 := w1.pushParticle (ringParticle x y)
  let coreCount := min 100 (w2.freeSlots / 3)
  let w3 := (coreWaveStep x y)^[loopCount coreCount] w2
  let mediumCount := min 100 (w3.freeSlots / 3)
  let w4 := (mediumWaveStep x y)^[loopCount mediumCount] w3
  let outerCount := min 100 w4.freeSlots
  let w5 := (outerWaveStep x y)^[loopCount outerCount] w4
  (scheduleSecondary x y)^[5] w5

/-- The callback of a delayed secondary explosion, run when its timer fires (five draws, then
`createExplosion`). -/
def runSecondaryExplosion (t : SecondaryTimer) (w : World) : World :=
  let dist := w.random 0 20 60
  let angle := w.random 1 0 (w.platform.PI * 2)
  let secondaryX := t.x + w.platform.cos angle * dist
  let secondaryY := t.y + w.platform.sin angle * dist
  let secondarySize := w.random 2 3 6
  let secondarySpeed := w.random 3 2 4
  createExplosion secondaryX secondaryY 20 (colorAt (w.random 4 1 3)) secondarySpeed
    secondarySize 0.02 (w.advance 5)

/-- Particle built by one iteration of the loop of `createDebris` (eight draws). -/
def debrisParticle (w : World) (x y : ℚ) (color : String) (speed : ℚ) : Particle :=
  let angle := w.random 0 0 (w.platform.PI * 2)
  { position := ⟨x, y⟩
    velocity := ⟨w.platform.cos angle * w.random 1 1 speed,
                 w.platform.sin angle * w.random 2 1 speed⟩
    size := w.random 3 3 6
    color := color
    alpha := 1
    decay := w.random 4 0.01 0.03
    rotation := w.random 5 0 (w.platform.PI * 2)
    rotationSpeed := w.random 6 (-0.2) 0.2
    shape := some (if w.rand 7 > 0.5 then "triangle" else "square") }

/-- One iteration of the loop of `createDebris`. -/
def createDebrisStep (x y : ℚ) (color : String) (speed : ℚ) (w : World) : World :=
  (w.pushParticle (debrisParticle w x y color speed)).advance 8

/-- Method `ParticleSystem.createDebris(x, y, count, color, speed)`. -/
def createDebris (x y count : ℚ) (color : String) (speed : ℚ) (w : World) : World :=
  let availableSlots : ℚ := w.particles.maxParticles - w.particles.particles.length
  if availableSlots ≤ 0 then w
  else
    let adjustedCount := min count availableSlots
    (createDebrisStep x y color speed)^[loopCount adjustedCount] w

/-- Method `ParticleSystem.createScoreParticle(x, y, score, color)`; `score` is the rendering
of the number given. -/
def createScoreParticle (x y : ℚ) (score : String) (color : String) (w : World) : World :=
  if (w.particles.particles.length : ℤ) ≥ w.particles.maxParticles then w
  else
    (w.pushParticle
      { position := ⟨x, y⟩
        velocity := ⟨w.random 0 (-0.5) 0.5, w.random 1 (-2) (-1)⟩
        size := 10, color := color, alpha := 1, decay := 0.02, rotation := 0, rotationSpeed := 0
        text := some ("+" ++ score), isScore := true }).advance 2

/-- Method `ParticleSystem.createScoreText(x, y, text, color)`. -/
def createScoreText (x y : ℚ) (text : String) (color : String) (w : World) : World :=
  if (w.particles.particles.length : ℤ) ≥ w.particles.maxParticles then w
  else
    (w.pushParticle
      { position := ⟨x, y⟩
        velocity := ⟨w.random 0 (-0.5) 0.5, w.random 1 (-2) (-1)⟩
        size := 12, color := color, alpha := 1, decay := 0.02, rotation := 0, rotationSpeed := 0
        text := some ("+" ++ text), isScore := true }).advance 2

/-- Method `ParticleSystem.addTrail(x, y, color, size)`: `shift()` when full, then `push`. -/
def addTrail (x y : ℚ) (color : String) (size : ℚ) (w : World) : World :=
  let kept :=
    if (w.particles.trailParticles.length : ℤ) ≥ w.particles.maxTrailParticles then
      w.particles.trailParticles.tail
    else w.particles.trailParticles
  { w with particles := { w.particles with
      trailParticles := kept ++ [{ position := ⟨x, y⟩, size := size, color := color,
                                    alpha := 0.5, decay := 0.05 }] } }

/-- Method `ParticleSystem.reset()`. -/
def ParticleSystem.reset (w : World) : World :=
  { w with particles := { w.particles with particles := [], trailParticles := [] } }

/-! ## grid.js -/

/-- Method `Grid.addCameraShake(duration, intensity)`. -/
def Grid.addCameraShake (duration intensity : ℚ) (w : World) : World :=
  { w with grid :=
      { shakeTime := if duration = 0 then 10 else duration
        shakeIntensity := if intensity = 0 then 0.5 else intensity
        isShaking := true } }

/-! ## player.js -/

/-- Method `Player.checkCollision(enemy)`. -/
def Player.checkCollision (w : World) (enemy : Enemy) : Bool :=
  if w.player.isInvincible || w.player.godMode then false
  else if !w.player.alive || w.player.invulnerable then false
  else
    circleCollision w.platform w.player.position.x w.player.position.y (w.player.size - 4)
      enemy.position.x enemy.position.y enemy.size

/-- The test `hit` of `checkProjectileCollision` for one projectile. -/
def projectileHits (P : Platform) (enemy : Enemy) (projectile : Projectile) : Bool :=
  circleCollision P projectile.position.x projectile.position.y projectile.size
    enemy.position.x enemy.position.y enemy.size

/-- Loop of `checkProjectileCollision`, with `n` indices `n - 1, ..., 0` still to visit: the
first hit is spliced out and ends the scan. -/
def checkProjectileLoop (P : Platform) (enemy : Enemy) (projectiles : List Projectile) :
    ℕ → Bool × List Projectile
  | 0 => (false, projectiles)
  | i + 1 =>
    match projectiles[i]? with
    | none => checkProjectileLoop P enemy projectiles i
    | some projectile =>
      if projectileHits P enemy projectile then (true, projectiles.eraseIdx i)
      else checkProjectileLoop P enemy projectiles i

/-- Method `Player.checkProjectileCollision(enemy)`: the result and the world after it. -/
def Player.checkProjectileCollision (enemy : Enemy) (w : World) : Bool × World :=
  let r := checkProjectileLoop w.platform enemy w.player.projectiles w.player.projectiles.length
  (r.1, { w with player := { w.player with projectiles := r.2 } })

/-- Method `Player.die(grid)`; the backdrop passed by the enemy manager is `World.grid`, whose
class defines `addCameraShake`. -/
def Player.die (w : World) : World :=
  if w.player.isInvincible || w.player.godMode then w
  else
    let w1 : World := { w with player := { w.player with alive := false } }
    let w2 := createMassiveExplosion w1.player.position.x w1.player.position.y w1
    let w3 := createDebris w2.player.position.x w2.player.position.y 30 w2.player.color 8 w2
    Grid.addCameraShake 15 0.8 w3

/-- Method `Vector.copy()`: a new vector with the coordinates of this one (it takes no
argument). -/
def Vector.copy (u : Vector) : Vector :=
  ⟨u.x, u.y⟩

/-- Constructor of `Player`: the field values it assigns on the given canvas, at the given
scale; `isMobile` is what `detectMobile()` answers. -/
def Player.new (canvas : Canvas) (gameScale : ℚ) (isMobile : Bool) : Player :=
  { gameScale := gameScale
    position := ⟨canvas.width / 2, canvas.height / 2⟩
    velocity := ⟨0, 0⟩
    acceleration := ⟨0, 0⟩
    rotation := 0
    size := 12 * gameScale
    color := "#0ff"
    maxSpeed := 5 * gameScale
    friction := 0.92
    alive := true
    invulnerable := false
    invulnerableTimer := 0
    blinkTimer := 0
    visible := true
    godMode := false
    isInvincible := false
    shieldRadius := 12 * gameScale * 2.5
    shieldOpacity := 0.25
    shootCooldown := 0
    shootDelay := 8
    projectiles := []
    keys := ⟨false, false, false, false⟩
    mouse := ⟨0, 0, false⟩
    isMobile := isMobile
    hasGyroscope := false
    gyroEnabled := false
    gyroOrientation := ⟨0, 0, 0⟩ }

/-- Method `Player.reset()`. -/
def Player.reset (w : World) : World :=
  { w with player :=
      { w.player with
          position := ⟨w.canvas.width / 2, w.canvas.height / 2⟩
          velocity := ⟨0, 0⟩
          acceleration := ⟨0, 0⟩
          alive := true
          projectiles := []
          invulnerable := true
          invulnerableTimer := 120
          godMode := false
          isInvincible := false
          shieldRadius := w.player.size * 2.5 } }

/-- One axis of `wrapScreen()`: below `-size` go to `extent + size`, above `extent + size` go
to `-size`. -/
def wrapCoordinate (size extent c : ℚ) : ℚ :=
  if c < -size then extent + size
  else if c > extent + size then -size
  else c

/-- Method `Player.wrapScreen()`, on the player record. -/
def wrapPlayer (canvas : Canvas) (p : Player) : Player :=
  { p with position := ⟨wrapCoordinate p.size canvas.width p.position.x,
                         wrapCoordinate p.size canvas.height p.position.y⟩ }

/-- Method `Player.wrapScreen()`. -/
def Player.wrapScreen (w : World) : World :=
  { w with player := wrapPlayer w.canvas w.player }

/-- Method `Player.updateGyroAim()`, on the player record. -/
def gyroAim (canvas : Canvas) (p : Player) : Player :=
  if !p.gyroEnabled || !p.hasGyroscope then p
  else
    let centerX := canvas.width / 2
    let centerY := canvas.height / 2
    let sensitivity : ℚ := 10
    let aimX := centerX + p.gyroOrientation.gamma * sensitivity
    let aimY := centerY + (p.gyroOrientation.beta - 45) * sensitivity
    { p with mouse := ⟨max 0 (min canvas.width aimX), max 0 (min canvas.height aimY),
                        p.mouse.shooting⟩ }

/-- First block of `Player.update()`: acceleration from the keys, friction, speed limit, the
move and the screen wrap. -/
def playerMove (P : Platform) (canvas : Canvas) (p : Player) : Player :=
  let ay : ℚ := (if p.keys.up then -0.5 else 0) + (if p.keys.down then 0.5 else 0)
  let ax : ℚ := (if p.keys.left then -0.5 else 0) + (if p.keys.right then 0.5 else 0)
  let acceleration : Vector := ⟨ax, ay⟩
  let velocity := (((p.velocity.add acceleration).multiply p.friction).limit P p.maxSpeed)
  wrapPlayer canvas
    { p with acceleration := acceleration, velocity := velocity,
             position := p.position.add velocity }

/-- Method `Player.shoot()`, on the player record: the projectile, the recoil, and the ghost
count of shots (the sound is left out). -/
def shootPlayer (P : Platform) (p : Player) : Player :=
  let speed := 12 * p.gameScale
  let direction := p.rotation
  let projectile : Projectile :=
    { position := ⟨p.position.x, p.position.y⟩
      velocity := ⟨P.cos direction * speed, P.sin direction * speed⟩
      size := 3 * p.gameScale
      color := p.color }
  { p with
      projectiles := p.projectiles ++ [projectile]
      velocity := p.velocity.add ⟨P.cos (direction + P.PI) * 0.2, P.sin (direction + P.PI) * 0.2⟩
      shotsFired := p.shotsFired + 1 }

/-- Method `Player.shoot()`. -/
def Player.shoot (w : World) : World :=
  { w with player := shootPlayer w.platform w.player }

/-- Block `// Shooting` of `Player.update()`: a shot when the firing flag is held and the
cooldown has run out, then the cooldown counts down. -/
def playerShooting (P : Platform) (p : Player) : Player :=
  let p1 : Player :=
    if p.mouse.shooting = true ∧ p.shootCooldown ≤ 0 then
      { shootPlayer P p with shootCooldown := p.shootDelay }
    else p
  if p1.shootCooldown > 0 then { p1 with shootCooldown := p1.shootCooldown - 1 } else p1

/-- The off-screen test of the projectile loop of `Player.update()`. -/
def shotOffScreen (canvas : Canvas) (projectile : Projectile) : Bool :=
  decide (projectile.position.x < -20 ∨ projectile.position.x > canvas.width + 20 ∨
    projectile.position.y < -20 ∨ projectile.position.y > canvas.height + 20)

/-- Body of the projectile loop of `Player.update()` for index `i`: the move, the trail (one
draw) and the cull. -/
def shotStep (i : ℕ) (w : World) : World :=
  match w.player.projectiles[i]? with
  | none => w
  | some stored =>
    let projectile : Projectile :=
      { stored with position := stored.position.add stored.velocity }
    let w1 : World :=
      { w with player := { w.player with projectiles := w.player.projectiles.set i projectile } }
    let w2 :=
      if w1.rand 0 < 0.3 then
        addTrail projectile.position.x projectile.position.y projectile.color 1 (w1.advance 1)
      else w1.advance 1
    if shotOffScreen w2.canvas projectile then
      { w2 with player := { w2.player with projectiles := w2.player.projectiles.eraseIdx i } }
    else w2

/-- The projectile loop of `Player.update()` with `n` indices `n - 1, ..., 0` still to
visit. -/
def shotLoop : ℕ → World → World
  | 0, w => w
  | i + 1, w => shotLoop i (shotStep i w)

/-- Block `// Add trail particles behind player if moving` of `Player.update()`. The offset is
computed as written: `new Vector().copy(this.velocity)` copies the new zero vector. -/
def playerTrail (w : World) : World :=
  if (w.player.velocity.getMagnitude w.platform) > 0.2 then
    if w.rand 0 < 0.3 then
      let speed := w.player.velocity.getMagnitude w.platform
      let offset := (((Vector.mk 0 0).copy.normalize w.platform).multiply (-w.player.size / 2))
      addTrail (w.player.position.x + offset.x) (w.player.position.y + offset.y)
        w.player.color (2 + speed / 2) (w.advance 1)
    else w.advance 1
  else w

/-- Block `// Handle invulnerability timer` of `Player.update()`, on the player record. -/
def invulnerabilityTick (p : Player) : Player :=
  if p.invulnerable then
    let p1 : Player := { p with invulnerableTimer := p.invulnerableTimer - 1 }
    let p2 : Player := if p1.invulnerableTimer ≤ 0 then { p1 with invulnerable := false } else p1
    let p3 : Player := { p2 with blinkTimer := p2.blinkTimer + 1 }
    if p3.blinkTimer ≥ 5 then { p3 with visible := !p3.visible, blinkTimer := 0 } else p3
  else { p with visible := true }

/-- Blocks of `Player.update()` that act on the player alone, in order: move and wrap, gyro
aim on a mobile device, shooting. -/
def playerControl (P : Platform) (canvas : Canvas) (p : Player) : Player :=
  let p1 := playerMove P canvas p
  let p2 := if p1.isMobile && p1.gyroEnabled then gyroAim canvas p1 else p1
  playerShooting P p2

/-- Method `Player.update(grid)`. -/
def Player.update (w : World) : World :=
  if !w.player.alive then w
  else
    let w1 : World := { w with player := playerControl w.platform w.canvas w.player }
    let w2 := shotLoop w1.player.projectiles.length w1
    let w3 := playerTrail w2
    { w3 with player := invulnerabilityTick w3.player }

/-! ## enemies.js: projectiles and enemy behaviours -/

/-- Result of the `k`-th next call of `Date.now()`. -/
def World.now (w : World) (k : ℕ) : ℤ :=
  w.platform.nowSeq (w.nowCalls + k)

/-- Record that `n` calls of `Date.now()` were made. -/
def World.advanceNow (w : World) (n : ℕ) : World :=
  { w with nowCalls := w.nowCalls + n }

/-- Create an enemy object; its reference is the former length of the heap. -/
def World.alloc (enemy : Enemy) (w : World) : World :=
  { w with heap := w.heap ++ [enemy] }

/-- Write the fields of the enemy object referenced by `id`. -/
def World.setEnemy (id : ℕ) (enemy : Enemy) (w : World) : World :=
  { w with heap := w.heap.set id enemy }

/-- Statement `this.enemies.push(enemy)` for the object referenced by `id`. -/
def World.pushEnemy (id : ℕ) (w : World) : World :=
  { w with enemyManager := { w.enemyManager with enemies := w.enemyManager.enemies ++ [id] } }

/-- Statement `this.enemies.splice(index, 1)`. -/
def World.spliceEnemy (index : ℕ) (w : World) : World :=
  { w with enemyManager :=
      { w.enemyManager with enemies := w.enemyManager.enemies.eraseIdx index } }

/-- Statement `this.enemyProjectiles.push(projectile)`. -/
def World.pushEnemyProjectile (projectile : Projectile) (w : World) : World :=
  { w with enemyManager :=
      { w.enemyManager with
          enemyProjectiles := w.enemyManager.enemyProjectiles ++ [projectile] } }

/-- Write the fields of the enemy projectile at index `i`. -/
def World.setEnemyProjectile (i : ℕ) (projectile : Projectile) (w : World) : World :=
  { w with enemyManager :=
      { w.enemyManager with
          enemyProjectiles := w.enemyManager.enemyProjectiles.set i projectile } }

/-- Statement `this.enemyProjectiles.splice(i, 1)`. -/
def World.spliceEnemyProjectile (i : ℕ) (w : World) : World :=
  { w with enemyManager :=
      { w.enemyManager with
          enemyProjectiles := w.enemyManager.enemyProjectiles.eraseIdx i } }

/-- JavaScript truthiness of an optional number: present and not `0`. -/
def truthy (v : Option ℤ) : Bool :=
  match v with
  | some n => n != 0
  | none => false

/-- Method `EnemyManager.fireProjectile(enemy, speed, size)` (one draw). -/
def fireProjectile (enemy : Enemy) (speed size : ℚ) (w : World) : World :=
  let direction := w.platform.atan2 (w.player.position.y - enemy.position.y)
    (w.player.position.x - enemy.position.x)
  let accuracy : ℚ := if enemy.type = EnemyType.spinner then 0.1 else 0.3
  let randomDirection := direction + (w.rand 0 - 0.5) * accuracy
  (w.pushEnemyProjectile
    { position := ⟨enemy.position.x, enemy.position.y⟩
      velocity := ⟨w.platform.cos randomDirection * speed,
                   w.platform.sin randomDirection * speed⟩
      size := if size = 0 then 3 else size
      color := "#f00" }).advance 1

/-- Method `EnemyManager.fireProjectileAngle(enemy, angle, speed, size, color)`. -/
def fireProjectileAngle (enemy : Enemy) (angle speed size : ℚ) (color : String) (w : World) :
    World :=
  w.pushEnemyProjectile
    { position := ⟨enemy.position.x, enemy.position.y⟩
      velocity := ⟨w.platform.cos angle * speed, w.platform.sin angle * speed⟩
      size := if size = 0 then 4 else size
      color := if color = "" then "#f00" else color }

/-- Method `EnemyManager.fireCircleAttack(enemy, count, speed)`. -/
def fireCircleAttack (enemy : Enemy) (count speed : ℚ) (w : World) : World :=
  (List.range (loopCount count)).foldl
    (fun (acc : World) (i : ℕ) =>
      fireProjectileAngle enemy ((i : ℚ) / count * acc.platform.PI * 2) speed 5 "#ff0" acc) w

/-- First block of the seeker closure: while the player lives, head for it with a small random
deviation (one draw). -/
def seekerAim (enemy : Enemy) (w : World) : Enemy × World :=
  if w.player.alive then
    let dx := w.player.position.x - enemy.position.x
    let dy := w.player.position.y - enemy.position.y
    let angle := w.platform.atan2 dy dx
    let randomAngle := angle + (w.rand 0 - 0.5) * 0.2
    ({ enemy with
        velocity := ⟨w.platform.cos randomAngle * enemy.speed,
                     w.platform.sin randomAngle * enemy.speed⟩
        rotation := angle }, w.advance 1)
  else (enemy, w)

/-- Last block of the seeker closure: `this.player.alive && Math.random() < 0.005` guards a
shot. -/
def seekerFire (enemy : Enemy) (w : World) : Enemy × World :=
  if w.player.alive then
    if w.rand 0 < 0.005 then
      (enemy, fireProjectile enemy (6 * w.enemyManager.gameScale)
        (3 * w.enemyManager.gameScale) (w.advance 1))
    else (enemy, w.advance 1)
  else (enemy, w)

/-- The closure `update` of an enemy made by `createSeeker`. -/
def seekerUpdate (enemy : Enemy) (w : World) : Enemy × World :=
  let aimed := seekerAim enemy w
  let moved : Enemy := { aimed.1 with position := aimed.1.position.add aimed.1.velocity }
  seekerFire moved aimed.2

/-- First block of the wanderer closure: the direction timer and the occasional new heading
(three draws). -/
def wandererTurn (enemy : Enemy) (w : World) : Enemy × World :=
  let timer := enemy.directionTimer + 1
  if timer ≥ enemy.directionChangeInterval then
    ({ enemy with
        velocity := ⟨w.random 0 (-1) 1, w.random 1 (-1) 1⟩
        directionTimer := 0
        directionChangeInterval := w.randomInt 2 60 120 }, w.advance 3)
  else ({ enemy with directionTimer := timer }, w)

/-- Middle of the wanderer closure: scale the velocity to `speed`, advance the position, bounce
off the canvas edges, face the movement, count the shoot timer. -/
def wandererMove (e1 : Enemy) (w : World) : Enemy :=
  let magnitude := w.platform.sqrt (e1.velocity.x * e1.velocity.x + e1.velocity.y * e1.velocity.y)
  let e2 : Enemy :=
    if magnitude > 0 then
      { e1 with velocity := ⟨e1.velocity.x / magnitude * e1.speed,
                             e1.velocity.y / magnitude * e1.speed⟩ }
    else e1
  let e3 : Enemy := { e2 with position := e2.position.add e2.velocity }
  let e4 : Enemy :=
    if e3.position.x < 0 ∨ e3.position.x > w.canvas.width then
      { e3 with velocity := ⟨e3.velocity.x * -1, e3.velocity.y⟩ }
    else e3
  let e5 : Enemy :=
    if e4.position.y < 0 ∨ e4.position.y > w.canvas.height then
      { e4 with velocity := ⟨e4.velocity.x, e4.velocity.y * -1⟩ }
    else e4
  let e6 : Enemy :=
    if magnitude > 0 then
      { e5 with rotation := w.platform.atan2 e5.velocity.y e5.velocity.x }
    else e5
  { e6 with shootTimer := e6.shootTimer + 1 }

/-- Last block of the wanderer closure:
`shootTimer >= shootDelay && Math.random() < 0.7 && this.player.alive` guards a shot. -/
def wandererShoot (e7 : Enemy) (w1 : World) : Enemy × World :=
  if e7.shootTimer ≥ e7.shootDelay then
    if w1.rand 0 < 0.7 ∧ w1.player.alive = true then
      let w2 := fireProjectile e7 3 5 (w1.advance 1)
      ({ e7 with shootTimer := 0, shootDelay := w2.randomInt 0 180 300 }, w2.advance 1)
    else (e7, w1.advance 1)
  else (e7, w1)

/-- The closure `update` of an enemy made by `createWanderer`. -/
def wandererUpdate (enemy : Enemy) (w : World) : Enemy × World :=
  let turned := wandererTurn enemy w
  wandererShoot (wandererMove turned.1 turned.2) turned.2

/-- First block of the spinner closure: orbit angle, steering toward the orbit point, position
and spin. -/
def spinnerMove (enemy : Enemy) (w : World) : Enemy :=
  let e1 : Enemy := { enemy with orbitAngle := enemy.orbitAngle + enemy.orbitSpeed }
  let targetX := e1.targetPosition.x + w.platform.cos e1.orbitAngle * e1.orbitRadius
  let targetY := e1.targetPosition.y + w.platform.sin e1.orbitAngle * e1.orbitRadius
  let dx := targetX - e1.position.x
  let dy := targetY - e1.position.y
  let e2 : Enemy := { e1 with velocity := ⟨dx * 0.05, dy * 0.05⟩ }
  let e3 : Enemy := { e2 with position := e2.position.add e2.velocity }
  { e3 with rotation := e3.rotation + e3.rotationSpeed }

/-- Second block of the spinner closure: the occasional move of the orbit centre (one draw,
two more when it moves), then the shoot timer counts. -/
def spinnerRetarget (e4 : Enemy) (w : World) : Enemy × World :=
  if w.rand 0 < 0.005 then
    ({ e4 with
        targetPosition := ⟨w.random 1 100 (w.canvas.width - 100),
                           w.random 2 100 (w.canvas.height - 100)⟩
        shootTimer := e4.shootTimer + 1 }, w.advance 3)
  else ({ e4 with shootTimer := e4.shootTimer + 1 }, w.advance 1)

/-- Last block of the spinner closure: the burst fire. -/
def spinnerShoot (e5 : Enemy) (w1 : World) : Enemy × World :=
  if e5.burstCount > 0 ∧ e5.shootTimer ≥ e5.burstDelay then
    ({ e5 with burstCount := e5.burstCount - 1, shootTimer := 0 }, fireProjectile e5 7 3 w1)
  else if e5.burstCount = 0 ∧ e5.shootTimer ≥ e5.shootDelay ∧ w1.player.alive = true then
    let w2 := fireProjectile e5 7 3 w1
    ({ e5 with
        burstCount := e5.burstSize - 1
        shootTimer := 0
        shootDelay := w2.randomInt 0 60 120 }, w2.advance 1)
  else (e5, w1)

/-- The closure `update` of an enemy made by `createSpinner`. -/
def spinnerUpdate (enemy : Enemy) (w : World) : Enemy × World :=
  let moved := spinnerRetarget (spinnerMove enemy w) w
  spinnerShoot moved.1 moved.2

/-- The battle-phase branch of the boss closure: phase timer, attack pattern and the screen
boundary check. -/
def bossBattlePhase (boss : Enemy) (w : World) : Enemy :=
  let a : Enemy :=
    { boss with velocity := ⟨boss.velocity.x, 0⟩, phaseTimer := boss.phaseTimer + 1 }
  let b : Enemy :=
    if a.phaseTimer > 180 then
      { a with attackPhase := Int.tmod (a.attackPhase + 1) 4, phaseTimer := 0 }
    else a
  let c : Enemy :=
    if b.attackPhase = 0 then { b with velocity := ⟨b.speed, b.velocity.y⟩ }
    else if b.attackPhase = 1 then { b with velocity := ⟨-b.speed, b.velocity.y⟩ }
    else if b.attackPhase = 2 then
      { b with velocity :=
          ⟨w.platform.cos (b.phaseTimer * b.phaseTimerCoefficient) * b.speed * 1.5,
           w.platform.sin (b.phaseTimer * b.phaseTimerCoefficient) * b.speed⟩ }
    else if b.attackPhase = 3 then { b with velocity := ⟨0, 0⟩ }
    else b
  let d : Enemy :=
    if c.position.x < c.size then
      { c with position := ⟨c.size, c.position.y⟩, velocity := ⟨|c.velocity.x|, c.velocity.y⟩ }
    else if c.position.x > w.canvas.width - c.size then
      { c with position := ⟨w.canvas.width - c.size, c.position.y⟩
               velocity := ⟨-|c.velocity.x|, c.velocity.y⟩ }
    else c
  if d.position.y < d.size then
    { d with position := ⟨d.position.x, d.size⟩, velocity := ⟨d.velocity.x, |d.velocity.y|⟩ }
  else if d.position.y > w.canvas.height / 2 then
    { d with position := ⟨d.position.x, w.canvas.height / 2⟩
             velocity := ⟨d.velocity.x, -|d.velocity.y|⟩ }
  else d

/-- Movement part of the boss closure: entering or battle phase, then position, rotation and
the shot timer. -/
def bossMove (boss : Enemy) (w : World) : Enemy :=
  let targetY := w.canvas.height / 4
  let b1 : Enemy :=
    if boss.position.y < targetY then { boss with velocity := ⟨boss.velocity.x, boss.speed⟩ }
    else bossBattlePhase boss w
  { b1 with
      position := b1.position.add b1.velocity
      rotation := b1.rotation + 0.003
      shotTimer := b1.shotTimer + 1 }

/-- Attack part of the boss closure. The health fraction reads an absent `health` as `0`
(every boss has one). -/
def bossAttack (b2 : Enemy) (w : World) : Enemy × World :=
  let healthPercent : ℚ := ((b2.health.getD 0 : ℤ) : ℚ) / b2.maxHealth
  let aim := w.platform.atan2 (w.player.position.y - b2.position.y)
    (w.player.position.x - b2.position.x)
  if b2.shotTimer ≥ b2.shotDelay then
    if healthPercent < 0.3 ∧ b2.attackPhase = 3 then
      ({ b2 with shotTimer := 0, shotDelay := 180 }, fireCircleAttack b2 8 5 w)
    else if healthPercent < 0.6 ∧ b2.attackPhase = 3 then
      ({ b2 with shotTimer := 0, shotDelay := 60 },
        fireProjectileAngle b2 (aim + 1 * 0.2) 6 5 "#f00"
          (fireProjectileAngle b2 (aim + 0 * 0.2) 6 5 "#f00"
            (fireProjectileAngle b2 (aim + (-1) * 0.2) 6 5 "#f00" w)))
    else
      ({ b2 with shotTimer := 0, shotDelay := max 20 (Int.floor (60 * healthPercent)) },
        fireProjectileAngle b2 aim 6 5 "#f00" w)
  else (b2, w)

/-- The closure `update` of the enemy made by `createBoss`. -/
def bossUpdate (boss : Enemy) (w : World) : Enemy × World :=
  bossAttack (bossMove boss w) w

/-- Call `enemy.update()`: each factory installs its own closure, selected here by the `type`
tag the same factory sets. -/
def enemyBehaviour (enemy : Enemy) (w : World) : Enemy × World :=
  match enemy.type with
  | EnemyType.seeker => seekerUpdate enemy w
  | EnemyType.wanderer => wandererUpdate enemy w
  | EnemyType.spinner => spinnerUpdate enemy w
  | EnemyType.boss => bossUpdate enemy w

/-! ## enemies.js: factories and spawning -/

/-- Constructor of `EnemyManager`: the field values it assigns. -/
def EnemyManager.new (gameScale : ℚ) : EnemyManager :=
  { gameScale := gameScale
    enemies := []
    enemyProjectiles := []
    spawnTimer := 0
    spawnRate := 120
    difficultyTimer := 0
    difficultyInterval := 1000
    maxEnemies := 20
    score := 0
    scoreMultiplier := 1
    combo := 0
    comboTimer := 0
    multiplierTimer := 0
    bossActive := false
    bossTimer := 1800
    bossSpawnThreshold := 1800 }

/-- Method `EnemyManager.createSeeker(position, color)`: builds the object, pushes it on
`this.enemies` itself and returns it (its reference is the former heap length). -/
def createSeeker (position : Vector) (color : String) (w : World) : ℕ × World :=
  let enemy : Enemy :=
    { position := ⟨position.x, position.y⟩
      velocity := ⟨0, 0⟩
      size := 10 * w.enemyManager.gameScale
      color := if color = "" then "#ff5c5c" else color
      type := EnemyType.seeker
      speed := 2 * w.enemyManager.gameScale
      rotationSpeed := 0.05
      rotation := 0 }
  (w.heap.length, (w.alloc enemy).pushEnemy w.heap.length)

/-- Method `EnemyManager.createWanderer(position, color)` (five draws). -/
def createWanderer (position : Vector) (color : String) (w : World) : ℕ × World :=
  let enemy : Enemy :=
    { type := EnemyType.wanderer
      position := position
      velocity := ⟨w.random 0 (-1) 1, w.random 1 (-1) 1⟩
      size := 15
      color := color
      speed := w.random 2 0.5 1.5
      directionTimer := 0
      directionChangeInterval := w.randomInt 3 60 120
      shootTimer := 0
      shootDelay := w.randomInt 4 180 300
      value := some 50 }
  (w.heap.length, (w.alloc enemy).advance 5)

/-- Method `EnemyManager.createSpinner(position, color)` (nine draws). -/
def createSpinner (position : Vector) (color : String) (w : World) : ℕ × World :=
  let enemy : Enemy :=
    { type := EnemyType.spinner
      position := position
      velocity := ⟨0, 0⟩
      size := 12
      color := color
      speed := w.random 0 2 3
      rotation := 0
      rotationSpeed := w.random 1 0.02 0.05 * (if w.rand 2 > 0.5 then 1 else -1)
      orbitRadius := w.random 3 100 200
      orbitAngle := w.random 4 0 (w.platform.PI * 2)
      orbitSpeed := w.random 5 0.01 0.02
      targetPosition := ⟨w.random 6 100 (w.canvas.width - 100),
                         w.random 7 100 (w.canvas.height - 100)⟩
      shootTimer := 0
      shootDelay := w.randomInt 8 60 120
      burstCount := 0
      burstSize := 3
      burstDelay := 10
      value := some 150 }
  (w.heap.length, (w.alloc enemy).advance 9)

/-- Method `EnemyManager.createBoss(position)`. -/
def createBoss (position : Vector) (w : World) : ℕ × World :=
  let boss : Enemy :=
    { type := EnemyType.boss
      isBoss := true
      position := position
      velocity := ⟨0, 0⟩
      size := 45
      color := "#a0b4c8"
      health := some 20
      maxHealth := 20
      speed := 1.5
      rotation := 0
      value := some 1000
      attackPhase := 0
      phaseTimer := 0
      shotTimer := 0
      shotDelay := 20
      burstCount := 0
      burstSize := 5
      lastHitTime := 0
      lastScoreTime := 0
      targetPosition := ⟨w.canvas.width / 2, w.canvas.height / 4⟩
      phaseTimerCoefficient := 0.05 }
  (w.heap.length, w.alloc boss)

/-- Method `EnemyManager.spawnBoss()`. -/
def spawnBoss (w : World) : World :=
  if w.enemyManager.bossActive then w
  else
    let w1 : World := { w with enemyManager := { w.enemyManager with bossActive := true } }
    let r := createBoss ⟨w1.canvas.width / 2, -100⟩ w1
    r.2.pushEnemy r.1

/-- The array `colors` of `randomColor`. -/
def randomColors : List String :=
  ["#ff0", "#0ff", "#f0f", "#0f0", "#f00", "#00f"]

/-- Method `EnemyManager.spawn()`: four draws (type, side, coordinate, colour), then the
factory, then `this.enemies.push(enemy)`. The side drawn is one of `0..3` because
`Math.random()` is below `1`; the last branch stands for `case 3`. An index outside `types`
selects the `default` branch of the second `switch`. -/
def spawn (w : World) : World :=
  let typeIndex := w.randomInt 0 0 2
  let side := w.randomInt 1 0 3
  let position : Vector :=
    if side = 0 then ⟨w.random 2 0 w.canvas.width, -50⟩
    else if side = 1 then ⟨w.canvas.width + 50, w.random 2 0 w.canvas.height⟩
    else if side = 2 then ⟨w.random 2 0 w.canvas.width, w.canvas.height + 50⟩
    else ⟨-50, w.random 2 0 w.canvas.height⟩
  let colorIndex := w.randomInt 3 0 5
  let color := if colorIndex < 0 then "" else randomColors.getD colorIndex.toNat ""
  let w1 := w.advance 4
  let r : ℕ × World :=
    if typeIndex = 1 then createWanderer position color w1
    else if typeIndex = 2 then createSpinner position color w1
    else createSeeker position color w1
  r.2.pushEnemy r.1

/-- Method `EnemyManager.increaseDifficulty()`. -/
def increaseDifficulty (w : World) : World :=
  let m := w.enemyManager
  let m1 : EnemyManager := if m.spawnRate > 30 then { m with spawnRate := m.spawnRate - 1 } else m
  let m2 : EnemyManager :=
    if m1.maxEnemies < 50 then { m1 with maxEnemies := m1.maxEnemies + 1 } else m1
  { w with enemyManager := m2 }

/-! ## enemies.js: scoring -/

/-- Method `EnemyManager.updateScore(enemy)`; `enemy.value || 100` takes `100` for an absent
or zero value. The last field written, `killLog`, is the ghost record of the kill. -/
def updateScore (enemy : Enemy) (w : World) : World :=
  let base : ℤ := if truthy enemy.value then enemy.value.getD 100 else 100
  let points := base * w.enemyManager.scoreMultiplier
  let w1 : World :=
    { w with enemyManager := { w.enemyManager with score := w.enemyManager.score + points } }
  let w2 := createScoreText enemy.position.x (enemy.position.y - 20) (toString points)
    enemy.color w1
  let combo := w2.enemyManager.combo + 1
  let m1 : EnemyManager :=
    { w2.enemyManager with
        combo := combo
        comboTimer := 120
        killLog := w2.enemyManager.killLog ++ [combo] }
  let m2 : EnemyManager :=
    if combo ≥ 10 then { m1 with scoreMultiplier := 4, multiplierTimer := 300 }
    else if combo ≥ 5 then { m1 with scoreMultiplier := 2, multiplierTimer := 300 }
    else m1
  { w2 with enemyManager := m2 }

/-- Method `EnemyManager.destroyEnemy(enemy, index)`. -/
def destroyEnemy (enemy : Enemy) (index : ℕ) (w : World) : World :=
  let w1 : World :=
    if enemy.isBoss then
      let explosionSize : ℚ := min 15 (Int.floor ((w.particles.maxParticles : ℚ) / 20))
      let a := createExplosion enemy.position.x enemy.position.y explosionSize enemy.color
        3 3 0.03 w
      let b := createDebris enemy.position.x enemy.position.y 2 enemy.color 3 a
      { b with enemyManager := { b.enemyManager with bossActive := false } }
    else
      createDebris enemy.position.x enemy.position.y 5 enemy.color 3
        (createExplosion enemy.position.x enemy.position.y 30 enemy.color 3 3 0.03 w)
  (updateScore enemy w1).spliceEnemy index

/-- Statement `this.score += points`. -/
def World.addScore (points : ℤ) (w : World) : World :=
  { w with enemyManager := { w.enemyManager with score := w.enemyManager.score + points } }

/-! ## enemies.js: the update loop -/

/-- First block of `update()`: the boss countdown. -/
def bossTimerPhase (w : World) : World :=
  if !w.enemyManager.bossActive then
    let w1 : World :=
      { w with enemyManager := { w.enemyManager with bossTimer := w.enemyManager.bossTimer - 1 } }
    if w1.enemyManager.bossTimer ≤ 0 then
      let w2 := spawnBoss w1
      { w2 with enemyManager :=
          { w2.enemyManager with bossTimer := w2.enemyManager.bossSpawnThreshold } }
    else w1
  else w

/-- Second block of `update()`: the spawn countdown. -/
def spawnPhase (w : World) : World :=
  let w1 : World :=
    { w with enemyManager := { w.enemyManager with spawnTimer := w.enemyManager.spawnTimer + 1 } }
  if w1.enemyManager.spawnTimer ≥ w1.enemyManager.spawnRate ∧
      (w1.enemyManager.enemies.length : ℤ) < w1.enemyManager.maxEnemies then
    let w2 := spawn w1
    { w2 with enemyManager := { w2.enemyManager with spawnTimer := 0 } }
  else w1

/-- Third block of `update()`: the difficulty ramp. -/
def difficultyPhase (w : World) : World :=
  let w1 : World :=
    { w with enemyManager :=
        { w.enemyManager with difficultyTimer := w.enemyManager.difficultyTimer + 1 } }
  if w1.enemyManager.difficultyTimer ≥ w1.enemyManager.difficultyInterval then
    let w2 := increaseDifficulty w1
    { w2 with enemyManager := { w2.enemyManager with difficultyTimer := 0 } }
  else w1

/-- Trail emission of the enemy loop: `enemy.type !== "wanderer" && Math.random() < 0.2`. -/
def enemyTrail (enemy : Enemy) (w : World) : World :=
  if enemy.type ≠ EnemyType.wanderer then
    if w.rand 0 < 0.2 then
      addTrail enemy.position.x enemy.position.y enemy.color (1 + enemy.size / 10) (w.advance 1)
    else w.advance 1
  else w

/-- Shield bounce of the enemy loop (player in god mode and invincible). Division is that of
the rationals, so a zero distance gives a zero normal. -/
def shieldBounce (enemy : Enemy) (w : World) : Enemy × World :=
  if w.player.godMode && w.player.isInvincible then
    let dx := enemy.position.x - w.player.position.x
    let dy := enemy.position.y - w.player.position.y
    let dist := w.platform.sqrt (dx * dx + dy * dy)
    if dist < w.player.shieldRadius + enemy.size then
      let nx := dx / dist
      let ny := dy / dist
      let pushDistance := w.player.shieldRadius + enemy.size - dist
      let e1 : Enemy :=
        { enemy with position := ⟨enemy.position.x + nx * pushDistance * 1.1,
                                  enemy.position.y + ny * pushDistance * 1.1⟩ }
      let dot := e1.velocity.x * nx + e1.velocity.y * ny
      let e2 : Enemy :=
        { e1 with velocity := ⟨(e1.velocity.x - 2 * dot * nx) * 1.2,
                               (e1.velocity.y - 2 * dot * ny) * 1.2⟩ }
      if w.rand 0 < 0.5 then
        (e2, createExplosion e2.position.x e2.position.y 5 "#ffd700" 2 2 0.03 (w.advance 1))
      else (e2, w.advance 1)
    else (enemy, w)
  else (enemy, w)

/-- Hit particles of the branch `if (enemy.health)`: an explosion when the pool has room for
more than twice `particleCount` and more than 100 ms passed since the last one. -/
def hitParticles (e1 : Enemy) (now : ℤ) (w1 : World) : Enemy × World :=
  let particleCount : ℚ := if e1.isBoss then 4 else 15
  let timeSinceLastHit : ℤ := if e1.lastHitTime ≠ 0 then now - e1.lastHitTime else 1000
  let availableParticles : ℚ := w1.particles.maxParticles - w1.particles.particles.length
  if availableParticles > particleCount * 2 ∧ timeSinceLastHit > 100 then
    ({ e1 with lastHitTime := now },
      createExplosion e1.position.x e1.position.y particleCount "#ffffff" 2 2 0.05 w1)
  else (e1, w1)

/-- Score label of the branch `if (enemy.health)`, at most one every 250 ms. -/
def hitScoreText (e : Enemy) (now hitPoints : ℤ) (w2 : World) : Enemy × World :=
  if e.lastScoreTime = 0 ∨ now - e.lastScoreTime > 250 then
    ({ e with lastScoreTime := now },
      createScoreText e.position.x (e.position.y - e.size) (toString hitPoints) "#ffffff" w2)
  else (e, w2)

/-- Branch `if (enemy.health)` of the enemy loop: a player projectile has hit the multi-hit
enemy referenced by `id`, stored at `index` of the active list. -/
def hitEnemy (enemy : Enemy) (index id : ℕ) (w : World) : World :=
  let e1 : Enemy := { enemy with health := enemy.health.map (fun h => h - 1) }
  let now := w.now 0
  let r := hitParticles e1 now (w.advanceNow 1)
  let hitPoints : ℤ := 50
  let r2 := hitScoreText r.1 now hitPoints (r.2.addScore hitPoints)
  let w3 := r2.2.setEnemy id r2.1
  if (r2.1.health.getD 0) ≤ 0 then destroyEnemy r2.1 index w3 else w3

/-- The off-screen test of the enemy loop. -/
def enemyOffScreen (enemy : Enemy) (w : World) : Bool :=
  decide (enemy.position.x < -100 ∨ enemy.position.x > w.canvas.width + 100 ∨
    enemy.position.y < -100 ∨ enemy.position.y > w.canvas.height + 100)

/-- End of the body of the enemy loop: what happens to the enemy referenced by `id`, stored at
index `i`, once `checkProjectileCollision` has answered `hit`: a hit is either counted on a
multi-hit enemy or destroys the enemy, and ends the iteration (`continue`); without a hit the
enemy is culled when far off screen. -/
def enemyResolve (enemy : Enemy) (i id : ℕ) (hit : Bool) (w : World) : World :=
  if hit then
    if truthy enemy.health then hitEnemy enemy i id w
    else destroyEnemy enemy i w
  else if enemyOffScreen enemy w then
    let w6 := w.spliceEnemy i
    if enemy.isBoss then
      { w6 with enemyManager := { w6.enemyManager with bossActive := false } }
    else w6
  else w

/-- Body of the enemy loop of `update()` for index `i`. -/
def enemyStep (i : ℕ) (w : World) : World :=
  match w.enemyManager.enemies[i]? with
  | none => w
  | some id =>
    match w.heap[id]? with
    | none => w
    | some stored =>
      let r1 := enemyBehaviour stored w
      let w2 := enemyTrail r1.1 r1.2
      let r3 := shieldBounce r1.1 w2
      let enemy := r3.1
      let w3 := r3.2.setEnemy id enemy
      let w4 := if Player.checkCollision w3 enemy then Player.die w3 else w3
      let r5 := Player.checkProjectileCollision enemy w4
      enemyResolve enemy i id r5.1 r5.2

/-- The enemy loop of `update()` with `n` indices `n - 1, ..., 0` still to visit. -/
def enemyLoop : ℕ → World → World
  | 0, w => w
  | i + 1, w => enemyLoop i (enemyStep i w)

/-- Inner loop of `updateProjectiles` for a reflected projectile: the first enemy of the
active list (from index `j` on) that the projectile overlaps, with its index and reference. -/
def firstOverlap (P : Platform) (heap : List Enemy) (projectile : Projectile) :
    List ℕ → ℕ → Option (ℕ × ℕ × Enemy)
  | [], _ => none
  | id :: rest, j =>
    match heap[id]? with
    | none => firstOverlap P heap projectile rest (j + 1)
    | some enemy =>
      let dx := projectile.position.x - enemy.position.x
      let dy := projectile.position.y - enemy.position.y
      if P.sqrt (dx * dx + dy * dy) < enemy.size + projectile.size then some (j, id, enemy)
      else firstOverlap P heap projectile rest (j + 1)

/-- Damage done by a reflected projectile to the enemy referenced by `id` at index `j`. -/
def reflectedDamage (j id : ℕ) (enemy : Enemy) (w : World) : World :=
  if truthy enemy.health then
    let e1 : Enemy := { enemy with health := enemy.health.map (fun h => h - 1) }
    let a := createExplosion e1.position.x e1.position.y 5 "#ffffff" 2 2 0.05
      (w.setEnemy id e1)
    if (e1.health.getD 0) ≤ 0 then destroyEnemy e1 j a else a
  else destroyEnemy enemy j w

/-- A reflected projectile at index `i` has hit the enemy referenced by `id` at index `j`:
the damage, the 100 points and the removal of the projectile. -/
def reflectedHit (i j id : ℕ) (enemy : Enemy) (w : World) : World :=
  ((reflectedDamage j id enemy w).addScore 100).spliceEnemyProjectile i

/-- The off-screen test of `updateProjectiles`. -/
def projectileOffScreen (projectile : Projectile) (w : World) : Bool :=
  decide (projectile.position.x < -20 ∨ projectile.position.x > w.canvas.width + 20 ∨
    projectile.position.y < -20 ∨ projectile.position.y > w.canvas.height + 20)

/-- Tail of the body of `updateProjectiles` for the projectile at index `i`: the collision
with the player and the off-screen cull. -/
def projectileVersusPlayer (i : ℕ) (projectile : Projectile) (w : World) : World :=
  let dist := w.platform.sqrt
    ((projectile.position.x - w.player.position.x) ^ 2 +
      (projectile.position.y - w.player.position.y) ^ 2)
  if (w.player.alive && !w.player.invulnerable && !w.player.godMode && !w.player.isInvincible)
      ∧ dist < w.player.size + projectile.size then
    (Player.die w).spliceEnemyProjectile i
  else if projectileOffScreen projectile w then w.spliceEnemyProjectile i
  else w

/-- The shield reflection of `updateProjectiles` applied to the projectile at index `i`. -/
def reflectProjectile (i : ℕ) (projectile : Projectile) (dx dy dist : ℚ) (w : World) : World :=
  let w1 := createExplosion projectile.position.x projectile.position.y 3 "#ffd700" 1.5 2 0.05 w
  let nx := dx / dist
  let ny := dy / dist
  let dot := projectile.velocity.x * nx + projectile.velocity.y * ny
  let pushDistance := w1.player.shieldRadius + projectile.size - dist + 5
  w1.setEnemyProjectile i
    { projectile with
        velocity := ⟨(projectile.velocity.x - 2 * dot * nx) * 1.5,
                     (projectile.velocity.y - 2 * dot * ny) * 1.5⟩
        color := "#ffd700"
        isReflected := true
        position := ⟨projectile.position.x + nx * pushDistance,
                     projectile.position.y + ny * pushDistance⟩ }

/-- Middle of the body of the loop of `updateProjectiles`, after the move and the trail: the
shield reflection, else the hit of a reflected projectile on an enemy, else the collision with
the player and the cull. -/
def projectileResolve (i : ℕ) (projectile : Projectile) (w : World) : World :=
  let dx := projectile.position.x - w.player.position.x
  let dy := projectile.position.y - w.player.position.y
  let dist := w.platform.sqrt (dx * dx + dy * dy)
  if (w.player.alive && w.player.godMode) ∧ dist < w.player.shieldRadius + projectile.size
  then reflectProjectile i projectile dx dy dist w
  else if projectile.isReflected then
    match firstOverlap w.platform w.heap projectile w.enemyManager.enemies 0 with
    | some (j, id, enemy) => reflectedHit i j id enemy w
    | none => projectileVersusPlayer i projectile w
  else projectileVersusPlayer i projectile w

/-- Body of the loop of `updateProjectiles` for index `i`. -/
def projectileStep (i : ℕ) (w : World) : World :=
  match w.enemyManager.enemyProjectiles[i]? with
  | none => w
  | some stored =>
    let projectile : Projectile :=
      { stored with position := stored.position.add stored.velocity }
    let w1 := w.setEnemyProjectile i projectile
    let w2 :=
      if w1.rand 0 < 0.3 then
        addTrail projectile.position.x projectile.position.y projectile.color 1 (w1.advance 1)
      else w1.advance 1
    projectileResolve i projectile w2

/-- The loop of `updateProjectiles` with `n` indices `n - 1, ..., 0` still to visit. -/
def projectileLoop : ℕ → World → World
  | 0, w => w
  | i + 1, w => projectileLoop i (projectileStep i w)

/-- Method `EnemyManager.updateProjectiles()`. -/
def updateProjectiles (w : World) : World :=
  projectileLoop w.enemyManager.enemyProjectiles.length w

/-- The loop of `updateProjectiles` stopped on its way down: of the indices `n - 1, ..., 0`
still to visit, those above `i` are visited, and the world in which index `i` comes next is
returned. -/
def projectileLoopFrom (i : ℕ) : ℕ → World → World
  | 0, w => w
  | n + 1, w => if n ≤ i then w else projectileLoopFrom i n (projectileStep n w)

/-- Block `// Update combo timer` of `update()`. -/
def comboPhase (w : World) : World :=
  if w.enemyManager.combo > 0 then
    let m : EnemyManager := { w.enemyManager with comboTimer := w.enemyManager.comboTimer - 1 }
    if m.comboTimer ≤ 0 then { w with enemyManager := { m with combo := 0 } }
    else { w with enemyManager := m }
  else w

/-- Block `// Update multiplier timer` of `update()`. -/
def multiplierPhase (w : World) : World :=
  if w.enemyManager.scoreMultiplier > 1 then
    let m : EnemyManager :=
      { w.enemyManager with multiplierTimer := w.enemyManager.multiplierTimer - 1 }
    if m.multiplierTimer ≤ 0 then { w with enemyManager := { m with scoreMultiplier := 1 } }
    else { w with enemyManager := m }
  else w

/-- Everything `update()` does before the two timer blocks: boss countdown, spawn countdown,
difficulty ramp, the enemy loop and `updateProjectiles()`. -/
def updateEntities (w : World) : World :=
  let w1 := difficultyPhase (spawnPhase (bossTimerPhase w))
  updateProjectiles (enemyLoop w1.enemyManager.enemies.length w1)

/-- Method `EnemyManager.update()`. -/
def EnemyManager.update (w : World) : World :=
  multiplierPhase (comboPhase (updateEntities w))

/-- Method `EnemyManager.reset()`. -/
def EnemyManager.reset (w : World) : World :=
  { w with enemyManager :=
      { w.enemyManager with
          enemies := []
          enemyProjectiles := []
          spawnTimer := 0
          spawnRate := 120
          difficultyTimer := 0
          score := 0
          scoreMultiplier := 1
          combo := 0
          comboTimer := 0
          multiplierTimer := 0
          bossActive := false
          bossTimer := w.enemyManager.bossSpawnThreshold } }

/-- Method `EnemyManager.getScore()`. -/
def EnemyManager.getScore (w : World) : ℤ :=
  w.enemyManager.score

/-- Method `EnemyManager.getCombo()`: the pair `(combo, multiplier)`. -/
def EnemyManager.getCombo (w : World) : ℕ × ℤ :=
  (w.enemyManager.combo, w.enemyManager.scoreMultiplier)

/-! ## The combo and multiplier fields seen on their own -/

/-- The combo and multiplier fields of the manager, with the ghost kill log. -/
structure ComboState where
  scoreMultiplier : ℤ
  combo : ℕ
  comboTimer : ℤ
  multiplierTimer : ℤ
  killLog : List ℕ

/-- The combo and multiplier fields of a world's manager. -/
def World.comboState (w : World) : ComboState :=
  ⟨w.enemyManager.scoreMultiplier, w.enemyManager.combo, w.enemyManager.comboTimer,
    w.enemyManager.multiplierTimer, w.enemyManager.killLog⟩

/-- What one call of `updateScore` does to the combo and multiplier fields. -/
def ComboState.kill (c : ComboState) : ComboState :=
  if c.combo + 1 ≥ 10 then ⟨4, c.combo + 1, 120, 300, c.killLog ++ [c.combo + 1]⟩
  else if c.combo + 1 ≥ 5 then ⟨2, c.combo + 1, 120, 300, c.killLog ++ [c.combo + 1]⟩
  else ⟨c.scoreMultiplier, c.combo + 1, 120, c.multiplierTimer, c.killLog ++ [c.combo + 1]⟩

/-- What the two timer blocks at the end of `update()` do to the combo and multiplier
fields. -/
def ComboState.decay (c : ComboState) : ComboState :=
  let c1 : ComboState :=
    if c.combo > 0 then
      if c.comboTimer - 1 ≤ 0 then { c with comboTimer := c.comboTimer - 1, combo := 0 }
      else { c with comboTimer := c.comboTimer - 1 }
    else c
  if c1.scoreMultiplier > 1 then
    if c1.multiplierTimer - 1 ≤ 0 then
      { c1 with multiplierTimer := c1.multiplierTimer - 1, scoreMultiplier := 1 }
    else { c1 with multiplierTimer := c1.multiplierTimer - 1 }
  else c1

/-- As far as the combo and multiplier fields go, `v` comes from `w` by a number of kills. -/
def Kills (w v : World) : Prop :=
  ∃ n, v.comboState = ComboState.kill^[n] w.comboState

/-- The combos reached by the kills of the `update()` that starts in `w`, oldest first: what
that update appends to the kill log. -/
def newKills (w : World) : List ℕ :=
  (EnemyManager.update w).enemyManager.killLog.drop w.enemyManager.killLog.length

/-- States of a session, seen from its enemy manager: a newly constructed manager in any
surroundings, then calls of `update()` and `reset()`, and between them anything the other
objects do (the player, the particle system, the backdrop, the host), which leaves the manager
and its enemy objects alone. -/
inductive Reachable : World → Prop where
  | init (w : World) (gameScale : ℚ) :
      w.enemyManager = EnemyManager.new gameScale → w.heap = [] → Reachable w
  | update (w : World) : Reachable w → Reachable (EnemyManager.update w)
  | reset (w : World) : Reachable w → Reachable (EnemyManager.reset w)
  | surroundings (w v : World) :
      Reachable w → v.enemyManager = w.enemyManager → v.heap = w.heap →
      v.platform = w.platform → Reachable v

/-! ## The manager and its enemy objects seen on their own -/

/-- The part of a session that decides which enemies exist and what the score is: the manager
without its projectile list, and the enemy objects. The player, the particle system, the
backdrop, the projectiles and the host counters are left out. -/
structure Core where
  manager : EnemyManager
  heap : List Enemy

/-- The core of a session. -/
def World.core (w : World) : Core :=
  ⟨{ w.enemyManager with enemyProjectiles := [] }, w.heap⟩

/-- `World.setEnemy` on the core. -/
def Core.setEnemy (id : ℕ) (enemy : Enemy) (c : Core) : Core :=
  { c with heap := c.heap.set id enemy }

/-- `World.addScore` on the core. -/
def Core.addScore (points : ℤ) (c : Core) : Core :=
  { c with manager := { c.manager with score := c.manager.score + points } }

/-- What `destroyEnemy(enemy, index)` does to the core: a boss clears `bossActive`, the score
and the combo fields change as `updateScore` says, the entry at `index` leaves the list. -/
def Core.destroy (enemy : Enemy) (index : ℕ) (c : Core) : Core :=
  let m := c.manager
  let m1 : EnemyManager :=
    { m with
        score := m.score + (if truthy enemy.value then enemy.value.getD 100 else 100) *
          m.scoreMultiplier
        combo := m.combo + 1
        comboTimer := 120
        killLog := m.killLog ++ [m.combo + 1]
        bossActive := if enemy.isBoss then false else m.bossActive
        enemies := m.enemies.eraseIdx index }
  let m2 : EnemyManager :=
    if m.combo + 1 ≥ 10 then { m1 with scoreMultiplier := 4, multiplierTimer := 300 }
    else if m.combo + 1 ≥ 5 then { m1 with scoreMultiplier := 2, multiplierTimer := 300 }
    else m1
  { c with manager := m2 }

/-- What the off-screen cull of the enemy loop does to the core. -/
def Core.cull (index : ℕ) (isBoss : Bool) (c : Core) : Core :=
  { c with manager :=
      { c.manager with
          enemies := c.manager.enemies.eraseIdx index
          bossActive := if isBoss then false else c.manager.bossActive } }

/-- The fields of an enemy object that no behaviour closure writes: `isBoss`, `health`,
`value` and the type tag. -/
def Enemy.identity (e : Enemy) : Bool × Option ℤ × Option ℤ × EnemyType :=
  (e.isBoss, e.health, e.value, e.type)

/-- One elementary change of the core made by the enemy loop or by `updateProjectiles`: an
enemy object is rewritten keeping `isBoss` and `value`, its health kept or lowered by one;
points are added; an enemy of the list is destroyed; an enemy of the list is culled. -/
inductive CoreStep : Core → Core → Prop where
  | write (c : Core) (id : ℕ) (e e' : Enemy) :
      c.heap[id]? = some e → e'.isBoss = e.isBoss → e'.value = e.value →
      (e'.health = e.health ∨ ∃ h, e.health = some h ∧ e'.health = some (h - 1)) →
      CoreStep c (c.setEnemy id e')
  | score (c : Core) (points : ℤ) : CoreStep c (c.addScore points)
  | destroy (c : Core) (i id : ℕ) (e : Enemy) :
      c.manager.enemies[i]? = some id → c.heap[id]? = some e → CoreStep c (c.destroy e i)
  | cull (c : Core) (i id : ℕ) (e : Enemy) :
      c.manager.enemies[i]? = some id → c.heap[id]? = some e → CoreStep c (c.cull i e.isBoss)

/-- A sequence of elementary changes of the core. -/
inductive CoreSteps : Core → Core → Prop where
  | refl (c : Core) : CoreSteps c c
  | tail (a b c : Core) : CoreSteps a b → CoreStep b c → CoreSteps a c

/-- Whether the reference `id` is to a boss object. -/
def isBossRef (heap : List Enemy) (id : ℕ) : Bool :=
  match heap[id]? with
  | some e => e.isBoss
  | none => false

/-- Number of entries of the active enemy list that reference a boss. -/
def Core.bossCount (c : Core) : ℕ :=
  (c.manager.enemies.filter (isBossRef c.heap)).length

/-- The boss bookkeeping is consistent: every entry of the active list references an object,
and the list holds one boss when `bossActive` is set and none otherwise. -/
def BossInv (c : Core) : Prop :=
  (∀ id ∈ c.manager.enemies, id < c.heap.length) ∧
    c.bossCount = (if c.manager.bossActive then 1 else 0)

/-- Order on optional health values: both absent, or both present and the first at most the
second. -/
def healthLe (a b : Option ℤ) : Prop :=
  match a, b with
  | some x, some y => x ≤ y
  | none, none => True
  | _, _ => False

/-- Every enemy object of `c` is still there in `d`, with the same `isBoss` and `value` and
with a health that is not higher. -/
def HealthMono (c d : Core) : Prop :=
  ∀ (id : ℕ) (e : Enemy), c.heap[id]? = some e →
    ∃ e' : Enemy, d.heap[id]? = some e' ∧ e'.isBoss = e.isBoss ∧ e'.value = e.value ∧
      healthLe e'.health e.health

/-- The scheduling fields of the manager: the boss clock, the spawn clock and the difficulty
ramp. -/
structure Schedule where
  bossTimer : ℤ
  bossSpawnThreshold : ℤ
  spawnTimer : ℤ
  spawnRate : ℤ
  difficultyTimer : ℤ
  difficultyInterval : ℤ
  maxEnemies : ℤ
deriving DecidableEq

/-- The scheduling fields of a core. -/
def Core.schedule (c : Core) : Schedule :=
  ⟨c.manager.bossTimer, c.manager.bossSpawnThreshold, c.manager.spawnTimer,
    c.manager.spawnRate, c.manager.difficultyTimer, c.manager.difficultyInterval,
    c.manager.maxEnemies⟩

/-- Damage on the core: the enemy object referenced by `id`, at index `index` of the active
list, is rewritten as `e` (its health already lowered) and destroyed when that health is not
positive. -/
def Core.damage (id index : ℕ) (e : Enemy) (c : Core) : Core :=
  if e.health.getD 0 ≤ 0 then (c.setEnemy id e).destroy e index else c.setEnemy id e

/-- The active list holds the boss referenced by `id`, whose health is `h`, and the boss
bookkeeping is consistent. -/
def BossAt (id : ℕ) (h : ℤ) (c : Core) : Prop :=
  BossInv c ∧ id ∈ c.manager.enemies ∧
    ∃ e : Enemy, c.heap[id]? = some e ∧ e.isBoss = true ∧ e.health = some h

/-- The world `v` comes from `w` by one hit on the multi-hit enemy referenced by `id`: either
the branch `if (enemy.health)` of the enemy loop (a player projectile) or the hit of a
reflected projectile in `updateProjectiles`, called as the loops call them, on an entry of the
active list and with the object it references. -/
def Hit (id : ℕ) (w v : World) : Prop :=
  ∃ (i : ℕ) (e : Enemy), w.enemyManager.enemies[i]? = some id ∧ w.heap[id]? = some e ∧
    truthy e.health = true ∧
    (v = hitEnemy e i id w ∨ ∃ p : ℕ, v = reflectedHit p i id e w)

/-- The world `v` comes from `w` by one player-projectile hit on the multi-hit enemy
referenced by `id`. -/
def PlayerHit (id : ℕ) (w v : World) : Prop :=
  ∃ (i : ℕ) (e : Enemy), w.enemyManager.enemies[i]? = some id ∧ w.heap[id]? = some e ∧
    truthy e.health = true ∧ v = hitEnemy e i id w

/-- Between two hits: the active list, `bossActive`, the score and the multiplier are the
same in `u` as in `v`, and every enemy object has kept `isBoss`, `health`, `value` and its
type; anything else may differ. -/
def Between (v u : World) : Prop :=
  u.enemyManager.enemies = v.enemyManager.enemies ∧
    u.enemyManager.bossActive = v.enemyManager.bossActive ∧
    u.enemyManager.score = v.enemyManager.score ∧
    u.enemyManager.scoreMultiplier = v.enemyManager.scoreMultiplier ∧
    u.heap.map Enemy.identity = v.heap.map Enemy.identity

/-- The enemy projectiles of `w` are all still in `v`, unchanged and at the same indices;
`v` may hold more after them. -/
def ProjectilesKept (w v : World) : Prop :=
  ∃ l : List Projectile,
    v.enemyManager.enemyProjectiles = w.enemyManager.enemyProjectiles ++ l

/-- The overlap test of the inner loop of `updateProjectiles`: the distance between the
centres of the projectile and the enemy, as `Math.sqrt` returns it, is strictly below
`enemy.size + projectile.size`. -/
def Touches (P : Platform) (projectile : Projectile) (enemy : Enemy) : Prop :=
  P.sqrt ((projectile.position.x - enemy.position.x) *
      (projectile.position.x - enemy.position.x) +
    (projectile.position.y - enemy.position.y) *
      (projectile.position.y - enemy.position.y)) < enemy.size + projectile.size

/-- The burst-fire fields of an enemy, which only its own `update` closure writes:
`burstCount`, `burstSize`, `burstDelay`, `shootTimer`, `shootDelay`. -/
def Enemy.burst (e : Enemy) : ℤ × ℤ × ℤ × ℤ × ℤ :=
  (e.burstCount, e.burstSize, e.burstDelay, e.shootTimer, e.shootDelay)

/-! ## Worked examples: a platform and worlds -/

/-- A platform for worked examples: integer square root, constant trigonometry, every random
draw equal to `1/2`, a clock advancing one second a call. -/
def samplePlatform : Platform :=
  { sqrt := fun q => (Nat.sqrt (Int.floor q).toNat : ℚ)
    cos := fun _ => 1
    sin := fun _ => 0
    atan2 := fun _ _ => 0
    PI := 3
    randomSeq := fun _ => 1 / 2
    random_range := fun _ => by norm_num
    nowSeq := fun n => 1000 * n }

/-- The player as the constructor of `Player` leaves it on an 800 by 600 canvas at scale 1. -/
def samplePlayer : Player :=
  { gameScale := 1
    position := ⟨400, 300⟩
    velocity := ⟨0, 0⟩
    acceleration := ⟨0, 0⟩
    rotation := 0
    size := 12
    color := "#0ff"
    maxSpeed := 5
    friction := 0.92
    alive := true
    invulnerable := false
    invulnerableTimer := 0
    blinkTimer := 0
    visible := true
    godMode := false
    isInvincible := false
    shieldRadius := 30
    shieldOpacity := 0.25
    shootCooldown := 0
    shootDelay := 8
    projectiles := []
    keys := ⟨false, false, false, false⟩
    mouse := ⟨0, 0, false⟩
    isMobile := false
    hasGyroscope := false
    gyroEnabled := false
    gyroOrientation := ⟨0, 0, 0⟩ }

/-- A session right after construction: empty pools, new manager, 800 by 600 canvas. -/
def sampleWorld : World :=
  { platform := samplePlatform
    randomCalls := 0
    nowCalls := 0
    canvas := ⟨800, 600⟩
    particles := { particles := [], trailParticles := [], maxParticles := 200,
                   maxTrailParticles := 100 }
    player := samplePlayer
    grid := ⟨0, 0, false⟩
    enemyManager := EnemyManager.new 1
    heap := []
    timers := [] }

/-- The sample session with its particle pool filled to the limit of 200. -/
def fullPoolWorld : World :=
  { sampleWorld with
      particles := { sampleWorld.particles with
        particles := List.replicate 200 (flashParticle 0 0) } }

/-- A spinner as `createSpinner` builds it, at the centre of the sample canvas. -/
def sampleSpinner : Enemy :=
  { type := EnemyType.spinner, position := ⟨400, 300⟩, velocity := ⟨0, 0⟩, size := 12,
    color := "#f0f", speed := 2, burstSize := 3, burstDelay := 10, shootDelay := 60,
    value := some 150 }

/-- A seeker as `createSeeker` builds it (no `value` field), at `(100, 100)`. -/
def sampleSeeker : Enemy :=
  { type := EnemyType.seeker, position := ⟨100, 100⟩, velocity := ⟨0, 0⟩, size := 10,
    color := "#ff0", speed := 2, rotationSpeed := 0.05 }

/-- A projectile overlaps an enemy: the distance between their centres is strictly below
`projectile.size + enemy.size`. -/
def Overlaps (P : Platform) (enemy : Enemy) (projectile : Projectile) : Prop :=
  distance P projectile.position.x projectile.position.y enemy.position.x enemy.position.y
    < projectile.size + enemy.size

/-- A player projectile as `shoot()` builds it at scale 1, at rest at the given place. -/
def sampleShot (x y : ℚ) : Projectile :=
  { position := ⟨x, y⟩, velocity := ⟨0, 0⟩, size := 3, color := "#0ff" }

/-- The sample session with three live player projectiles: the oldest far from the sample
seeker at `(100, 100)`, the two newer ones on it. -/
def shootingWorld : World :=
  { sampleWorld with
      player := { samplePlayer with
        projectiles := [sampleShot 700 500, sampleShot 100 100, sampleShot 101 100] } }

/-- A wanderer as `createWanderer` builds it, at rest at `(100, 100)`. -/
def sampleWanderer : Enemy :=
  { type := EnemyType.wanderer, position := ⟨100, 100⟩, velocity := ⟨0, 0⟩, size := 15,
    color := "#0f0", speed := 1, directionChangeInterval := 60, shootDelay := 180,
    value := some 50 }

/-- A session in mid-game: the freshly respawned player (still invulnerable) has one shot in
flight, right on the only enemy, a wanderer; the combo stands at 4 with half a second left.
The spawn rate is set to 1000 ticks so that the wanderer is the only enemy for a while. -/
def killWorld : World :=
  { sampleWorld with
      player := { samplePlayer with
        invulnerable := true, invulnerableTimer := 60, projectiles := [sampleShot 100 100] }
      enemyManager := { EnemyManager.new 1 with
        enemies := [0], spawnRate := 1000, score := 400, combo := 4, comboTimer := 30,
        killLog := [1, 2, 3, 4] }
      heap := [sampleWanderer] }

/-- The sample run: the session `killWorld` and its successive states under `update()`. -/
def sampleRun : ℕ → World
  | 0 => killWorld
  | k + 1 => EnemyManager.update (sampleRun k)

/-- A session with nothing on screen in which the combo (5, multiplier 2) is one tick from
expiring while the multiplier timer has 181 ticks left: the state 119 updates after a fifth
kill in a row. -/
def comboExpiryWorld : World :=
  { sampleWorld with
      enemyManager := { EnemyManager.new 1 with
        spawnTimer := 50, bossTimer := 900, difficultyTimer := 500, score := 500,
        combo := 5, comboTimer := 1, scoreMultiplier := 2, multiplierTimer := 181,
        killLog := [1, 2, 3, 4, 5] } }

/-- The manager has nothing to do during the next `r` updates: no enemy, no enemy projectile,
no boss, and the boss, spawn and difficulty countdowns all more than `r` ticks away. -/
def IdleFor (r : ℕ) (w : World) : Prop :=
  w.enemyManager.enemies = [] ∧ w.enemyManager.enemyProjectiles = [] ∧
    w.enemyManager.bossActive = false ∧ (r : ℤ) < w.enemyManager.bossTimer ∧
    w.enemyManager.spawnTimer + r < w.enemyManager.spawnRate ∧
    w.enemyManager.difficultyTimer + r < w.enemyManager.difficultyInterval

/-- The sample session right after `Player.reset()` and its successive states under
`Player.update()`. -/
def playerRun : ℕ → World
  | 0 => Player.reset sampleWorld
  | k + 1 => Player.update (playerRun k)

/-- The sample session with the firing flag held. -/
def firingWorld : World :=
  { sampleWorld with player := { samplePlayer with mouse := ⟨0, 0, true⟩ } }

/-- The sample session with the firing flag held and its successive states under
`Player.update()`. -/
def firingRun : ℕ → World
  | 0 => firingWorld
  | k + 1 => Player.update (firingRun k)

/-- The run of the sample session under `update()`: a new manager and its successive states. -/
def bossRun : ℕ → World
  | 0 => sampleWorld
  | k + 1 => EnemyManager.update (bossRun k)

/-- The sample session with a boss just created by `createBoss` as its only enemy. -/
def bossWorld : World :=
  let r := createBoss ⟨400, -100⟩
    { sampleWorld with enemyManager := { EnemyManager.new 1 with bossActive := true } }
  r.2.pushEnemy r.1

/-- The run of hits: `bossWorld`, then one player-projectile hit after the other on the enemy
at index 0 of the active list. -/
def hitRun : ℕ → World
  | 0 => bossWorld
  | k + 1 =>
    match (hitRun k).heap[0]? with
    | some e => hitEnemy e 0 0 (hitRun k)
    | none => hitRun k

/-- An enemy projectile in flight that its next move brings to 3 right of and 4 below the
sample player. -/
def sampleBolt : Projectile :=
  { position := ⟨403, 307⟩, velocity := ⟨0, -3⟩, size := 3, color := "#f00" }

/-- The sample session with the player in god mode and `sampleBolt` in flight. -/
def shieldWorld : World :=
  { sampleWorld with
      player := { samplePlayer with godMode := true, isInvincible := true }
      enemyManager := { EnemyManager.new 1 with enemyProjectiles := [sampleBolt] } }

/-- The sample session with a vulnerable player, no enemy, and `sampleBolt` in flight as a
reflected projectile. -/
def reflectedWorld : World :=
  { sampleWorld with
      enemyManager := { EnemyManager.new 1 with
        enemyProjectiles := [{ sampleBolt with color := "#ffd700", isReflected := true }] } }

/-- The sample session on a platform whose every random draw is `0`, so that `spawn()` draws
a seeker. -/
def seekerWorld : World :=
  { sampleWorld with
      platform := { samplePlatform with
        randomSeq := fun _ => 0
        random_range := fun _ => by norm_num } }

/-- The sample session with a vulnerable player, two enemies right where the next move
brings `sampleBolt` (a spinner first in the active list, then a wanderer) and `sampleBolt` in
flight as a reflected projectile. -/
def volleyWorld : World :=
  { sampleWorld with
      enemyManager := { EnemyManager.new 1 with
        enemies := [0, 1]
        enemyProjectiles := [{ sampleBolt with color := "#ffd700", isReflected := true }] }
      heap := [{ sampleSpinner with position := ⟨403, 304⟩ },
               { sampleWanderer with position := ⟨403, 304⟩ }] }

/-- A boss as `createBoss` builds it on the sample canvas, already down at a quarter of the
canvas height, where its battle phase begins. -/
def battleBoss : Enemy :=
  { type := EnemyType.boss, isBoss := true, position := ⟨400, 150⟩, velocity := ⟨0, 0⟩,
    size := 45, color := "#a0b4c8", health := some 20, maxHealth := 20, speed := 1.5,
    value := some 1000, shotDelay := 20, burstSize := 5, targetPosition := ⟨400, 150⟩,
    phaseTimerCoefficient := 0.05 }

/-- The run of `battleBoss` under its own `update` closure in the sample session. -/
def phaseRun : ℕ → Enemy
  | 0 => battleBoss
  | k + 1 => (bossUpdate (phaseRun k) sampleWorld).1

/-- A spinner one update before its first burst, run under its own `update` closure in the
sample session; the player is dead from the end of the first update on. -/
def burstRun : ℕ → Enemy × World
  | 0 => ({ sampleSpinner with shootTimer := 59 }, sampleWorld)
  | k + 1 =>
    let r := spinnerUpdate (burstRun k).1 (burstRun k).2
    (r.1, { r.2 with player := { r.2.player with alive := false } })

/-- The sample platform with the square root of 2 as IEEE double arithmetic returns it. -/
def roundedPlatform : Platform :=
  { samplePlatform with
      sqrt := fun q =>
        if q = 2 then 6369051672525773 / 4503599627370496 else samplePlatform.sqrt q }

/-- The sample session on `roundedPlatform` with the player in god mode and an enemy
projectile in flight that its next move brings to 1 right of and 1 below the player. -/
def grazeWorld : World :=
  { sampleWorld with
      platform := roundedPlatform
      player := { samplePlayer with godMode := true, isInvincible := true }
      enemyManager := { EnemyManager.new 1 with
        enemyProjectiles := [{ sampleBolt with position := ⟨401, 304⟩ }] } }

/-- The sample session with the player in god mode, two enemies right where the next move
brings `sampleBolt` (a spinner first in the active list, then a wanderer), 3 right of and 4
below the player, and `sampleBolt` in flight as a reflected projectile. -/
def reboundWorld : World :=
  { volleyWorld with player := { samplePlayer with godMode := true, isInvincible := true } }

/-- A view of the world that no particle effect can change: it ignores the particle system,
the count of random draws and the pending timers. -/
def ParticleBlind {α : Type} (π : World → α) : Prop :=
  ∀ (w : World) (ps : ParticleSystem) (n : ℕ) (t : List SecondaryTimer),
    π { w with particles := ps, randomCalls := n, timers := t } = π w

/-! ## Frame lemmas: what the particle effects leave alone -/

theorem iterate_preserves {α : Type} (π : World → α) (f : World → World)
    (hf : ∀ w, π (f w) = π w) (n : ℕ) (w : World) : π (f^[n] w) = π w := by
  induction n generalizing w with
  | zero => rfl
  | succ k ih => rw [Function.iterate_succ_apply, ih, hf]

theorem loopCount_of_nonpos {q : ℚ} (h : q ≤ 0) : loopCount q = 0 := by
  unfold loopCount
  rw [Int.toNat_eq_zero, Int.ceil_le]
  simpa using h

theorem scheduleSecondary_particles (x y : ℚ) (n : ℕ) (w : World) :
    ((scheduleSecondary x y)^[n] w).particles = w.particles :=
  iterate_preserves (fun w => w.particles) (scheduleSecondary x y) (fun _ => rfl) n w

theorem blind_enemyManager : ParticleBlind (fun w => w.enemyManager) := fun _ _ _ _ => rfl

theorem blind_player : ParticleBlind (fun w => w.player) := fun _ _ _ _ => rfl

theorem blind_heap : ParticleBlind (fun w => w.heap) := fun _ _ _ _ => rfl

theorem blind_grid : ParticleBlind (fun w => w.grid) := fun _ _ _ _ => rfl

theorem blind_canvas : ParticleBlind (fun w => w.canvas) := fun _ _ _ _ => rfl

theorem blind_platform : ParticleBlind (fun w => w.platform) := fun _ _ _ _ => rfl

theorem blind_nowCalls : ParticleBlind (fun w => w.nowCalls) := fun _ _ _ _ => rfl

theorem createExplosion_blind {α : Type} {π : World → α} (hπ : ParticleBlind π)
    (x y count : ℚ) (color : String) (speed size decay : ℚ) (w : World) :
    π (createExplosion x y count color speed size decay w) = π w := by
  unfold createExplosion
  simp only []
  split
  · rfl
  · exact iterate_preserves π (createExplosionStep x y color speed size decay)
      (fun v => hπ v _ _ _) _ w

theorem createDebris_blind {α : Type} {π : World → α} (hπ : ParticleBlind π)
    (x y count : ℚ) (color : String) (speed : ℚ) (w : World) :
    π (createDebris x y count color speed w) = π w := by
  unfold createDebris
  simp only []
  split
  · rfl
  · exact iterate_preserves π (createDebrisStep x y color speed) (fun v => hπ v _ _ _) _ w

theorem createScoreText_blind {α : Type} {π : World → α} (hπ : ParticleBlind π)
    (x y : ℚ) (text color : String) (w : World) :
    π (createScoreText x y text color w) = π w := by
  unfold createScoreText
  split
  · rfl
  · exact hπ w _ _ _

theorem addTrail_blind {α : Type} {π : World → α} (hπ : ParticleBlind π)
    (x y : ℚ) (color : String) (size : ℚ) (w : World) :
    π (addTrail x y color size w) = π w :=
  hπ w _ _ _

theorem advance_blind {α : Type} {π : World → α} (hπ : ParticleBlind π) (n : ℕ) (w : World) :
    π (w.advance n) = π w :=
  hπ w _ _ _

theorem createMassiveExplosion_blind {α : Type} {π : World → α} (hπ : ParticleBlind π)
    (x y : ℚ) (w : World) : π (createMassiveExplosion x y w) = π w := by
  unfold createMassiveExplosion
  simp only []
  rw [iterate_preserves π (scheduleSecondary x y) (fun v => hπ v _ _ _),
    iterate_preserves π (outerWaveStep x y) (fun v => hπ v _ _ _),
    iterate_preserves π (mediumWaveStep x y) (fun v => hπ v _ _ _),
    iterate_preserves π (coreWaveStep x y) (fun v => hπ v _ _ _)]
  exact hπ w _ _ _

/-! ## C1: the particle pool limit -/

/-- C1 (fails on the code): `createMassiveExplosion` pushes its flash and its ring without
looking at the pool limit. Called on a pool with fewer than two free slots it adds exactly
those two particles, so the pool ends above `maxParticles`. -/
theorem createMassiveExplosion_exceeds_limit (x y : ℚ) (w : World)
    (hfree : w.particles.maxParticles < (w.particles.particles.length : ℤ) + 2) :
    (createMassiveExplosion x y w).particles.particles.length
        = w.particles.particles.length + 2 ∧
      w.particles.maxParticles
        < ((createMassiveExplosion x y w).particles.particles.length : ℤ) := by
  have hq : ((w.pushParticle (flashParticle x y)).pushParticle (ringParticle x y)).freeSlots
      < 0 := by
    have h1 : ((w.particles.maxParticles : ℤ) : ℚ) < ((w.particles.particles.length : ℤ) : ℚ) + 2 := by
      exact_mod_cast hfree
    simp only [World.freeSlots, World.pushParticle, List.length_append, List.length_singleton]
    push_cast at h1 ⊢
    linarith
  have hlen : (createMassiveExplosion x y w).particles.particles.length
      = w.particles.particles.length + 2 := by
    unfold createMassiveExplosion
    simp only []
    rw [scheduleSecondary_particles]
    have c0 : loopCount (min 100
        (((w.pushParticle (flashParticle x y)).pushParticle (ringParticle x y)).freeSlots / 3))
        = 0 := by
      apply loopCount_of_nonpos
      exact le_trans (min_le_right _ _) (by linarith)
    rw [c0]
    simp only [Function.iterate_zero, id_eq]
    rw [c0]
    simp only [Function.iterate_zero, id_eq]
    have c1 : loopCount (min 100
        ((w.pushParticle (flashParticle x y)).pushParticle (ringParticle x y)).freeSlots)
        = 0 := by
      apply loopCount_of_nonpos
      exact le_trans (min_le_right _ _) (by linarith)
    rw [c1]
    simp [World.pushParticle]
  refine ⟨hlen, ?_⟩
  rw [hlen]
  push_cast
  linarith

/-- C1, worked example: a pool holding exactly `maxParticles = 200` particles holds 202 after
`createMassiveExplosion(0, 0)`. -/
theorem createMassiveExplosion_exceeds_limit_witness :
    (fullPoolWorld.particles.particles.length : ℤ) = fullPoolWorld.particles.maxParticles ∧
      (createMassiveExplosion 0 0 fullPoolWorld).particles.particles.length = 202 ∧
      fullPoolWorld.particles.maxParticles
        < ((createMassiveExplosion 0 0 fullPoolWorld).particles.particles.length : ℤ) := by
  have hlen : fullPoolWorld.particles.particles.length = 200 := by
    simp only [fullPoolWorld, List.length_replicate]
  have hmax : fullPoolWorld.particles.maxParticles = 200 := rfl
  have h := createMassiveExplosion_exceeds_limit 0 0 fullPoolWorld
    (by rw [hlen, hmax]; norm_num)
  refine ⟨by rw [hlen, hmax]; norm_num, ?_, h.2⟩
  rw [h.1, hlen]

/-! ## C2, C3: what a kill does to the score, the combo and the multiplier -/

/-- The manager after `updateScore`, field by field. -/
theorem updateScore_enemyManager (enemy : Enemy) (w : World) :
    (updateScore enemy w).enemyManager =
      if w.enemyManager.combo + 1 ≥ 10 then
        { w.enemyManager with
            score := w.enemyManager.score +
              (if truthy enemy.value then enemy.value.getD 100 else 100) *
                w.enemyManager.scoreMultiplier
            combo := w.enemyManager.combo + 1
            comboTimer := 120
            killLog := w.enemyManager.killLog ++ [w.enemyManager.combo + 1]
            scoreMultiplier := 4
            multiplierTimer := 300 }
      else if w.enemyManager.combo + 1 ≥ 5 then
        { w.enemyManager with
            score := w.enemyManager.score +
              (if truthy enemy.value then enemy.value.getD 100 else 100) *
                w.enemyManager.scoreMultiplier
            combo := w.enemyManager.combo + 1
            comboTimer := 120
            killLog := w.enemyManager.killLog ++ [w.enemyManager.combo + 1]
            scoreMultiplier := 2
            multiplierTimer := 300 }
      else
        { w.enemyManager with
            score := w.enemyManager.score +
              (if truthy enemy.value then enemy.value.getD 100 else 100) *
                w.enemyManager.scoreMultiplier
            combo := w.enemyManager.combo + 1
            comboTimer := 120
            killLog := w.enemyManager.killLog ++ [w.enemyManager.combo + 1] } := by
  unfold updateScore
  simp only [createScoreText_blind blind_enemyManager]

/-- The manager after `destroyEnemy`: the explosion and the debris leave it alone, a boss
clears `bossActive`, `updateScore` does the scoring and the entry at `index` is spliced out. -/
theorem destroyEnemy_enemyManager (enemy : Enemy) (index : ℕ) (w : World) :
    (destroyEnemy enemy index w).enemyManager =
      { (updateScore enemy w).enemyManager with
        bossActive := if enemy.isBoss then false else w.enemyManager.bossActive
        enemies := (w.enemyManager.enemies).eraseIdx index } := by
  unfold destroyEnemy
  simp only [World.spliceEnemy]
  rw [updateScore_enemyManager, updateScore_enemyManager]
  cases hb : enemy.isBoss
  · simp only [createDebris_blind blind_enemyManager, createExplosion_blind blind_enemyManager,
      Bool.false_eq_true, if_false]
    by_cases h10 : w.enemyManager.combo + 1 ≥ 10
    · simp only [h10, if_true]
    · by_cases h5 : w.enemyManager.combo + 1 ≥ 5
      · simp only [h10, h5, if_true, if_false]
      · simp only [h10, h5, if_false]
  · simp only [createDebris_blind blind_enemyManager, createExplosion_blind blind_enemyManager,
      if_true]
    by_cases h10 : w.enemyManager.combo + 1 ≥ 10
    · simp only [h10, if_true]
    · by_cases h5 : w.enemyManager.combo + 1 ≥ 5
      · simp only [h10, h5, if_true, if_false]
      · simp only [h10, h5, if_false]

/-- C2: `destroyEnemy(enemy, index)` raises the score by exactly the enemy's value (100 when
the enemy has no value; the source's `enemy.value || 100` also reads a value of 0 as absent)
times the multiplier in force before the call. A value-150 spinner adds exactly 150 at
multiplier 1 and exactly 600 at multiplier 4; an enemy without a value adds exactly 100 at
multiplier 1. -/
theorem destroyEnemy_score (enemy : Enemy) (index : ℕ) (w : World) :
    ((destroyEnemy enemy index w).enemyManager.score =
        w.enemyManager.score +
          (match enemy.value with
            | some v => if v = 0 then 100 else v
            | none => 100) * w.enemyManager.scoreMultiplier) ∧
      (enemy.value = some 150 → w.enemyManager.scoreMultiplier = 1 →
        (destroyEnemy enemy index w).enemyManager.score = w.enemyManager.score + 150) ∧
      (enemy.value = some 150 → w.enemyManager.scoreMultiplier = 4 →
        (destroyEnemy enemy index w).enemyManager.score = w.enemyManager.score + 600) ∧
      (enemy.value = none → w.enemyManager.scoreMultiplier = 1 →
        (destroyEnemy enemy index w).enemyManager.score = w.enemyManager.score + 100) := by
  have key : (destroyEnemy enemy index w).enemyManager.score =
      w.enemyManager.score +
        (match enemy.value with
          | some v => if v = 0 then 100 else v
          | none => 100) * w.enemyManager.scoreMultiplier := by
    rw [destroyEnemy_enemyManager, updateScore_enemyManager]
    have hv : (if truthy enemy.value then enemy.value.getD 100 else 100) =
        (match enemy.value with
          | some v => if v = 0 then 100 else v
          | none => 100) := by
      cases hval : enemy.value with
      | none => simp [truthy]
      | some v =>
        by_cases h0 : v = 0
        · simp [truthy, h0]
        · simp [truthy, h0]
    rw [hv]
    by_cases h10 : w.enemyManager.combo + 1 ≥ 10
    · simp only [h10, if_true]
    · by_cases h5 : w.enemyManager.combo + 1 ≥ 5
      · simp only [h10, h5, if_true, if_false]
      · simp only [h10, h5, if_false]
  refine ⟨key, ?_, ?_, ?_⟩
  · intro hv hm
    rw [key, hv, hm]
    norm_num
  · intro hv hm
    rw [key, hv, hm]
    norm_num
  · intro hv hm
    rw [key, hv, hm]
    norm_num

/-- C2, worked example: in a new session (multiplier 1) destroying the sample spinner (value
150) brings the score from 0 to 150. -/
theorem destroyEnemy_score_witness :
    sampleWorld.enemyManager.score = 0 ∧ sampleWorld.enemyManager.scoreMultiplier = 1 ∧
      (destroyEnemy sampleSpinner 0 sampleWorld).enemyManager.score = 150 := by
  refine ⟨rfl, rfl, ?_⟩
  have h := (destroyEnemy_score sampleSpinner 0 sampleWorld).2.1 rfl rfl
  rw [h]
  rfl

/-- C3: `destroyEnemy` raises the combo by exactly 1 and sets `comboTimer` to 120; the
multiplier becomes 4 with a 300-tick timer when the new combo is at least 10, becomes 2 with a
300-tick timer when the new combo is between 5 and 9, and multiplier and timer both stay as
they were when the new combo is below 5. -/
theorem destroyEnemy_combo (enemy : Enemy) (index : ℕ) (w : World) :
    (destroyEnemy enemy index w).enemyManager.combo = w.enemyManager.combo + 1 ∧
      (destroyEnemy enemy index w).enemyManager.comboTimer = 120 ∧
      (10 ≤ w.enemyManager.combo + 1 →
        (destroyEnemy enemy index w).enemyManager.scoreMultiplier = 4 ∧
          (destroyEnemy enemy index w).enemyManager.multiplierTimer = 300) ∧
      (5 ≤ w.enemyManager.combo + 1 → w.enemyManager.combo + 1 ≤ 9 →
        (destroyEnemy enemy index w).enemyManager.scoreMultiplier = 2 ∧
          (destroyEnemy enemy index w).enemyManager.multiplierTimer = 300) ∧
      (w.enemyManager.combo + 1 < 5 →
        (destroyEnemy enemy index w).enemyManager.scoreMultiplier =
            w.enemyManager.scoreMultiplier ∧
          (destroyEnemy enemy index w).enemyManager.multiplierTimer =
            w.enemyManager.multiplierTimer) := by
  rw [destroyEnemy_enemyManager, updateScore_enemyManager]
  refine ⟨?_, ?_, ?_, ?_, ?_⟩
  · by_cases h10 : w.enemyManager.combo + 1 ≥ 10
    · simp only [h10, if_true]
    · by_cases h5 : w.enemyManager.combo + 1 ≥ 5
      · simp only [h10, h5, if_true, if_false]
      · simp only [h10, h5, if_false]
  · by_cases h10 : w.enemyManager.combo + 1 ≥ 10
    · simp only [h10, if_true]
    · by_cases h5 : w.enemyManager.combo + 1 ≥ 5
      · simp only [h10, h5, if_true, if_false]
      · simp only [h10, h5, if_false]
  · intro h
    simp only [ge_iff_le, h, if_true, and_self]
  · intro h5 h9
    have h10 : ¬ (10 ≤ w.enemyManager.combo + 1) := by omega
    simp only [ge_iff_le, h10, h5, if_true, if_false, and_self]
  · intro h
    have h10 : ¬ (10 ≤ w.enemyManager.combo + 1) := by omega
    have h5 : ¬ (5 ≤ w.enemyManager.combo + 1) := by omega
    simp only [ge_iff_le, h10, h5, if_false, and_self]

/-- C3, worked example: the first kill of a new session gives combo 1 and `comboTimer` 120 and
leaves multiplier 1 and timer 0. -/
theorem destroyEnemy_combo_witness :
    (destroyEnemy sampleSeeker 0 sampleWorld).enemyManager.combo = 1 ∧
      (destroyEnemy sampleSeeker 0 sampleWorld).enemyManager.comboTimer = 120 ∧
      (destroyEnemy sampleSeeker 0 sampleWorld).enemyManager.scoreMultiplier = 1 ∧
      (destroyEnemy sampleSeeker 0 sampleWorld).enemyManager.multiplierTimer = 0 := by
  have h := destroyEnemy_combo sampleSeeker 0 sampleWorld
  have h5 := h.2.2.2.2 (by decide)
  exact ⟨h.1, h.2.1, h5.1, h5.2⟩

/-! ## C8, C9, C10: the collision queries and the death of the player -/

/-- C8: while god mode is on (`godMode` or `isInvincible` set) `die()` changes nothing at all:
the player, the particle pools, the pending explosions and the camera shake stay as they were;
with neither flag set `die()` sets `alive` to false and no other player field. -/
theorem die_godMode (w : World) :
    ((w.player.godMode = true ∨ w.player.isInvincible = true) → Player.die w = w) ∧
      (w.player.godMode = false → w.player.isInvincible = false →
        (Player.die w).player.alive = false ∧
          (Player.die w).player = { w.player with alive := false }) := by
  constructor
  · intro h
    unfold Player.die
    rcases h with h | h <;> simp [h]
  · intro hg hi
    have hp : (Player.die w).player = { w.player with alive := false } := by
      unfold Player.die
      simp only [hg, hi, Bool.or_self, Bool.false_eq_true, if_false, Grid.addCameraShake,
        createDebris_blind blind_player, createMassiveExplosion_blind blind_player]
    exact ⟨by rw [hp], hp⟩

/-- C8, worked example: with both god-mode flags set `die()` returns the sample session
unchanged; without them the live sample player is dead afterwards. -/
theorem die_godMode_witness :
    Player.die
        { sampleWorld with player := { samplePlayer with godMode := true, isInvincible := true } }
      = { sampleWorld with player := { samplePlayer with godMode := true, isInvincible := true } }
    ∧ sampleWorld.player.alive = true ∧ (Player.die sampleWorld).player.alive = false :=
  ⟨(die_godMode _).1 (Or.inl rfl), rfl, ((die_godMode sampleWorld).2 rfl rfl).1⟩

/-- C9: `checkCollision(enemy)` is true exactly when the player is alive, not invulnerable,
has neither `godMode` nor `isInvincible` set, and the distance between the two centres is
strictly below `(size - 4) + enemy.size`; so it is false for every enemy whenever god mode or
invulnerability is on. -/
theorem checkCollision_iff (w : World) (enemy : Enemy) :
    (Player.checkCollision w enemy = true ↔
        w.player.alive = true ∧ w.player.invulnerable = false ∧ w.player.godMode = false ∧
          w.player.isInvincible = false ∧
          distance w.platform w.player.position.x w.player.position.y
              enemy.position.x enemy.position.y
            < (w.player.size - 4) + enemy.size) ∧
      ((w.player.godMode = true ∨ w.player.isInvincible = true ∨ w.player.invulnerable = true) →
        Player.checkCollision w enemy = false) := by
  unfold Player.checkCollision circleCollision
  constructor
  · cases w.player.alive <;> cases w.player.invulnerable <;> cases w.player.godMode <;>
      cases w.player.isInvincible <;> simp
  · intro h
    rcases h with h | h | h <;> simp [h]

/-- C9, worked example: the sample player (size 12) and the sample spinner (size 12) moved to
`(403, 304)`, five units away, collide; with god mode on they do not. -/
theorem checkCollision_iff_witness :
    Player.checkCollision sampleWorld { sampleSpinner with position := ⟨403, 304⟩ } = true ∧
      Player.checkCollision
        { sampleWorld with player := { samplePlayer with godMode := true } }
        { sampleSpinner with position := ⟨403, 304⟩ } = false := by
  constructor
  · rw [(checkCollision_iff sampleWorld _).1]
    refine ⟨rfl, rfl, rfl, rfl, ?_⟩
    have h25 : Nat.sqrt 25 = 5 := by norm_num
    have hf : Int.floor ((403 - 400 : ℚ) * (403 - 400) + (304 - 300) * (304 - 300)) = 25 := by
      norm_num
    have ht : Int.toNat 25 = 25 := by decide
    simp only [distance, sampleWorld, samplePlatform, samplePlayer, sampleSpinner, hf, ht, h25]
    norm_num
  · exact (checkCollision_iff _ _).2 (Or.inl rfl)

/-- The inner loop of `checkProjectileCollision` either finds no hit among the indices below
`n` and leaves the list alone, or removes the hit of highest index below `n`. -/
theorem checkProjectileLoop_spec (P : Platform) (enemy : Enemy) (ps : List Projectile) (n : ℕ) :
    (checkProjectileLoop P enemy ps n = (false, ps) ∧
        ∀ j q, j < n → ps[j]? = some q → projectileHits P enemy q = false) ∨
      (∃ i p, i < n ∧ ps[i]? = some p ∧ projectileHits P enemy p = true ∧
        (∀ j q, i < j → j < n → ps[j]? = some q → projectileHits P enemy q = false) ∧
        checkProjectileLoop P enemy ps n = (true, ps.eraseIdx i)) := by
  induction n with
  | zero =>
    left
    exact ⟨rfl, fun j q hj => absurd hj (Nat.not_lt_zero j)⟩
  | succ k ih =>
    cases hk : ps[k]? with
    | none =>
      have hloop : checkProjectileLoop P enemy ps (k + 1) = checkProjectileLoop P enemy ps k := by
        simp only [checkProjectileLoop, hk]
      rw [hloop]
      rcases ih with ⟨h1, h2⟩ | ⟨i, p, hi, hp, hhit, hlater, hres⟩
      · left
        refine ⟨h1, fun j q hj hq => ?_⟩
        rcases Nat.lt_succ_iff_lt_or_eq.mp hj with hlt | heq
        · exact h2 j q hlt hq
        · subst heq
          rw [hk] at hq
          exact absurd hq (by simp)
      · right
        refine ⟨i, p, Nat.lt_succ_of_lt hi, hp, hhit, fun j q hij hj hq => ?_, hres⟩
        rcases Nat.lt_succ_iff_lt_or_eq.mp hj with hlt | heq
        · exact hlater j q hij hlt hq
        · subst heq
          rw [hk] at hq
          exact absurd hq (by simp)
    | some p =>
      by_cases hhit : projectileHits P enemy p = true
      · right
        refine ⟨k, p, Nat.lt_succ_self k, hk, hhit, fun j q hkj hj _ => ?_, ?_⟩
        · omega
        · simp only [checkProjectileLoop, hk, hhit, if_true]
      · have hloop :
            checkProjectileLoop P enemy ps (k + 1) = checkProjectileLoop P enemy ps k := by
          simp only [checkProjectileLoop, hk, hhit, Bool.false_eq_true, if_false]
        have hmiss : projectileHits P enemy p = false := by simpa using hhit
        rw [hloop]
        rcases ih with ⟨h1, h2⟩ | ⟨i, p', hi, hp, hhit', hlater, hres⟩
        · left
          refine ⟨h1, fun j q hj hq => ?_⟩
          rcases Nat.lt_succ_iff_lt_or_eq.mp hj with hlt | heq
          · exact h2 j q hlt hq
          · subst heq
            rw [hk] at hq
            cases hq
            exact hmiss
        · right
          refine ⟨i, p', Nat.lt_succ_of_lt hi, hp, hhit', fun j q hij hj hq => ?_, hres⟩
          rcases Nat.lt_succ_iff_lt_or_eq.mp hj with hlt | heq
          · exact hlater j q hij hlt hq
          · subst heq
            rw [hk] at hq
            cases hq
            exact hmiss

theorem projectileHits_iff (P : Platform) (enemy : Enemy) (p : Projectile) :
    projectileHits P enemy p = true ↔ Overlaps P enemy p := by
  simp [projectileHits, circleCollision, Overlaps]

/-- C10: `checkProjectileCollision(enemy)` returns true exactly when some live projectile
overlaps the enemy. When it returns true, exactly one projectile is removed: the newest
(highest-index) overlapping one, the others keeping their order; when it returns false nothing
changes. -/
theorem checkProjectileCollision_spec (enemy : Enemy) (w : World) :
    ((Player.checkProjectileCollision enemy w).1 = true ↔
        ∃ p ∈ w.player.projectiles, Overlaps w.platform enemy p) ∧
      ((Player.checkProjectileCollision enemy w).1 = true →
        ∃ older p newer, w.player.projectiles = older ++ p :: newer ∧
          Overlaps w.platform enemy p ∧ (∀ q ∈ newer, ¬ Overlaps w.platform enemy q) ∧
          (Player.checkProjectileCollision enemy w).2 =
            { w with player := { w.player with projectiles := older ++ newer } }) ∧
      ((Player.checkProjectileCollision enemy w).1 = false →
        (Player.checkProjectileCollision enemy w).2 = w) := by
  unfold Player.checkProjectileCollision
  simp only []
  rcases checkProjectileLoop_spec w.platform enemy w.player.projectiles
      w.player.projectiles.length with ⟨h1, h2⟩ | ⟨i, p, hi, hp, hhit, hlater, hres⟩
  · rw [h1]
    refine ⟨?_, ?_, ?_⟩
    · constructor
      · intro h
        exact absurd h (by simp)
      · rintro ⟨p, hp, hov⟩
        obtain ⟨j, hj⟩ := List.mem_iff_getElem?.mp hp
        have hlt : j < w.player.projectiles.length := by
          obtain ⟨hlt, _⟩ := List.getElem?_eq_some.mp hj
          exact hlt
        have hmiss := h2 j p hlt hj
        rw [(projectileHits_iff _ _ _).mpr hov] at hmiss
        exact absurd hmiss (by simp)
    · intro h
      exact absurd h (by simp)
    · intro _
      rfl
  · rw [hres]
    have hsplit : w.player.projectiles =
        w.player.projectiles.take i ++ p :: w.player.projectiles.drop (i + 1) := by
      obtain ⟨hlt, hget⟩ := List.getElem?_eq_some.mp hp
      have hd := List.drop_eq_getElem_cons hlt
      rw [hget] at hd
      rw [← hd, List.take_append_drop]
    refine ⟨?_, ?_, ?_⟩
    · constructor
      · intro _
        exact ⟨p, List.mem_iff_getElem?.mpr ⟨i, hp⟩, (projectileHits_iff _ _ _).mp hhit⟩
      · intro _
        rfl
    · intro _
      refine ⟨w.player.projectiles.take i, p, w.player.projectiles.drop (i + 1), hsplit,
        (projectileHits_iff _ _ _).mp hhit, ?_, ?_⟩
      · intro q hq hov
        obtain ⟨m, hm⟩ := List.mem_iff_getElem?.mp hq
        rw [List.getElem?_drop] at hm
        have hlt : i + 1 + m < w.player.projectiles.length := by
          obtain ⟨hlt, _⟩ := List.getElem?_eq_some.mp hm
          exact hlt
        have hmiss := hlater (i + 1 + m) q (by omega) hlt hm
        rw [(projectileHits_iff _ _ _).mpr hov] at hmiss
        exact absurd hmiss (by simp)
      · rw [List.eraseIdx_eq_take_drop_succ]
    · intro h
      exact absurd h (by simp)

/-- C10, worked example: of the three sample projectiles the two newer ones overlap the sample
seeker; the call returns true and removes the newest only. -/
theorem checkProjectileCollision_spec_witness :
    (Player.checkProjectileCollision sampleSeeker shootingWorld).1 = true ∧
      (Player.checkProjectileCollision sampleSeeker shootingWorld).2.player.projectiles =
        [sampleShot 700 500, sampleShot 100 100] := by
  have hov : Overlaps samplePlatform sampleSeeker (sampleShot 101 100) := by
    have hf : Int.floor ((100 - 101 : ℚ) * (100 - 101) + (100 - 100) * (100 - 100)) = 1 := by
      norm_num
    have ht : Int.toNat 1 = 1 := by decide
    have h1 : Nat.sqrt 1 = 1 := by norm_num
    simp only [Overlaps, distance, samplePlatform, sampleSeeker, sampleShot, hf, ht, h1]
    norm_num
  refine ⟨((checkProjectileCollision_spec sampleSeeker shootingWorld).1).mpr
    ⟨sampleShot 101 100, by simp [shootingWorld], hov⟩, ?_⟩
  have hhit : projectileHits samplePlatform sampleSeeker (sampleShot 101 100) = true :=
    (projectileHits_iff _ _ _).mpr hov
  simp [Player.checkProjectileCollision, shootingWorld, sampleWorld, checkProjectileLoop, hhit]

/-! ## The combo and multiplier fields through `update()` -/

@[simp] theorem comboState_advance (w : World) (n : ℕ) :
    (w.advance n).comboState = w.comboState := rfl

@[simp] theorem comboState_advanceNow (w : World) (n : ℕ) :
    (w.advanceNow n).comboState = w.comboState := rfl

@[simp] theorem comboState_alloc (e : Enemy) (w : World) :
    (w.alloc e).comboState = w.comboState := rfl

@[simp] theorem comboState_setEnemy (id : ℕ) (e : Enemy) (w : World) :
    (w.setEnemy id e).comboState = w.comboState := rfl

@[simp] theorem comboState_pushEnemy (id : ℕ) (w : World) :
    (w.pushEnemy id).comboState = w.comboState := rfl

@[simp] theorem comboState_spliceEnemy (i : ℕ) (w : World) :
    (w.spliceEnemy i).comboState = w.comboState := rfl

@[simp] theorem comboState_pushEnemyProjectile (p : Projectile) (w : World) :
    (w.pushEnemyProjectile p).comboState = w.comboState := rfl

@[simp] theorem comboState_setEnemyProjectile (i : ℕ) (p : Projectile) (w : World) :
    (w.setEnemyProjectile i p).comboState = w.comboState := rfl

@[simp] theorem comboState_spliceEnemyProjectile (i : ℕ) (w : World) :
    (w.spliceEnemyProjectile i).comboState = w.comboState := rfl

@[simp] theorem comboState_addScore (points : ℤ) (w : World) :
    (w.addScore points).comboState = w.comboState := rfl

theorem blind_comboState : ParticleBlind World.comboState := fun _ _ _ _ => rfl

@[simp] theorem comboState_createExplosion (x y count : ℚ) (color : String)
    (speed size decay : ℚ) (w : World) :
    (createExplosion x y count color speed size decay w).comboState = w.comboState :=
  createExplosion_blind blind_comboState x y count color speed size decay w

@[simp] theorem comboState_createDebris (x y count : ℚ) (color : String) (speed : ℚ)
    (w : World) : (createDebris x y count color speed w).comboState = w.comboState :=
  createDebris_blind blind_comboState x y count color speed w

@[simp] theorem comboState_createScoreText (x y : ℚ) (text color : String) (w : World) :
    (createScoreText x y text color w).comboState = w.comboState :=
  createScoreText_blind blind_comboState x y text color w

@[simp] theorem comboState_addTrail (x y : ℚ) (color : String) (size : ℚ) (w : World) :
    (addTrail x y color size w).comboState = w.comboState := rfl

@[simp] theorem comboState_createMassiveExplosion (x y : ℚ) (w : World) :
    (createMassiveExplosion x y w).comboState = w.comboState :=
  createMassiveExplosion_blind blind_comboState x y w

@[simp] theorem comboState_fireProjectile (e : Enemy) (speed size : ℚ) (w : World) :
    (fireProjectile e speed size w).comboState = w.comboState := rfl

@[simp] theorem comboState_fireProjectileAngle (e : Enemy) (angle speed size : ℚ)
    (color : String) (w : World) :
    (fireProjectileAngle e angle speed size color w).comboState = w.comboState := rfl

theorem foldl_preserves {α β : Type} (π : World → α) (f : World → β → World)
    (hf : ∀ w b, π (f w b) = π w) (l : List β) (w : World) : π (l.foldl f w) = π w := by
  induction l generalizing w with
  | nil => rfl
  | cons b rest ih => rw [List.foldl_cons, ih, hf]

@[simp] theorem comboState_fireCircleAttack (e : Enemy) (count speed : ℚ) (w : World) :
    (fireCircleAttack e count speed w).comboState = w.comboState := by
  unfold fireCircleAttack
  exact foldl_preserves World.comboState
    (fun (acc : World) (i : ℕ) =>
      fireProjectileAngle e ((i : ℚ) / count * acc.platform.PI * 2) speed 5 "#ff0" acc)
    (fun _ _ => rfl) _ w

@[simp] theorem comboState_die (w : World) : (Player.die w).comboState = w.comboState := by
  unfold Player.die
  split
  · rfl
  · simp only [Grid.addCameraShake]
    show (createDebris _ _ _ _ _ _).comboState = _
    rw [comboState_createDebris, comboState_createMassiveExplosion]
    rfl

@[simp] theorem comboState_checkProjectileCollision (e : Enemy) (w : World) :
    (Player.checkProjectileCollision e w).2.comboState = w.comboState := rfl

@[simp] theorem comboState_seekerAim (e : Enemy) (w : World) :
    (seekerAim e w).2.comboState = w.comboState := by
  unfold seekerAim
  split_ifs <;> rfl

@[simp] theorem comboState_seekerFire (e : Enemy) (w : World) :
    (seekerFire e w).2.comboState = w.comboState := by
  unfold seekerFire
  split_ifs <;> rfl

@[simp] theorem comboState_seekerUpdate (e : Enemy) (w : World) :
    (seekerUpdate e w).2.comboState = w.comboState := by
  unfold seekerUpdate
  simp only [comboState_seekerFire, comboState_seekerAim]

@[simp] theorem comboState_wandererTurn (e : Enemy) (w : World) :
    (wandererTurn e w).2.comboState = w.comboState := by
  unfold wandererTurn
  simp only []
  split_ifs <;> rfl

@[simp] theorem comboState_wandererShoot (e : Enemy) (w : World) :
    (wandererShoot e w).2.comboState = w.comboState := by
  unfold wandererShoot
  split_ifs <;> rfl

@[simp] theorem comboState_wandererUpdate (e : Enemy) (w : World) :
    (wandererUpdate e w).2.comboState = w.comboState := by
  unfold wandererUpdate
  simp only [comboState_wandererShoot, comboState_wandererTurn]

@[simp] theorem comboState_spinnerRetarget (e : Enemy) (w : World) :
    (spinnerRetarget e w).2.comboState = w.comboState := by
  unfold spinnerRetarget
  split_ifs <;> rfl

@[simp] theorem comboState_spinnerShoot (e : Enemy) (w : World) :
    (spinnerShoot e w).2.comboState = w.comboState := by
  unfold spinnerShoot
  split_ifs <;> rfl

@[simp] theorem comboState_spinnerUpdate (e : Enemy) (w : World) :
    (spinnerUpdate e w).2.comboState = w.comboState := by
  unfold spinnerUpdate
  simp only [comboState_spinnerShoot, comboState_spinnerRetarget]

@[simp] theorem comboState_bossAttack (e : Enemy) (w : World) :
    (bossAttack e w).2.comboState = w.comboState := by
  unfold bossAttack
  simp only []
  split_ifs
  · exact comboState_fireCircleAttack _ _ _ _
  · rfl
  · rfl
  · rfl

@[simp] theorem comboState_bossUpdate (e : Enemy) (w : World) :
    (bossUpdate e w).2.comboState = w.comboState := by
  unfold bossUpdate
  exact comboState_bossAttack _ _

@[simp] theorem comboState_enemyBehaviour (e : Enemy) (w : World) :
    (enemyBehaviour e w).2.comboState = w.comboState := by
  unfold enemyBehaviour
  split <;> simp

@[simp] theorem comboState_enemyTrail (e : Enemy) (w : World) :
    (enemyTrail e w).comboState = w.comboState := by
  unfold enemyTrail
  split_ifs <;> simp

@[simp] theorem comboState_shieldBounce (e : Enemy) (w : World) :
    (shieldBounce e w).2.comboState = w.comboState := by
  unfold shieldBounce
  simp only []
  split_ifs <;> simp

theorem Kills.refl (w : World) : Kills w w := ⟨0, rfl⟩

theorem Kills.trans {u v w : World} (h1 : Kills u v) (h2 : Kills v w) : Kills u w := by
  obtain ⟨n, hn⟩ := h1
  obtain ⟨m, hm⟩ := h2
  exact ⟨m + n, by rw [hm, hn, Function.iterate_add_apply]⟩

theorem Kills.of_eq {w v : World} (h : v.comboState = w.comboState) : Kills w v :=
  ⟨0, h⟩

theorem Kills.congr_left {u w v : World} (h : w.comboState = u.comboState) (hk : Kills w v) :
    Kills u v :=
  Kills.trans (Kills.of_eq h) hk

theorem Kills.congr_right {w v u : World} (hk : Kills w v) (h : u.comboState = v.comboState) :
    Kills w u :=
  Kills.trans hk (Kills.of_eq h)

theorem comboState_destroyEnemy (e : Enemy) (i : ℕ) (w : World) :
    (destroyEnemy e i w).comboState = w.comboState.kill := by
  unfold World.comboState ComboState.kill
  rw [destroyEnemy_enemyManager, updateScore_enemyManager]
  by_cases h10 : w.enemyManager.combo + 1 ≥ 10
  · simp only [h10, if_true]
  · by_cases h5 : w.enemyManager.combo + 1 ≥ 5
    · simp only [h10, h5, if_true, if_false]
    · simp only [h10, h5, if_false]

theorem destroyEnemy_kills (e : Enemy) (i : ℕ) (w : World) : Kills w (destroyEnemy e i w) :=
  ⟨1, comboState_destroyEnemy e i w⟩

@[simp] theorem comboState_hitParticles (e : Enemy) (now : ℤ) (w : World) :
    (hitParticles e now w).2.comboState = w.comboState := by
  unfold hitParticles
  simp only []
  split_ifs <;> first | rfl | exact comboState_createExplosion _ _ _ _ _ _ _ _

@[simp] theorem comboState_hitScoreText (e : Enemy) (now hitPoints : ℤ) (w : World) :
    (hitScoreText e now hitPoints w).2.comboState = w.comboState := by
  unfold hitScoreText
  split_ifs
  · exact comboState_createScoreText _ _ _ _ _
  · rfl

theorem hitEnemy_kills (e : Enemy) (i id : ℕ) (w : World) : Kills w (hitEnemy e i id w) := by
  have hpre : ∀ (e1 : Enemy) (now : ℤ),
      (World.setEnemy id
        (hitScoreText (hitParticles e1 now (w.advanceNow 1)).1 now 50
          ((hitParticles e1 now (w.advanceNow 1)).2.addScore 50)).1
        (hitScoreText (hitParticles e1 now (w.advanceNow 1)).1 now 50
          ((hitParticles e1 now (w.advanceNow 1)).2.addScore 50)).2).comboState
        = w.comboState := by
    intro e1 now
    rw [comboState_setEnemy, comboState_hitScoreText, comboState_addScore,
      comboState_hitParticles, comboState_advanceNow]
  unfold hitEnemy
  simp only []
  split_ifs
  · exact Kills.congr_left (hpre _ _) (destroyEnemy_kills _ _ _)
  · exact Kills.of_eq (hpre _ _)

theorem enemyResolve_kills (e : Enemy) (i id : ℕ) (hit : Bool) (w : World) :
    Kills w (enemyResolve e i id hit w) := by
  unfold enemyResolve
  split_ifs
  · exact hitEnemy_kills _ _ _ _
  · exact destroyEnemy_kills _ _ _
  · exact Kills.of_eq rfl
  · exact Kills.of_eq rfl
  · exact Kills.refl w

theorem enemyStep_kills (i : ℕ) (w : World) : Kills w (enemyStep i w) := by
  unfold enemyStep
  split
  · exact Kills.refl w
  · split
    · exact Kills.refl w
    · simp only []
      refine Kills.congr_left ?_ (enemyResolve_kills _ _ _ _ _)
      rw [comboState_checkProjectileCollision]
      split_ifs <;> simp

theorem enemyLoop_kills (n : ℕ) (w : World) : Kills w (enemyLoop n w) := by
  induction n generalizing w with
  | zero => exact Kills.refl w
  | succ k ih => exact Kills.trans (enemyStep_kills k w) (ih _)

theorem reflectedDamage_kills (j id : ℕ) (e : Enemy) (w : World) :
    Kills w (reflectedDamage j id e w) := by
  have hpre : ∀ e1 : Enemy,
      (createExplosion e1.position.x e1.position.y 5 "#ffffff" 2 2 0.05
        (w.setEnemy id e1)).comboState = w.comboState := by
    intro e1
    rw [comboState_createExplosion, comboState_setEnemy]
  unfold reflectedDamage
  simp only []
  split_ifs
  · exact Kills.congr_left (hpre _) (destroyEnemy_kills _ _ _)
  · exact Kills.of_eq (hpre _)
  · exact destroyEnemy_kills _ _ _

theorem reflectedHit_kills (i j id : ℕ) (e : Enemy) (w : World) :
    Kills w (reflectedHit i j id e w) :=
  Kills.congr_right (reflectedDamage_kills j id e w) rfl

theorem projectileVersusPlayer_kills (i : ℕ) (p : Projectile) (w : World) :
    Kills w (projectileVersusPlayer i p w) := by
  unfold projectileVersusPlayer
  simp only []
  split_ifs
  · exact Kills.of_eq (by simp)
  · exact Kills.of_eq (by simp)
  · exact Kills.refl w

theorem projectileResolve_kills (i : ℕ) (p : Projectile) (w : World) :
    Kills w (projectileResolve i p w) := by
  unfold projectileResolve
  simp only []
  split_ifs
  · exact Kills.of_eq (by simp [reflectProjectile])
  · split
    · exact reflectedHit_kills _ _ _ _ _
    · exact projectileVersusPlayer_kills _ _ _
  · exact projectileVersusPlayer_kills _ _ _

theorem projectileStep_kills (i : ℕ) (w : World) : Kills w (projectileStep i w) := by
  unfold projectileStep
  split
  · exact Kills.refl w
  · simp only []
    refine Kills.congr_left ?_ (projectileResolve_kills _ _ _)
    split_ifs <;> simp

theorem projectileLoop_kills (n : ℕ) (w : World) : Kills w (projectileLoop n w) := by
  induction n generalizing w with
  | zero => exact Kills.refl w
  | succ k ih => exact Kills.trans (projectileStep_kills k w) (ih _)

theorem comboState_bossTimerPhase (w : World) :
    (bossTimerPhase w).comboState = w.comboState := by
  unfold bossTimerPhase spawnBoss createBoss
  simp only []
  split_ifs <;> rfl

theorem comboState_spawn (w : World) : (spawn w).comboState = w.comboState := by
  unfold spawn createWanderer createSpinner createSeeker
  simp only []
  split_ifs <;> rfl

theorem comboState_spawnPhase (w : World) : (spawnPhase w).comboState = w.comboState := by
  unfold spawnPhase
  simp only []
  split_ifs
  · show (spawn _).comboState = _
    rw [comboState_spawn]
    rfl
  · rfl

theorem comboState_difficultyPhase (w : World) :
    (difficultyPhase w).comboState = w.comboState := by
  unfold difficultyPhase increaseDifficulty
  simp only []
  split_ifs <;> rfl

/-- Everything `update()` does before its two timer blocks acts on the combo and multiplier
fields as a number of kills. -/
theorem updateEntities_kills (w : World) : Kills w (updateEntities w) := by
  unfold updateEntities updateProjectiles
  simp only []
  refine Kills.congr_left ?_ (Kills.trans (enemyLoop_kills _ _) (projectileLoop_kills _ _))
  rw [comboState_difficultyPhase, comboState_spawnPhase, comboState_bossTimerPhase]

theorem comboState_timerPhases (w : World) :
    (multiplierPhase (comboPhase w)).comboState = w.comboState.decay := by
  unfold multiplierPhase comboPhase World.comboState ComboState.decay
  simp only []
  split_ifs <;> rfl

/-- The combo and multiplier fields after one `update()`: some kills, then the timer blocks. -/
theorem comboState_update (w : World) :
    ∃ n, (EnemyManager.update w).comboState = (ComboState.kill^[n] w.comboState).decay := by
  obtain ⟨n, hn⟩ := updateEntities_kills w
  refine ⟨n, ?_⟩
  unfold EnemyManager.update
  rw [comboState_timerPhases, hn]

/-! ## Kills and timer blocks on the combo and multiplier fields alone -/

theorem kill_combo (c : ComboState) : c.kill.combo = c.combo + 1 := by
  unfold ComboState.kill
  split_ifs <;> rfl

theorem kill_killLog (c : ComboState) : c.kill.killLog = c.killLog ++ [c.combo + 1] := by
  unfold ComboState.kill
  split_ifs <;> rfl

theorem kill_comboTimer (c : ComboState) : c.kill.comboTimer = 120 := by
  unfold ComboState.kill
  split_ifs <;> rfl

theorem kill_low (c : ComboState) (h : c.combo + 1 < 5) :
    c.kill.scoreMultiplier = c.scoreMultiplier ∧ c.kill.multiplierTimer = c.multiplierTimer := by
  unfold ComboState.kill
  have h10 : ¬ (c.combo + 1 ≥ 10) := by omega
  have h5 : ¬ (c.combo + 1 ≥ 5) := by omega
  simp only [h10, h5, if_false, and_self]

theorem kill_high (c : ComboState) (h : 5 ≤ c.combo + 1) :
    c.kill.multiplierTimer = 300 ∧ (c.kill.scoreMultiplier = 2 ∨ c.kill.scoreMultiplier = 4) := by
  unfold ComboState.kill
  by_cases h10 : c.combo + 1 ≥ 10
  · rw [if_pos h10]
    exact ⟨rfl, Or.inr rfl⟩
  · have h5 : c.combo + 1 ≥ 5 := h
    rw [if_neg h10, if_pos h5]
    exact ⟨rfl, Or.inl rfl⟩

theorem kill_mem (c : ComboState)
    (h : c.scoreMultiplier = 1 ∨ c.scoreMultiplier = 2 ∨ c.scoreMultiplier = 4) :
    c.kill.scoreMultiplier = 1 ∨ c.kill.scoreMultiplier = 2 ∨ c.kill.scoreMultiplier = 4 := by
  unfold ComboState.kill
  split_ifs
  · exact Or.inr (Or.inr rfl)
  · exact Or.inr (Or.inl rfl)
  · exact h

theorem kill_iterate_combo (c : ComboState) (n : ℕ) :
    (ComboState.kill^[n] c).combo = c.combo + n := by
  induction n with
  | zero => rfl
  | succ k ih =>
    rw [Function.iterate_succ_apply', kill_combo, ih]
    omega

theorem kill_iterate_log (c : ComboState) (n : ℕ) :
    (ComboState.kill^[n] c).killLog =
      c.killLog ++ (List.range n).map (fun k => c.combo + k + 1) := by
  induction n with
  | zero => simp
  | succ k ih =>
    rw [Function.iterate_succ_apply', kill_killLog, ih, kill_iterate_combo]
    simp only [List.range_succ, List.map_append, List.map_cons, List.map_nil,
      List.append_assoc]

theorem kill_iterate_comboTimer (c : ComboState) {n : ℕ} (hn : 0 < n) :
    (ComboState.kill^[n] c).comboTimer = 120 := by
  obtain ⟨k, rfl⟩ : ∃ k, n = k + 1 := ⟨n - 1, by omega⟩
  rw [Function.iterate_succ_apply', kill_comboTimer]

theorem kill_iterate_low (c : ComboState) {n : ℕ} (h : n = 0 ∨ c.combo + n < 5) :
    (ComboState.kill^[n] c).scoreMultiplier = c.scoreMultiplier ∧
      (ComboState.kill^[n] c).multiplierTimer = c.multiplierTimer := by
  induction n with
  | zero => exact ⟨rfl, rfl⟩
  | succ k ih =>
    have hlow : c.combo + (k + 1) < 5 := by
      rcases h with h | h
      · omega
      · exact h
    have hk := ih (Or.inr (by omega))
    have hstep := kill_low (ComboState.kill^[k] c) (by rw [kill_iterate_combo]; omega)
    rw [Function.iterate_succ_apply', hstep.1, hstep.2]
    exact hk

theorem kill_iterate_high (c : ComboState) {n : ℕ} (hn : 0 < n) (h : 5 ≤ c.combo + n) :
    (ComboState.kill^[n] c).multiplierTimer = 300 ∧
      ((ComboState.kill^[n] c).scoreMultiplier = 2 ∨
        (ComboState.kill^[n] c).scoreMultiplier = 4) := by
  obtain ⟨k, rfl⟩ : ∃ k, n = k + 1 := ⟨n - 1, by omega⟩
  rw [Function.iterate_succ_apply']
  exact kill_high _ (by rw [kill_iterate_combo]; omega)

theorem kill_iterate_mem (c : ComboState) (n : ℕ)
    (h : c.scoreMultiplier = 1 ∨ c.scoreMultiplier = 2 ∨ c.scoreMultiplier = 4) :
    (ComboState.kill^[n] c).scoreMultiplier = 1 ∨ (ComboState.kill^[n] c).scoreMultiplier = 2 ∨
      (ComboState.kill^[n] c).scoreMultiplier = 4 := by
  induction n with
  | zero => exact h
  | succ k ih =>
    rw [Function.iterate_succ_apply']
    exact kill_mem _ ih

theorem decay_mem (c : ComboState)
    (h : c.scoreMultiplier = 1 ∨ c.scoreMultiplier = 2 ∨ c.scoreMultiplier = 4) :
    c.decay.scoreMultiplier = 1 ∨ c.decay.scoreMultiplier = 2 ∨ c.decay.scoreMultiplier = 4 := by
  unfold ComboState.decay
  simp only []
  split_ifs <;> first | exact h | exact Or.inl rfl

theorem decay_killLog (c : ComboState) : c.decay.killLog = c.killLog := by
  unfold ComboState.decay
  simp only []
  split_ifs <;> rfl

/-- The combo after the timer blocks: reset when the decremented timer has run out. -/
theorem decay_combo (c : ComboState) :
    c.decay.combo = (if 0 < c.combo ∧ c.comboTimer - 1 ≤ 0 then 0 else c.combo) ∧
      c.decay.comboTimer = (if 0 < c.combo then c.comboTimer - 1 else c.comboTimer) := by
  unfold ComboState.decay
  simp only []
  split_ifs <;> first | exact ⟨rfl, rfl⟩ | (exfalso; tauto)

/-- The multiplier after the timer blocks: back to 1 when its decremented timer has run out;
the combo block plays no part. -/
theorem decay_multiplier (c : ComboState) :
    c.decay.scoreMultiplier =
        (if 1 < c.scoreMultiplier ∧ c.multiplierTimer - 1 ≤ 0 then 1 else c.scoreMultiplier) ∧
      c.decay.multiplierTimer =
        (if 1 < c.scoreMultiplier then c.multiplierTimer - 1 else c.multiplierTimer) := by
  unfold ComboState.decay
  simp only []
  split_ifs <;> first | exact ⟨rfl, rfl⟩ | (exfalso; tauto)

/-- One `update()` seen on the combo and multiplier fields: `n` kills, then the timer blocks;
the kills of that update reach the combos `combo + 1, ..., combo + n`. -/
theorem update_spec (w : World) :
    ∃ n, (EnemyManager.update w).comboState = (ComboState.kill^[n] w.comboState).decay ∧
      newKills w = (List.range n).map (fun k => w.enemyManager.combo + k + 1) := by
  obtain ⟨n, hn⟩ := comboState_update w
  refine ⟨n, hn, ?_⟩
  have hlog : (EnemyManager.update w).enemyManager.killLog
      = w.enemyManager.killLog ++ (List.range n).map (fun k => w.enemyManager.combo + k + 1) := by
    have h1 : (EnemyManager.update w).comboState.killLog
        = ((ComboState.kill^[n] w.comboState).decay).killLog := by rw [hn]
    rw [decay_killLog, kill_iterate_log] at h1
    exact h1
  unfold newKills
  rw [hlog, List.drop_left]

theorem newKills_eq_nil {w : World} {n : ℕ}
    (h : newKills w = (List.range n).map (fun k => w.enemyManager.combo + k + 1)) :
    newKills w = [] ↔ n = 0 := by
  rw [h]
  simp

theorem newKills_high {w : World} {n : ℕ}
    (h : newKills w = (List.range n).map (fun k => w.enemyManager.combo + k + 1))
    (hex : ∃ c ∈ newKills w, 5 ≤ c) : 0 < n ∧ 5 ≤ w.enemyManager.combo + n := by
  rw [h] at hex
  obtain ⟨c, hc, h5⟩ := hex
  simp only [List.mem_map, List.mem_range] at hc
  obtain ⟨k, hk, rfl⟩ := hc
  omega

theorem newKills_low {w : World} {n : ℕ}
    (h : newKills w = (List.range n).map (fun k => w.enemyManager.combo + k + 1))
    (hall : ∀ c ∈ newKills w, c < 5) : n = 0 ∨ w.enemyManager.combo + n < 5 := by
  rcases Nat.eq_zero_or_pos n with h0 | hpos
  · exact Or.inl h0
  · right
    have hmem : w.enemyManager.combo + (n - 1) + 1 ∈ newKills w := by
      rw [h]
      simp only [List.mem_map, List.mem_range]
      exact ⟨n - 1, by omega, rfl⟩
    have := hall _ hmem
    omega

/-- The timer blocks at the end of `update()` write the combo and multiplier fields only. -/
theorem timerPhases_frame (w : World) :
    (multiplierPhase (comboPhase w)).enemyManager.enemies = w.enemyManager.enemies ∧
      (multiplierPhase (comboPhase w)).enemyManager.enemyProjectiles
        = w.enemyManager.enemyProjectiles ∧
      (multiplierPhase (comboPhase w)).enemyManager.bossActive = w.enemyManager.bossActive ∧
      (multiplierPhase (comboPhase w)).enemyManager.bossTimer = w.enemyManager.bossTimer ∧
      (multiplierPhase (comboPhase w)).enemyManager.spawnTimer = w.enemyManager.spawnTimer ∧
      (multiplierPhase (comboPhase w)).enemyManager.spawnRate = w.enemyManager.spawnRate ∧
      (multiplierPhase (comboPhase w)).enemyManager.difficultyTimer
        = w.enemyManager.difficultyTimer ∧
      (multiplierPhase (comboPhase w)).enemyManager.difficultyInterval
        = w.enemyManager.difficultyInterval := by
  unfold multiplierPhase comboPhase
  simp only []
  split_ifs <;> exact ⟨rfl, rfl, rfl, rfl, rfl, rfl, rfl, rfl⟩

/-- An update of an idle manager only counts its timers. -/
theorem updateEntities_idle {r : ℕ} {w : World} (h : IdleFor (r + 1) w) :
    updateEntities w =
      { w with enemyManager :=
          { w.enemyManager with
              bossTimer := w.enemyManager.bossTimer - 1
              spawnTimer := w.enemyManager.spawnTimer + 1
              difficultyTimer := w.enemyManager.difficultyTimer + 1 } } := by
  obtain ⟨hE, hP, hB, hT, hS, hD⟩ := h
  push_cast at hT hS hD
  have h1 : bossTimerPhase w =
      { w with enemyManager :=
          { w.enemyManager with bossTimer := w.enemyManager.bossTimer - 1 } } := by
    unfold bossTimerPhase
    simp only [hB, Bool.not_false, if_true]
    rw [if_neg (by omega)]
  have h2 : spawnPhase (bossTimerPhase w) =
      { w with enemyManager :=
          { w.enemyManager with
              bossTimer := w.enemyManager.bossTimer - 1
              spawnTimer := w.enemyManager.spawnTimer + 1 } } := by
    rw [h1]
    unfold spawnPhase
    simp only []
    rw [if_neg (by rintro ⟨hge, _⟩; omega)]
  have h3 : difficultyPhase (spawnPhase (bossTimerPhase w)) =
      { w with enemyManager :=
          { w.enemyManager with
              bossTimer := w.enemyManager.bossTimer - 1
              spawnTimer := w.enemyManager.spawnTimer + 1
              difficultyTimer := w.enemyManager.difficultyTimer + 1 } } := by
    rw [h2]
    unfold difficultyPhase
    simp only []
    rw [if_neg (by intro hge; omega)]
  unfold updateEntities updateProjectiles
  simp only []
  rw [h3]
  simp only [hE, hP, List.length_nil, enemyLoop, projectileLoop]

/-- An idle manager stays idle through an update, which applies the timer blocks to the combo
and multiplier fields and destroys nothing. -/
theorem update_idle {r : ℕ} {w : World} (h : IdleFor (r + 1) w) :
    IdleFor r (EnemyManager.update w) ∧
      (EnemyManager.update w).comboState = w.comboState.decay ∧ newKills w = [] := by
  have hu := updateEntities_idle h
  obtain ⟨hE, hP, hB, hT, hS, hD⟩ := h
  push_cast at hT hS hD
  have hc : (EnemyManager.update w).comboState = w.comboState.decay := by
    unfold EnemyManager.update
    rw [comboState_timerPhases, hu]
    rfl
  refine ⟨?_, hc, ?_⟩
  · obtain ⟨f1, f2, f3, f4, f5, f6, f7, f8⟩ := timerPhases_frame (updateEntities w)
    unfold IdleFor EnemyManager.update
    rw [f1, f2, f3, f4, f5, f6, f7, f8, hu]
    simp only [hE, hP, hB]
    refine ⟨trivial, trivial, trivial, ?_, ?_, ?_⟩ <;> omega
  · have hlog : (EnemyManager.update w).enemyManager.killLog = w.enemyManager.killLog := by
      have := congrArg ComboState.killLog hc
      rw [decay_killLog] at this
      exact this
    unfold newKills
    rw [hlog, List.drop_length]

/-! ## The sample run: one kill, then an idle manager -/

/-- The manager after the update of the sample session `killWorld`: the shot has destroyed the
wanderer (50 points at multiplier 1, combo 5, multiplier 2) and both timers have counted
once. -/
theorem killWorld_update :
    (EnemyManager.update killWorld).enemyManager =
      { EnemyManager.new 1 with
          spawnRate := 1000, spawnTimer := 1, difficultyTimer := 1, bossTimer := 1799,
          score := 450, combo := 5, comboTimer := 119, scoreMultiplier := 2,
          multiplierTimer := 299, killLog := [1, 2, 3, 4, 5] } := by
  have hmag : samplePlatform.sqrt 0 = 0 := by
    simp [samplePlatform]
  norm_num [EnemyManager.update, updateEntities, bossTimerPhase, spawnPhase, difficultyPhase,
    enemyLoop, updateProjectiles, projectileLoop, comboPhase, multiplierPhase,
    enemyStep, killWorld, sampleWorld, samplePlayer, sampleWanderer, sampleShot,
    EnemyManager.new, enemyBehaviour, wandererUpdate, wandererTurn, wandererMove, wandererShoot,
    enemyTrail, shieldBounce, World.setEnemy, Player.checkCollision,
    Player.checkProjectileCollision, checkProjectileLoop, projectileHits, circleCollision,
    distance, enemyResolve, truthy, Vector.add, hmag, destroyEnemy_enemyManager,
    updateScore_enemyManager]

theorem killWorld_newKills : newKills killWorld = [5] := by
  unfold newKills
  rw [killWorld_update]
  rfl

theorem killWorld_idle : IdleFor 300 (EnemyManager.update killWorld) := by
  unfold IdleFor
  rw [killWorld_update]
  simp [EnemyManager.new]

theorem sampleRun_idle (k : ℕ) (hk : k ≤ 300) : IdleFor (300 - k) (sampleRun (k + 1)) := by
  induction k with
  | zero => exact killWorld_idle
  | succ j ih =>
    have hj := ih (by omega)
    have hr : 300 - j = (300 - (j + 1)) + 1 := by omega
    rw [hr] at hj
    exact (update_idle hj).1

/-- In the sample run the updates 2 to 300 destroy nothing. -/
theorem sampleRun_quiet (k : ℕ) (h1 : 1 ≤ k) (hk : k < 300) : newKills (sampleRun k) = [] := by
  obtain ⟨j, rfl⟩ : ∃ j, k = j + 1 := ⟨k - 1, by omega⟩
  have hidle := sampleRun_idle j (by omega)
  have hr : 300 - j = (300 - j - 1) + 1 := by omega
  rw [hr] at hidle
  exact (update_idle hidle).2.2

/-- Along a run of updates the combo and multiplier fields before an update are those left by
the update before. -/
theorem comboState_step {pre : ℕ → World}
    (hstep : ∀ k, (pre (k + 1)).enemyManager = (EnemyManager.update (pre k)).enemyManager)
    (k : ℕ) : (pre (k + 1)).comboState = (EnemyManager.update (pre k)).comboState := by
  unfold World.comboState
  rw [hstep k]

/-! ## C4: the multiplier when the combo expires -/

/-- C4 (amended): an `update()` in which the combo expires (it was positive before and is 0
after) leaves the multiplier to its own timer: afterwards `scoreMultiplier` is 1 only if it
was 1 already or `multiplierTimer` ran out in the same update (was at most 1), and otherwise
keeps its value. -/
theorem multiplier_when_combo_expires (w : World) (_hpos : 0 < w.enemyManager.combo)
    (hzero : (EnemyManager.update w).enemyManager.combo = 0) :
    (EnemyManager.update w).enemyManager.scoreMultiplier =
      (if 1 < w.enemyManager.scoreMultiplier ∧ w.enemyManager.multiplierTimer ≤ 1 then 1
       else w.enemyManager.scoreMultiplier) := by
  obtain ⟨n, hn, _⟩ := update_spec w
  have hn0 : n = 0 := by
    by_contra hne
    have hpos' : 0 < n := Nat.pos_of_ne_zero hne
    have hc : (EnemyManager.update w).comboState.combo
        = ((ComboState.kill^[n] w.comboState).decay).combo := by rw [hn]
    rw [(decay_combo _).1, kill_iterate_combo, kill_iterate_comboTimer _ hpos'] at hc
    have hz : (EnemyManager.update w).comboState.combo = 0 := hzero
    rw [hz] at hc
    have hfalse : ¬ (0 < w.comboState.combo + n ∧ (120 : ℤ) - 1 ≤ 0) := by
      rintro ⟨_, h⟩
      norm_num at h
    rw [if_neg hfalse] at hc
    omega
  subst hn0
  have hm : (EnemyManager.update w).comboState.scoreMultiplier
      = (w.comboState.decay).scoreMultiplier := by
    rw [hn]
    rfl
  rw [(decay_multiplier _).1] at hm
  have hiff : (w.comboState.multiplierTimer - 1 ≤ 0) ↔ (w.enemyManager.multiplierTimer ≤ 1) := by
    show (w.enemyManager.multiplierTimer - 1 ≤ 0) ↔ _
    constructor <;> intro h <;> omega
  have hm' : (EnemyManager.update w).enemyManager.scoreMultiplier
      = (if 1 < w.enemyManager.scoreMultiplier ∧ w.enemyManager.multiplierTimer - 1 ≤ 0 then 1
         else w.enemyManager.scoreMultiplier) := hm
  rw [hm']
  by_cases h1 : 1 < w.enemyManager.scoreMultiplier
  · by_cases h2 : w.enemyManager.multiplierTimer ≤ 1
    · rw [if_pos ⟨h1, by omega⟩, if_pos ⟨h1, h2⟩]
    · rw [if_neg (by rintro ⟨_, h⟩; omega), if_neg (by rintro ⟨_, h⟩; exact h2 h)]
  · rw [if_neg (by rintro ⟨h, _⟩; exact h1 h), if_neg (by rintro ⟨h, _⟩; exact h1 h)]

theorem comboExpiryWorld_idle : IdleFor 1 comboExpiryWorld := by
  unfold IdleFor
  simp [comboExpiryWorld, EnemyManager.new]

/-- C4, counterexample: in the sample session `comboExpiryWorld` (combo 5, `comboTimer` 1,
multiplier 2, `multiplierTimer` 181) one `update()` lets the combo expire and reset to 0, and
the multiplier is still 2 afterwards; so the claim fails as stated. -/
theorem combo_expiry_keeps_multiplier :
    (comboExpiryWorld.enemyManager.combo = 5 ∧ comboExpiryWorld.enemyManager.comboTimer = 1 ∧
        (EnemyManager.update comboExpiryWorld).enemyManager.comboTimer = 0 ∧
        (EnemyManager.update comboExpiryWorld).enemyManager.combo = 0 ∧
        (EnemyManager.update comboExpiryWorld).enemyManager.scoreMultiplier = 2) ∧
      ¬ (∀ w : World, 0 < w.enemyManager.combo →
          (EnemyManager.update w).enemyManager.combo = 0 →
          (EnemyManager.update w).enemyManager.scoreMultiplier = 1) := by
  have hc := (update_idle comboExpiryWorld_idle).2.1
  have h1 : (EnemyManager.update comboExpiryWorld).comboState.comboTimer = 0 := by
    rw [hc]
    rfl
  have h2 : (EnemyManager.update comboExpiryWorld).comboState.combo = 0 := by
    rw [hc]
    rfl
  have h3 : (EnemyManager.update comboExpiryWorld).comboState.scoreMultiplier = 2 := by
    rw [hc]
    rfl
  refine ⟨⟨rfl, rfl, h1, h2, h3⟩, fun hall => ?_⟩
  have h4 := hall comboExpiryWorld (by decide) h2
  have h5 : (EnemyManager.update comboExpiryWorld).enemyManager.scoreMultiplier = 2 := h3
  rw [h5] at h4
  exact absurd h4 (by decide)

/-- C4 (amended), worked example: in `comboExpiryWorld` the combo expires during the update
and the multiplier, whose own timer still has 181 ticks, stays 2. -/
theorem multiplier_when_combo_expires_witness :
    0 < comboExpiryWorld.enemyManager.combo ∧
      (EnemyManager.update comboExpiryWorld).enemyManager.combo = 0 ∧
      (EnemyManager.update comboExpiryWorld).enemyManager.scoreMultiplier = 2 := by
  have hz : (EnemyManager.update comboExpiryWorld).enemyManager.combo = 0 := by
    have hc := (update_idle comboExpiryWorld_idle).2.1
    have h2 : (EnemyManager.update comboExpiryWorld).comboState.combo = 0 := by
      rw [hc]
      rfl
    exact h2
  have h := multiplier_when_combo_expires comboExpiryWorld (by decide) hz
  refine ⟨by decide, hz, ?_⟩
  rw [h]
  rfl

/-! ## C5, C6: the two timers along a run of updates -/

/-- C5: if an enemy is destroyed during one `update()` and none during the 119 updates that
follow, the combo is positive after each of the first 119 of these 120 updates and is 0 after
the 120th. Between two updates the rest of the session may do anything that leaves the
manager alone. -/
theorem combo_resets_after_120_updates (pre : ℕ → World)
    (hstep : ∀ k, (pre (k + 1)).enemyManager = (EnemyManager.update (pre k)).enemyManager)
    (hkill : newKills (pre 0) ≠ [])
    (hquiet : ∀ k, 1 ≤ k → k < 120 → newKills (pre k) = []) :
    (∀ k, k < 119 → 0 < (EnemyManager.update (pre k)).enemyManager.combo) ∧
      (EnemyManager.update (pre 119)).enemyManager.combo = 0 := by
  have inv : ∀ k, k ≤ 118 →
      0 < (EnemyManager.update (pre k)).comboState.combo ∧
        (EnemyManager.update (pre k)).comboState.comboTimer = 119 - (k : ℤ) := by
    intro k
    induction k with
    | zero =>
      intro _
      obtain ⟨n, hn, hlog⟩ := update_spec (pre 0)
      have hpos : 0 < n := by
        rcases Nat.eq_zero_or_pos n with h0 | h
        · exact absurd ((newKills_eq_nil hlog).mpr h0) hkill
        · exact h
      rw [hn, (decay_combo _).1, (decay_combo _).2, kill_iterate_combo,
        kill_iterate_comboTimer _ hpos]
      have hc : 0 < (pre 0).comboState.combo + n := by omega
      have hfalse : ¬ (0 < (pre 0).comboState.combo + n ∧ (120 : ℤ) - 1 ≤ 0) := by
        rintro ⟨_, h⟩
        norm_num at h
      rw [if_neg hfalse, if_pos hc]
      exact ⟨hc, by norm_num⟩
    | succ j ih =>
      intro hj
      obtain ⟨hc, ht⟩ := ih (by omega)
      obtain ⟨n, hn, hlog⟩ := update_spec (pre (j + 1))
      have hn0 : n = 0 := (newKills_eq_nil hlog).mp (hquiet (j + 1) (by omega) (by omega))
      subst hn0
      rw [hn, Function.iterate_zero, id_eq, comboState_step hstep j, (decay_combo _).1,
        (decay_combo _).2, ht, if_pos hc]
      have hfalse : ¬ (0 < (EnemyManager.update (pre j)).comboState.combo ∧
          (119 : ℤ) - (j : ℤ) - 1 ≤ 0) := by
        rintro ⟨_, h⟩
        omega
      rw [if_neg hfalse]
      exact ⟨hc, by push_cast; ring⟩
  constructor
  · intro k hk
    exact (inv k (by omega)).1
  · obtain ⟨hc, ht⟩ := inv 118 (le_refl _)
    obtain ⟨n, hn, hlog⟩ := update_spec (pre 119)
    have hn0 : n = 0 := (newKills_eq_nil hlog).mp (hquiet 119 (by omega) (by omega))
    subst hn0
    have hfin : (EnemyManager.update (pre 119)).comboState.combo = 0 := by
      rw [hn, Function.iterate_zero, id_eq, comboState_step hstep 118, (decay_combo _).1, ht]
      rw [if_pos ⟨hc, by norm_num⟩]
    exact hfin

/-- C6: if during one `update()` a kill brings the combo to 5 or more (which sets the
multiplier to 2 or 4) and during the 299 updates that follow no kill does, the multiplier
keeps the value it has after the first of these 300 updates through the 299th and is 1 after
the 300th. Between two updates the rest of the session may do anything that leaves the
manager alone. -/
theorem multiplier_reverts_after_300_updates (pre : ℕ → World)
    (hstep : ∀ k, (pre (k + 1)).enemyManager = (EnemyManager.update (pre k)).enemyManager)
    (hkill : ∃ c ∈ newKills (pre 0), 5 ≤ c)
    (hlater : ∀ k, 1 ≤ k → k < 300 → ∀ c ∈ newKills (pre k), c < 5) :
    ((EnemyManager.update (pre 0)).enemyManager.scoreMultiplier = 2 ∨
        (EnemyManager.update (pre 0)).enemyManager.scoreMultiplier = 4) ∧
      (∀ k, k < 299 →
        (EnemyManager.update (pre k)).enemyManager.scoreMultiplier =
          (EnemyManager.update (pre 0)).enemyManager.scoreMultiplier) ∧
      (EnemyManager.update (pre 299)).enemyManager.scoreMultiplier = 1 := by
  have base : ((EnemyManager.update (pre 0)).comboState.scoreMultiplier = 2 ∨
        (EnemyManager.update (pre 0)).comboState.scoreMultiplier = 4) ∧
      (EnemyManager.update (pre 0)).comboState.multiplierTimer = 299 := by
    obtain ⟨n, hn, hlog⟩ := update_spec (pre 0)
    obtain ⟨hpos, h5⟩ := newKills_high hlog hkill
    obtain ⟨ht, hm⟩ := kill_iterate_high (pre 0).comboState hpos h5
    have hgt : 1 < (ComboState.kill^[n] (pre 0).comboState).scoreMultiplier := by
      rcases hm with h | h <;> rw [h] <;> norm_num
    rw [hn, (decay_multiplier _).1, (decay_multiplier _).2, ht, if_pos hgt]
    have hfalse : ¬ (1 < (ComboState.kill^[n] (pre 0).comboState).scoreMultiplier ∧
        (300 : ℤ) - 1 ≤ 0) := by
      rintro ⟨_, h⟩
      norm_num at h
    rw [if_neg hfalse]
    exact ⟨hm, by norm_num⟩
  have inv : ∀ k, k ≤ 298 →
      (EnemyManager.update (pre k)).comboState.scoreMultiplier =
          (EnemyManager.update (pre 0)).comboState.scoreMultiplier ∧
        (EnemyManager.update (pre k)).comboState.multiplierTimer = 299 - (k : ℤ) := by
    intro k
    induction k with
    | zero =>
      intro _
      exact ⟨rfl, by rw [base.2]; norm_num⟩
    | succ j ih =>
      intro hj
      obtain ⟨hm, ht⟩ := ih (by omega)
      obtain ⟨n, hn, hlog⟩ := update_spec (pre (j + 1))
      have hlow := newKills_low hlog (hlater (j + 1) (by omega) (by omega))
      obtain ⟨km, kt⟩ := kill_iterate_low (pre (j + 1)).comboState hlow
      rw [comboState_step hstep j] at km kt
      have hgt : 1 < (EnemyManager.update (pre j)).comboState.scoreMultiplier := by
        rw [hm]
        rcases base.1 with h | h <;> rw [h] <;> norm_num
      rw [hn, comboState_step hstep j, (decay_multiplier _).1, (decay_multiplier _).2, km, kt,
        ht, if_pos hgt]
      have hfalse : ¬ (1 < (EnemyManager.update (pre j)).comboState.scoreMultiplier ∧
          (299 : ℤ) - (j : ℤ) - 1 ≤ 0) := by
        rintro ⟨_, h⟩
        omega
      rw [if_neg hfalse]
      exact ⟨hm, by push_cast; ring⟩
  refine ⟨base.1, fun k hk => (inv k (by omega)).1, ?_⟩
  obtain ⟨hm, ht⟩ := inv 298 (le_refl _)
  obtain ⟨n, hn, hlog⟩ := update_spec (pre 299)
  have hlow := newKills_low hlog (hlater 299 (by omega) (by omega))
  obtain ⟨km, kt⟩ := kill_iterate_low (pre 299).comboState hlow
  rw [comboState_step hstep 298] at km kt
  have hgt : 1 < (EnemyManager.update (pre 298)).comboState.scoreMultiplier := by
    rw [hm]
    rcases base.1 with h | h <;> rw [h] <;> norm_num
  have hfin : (EnemyManager.update (pre 299)).comboState.scoreMultiplier = 1 := by
    rw [hn, comboState_step hstep 298, (decay_multiplier _).1, km, kt, ht]
    rw [if_pos ⟨hgt, by norm_num⟩]
  exact hfin

/-- C5, worked example: the sample run that starts in `killWorld`. Its first update destroys
the wanderer (combo 5); the combo is positive after each of the updates 1 to 119 and 0 after
update 120. -/
theorem combo_resets_after_120_updates_witness :
    newKills (sampleRun 0) = [5] ∧
      (∀ k, k < 119 → 0 < (EnemyManager.update (sampleRun k)).enemyManager.combo) ∧
      (EnemyManager.update (sampleRun 119)).enemyManager.combo = 0 := by
  have h := combo_resets_after_120_updates sampleRun (fun _ => rfl)
    (by
      show newKills killWorld ≠ []
      rw [killWorld_newKills]
      simp)
    (fun k h1 hk => sampleRun_quiet k h1 (by omega))
  exact ⟨killWorld_newKills, h.1, h.2⟩

/-- C6, worked example: the sample run that starts in `killWorld`. The kill of its first
update brings the combo to 5 and the multiplier to 2; the multiplier is 2 after each of the
updates 1 to 299 and 1 after update 300. -/
theorem multiplier_reverts_after_300_updates_witness :
    newKills (sampleRun 0) = [5] ∧
      (EnemyManager.update (sampleRun 0)).enemyManager.scoreMultiplier = 2 ∧
      (∀ k, k < 299 → (EnemyManager.update (sampleRun k)).enemyManager.scoreMultiplier = 2) ∧
      (EnemyManager.update (sampleRun 299)).enemyManager.scoreMultiplier = 1 := by
  have h := multiplier_reverts_after_300_updates sampleRun (fun _ => rfl)
    (by
      show ∃ c ∈ newKills killWorld, 5 ≤ c
      rw [killWorld_newKills]
      exact ⟨5, by simp, le_refl 5⟩)
    (fun k h1 hk c hc => by
      rw [sampleRun_quiet k h1 hk] at hc
      simp at hc)
  have h2 : (EnemyManager.update (sampleRun 0)).enemyManager.scoreMultiplier = 2 := by
    show (EnemyManager.update killWorld).enemyManager.scoreMultiplier = 2
    rw [killWorld_update]
  refine ⟨killWorld_newKills, h2, fun k hk => ?_, h.2.2⟩
  rw [h.2.1 k hk, h2]

/-! ## C7: the multiplier is 1, 2 or 4 -/

/-- C7: in every state reached from a newly constructed manager by `update()` and `reset()`
calls (with anything the rest of the session does in between) `scoreMultiplier` is 1, 2 or 4,
and so is the multiplier that `getCombo()` returns. -/
theorem scoreMultiplier_mem (w : World) (h : Reachable w) :
    (w.enemyManager.scoreMultiplier = 1 ∨ w.enemyManager.scoreMultiplier = 2 ∨
        w.enemyManager.scoreMultiplier = 4) ∧
      ((EnemyManager.getCombo w).2 = 1 ∨ (EnemyManager.getCombo w).2 = 2 ∨
        (EnemyManager.getCombo w).2 = 4) := by
  have key : w.enemyManager.scoreMultiplier = 1 ∨ w.enemyManager.scoreMultiplier = 2 ∨
      w.enemyManager.scoreMultiplier = 4 := by
    induction h with
    | init w gameScale hnew _ =>
      rw [hnew]
      exact Or.inl rfl
    | update w _ ih =>
      obtain ⟨n, hn, _⟩ := update_spec w
      have hm : (EnemyManager.update w).comboState.scoreMultiplier
          = ((ComboState.kill^[n] w.comboState).decay).scoreMultiplier := by rw [hn]
      have := decay_mem _ (kill_iterate_mem w.comboState n ih)
      rw [← hm] at this
      exact this
    | reset w _ _ => exact Or.inl rfl
    | surroundings w v _ hem _ _ ih =>
      rw [hem]
      exact ih
  exact ⟨key, key⟩

/-- C7, worked example: the sample session, a new manager after one `update()`. -/
theorem scoreMultiplier_mem_witness :
    Reachable (EnemyManager.update sampleWorld) ∧
      ((EnemyManager.update sampleWorld).enemyManager.scoreMultiplier = 1 ∨
        (EnemyManager.update sampleWorld).enemyManager.scoreMultiplier = 2 ∨
        (EnemyManager.update sampleWorld).enemyManager.scoreMultiplier = 4) :=
  ⟨Reachable.update _ (Reachable.init sampleWorld 1 rfl rfl),
    (scoreMultiplier_mem _ (Reachable.update _ (Reachable.init sampleWorld 1 rfl rfl))).1⟩

/-! ## `Player.update()` on the fields of the player -/

/-- The projectile loop of `Player.update()` writes the projectile list of the player and
nothing else of the player. -/
theorem shotStep_player (i : ℕ) (w : World) :
    ∃ ps, (shotStep i w).player = { w.player with projectiles := ps } := by
  unfold shotStep
  split
  · exact ⟨w.player.projectiles, rfl⟩
  · simp only []
    split_ifs <;> exact ⟨_, rfl⟩

theorem shotLoop_player (n : ℕ) (w : World) :
    ∃ ps, (shotLoop n w).player = { w.player with projectiles := ps } := by
  induction n generalizing w with
  | zero => exact ⟨w.player.projectiles, rfl⟩
  | succ k ih =>
    obtain ⟨ps, hps⟩ := shotStep_player k w
    obtain ⟨qs, hqs⟩ := ih (shotStep k w)
    refine ⟨qs, ?_⟩
    show (shotLoop k (shotStep k w)).player = _
    rw [hqs, hps]

theorem shotLoop_canvas (n : ℕ) (w : World) : (shotLoop n w).canvas = w.canvas := by
  induction n generalizing w with
  | zero => rfl
  | succ k ih =>
    show (shotLoop k (shotStep k w)).canvas = _
    rw [ih]
    unfold shotStep
    split
    · rfl
    · simp only []
      split_ifs <;> rfl

theorem playerTrail_player (w : World) : (playerTrail w).player = w.player := by
  unfold playerTrail
  split_ifs <;> rfl

/-- The player after `Player.update()` of a live player: the control blocks, some projectile
list left by the projectile loop, then the invulnerability block. -/
theorem update_player (w : World) (halive : w.player.alive = true) :
    ∃ ps, (Player.update w).player =
      invulnerabilityTick
        { playerControl w.platform w.canvas w.player with projectiles := ps } := by
  obtain ⟨ps, hps⟩ := shotLoop_player
    (playerControl w.platform w.canvas w.player).projectiles.length
    { w with player := playerControl w.platform w.canvas w.player }
  refine ⟨ps, ?_⟩
  unfold Player.update
  simp only [halive, Bool.not_true, Bool.false_eq_true, if_false]
  rw [playerTrail_player, hps]

theorem gyroAim_frame (canvas : Canvas) (p : Player) :
    (gyroAim canvas p).alive = p.alive ∧ (gyroAim canvas p).invulnerable = p.invulnerable ∧
      (gyroAim canvas p).invulnerableTimer = p.invulnerableTimer ∧
      (gyroAim canvas p).shootCooldown = p.shootCooldown ∧
      (gyroAim canvas p).shootDelay = p.shootDelay ∧
      (gyroAim canvas p).shotsFired = p.shotsFired ∧
      (gyroAim canvas p).mouse.shooting = p.mouse.shooting ∧
      (gyroAim canvas p).position = p.position ∧ (gyroAim canvas p).size = p.size := by
  unfold gyroAim
  simp only []
  split_ifs <;> exact ⟨rfl, rfl, rfl, rfl, rfl, rfl, rfl, rfl, rfl⟩

theorem playerShooting_frame (P : Platform) (p : Player) :
    (playerShooting P p).alive = p.alive ∧ (playerShooting P p).invulnerable = p.invulnerable ∧
      (playerShooting P p).invulnerableTimer = p.invulnerableTimer ∧
      (playerShooting P p).shootDelay = p.shootDelay ∧
      (playerShooting P p).position = p.position ∧ (playerShooting P p).size = p.size := by
  unfold playerShooting shootPlayer
  simp only []
  split_ifs <;> exact ⟨rfl, rfl, rfl, rfl, rfl, rfl⟩

/-- The shooting block: a shot exactly when the flag is held and the cooldown has run out. -/
theorem playerShooting_spec (P : Platform) (p : Player) :
    (playerShooting P p).shotsFired =
        p.shotsFired + (if p.mouse.shooting = true ∧ p.shootCooldown ≤ 0 then 1 else 0) ∧
      (playerShooting P p).shootCooldown =
        (if p.mouse.shooting = true ∧ p.shootCooldown ≤ 0 then
          (if p.shootDelay > 0 then p.shootDelay - 1 else p.shootDelay)
         else if p.shootCooldown > 0 then p.shootCooldown - 1 else p.shootCooldown) := by
  unfold playerShooting shootPlayer
  simp only []
  split_ifs <;> exact ⟨rfl, rfl⟩

theorem invulnerabilityTick_frame (p : Player) :
    (invulnerabilityTick p).alive = p.alive ∧
      (invulnerabilityTick p).shootCooldown = p.shootCooldown ∧
      (invulnerabilityTick p).shootDelay = p.shootDelay ∧
      (invulnerabilityTick p).shotsFired = p.shotsFired ∧
      (invulnerabilityTick p).position = p.position ∧ (invulnerabilityTick p).size = p.size := by
  unfold invulnerabilityTick
  simp only []
  split_ifs <;> exact ⟨rfl, rfl, rfl, rfl, rfl, rfl⟩

/-- The invulnerability block: the timer counts down while the flag is set, and the flag falls
when the decremented timer has run out. -/
theorem invulnerabilityTick_spec (p : Player) :
    (invulnerabilityTick p).invulnerableTimer =
        (if p.invulnerable then p.invulnerableTimer - 1 else p.invulnerableTimer) ∧
      (invulnerabilityTick p).invulnerable =
        (if p.invulnerable = true ∧ ¬ (p.invulnerableTimer - 1 ≤ 0) then true else false) := by
  unfold invulnerabilityTick
  simp only []
  cases hi : p.invulnerable
  · simp
  · simp only [if_true]
    split_ifs <;> first | exact ⟨rfl, rfl⟩ | (exfalso; tauto)

theorem playerMove_frame (P : Platform) (canvas : Canvas) (p : Player) :
    (playerMove P canvas p).alive = p.alive ∧
      (playerMove P canvas p).invulnerable = p.invulnerable ∧
      (playerMove P canvas p).invulnerableTimer = p.invulnerableTimer ∧
      (playerMove P canvas p).shootCooldown = p.shootCooldown ∧
      (playerMove P canvas p).shootDelay = p.shootDelay ∧
      (playerMove P canvas p).shotsFired = p.shotsFired ∧
      (playerMove P canvas p).mouse = p.mouse ∧ (playerMove P canvas p).size = p.size :=
  ⟨rfl, rfl, rfl, rfl, rfl, rfl, rfl, rfl⟩

/-- The control blocks leave the life and invulnerability fields alone, shoot as the shooting
block says, and leave the player where `wrapScreen()` put it. -/
theorem playerControl_spec (P : Platform) (canvas : Canvas) (p : Player) :
    (playerControl P canvas p).alive = p.alive ∧
      (playerControl P canvas p).invulnerable = p.invulnerable ∧
      (playerControl P canvas p).invulnerableTimer = p.invulnerableTimer ∧
      (playerControl P canvas p).shootDelay = p.shootDelay ∧
      (playerControl P canvas p).size = p.size ∧
      (playerControl P canvas p).position = (playerMove P canvas p).position ∧
      (playerControl P canvas p).shotsFired =
        p.shotsFired + (if p.mouse.shooting = true ∧ p.shootCooldown ≤ 0 then 1 else 0) ∧
      (playerControl P canvas p).shootCooldown =
        (if p.mouse.shooting = true ∧ p.shootCooldown ≤ 0 then
          (if p.shootDelay > 0 then p.shootDelay - 1 else p.shootDelay)
         else if p.shootCooldown > 0 then p.shootCooldown - 1 else p.shootCooldown) := by
  obtain ⟨m1, m2, m3, m4, m5, m6, m7, m8⟩ := playerMove_frame P canvas p
  have hg : ∀ q : Player, (if q.isMobile && q.gyroEnabled then gyroAim canvas q else q).alive
        = q.alive ∧
      (if q.isMobile && q.gyroEnabled then gyroAim canvas q else q).invulnerable
        = q.invulnerable ∧
      (if q.isMobile && q.gyroEnabled then gyroAim canvas q else q).invulnerableTimer
        = q.invulnerableTimer ∧
      (if q.isMobile && q.gyroEnabled then gyroAim canvas q else q).shootCooldown
        = q.shootCooldown ∧
      (if q.isMobile && q.gyroEnabled then gyroAim canvas q else q).shootDelay
        = q.shootDelay ∧
      (if q.isMobile && q.gyroEnabled then gyroAim canvas q else q).shotsFired
        = q.shotsFired ∧
      (if q.isMobile && q.gyroEnabled then gyroAim canvas q else q).mouse.shooting
        = q.mouse.shooting ∧
      (if q.isMobile && q.gyroEnabled then gyroAim canvas q else q).position = q.position ∧
      (if q.isMobile && q.gyroEnabled then gyroAim canvas q else q).size = q.size := by
    intro q
    split_ifs
    · exact gyroAim_frame canvas q
    · exact ⟨rfl, rfl, rfl, rfl, rfl, rfl, rfl, rfl, rfl⟩
  obtain ⟨g1, g2, g3, g4, g5, g6, g7, g8, g9⟩ := hg (playerMove P canvas p)
  obtain ⟨s1, s2, s3, s4, s5, s6⟩ := playerShooting_frame P
    (if (playerMove P canvas p).isMobile && (playerMove P canvas p).gyroEnabled then
      gyroAim canvas (playerMove P canvas p) else playerMove P canvas p)
  obtain ⟨t1, t2⟩ := playerShooting_spec P
    (if (playerMove P canvas p).isMobile && (playerMove P canvas p).gyroEnabled then
      gyroAim canvas (playerMove P canvas p) else playerMove P canvas p)
  unfold playerControl
  simp only []
  refine ⟨?_, ?_, ?_, ?_, ?_, ?_, ?_, ?_⟩
  · rw [s1, g1, m1]
  · rw [s2, g2, m2]
  · rw [s3, g3, m3]
  · rw [s4, g5, m5]
  · rw [s6, g9, m8]
  · rw [s5, g8]
  · rw [t1, g6, g7, g4, m6, m7, m4]
  · rw [t2, g7, g4, g5, m7, m4, m5]

/-- One `Player.update()` of a live player on the fields the claims speak of. -/
theorem update_fields (w : World) (halive : w.player.alive = true) :
    (Player.update w).player.alive = true ∧
      (Player.update w).player.invulnerableTimer =
        (if w.player.invulnerable then w.player.invulnerableTimer - 1
         else w.player.invulnerableTimer) ∧
      (Player.update w).player.invulnerable =
        (if w.player.invulnerable = true ∧ ¬ (w.player.invulnerableTimer - 1 ≤ 0) then true
         else false) ∧
      (Player.update w).player.shotsFired =
        w.player.shotsFired +
          (if w.player.mouse.shooting = true ∧ w.player.shootCooldown ≤ 0 then 1 else 0) ∧
      (Player.update w).player.shootCooldown =
        (if w.player.mouse.shooting = true ∧ w.player.shootCooldown ≤ 0 then
          (if w.player.shootDelay > 0 then w.player.shootDelay - 1 else w.player.shootDelay)
         else if w.player.shootCooldown > 0 then w.player.shootCooldown - 1
         else w.player.shootCooldown) ∧
      (Player.update w).player.position
        = (playerMove w.platform w.canvas w.player).position ∧
      (Player.update w).player.size = w.player.size := by
  obtain ⟨ps, hps⟩ := update_player w halive
  obtain ⟨c1, c2, c3, _, c5, c6, c7, c8⟩ := playerControl_spec w.platform w.canvas w.player
  obtain ⟨f1, f2, _, f4, f5, f6⟩ := invulnerabilityTick_frame
    { playerControl w.platform w.canvas w.player with projectiles := ps }
  obtain ⟨t1, t2⟩ := invulnerabilityTick_spec
    { playerControl w.platform w.canvas w.player with projectiles := ps }
  rw [hps]
  refine ⟨?_, ?_, ?_, ?_, ?_, ?_, ?_⟩
  · rw [f1]
    show (playerControl w.platform w.canvas w.player).alive = true
    rw [c1, halive]
  · rw [t1]
    show (if (playerControl w.platform w.canvas w.player).invulnerable = true then
        (playerControl w.platform w.canvas w.player).invulnerableTimer - 1
      else (playerControl w.platform w.canvas w.player).invulnerableTimer) = _
    rw [c2, c3]
  · rw [t2]
    show (if (playerControl w.platform w.canvas w.player).invulnerable = true ∧
        ¬ ((playerControl w.platform w.canvas w.player).invulnerableTimer - 1 ≤ 0) then true
      else false) = _
    rw [c2, c3]
  · rw [f4]
    exact c7
  · rw [f2]
    exact c8
  · rw [f5]
    exact c6
  · rw [f6]
    exact c5

/-! ## C11, C12: the invulnerability window -/

/-- C11: after `Player.reset()` the player is alive and invulnerable for exactly 120 ticks:
after `k` further `update()` calls, for every `k` from 0 to 119, the player is alive and
`invulnerable` is still true, and after the 120th call `invulnerable` is false. Between two
updates the rest of the session may do anything that leaves `alive`, `invulnerable` and
`invulnerableTimer` alone. -/
theorem invulnerable_for_120_updates (w : World) (pre : ℕ → World)
    (hreset : pre 0 = Player.reset w)
    (hstep : ∀ k, (pre (k + 1)).player.alive = (Player.update (pre k)).player.alive ∧
      (pre (k + 1)).player.invulnerable = (Player.update (pre k)).player.invulnerable ∧
      (pre (k + 1)).player.invulnerableTimer
        = (Player.update (pre k)).player.invulnerableTimer) :
    (∀ k, k ≤ 119 → (pre k).player.alive = true ∧ (pre k).player.invulnerable = true) ∧
      (Player.update (pre 119)).player.invulnerable = false := by
  have inv : ∀ k, k ≤ 119 → (pre k).player.alive = true ∧
      (pre k).player.invulnerable = true ∧
      (pre k).player.invulnerableTimer = 120 - (k : ℤ) := by
    intro k
    induction k with
    | zero =>
      intro _
      rw [hreset]
      exact ⟨rfl, rfl, rfl⟩
    | succ j ih =>
      intro hj
      obtain ⟨ha, hi, ht⟩ := ih (by omega)
      obtain ⟨u1, u2, u3, _⟩ := update_fields (pre j) ha
      obtain ⟨s1, s2, s3⟩ := hstep j
      refine ⟨by rw [s1, u1], ?_, ?_⟩
      · rw [s2, u3, ht]
        have hpos : ¬ ((120 : ℤ) - (j : ℤ) - 1 ≤ 0) := by omega
        rw [if_pos ⟨hi, hpos⟩]
      · rw [s3, u2, hi, ht]
        simp only [if_true]
        push_cast
        ring
  refine ⟨fun k hk => ⟨(inv k hk).1, (inv k hk).2.1⟩, ?_⟩
  obtain ⟨ha, hi, ht⟩ := inv 119 (le_refl _)
  obtain ⟨_, _, u3, _⟩ := update_fields (pre 119) ha
  rw [u3, ht]
  have hneg : ¬ ((pre 119).player.invulnerable = true ∧
      ¬ ((120 : ℤ) - ((119 : ℕ) : ℤ) - 1 ≤ 0)) := by
    rintro ⟨_, h⟩
    norm_num at h
  rw [if_neg hneg]

/-- C11, worked example: the sample session after `reset()`; the player is invulnerable after
0 to 119 updates and no longer after the 120th. -/
theorem invulnerable_for_120_updates_witness :
    (∀ k, k ≤ 119 → (playerRun k).player.alive = true ∧
        (playerRun k).player.invulnerable = true) ∧
      (Player.update (playerRun 119)).player.invulnerable = false :=
  invulnerable_for_120_updates sampleWorld playerRun rfl (fun _ => ⟨rfl, rfl, rfl⟩)

/-- C12, counterexample: the player just constructed on an 800 by 600 canvas at scale 1 is
alive but not invulnerable, with `invulnerableTimer` 0; so the claim fails as stated. -/
theorem constructed_player_not_invulnerable :
    ((Player.new ⟨800, 600⟩ 1 false).alive = true ∧
        (Player.new ⟨800, 600⟩ 1 false).invulnerable = false ∧
        (Player.new ⟨800, 600⟩ 1 false).invulnerableTimer = 0) ∧
      ¬ (∀ (canvas : Canvas) (gameScale : ℚ) (isMobile : Bool),
          (Player.new canvas gameScale isMobile).alive = true ∧
            (Player.new canvas gameScale isMobile).invulnerable = true ∧
            (Player.new canvas gameScale isMobile).invulnerableTimer = 120) := by
  refine ⟨⟨rfl, rfl, rfl⟩, fun h => ?_⟩
  have h2 := (h ⟨800, 600⟩ 1 false).2.1
  exact absurd h2 (by decide)

/-- C12 (amended): a newly constructed player is alive and not invulnerable
(`invulnerable` false, `invulnerableTimer` 0); the invulnerable state with a timer of 120 is
the one `reset()` puts the player in. -/
theorem constructed_player_state (canvas : Canvas) (gameScale : ℚ) (isMobile : Bool)
    (w : World) :
    ((Player.new canvas gameScale isMobile).alive = true ∧
        (Player.new canvas gameScale isMobile).invulnerable = false ∧
        (Player.new canvas gameScale isMobile).invulnerableTimer = 0) ∧
      ((Player.reset w).player.alive = true ∧ (Player.reset w).player.invulnerable = true ∧
        (Player.reset w).player.invulnerableTimer = 120) :=
  ⟨⟨rfl, rfl, rfl⟩, ⟨rfl, rfl, rfl⟩⟩

/-! ## C13: the fire rate -/

/-- C13: with the firing flag held on every tick, the player alive and `shootDelay` 8,
starting from `shootCooldown` 0, `Player.update()` calls `shoot()` exactly once in the
updates 1, 9, 17, ... (update `k + 1` with `k` a multiple of 8) and not at all in the updates
in between; each call of `shoot()` adds exactly one projectile. Between two updates the rest
of the session may do anything that leaves `shootCooldown` alone. -/
theorem fires_every_8_updates (pre : ℕ → World)
    (hstart : (pre 0).player.shootCooldown = 0)
    (hheld : ∀ k, (pre k).player.mouse.shooting = true ∧ (pre k).player.alive = true ∧
      (pre k).player.shootDelay = 8)
    (hstep : ∀ k, (pre (k + 1)).player.shootCooldown
      = (Player.update (pre k)).player.shootCooldown) :
    (∀ k, (Player.update (pre k)).player.shotsFired =
        (pre k).player.shotsFired + (if k % 8 = 0 then 1 else 0)) ∧
      (∀ (P : Platform) (p : Player), ∃ q, (shootPlayer P p).projectiles = p.projectiles ++ [q] ∧
        (shootPlayer P p).shotsFired = p.shotsFired + 1) := by
  have inv : ∀ k, (pre k).player.shootCooldown = (if k % 8 = 0 then 0 else 8 - ((k % 8 : ℕ) : ℤ)) := by
    intro k
    induction k with
    | zero => simpa using hstart
    | succ j ih =>
      obtain ⟨hs, ha, hd⟩ := hheld j
      obtain ⟨_, _, _, _, u5, _⟩ := update_fields (pre j) ha
      rw [hstep j, u5, hs, hd, ih]
      by_cases h0 : j % 8 = 0
      · have h1 : ¬ ((j + 1) % 8 = 0) := by omega
        have h2 : (j + 1) % 8 = 1 := by omega
        simp [h0, h1, h2]
      · by_cases h7 : (j + 1) % 8 = 0
        · have h3 : j % 8 = 7 := by omega
          simp [h0, h7, h3]
        · have h4 : (j + 1) % 8 = j % 8 + 1 := by omega
          have h5 : j % 8 < 7 := by omega
          have hc1 : ¬ ((8 : ℤ) - ((j % 8 : ℕ) : ℤ) ≤ 0) := by omega
          have hc2 : (8 : ℤ) - ((j % 8 : ℕ) : ℤ) > 0 := by omega
          simp only [h0, h7, if_false, hc1, and_false, hc2, if_true, h4]
          push_cast
          ring
  refine ⟨fun k => ?_, fun P p => ⟨_, rfl, rfl⟩⟩
  obtain ⟨hs, ha, _⟩ := hheld k
  obtain ⟨_, _, _, u4, _⟩ := update_fields (pre k) ha
  rw [u4, hs, inv k]
  by_cases h0 : k % 8 = 0
  · simp [h0]
  · have hc1 : ¬ (True ∧ (8 : ℤ) - ((k % 8 : ℕ) : ℤ) ≤ 0) := by omega
    simp only [h0, if_false, hc1]

/-- `Player.update()` leaves the firing flag and `shootDelay` as they are. -/
theorem update_held (w : World) (halive : w.player.alive = true) :
    (Player.update w).player.mouse.shooting = w.player.mouse.shooting ∧
      (Player.update w).player.shootDelay = w.player.shootDelay := by
  obtain ⟨ps, hps⟩ := update_player w halive
  have h1 : ∀ p : Player, (invulnerabilityTick p).mouse = p.mouse ∧
      (invulnerabilityTick p).shootDelay = p.shootDelay := by
    intro p
    unfold invulnerabilityTick
    simp only []
    split_ifs <;> exact ⟨rfl, rfl⟩
  have h2 : ∀ p : Player, (playerShooting w.platform p).mouse = p.mouse := by
    intro p
    unfold playerShooting shootPlayer
    simp only []
    split_ifs <;> rfl
  have h3 : (playerControl w.platform w.canvas w.player).mouse.shooting
      = w.player.mouse.shooting := by
    unfold playerControl
    simp only []
    rw [h2]
    split_ifs
    · exact (gyroAim_frame _ _).2.2.2.2.2.2.1
    · rfl
  rw [hps, (h1 _).1, (h1 _).2]
  exact ⟨h3, (playerControl_spec w.platform w.canvas w.player).2.2.2.1⟩

theorem firingRun_held (k : ℕ) :
    (firingRun k).player.mouse.shooting = true ∧ (firingRun k).player.alive = true ∧
      (firingRun k).player.shootDelay = 8 := by
  induction k with
  | zero => exact ⟨rfl, rfl, rfl⟩
  | succ j ih =>
    obtain ⟨hs, ha, hd⟩ := ih
    obtain ⟨u1, u2⟩ := update_held (firingRun j) ha
    exact ⟨by show (Player.update (firingRun j)).player.mouse.shooting = true; rw [u1, hs],
      (update_fields (firingRun j) ha).1,
      by show (Player.update (firingRun j)).player.shootDelay = 8; rw [u2, hd]⟩

/-- C13, worked example: the sample session with the firing flag held; its first and ninth
updates fire one shot each, the second and the eighth none. -/
theorem fires_every_8_updates_witness :
    (Player.update (firingRun 0)).player.shotsFired = (firingRun 0).player.shotsFired + 1 ∧
      (Player.update (firingRun 1)).player.shotsFired = (firingRun 1).player.shotsFired ∧
      (Player.update (firingRun 7)).player.shotsFired = (firingRun 7).player.shotsFired ∧
      (Player.update (firingRun 8)).player.shotsFired = (firingRun 8).player.shotsFired + 1 := by
  have h := (fires_every_8_updates firingRun rfl firingRun_held (fun _ => rfl)).1
  exact ⟨h 0, h 1, h 7, h 8⟩

/-! ## C14: the screen wrap -/

/-- C14: `wrapScreen()` wraps instead of clamping. On a canvas with width and height at least
0 and a player of positive size, a coordinate below `-size` is moved to `extent + size`, one
above `extent + size` is moved to `-size`, one in range is unchanged; hence after
`wrapScreen()`, and after every `update()` of a live player, `-size <= x <= width + size` and
`-size <= y <= height + size`. -/
theorem wrapScreen_range (w : World) (hwidth : 0 ≤ w.canvas.width)
    (hheight : 0 ≤ w.canvas.height) (hsize : 0 < w.player.size) :
    (∀ extent c : ℚ,
        (c < -w.player.size → wrapCoordinate w.player.size extent c = extent + w.player.size) ∧
        (extent + w.player.size < c → 0 ≤ extent →
          wrapCoordinate w.player.size extent c = -w.player.size) ∧
        (-w.player.size ≤ c → c ≤ extent + w.player.size →
          wrapCoordinate w.player.size extent c = c)) ∧
      ((Player.wrapScreen w).player.position.x
          = wrapCoordinate w.player.size w.canvas.width w.player.position.x ∧
        (Player.wrapScreen w).player.position.y
          = wrapCoordinate w.player.size w.canvas.height w.player.position.y) ∧
      (-w.player.size ≤ (Player.wrapScreen w).player.position.x ∧
        (Player.wrapScreen w).player.position.x ≤ w.canvas.width + w.player.size ∧
        -w.player.size ≤ (Player.wrapScreen w).player.position.y ∧
        (Player.wrapScreen w).player.position.y ≤ w.canvas.height + w.player.size) ∧
      (w.player.alive = true →
        -w.player.size ≤ (Player.update w).player.position.x ∧
        (Player.update w).player.position.x ≤ w.canvas.width + w.player.size ∧
        -w.player.size ≤ (Player.update w).player.position.y ∧
        (Player.update w).player.position.y ≤ w.canvas.height + w.player.size) := by
  have hrange : ∀ extent c : ℚ, 0 ≤ extent →
      -w.player.size ≤ wrapCoordinate w.player.size extent c ∧
        wrapCoordinate w.player.size extent c ≤ extent + w.player.size := by
    intro extent c he
    unfold wrapCoordinate
    split_ifs <;> constructor <;> linarith
  refine ⟨fun extent c => ⟨?_, ?_, ?_⟩, ⟨rfl, rfl⟩, ?_, ?_⟩
  · intro h
    unfold wrapCoordinate
    rw [if_pos h]
  · intro h he
    unfold wrapCoordinate
    rw [if_neg (by linarith), if_pos (by linarith)]
  · intro h1 h2
    unfold wrapCoordinate
    rw [if_neg (by linarith), if_neg (by linarith)]
  · exact ⟨(hrange _ _ hwidth).1, (hrange _ _ hwidth).2, (hrange _ _ hheight).1,
      (hrange _ _ hheight).2⟩
  · intro halive
    obtain ⟨_, _, _, _, _, u6, _⟩ := update_fields w halive
    rw [u6]
    exact ⟨(hrange _ _ hwidth).1, (hrange _ _ hwidth).2, (hrange _ _ hheight).1,
      (hrange _ _ hheight).2⟩

/-- C14, worked example: the sample player put at `(-20, 620)` on the 800 by 600 canvas is
wrapped to `(812, -12)`. -/
theorem wrapScreen_range_witness :
    (Player.wrapScreen
        { sampleWorld with player := { samplePlayer with position := ⟨-20, 620⟩ } }
      ).player.position = ⟨812, -12⟩ := by
  have h := (wrapScreen_range
    { sampleWorld with player := { samplePlayer with position := ⟨-20, 620⟩ } }
    (by norm_num [sampleWorld]) (by norm_num [sampleWorld]) (by norm_num [samplePlayer])).2.1
  have hx := ((wrapScreen_range
    { sampleWorld with player := { samplePlayer with position := ⟨-20, 620⟩ } }
    (by norm_num [sampleWorld]) (by norm_num [sampleWorld]) (by norm_num [samplePlayer])).1
      800 (-20)).1 (by norm_num [samplePlayer])
  have hy := ((wrapScreen_range
    { sampleWorld with player := { samplePlayer with position := ⟨-20, 620⟩ } }
    (by norm_num [sampleWorld]) (by norm_num [sampleWorld]) (by norm_num [samplePlayer])).1
      600 620).2.1 (by norm_num [samplePlayer]) (by norm_num)
  have e : ∀ u v : Vector, u.x = v.x → u.y = v.y → u = v := by
    intro u v h1 h2
    cases u
    cases v
    simp only [Vector.mk.injEq]
    exact ⟨h1, h2⟩
  apply e
  · rw [h.1]
    simp only [sampleWorld, samplePlayer] at hx ⊢
    rw [hx]
    norm_num
  · rw [h.2]
    simp only [sampleWorld, samplePlayer] at hy ⊢
    rw [hy]

/-! ## The core through the enemy loop and `updateProjectiles` -/

@[simp] theorem core_advance (w : World) (n : ℕ) : (w.advance n).core = w.core := rfl

@[simp] theorem core_advanceNow (w : World) (n : ℕ) : (w.advanceNow n).core = w.core := rfl

@[simp] theorem core_pushEnemyProjectile (p : Projectile) (w : World) :
    (w.pushEnemyProjectile p).core = w.core := rfl

@[simp] theorem core_setEnemyProjectile (i : ℕ) (p : Projectile) (w : World) :
    (w.setEnemyProjectile i p).core = w.core := rfl

@[simp] theorem core_spliceEnemyProjectile (i : ℕ) (w : World) :
    (w.spliceEnemyProjectile i).core = w.core := rfl

theorem core_setEnemy (id : ℕ) (e : Enemy) (w : World) :
    (w.setEnemy id e).core = w.core.setEnemy id e := rfl

theorem core_addScore (points : ℤ) (w : World) :
    (w.addScore points).core = w.core.addScore points := rfl

theorem blind_core : ParticleBlind World.core := fun _ _ _ _ => rfl

@[simp] theorem core_createExplosion (x y count : ℚ) (color : String)
    (speed size decay : ℚ) (w : World) :
    (createExplosion x y count color speed size decay w).core = w.core :=
  createExplosion_blind blind_core x y count color speed size decay w

@[simp] theorem core_createDebris (x y count : ℚ) (color : String) (speed : ℚ)
    (w : World) : (createDebris x y count color speed w).core = w.core :=
  createDebris_blind blind_core x y count color speed w

@[simp] theorem core_createScoreText (x y : ℚ) (text color : String) (w : World) :
    (createScoreText x y text color w).core = w.core :=
  createScoreText_blind blind_core x y text color w

@[simp] theorem core_addTrail (x y : ℚ) (color : String) (size : ℚ) (w : World) :
    (addTrail x y color size w).core = w.core := rfl

@[simp] theorem core_createMassiveExplosion (x y : ℚ) (w : World) :
    (createMassiveExplosion x y w).core = w.core :=
  createMassiveExplosion_blind blind_core x y w

@[simp] theorem core_fireProjectile (e : Enemy) (speed size : ℚ) (w : World) :
    (fireProjectile e speed size w).core = w.core := rfl

@[simp] theorem core_fireProjectileAngle (e : Enemy) (angle speed size : ℚ)
    (color : String) (w : World) :
    (fireProjectileAngle e angle speed size color w).core = w.core := rfl

@[simp] theorem core_fireCircleAttack (e : Enemy) (count speed : ℚ) (w : World) :
    (fireCircleAttack e count speed w).core = w.core := by
  unfold fireCircleAttack
  exact foldl_preserves World.core
    (fun (acc : World) (i : ℕ) =>
      fireProjectileAngle e ((i : ℚ) / count * acc.platform.PI * 2) speed 5 "#ff0" acc)
    (fun _ _ => rfl) _ w

@[simp] theorem core_die (w : World) : (Player.die w).core = w.core := by
  unfold Player.die
  split
  · rfl
  · simp only [Grid.addCameraShake]
    show (createDebris _ _ _ _ _ _).core = _
    rw [core_createDebris, core_createMassiveExplosion]
    rfl

@[simp] theorem core_checkProjectileCollision (e : Enemy) (w : World) :
    (Player.checkProjectileCollision e w).2.core = w.core := rfl

@[simp] theorem core_seekerAim (e : Enemy) (w : World) :
    (seekerAim e w).2.core = w.core := by
  unfold seekerAim
  split_ifs <;> rfl

@[simp] theorem core_seekerFire (e : Enemy) (w : World) :
    (seekerFire e w).2.core = w.core := by
  unfold seekerFire
  split_ifs <;> rfl

@[simp] theorem core_seekerUpdate (e : Enemy) (w : World) :
    (seekerUpdate e w).2.core = w.core := by
  unfold seekerUpdate
  simp only [core_seekerFire, core_seekerAim]

@[simp] theorem core_wandererTurn (e : Enemy) (w : World) :
    (wandererTurn e w).2.core = w.core := by
  unfold wandererTurn
  simp only []
  split_ifs <;> rfl

@[simp] theorem core_wandererShoot (e : Enemy) (w : World) :
    (wandererShoot e w).2.core = w.core := by
  unfold wandererShoot
  split_ifs <;> rfl

@[simp] theorem core_wandererUpdate (e : Enemy) (w : World) :
    (wandererUpdate e w).2.core = w.core := by
  unfold wandererUpdate
  simp only [core_wandererShoot, core_wandererTurn]

@[simp] theorem core_spinnerRetarget (e : Enemy) (w : World) :
    (spinnerRetarget e w).2.core = w.core := by
  unfold spinnerRetarget
  split_ifs <;> rfl

@[simp] theorem core_spinnerShoot (e : Enemy) (w : World) :
    (spinnerShoot e w).2.core = w.core := by
  unfold spinnerShoot
  split_ifs <;> rfl

@[simp] theorem core_spinnerUpdate (e : Enemy) (w : World) :
    (spinnerUpdate e w).2.core = w.core := by
  unfold spinnerUpdate
  simp only [core_spinnerShoot, core_spinnerRetarget]

@[simp] theorem core_bossAttack (e : Enemy) (w : World) :
    (bossAttack e w).2.core = w.core := by
  unfold bossAttack
  simp only []
  split_ifs
  · exact core_fireCircleAttack _ _ _ _
  · rfl
  · rfl
  · rfl

@[simp] theorem core_bossUpdate (e : Enemy) (w : World) :
    (bossUpdate e w).2.core = w.core := by
  unfold bossUpdate
  exact core_bossAttack _ _

@[simp] theorem core_enemyBehaviour (e : Enemy) (w : World) :
    (enemyBehaviour e w).2.core = w.core := by
  unfold enemyBehaviour
  split <;> simp

@[simp] theorem core_enemyTrail (e : Enemy) (w : World) :
    (enemyTrail e w).core = w.core := by
  unfold enemyTrail
  split_ifs <;> simp

@[simp] theorem core_shieldBounce (e : Enemy) (w : World) :
    (shieldBounce e w).2.core = w.core := by
  unfold shieldBounce
  simp only []
  split_ifs <;> simp

@[simp] theorem core_hitParticles (e : Enemy) (now : ℤ) (w : World) :
    (hitParticles e now w).2.core = w.core := by
  unfold hitParticles
  simp only []
  split_ifs <;> first | rfl | exact core_createExplosion _ _ _ _ _ _ _ _

@[simp] theorem core_hitScoreText (e : Enemy) (now hitPoints : ℤ) (w : World) :
    (hitScoreText e now hitPoints w).2.core = w.core := by
  unfold hitScoreText
  split_ifs
  · exact core_createScoreText _ _ _ _ _
  · rfl

/-! ## The identity fields of an enemy through its behaviour -/

@[simp] theorem identity_seekerUpdate (e : Enemy) (w : World) :
    (seekerUpdate e w).1.identity = e.identity := by
  unfold seekerUpdate seekerFire seekerAim
  simp only []
  split_ifs <;> rfl

@[simp] theorem identity_wandererTurn (e : Enemy) (w : World) :
    (wandererTurn e w).1.identity = e.identity := by
  unfold wandererTurn
  simp only []
  split_ifs <;> rfl

@[simp] theorem identity_wandererMove (e : Enemy) (w : World) :
    (wandererMove e w).identity = e.identity := by
  unfold wandererMove
  simp only []
  split_ifs <;> rfl

@[simp] theorem identity_wandererShoot (e : Enemy) (w : World) :
    (wandererShoot e w).1.identity = e.identity := by
  unfold wandererShoot
  split_ifs <;> rfl

@[simp] theorem identity_wandererUpdate (e : Enemy) (w : World) :
    (wandererUpdate e w).1.identity = e.identity := by
  unfold wandererUpdate
  simp only [identity_wandererShoot, identity_wandererMove, identity_wandererTurn]

@[simp] theorem identity_spinnerUpdate (e : Enemy) (w : World) :
    (spinnerUpdate e w).1.identity = e.identity := by
  unfold spinnerUpdate spinnerShoot spinnerRetarget spinnerMove
  simp only []
  split_ifs <;> rfl

theorem identity_ite (c : Prop) [Decidable c] (a b : Enemy)
    (x : Bool × Option ℤ × Option ℤ × EnemyType)
    (ha : a.identity = x) (hb : b.identity = x) : (if c then a else b).identity = x := by
  split_ifs
  · exact ha
  · exact hb

@[simp] theorem identity_bossBattlePhase (e : Enemy) (w : World) :
    (bossBattlePhase e w).identity = e.identity := by
  unfold bossBattlePhase
  lift_lets
  intro a b c d
  have ha : a.identity = e.identity := rfl
  have hb : b.identity = e.identity := identity_ite _ _ _ _ ha ha
  have hc : c.identity = e.identity :=
    identity_ite _ _ _ _ hb (identity_ite _ _ _ _ hb (identity_ite _ _ _ _ hb
      (identity_ite _ _ _ _ hb hb)))
  have hd : d.identity = e.identity := identity_ite _ _ _ _ hc (identity_ite _ _ _ _ hc hc)
  exact identity_ite _ _ _ _ hd (identity_ite _ _ _ _ hd hd)

@[simp] theorem identity_bossMove (e : Enemy) (w : World) :
    (bossMove e w).identity = e.identity := by
  unfold bossMove
  simp only []
  split_ifs
  · rfl
  · exact identity_bossBattlePhase e w

@[simp] theorem identity_bossAttack (e : Enemy) (w : World) :
    (bossAttack e w).1.identity = e.identity := by
  unfold bossAttack
  simp only []
  split_ifs <;> rfl

@[simp] theorem identity_bossUpdate (e : Enemy) (w : World) :
    (bossUpdate e w).1.identity = e.identity := by
  unfold bossUpdate
  rw [identity_bossAttack, identity_bossMove]

@[simp] theorem identity_enemyBehaviour (e : Enemy) (w : World) :
    (enemyBehaviour e w).1.identity = e.identity := by
  unfold enemyBehaviour
  split <;> simp

@[simp] theorem identity_shieldBounce (e : Enemy) (w : World) :
    (shieldBounce e w).1.identity = e.identity := by
  unfold shieldBounce
  simp only []
  split_ifs <;> rfl

@[simp] theorem identity_hitParticles (e : Enemy) (now : ℤ) (w : World) :
    (hitParticles e now w).1.identity = e.identity := by
  unfold hitParticles
  simp only []
  split_ifs <;> rfl

@[simp] theorem identity_hitScoreText (e : Enemy) (now hitPoints : ℤ) (w : World) :
    (hitScoreText e now hitPoints w).1.identity = e.identity := by
  unfold hitScoreText
  split_ifs <;> rfl

/-! ## The enemy loop and `updateProjectiles` as elementary changes of the core -/

theorem coreSteps_single {a b : Core} (h : CoreStep a b) : CoreSteps a b :=
  CoreSteps.tail a a b (CoreSteps.refl a) h

theorem coreSteps_trans {a b c : Core} (h1 : CoreSteps a b) (h2 : CoreSteps b c) :
    CoreSteps a c := by
  induction h2 with
  | refl => exact h1
  | tail b' c' _ hstep ih => exact CoreSteps.tail a b' c' ih hstep

theorem coreSteps_of_eq {a b : Core} (h : b = a) : CoreSteps a b := by
  rw [h]
  exact CoreSteps.refl a

theorem heap_updateScore (enemy : Enemy) (w : World) : (updateScore enemy w).heap = w.heap := by
  unfold updateScore
  simp only [createScoreText_blind blind_heap]

theorem heap_destroyEnemy (enemy : Enemy) (index : ℕ) (w : World) :
    (destroyEnemy enemy index w).heap = w.heap := by
  unfold destroyEnemy
  simp only [World.spliceEnemy]
  rw [heap_updateScore]
  split_ifs
  · simp only [createDebris_blind blind_heap, createExplosion_blind blind_heap]
  · simp only [createDebris_blind blind_heap, createExplosion_blind blind_heap]

/-- The core after `destroyEnemy`. -/
theorem core_destroyEnemy (enemy : Enemy) (index : ℕ) (w : World) :
    (destroyEnemy enemy index w).core = w.core.destroy enemy index := by
  unfold World.core Core.destroy
  rw [destroyEnemy_enemyManager, updateScore_enemyManager, heap_destroyEnemy]
  simp only []
  by_cases h10 : w.enemyManager.combo + 1 ≥ 10
  · simp only [h10, if_true]
  · by_cases h5 : w.enemyManager.combo + 1 ≥ 5
    · simp only [h10, h5, if_true, if_false]
    · simp only [h10, h5, if_false]

/-- The core after the branch `if (enemy.health)` of the enemy loop: 50 points, the enemy
object rewritten with its health lowered by one, and the kill when that health is not
positive. -/
theorem core_hitEnemy (enemy : Enemy) (index id : ℕ) (w : World) :
    ∃ e' : Enemy,
      e'.identity = (enemy.isBoss, enemy.health.map (fun h => h - 1), enemy.value, enemy.type) ∧
      (hitEnemy enemy index id w).core =
        if e'.health.getD 0 ≤ 0 then (((w.core.addScore 50).setEnemy id e').destroy e' index)
        else (w.core.addScore 50).setEnemy id e' := by
  unfold hitEnemy
  lift_lets
  intro e1 now r hitPoints r2 w3
  have hid : r2.1.identity
      = (enemy.isBoss, enemy.health.map (fun h => h - 1), enemy.value, enemy.type) := by
    show (hitScoreText _ _ _ _).1.identity = _
    rw [identity_hitScoreText, identity_hitParticles]
    rfl
  have hcore : w3.core = (w.core.addScore 50).setEnemy id r2.1 := by
    show (World.setEnemy id r2.1 (hitScoreText _ _ _ _).2).core = _
    rw [core_setEnemy, core_hitScoreText, core_addScore, core_hitParticles, core_advanceNow]
  refine ⟨r2.1, hid, ?_⟩
  split_ifs
  · rw [core_destroyEnemy, hcore]
  · exact hcore

theorem truthy_some {v : Option ℤ} (h : truthy v = true) : ∃ n, v = some n ∧ n ≠ 0 := by
  cases v with
  | none => simp [truthy] at h
  | some n =>
    refine ⟨n, rfl, ?_⟩
    simpa [truthy] using h

theorem getElem?_length_lt {α : Type} {l : List α} {i : ℕ} {a : α} (h : l[i]? = some a) :
    i < l.length := by
  by_contra hlt
  rw [List.getElem?_eq_none (Nat.le_of_not_lt hlt)] at h
  exact absurd h (by simp)

theorem hitEnemy_steps (enemy : Enemy) (index id : ℕ) (w : World)
    (hi : w.core.manager.enemies[index]? = some id) (hh : w.core.heap[id]? = some enemy)
    (ht : truthy enemy.health = true) : CoreSteps w.core (hitEnemy enemy index id w).core := by
  obtain ⟨e', hid, hcore⟩ := core_hitEnemy enemy index id w
  obtain ⟨h, hhealth, _⟩ := truthy_some ht
  have hlt : id < w.core.heap.length := getElem?_length_lt hh
  simp only [Enemy.identity, Prod.mk.injEq] at hid
  obtain ⟨hboss, hhp, hval, _⟩ := hid
  have h1 : CoreSteps w.core (w.core.addScore 50) :=
    coreSteps_single (CoreStep.score w.core 50)
  have h2 : CoreSteps w.core ((w.core.addScore 50).setEnemy id e') :=
    CoreSteps.tail _ _ _ h1
      (CoreStep.write (w.core.addScore 50) id enemy e' hh hboss hval
        (Or.inr ⟨h, hhealth, by rw [hhp, hhealth]; rfl⟩))
  rw [hcore]
  split_ifs
  · refine CoreSteps.tail _ _ _ h2 (CoreStep.destroy _ index id e' hi ?_)
    show (w.core.heap.set id e')[id]? = some e'
    rw [List.getElem?_set_self hlt]
  · exact h2

theorem enemyResolve_steps (enemy : Enemy) (i id : ℕ) (hit : Bool) (w : World)
    (hi : w.core.manager.enemies[i]? = some id) (hh : w.core.heap[id]? = some enemy) :
    CoreSteps w.core (enemyResolve enemy i id hit w).core := by
  unfold enemyResolve
  split_ifs with h1 h2 h3 h4
  · exact hitEnemy_steps enemy i id w hi hh h2
  · rw [core_destroyEnemy]
    exact coreSteps_single (CoreStep.destroy _ i id enemy hi hh)
  · have : (World.core { w.spliceEnemy i with enemyManager :=
        { (w.spliceEnemy i).enemyManager with bossActive := false } })
        = w.core.cull i enemy.isBoss := by
      unfold World.core Core.cull World.spliceEnemy
      simp only [h4, if_true]
    simp only []
    rw [this]
    exact coreSteps_single (CoreStep.cull _ i id enemy hi hh)
  · have : (w.spliceEnemy i).core = w.core.cull i enemy.isBoss := by
      unfold World.core Core.cull World.spliceEnemy
      simp only [h4, if_false]
      rfl
    simp only []
    rw [this]
    exact coreSteps_single (CoreStep.cull _ i id enemy hi hh)
  · exact CoreSteps.refl _

/-- The world handed to the end of the body of the enemy loop differs from the one with the
updated enemy written back only outside the core. -/
theorem enemyStep_steps (i : ℕ) (w : World) : CoreSteps w.core (enemyStep i w).core := by
  unfold enemyStep
  split
  · exact CoreSteps.refl _
  · rename_i id hid
    split
    · exact CoreSteps.refl _
    · rename_i stored hstored
      lift_lets
      intro r1 w2 r3 enemy w3 w4 r5
      have hident : enemy.identity = stored.identity := by
        show (shieldBounce _ _).1.identity = _
        rw [identity_shieldBounce, identity_enemyBehaviour]
      have hw3 : w3.core = w.core.setEnemy id enemy := by
        show (World.setEnemy id enemy (shieldBounce _ (enemyTrail _ (enemyBehaviour _ _).2)).2).core
          = _
        rw [core_setEnemy, core_shieldBounce, core_enemyTrail, core_enemyBehaviour]
      have hw4 : w4.core = w3.core := by
        show (if Player.checkCollision w3 enemy then Player.die w3 else w3).core = _
        split_ifs
        · exact core_die w3
        · rfl
      have hw5 : r5.2.core = w.core.setEnemy id enemy := by
        show (Player.checkProjectileCollision enemy w4).2.core = _
        rw [core_checkProjectileCollision, hw4, hw3]
      have hlt : id < w.core.heap.length := getElem?_length_lt hstored
      simp only [Enemy.identity, Prod.mk.injEq] at hident
      obtain ⟨hboss, hhp, hval, _⟩ := hident
      have hstep : CoreSteps w.core r5.2.core := by
        rw [hw5]
        exact coreSteps_single (CoreStep.write w.core id stored enemy hstored hboss hval
          (Or.inl hhp))
      refine coreSteps_trans hstep (enemyResolve_steps enemy i id r5.1 r5.2 ?_ ?_)
      · rw [hw5]
        exact hid
      · rw [hw5]
        show (w.core.heap.set id enemy)[id]? = some enemy
        rw [List.getElem?_set_self hlt]

theorem enemyLoop_steps (n : ℕ) (w : World) : CoreSteps w.core (enemyLoop n w).core := by
  induction n generalizing w with
  | zero => exact CoreSteps.refl _
  | succ k ih => exact coreSteps_trans (enemyStep_steps k w) (ih _)

/-- What `firstOverlap` returns is an entry of the list it scans, with the object it
references. -/
theorem firstOverlap_some (P : Platform) (heap : List Enemy) (p : Projectile) (l : List ℕ)
    (j k id : ℕ) (e : Enemy) (h : firstOverlap P heap p l j = some (k, id, e)) :
    ∃ m, k = j + m ∧ l[m]? = some id ∧ heap[id]? = some e := by
  induction l generalizing j with
  | nil => simp [firstOverlap] at h
  | cons a rest ih =>
    unfold firstOverlap at h
    split at h
    · obtain ⟨m, hm, hl, hh⟩ := ih (j + 1) h
      exact ⟨m + 1, by omega, by simpa using hl, hh⟩
    · rename_i enemy henemy
      simp only [] at h
      split_ifs at h
      · simp only [Option.some.injEq, Prod.mk.injEq] at h
        obtain ⟨h1, h2, h3⟩ := h
        subst h1 h2 h3
        exact ⟨0, rfl, by simp, henemy⟩
      · obtain ⟨m, hm, hl, hh⟩ := ih (j + 1) h
        exact ⟨m + 1, by omega, by simpa using hl, hh⟩

/-- The core after the damage of a reflected projectile. -/
theorem core_reflectedDamage (j id : ℕ) (enemy : Enemy) (w : World) :
    (reflectedDamage j id enemy w).core =
      if truthy enemy.health then
        if ((enemy.health.map (fun h => h - 1)).getD 0) ≤ 0 then
          (w.core.setEnemy id { enemy with health := enemy.health.map (fun h => h - 1) }).destroy
            { enemy with health := enemy.health.map (fun h => h - 1) } j
        else w.core.setEnemy id { enemy with health := enemy.health.map (fun h => h - 1) }
      else w.core.destroy enemy j := by
  unfold reflectedDamage
  simp only []
  split_ifs
  · rw [core_destroyEnemy, core_createExplosion, core_setEnemy]
  · rw [core_createExplosion, core_setEnemy]
  · rw [core_destroyEnemy]

theorem reflectedDamage_steps (j id : ℕ) (enemy : Enemy) (w : World)
    (hj : w.core.manager.enemies[j]? = some id) (hh : w.core.heap[id]? = some enemy) :
    CoreSteps w.core (reflectedDamage j id enemy w).core := by
  rw [core_reflectedDamage]
  have hlt : id < w.core.heap.length := getElem?_length_lt hh
  split_ifs with ht h0
  · obtain ⟨h, hhealth, _⟩ := truthy_some ht
    have hwrite := CoreStep.write w.core id enemy
      { enemy with health := enemy.health.map (fun h => h - 1) } hh rfl rfl
      (Or.inr ⟨h, hhealth, by
        show enemy.health.map (fun h => h - 1) = _
        rw [hhealth]
        rfl⟩)
    exact CoreSteps.tail _ _ _ (coreSteps_single hwrite)
      (CoreStep.destroy (w.core.setEnemy id _) j id _ hj (by
        show (w.core.heap.set id _)[id]? = some _
        rw [List.getElem?_set_self hlt]))
  · obtain ⟨h, hhealth, _⟩ := truthy_some ht
    exact coreSteps_single (CoreStep.write w.core id enemy
      { enemy with health := enemy.health.map (fun h => h - 1) } hh rfl rfl
      (Or.inr ⟨h, hhealth, by
        show enemy.health.map (fun h => h - 1) = _
        rw [hhealth]
        rfl⟩))
  · exact coreSteps_single (CoreStep.destroy _ j id enemy hj hh)

/-- The core after the hit of a reflected projectile: the damage, then 100 points. -/
theorem core_reflectedHit (i j id : ℕ) (enemy : Enemy) (w : World) :
    (reflectedHit i j id enemy w).core = (reflectedDamage j id enemy w).core.addScore 100 := rfl

theorem reflectedHit_steps (i j id : ℕ) (enemy : Enemy) (w : World)
    (hj : w.core.manager.enemies[j]? = some id) (hh : w.core.heap[id]? = some enemy) :
    CoreSteps w.core (reflectedHit i j id enemy w).core := by
  rw [core_reflectedHit]
  exact CoreSteps.tail _ _ _ (reflectedDamage_steps j id enemy w hj hh) (CoreStep.score _ 100)

@[simp] theorem core_projectileVersusPlayer (i : ℕ) (p : Projectile) (w : World) :
    (projectileVersusPlayer i p w).core = w.core := by
  unfold projectileVersusPlayer
  simp only []
  split_ifs
  · rw [core_spliceEnemyProjectile, core_die]
  · rfl
  · rfl

@[simp] theorem core_reflectProjectile (i : ℕ) (p : Projectile) (dx dy dist : ℚ) (w : World) :
    (reflectProjectile i p dx dy dist w).core = w.core := by
  unfold reflectProjectile
  simp only [core_setEnemyProjectile, core_createExplosion]

theorem projectileResolve_steps (i : ℕ) (p : Projectile) (w : World) :
    CoreSteps w.core (projectileResolve i p w).core := by
  unfold projectileResolve
  simp only []
  split_ifs
  · exact coreSteps_of_eq (core_reflectProjectile _ _ _ _ _ _)
  · split
    · rename_i j id enemy hov
      obtain ⟨m, hm, hl, hh⟩ := firstOverlap_some _ _ _ _ _ _ _ _ hov
      have hjm : j = m := by omega
      subst hjm
      exact reflectedHit_steps i j id enemy w hl hh
    · exact coreSteps_of_eq (core_projectileVersusPlayer _ _ _)
  · exact coreSteps_of_eq (core_projectileVersusPlayer _ _ _)

theorem projectileStep_steps (i : ℕ) (w : World) :
    CoreSteps w.core (projectileStep i w).core := by
  unfold projectileStep
  split
  · exact CoreSteps.refl _
  · lift_lets
    intro projectile w1 w2
    have hw2 : w2.core = w.core := by
      show World.core (if w1.rand 0 < 0.3 then _ else _) = _
      split_ifs
      · rw [core_addTrail, core_advance]
        rfl
      · rfl
    have h := projectileResolve_steps i projectile w2
    rw [hw2] at h
    exact h

theorem projectileLoop_steps (n : ℕ) (w : World) :
    CoreSteps w.core (projectileLoop n w).core := by
  induction n generalizing w with
  | zero => exact CoreSteps.refl _
  | succ k ih => exact coreSteps_trans (projectileStep_steps k w) (ih _)

theorem updateProjectiles_steps (w : World) : CoreSteps w.core (updateProjectiles w).core :=
  projectileLoop_steps _ w

/-! ## What the elementary changes of the core preserve -/

theorem filter_eraseIdx_length {α : Type} (p : α → Bool) (l : List α) (i : ℕ) (a : α)
    (h : l[i]? = some a) :
    ((l.eraseIdx i).filter p).length + (if p a then 1 else 0) = (l.filter p).length := by
  induction l generalizing i with
  | nil => simp at h
  | cons b rest ih =>
    cases i with
    | zero =>
      simp only [List.getElem?_cons_zero, Option.some.injEq] at h
      subst h
      cases hp : p b <;> simp [List.filter, hp]
    | succ k =>
      simp only [List.getElem?_cons_succ] at h
      have := ih k h
      cases hp : p b
      · simp only [List.eraseIdx_cons_succ, List.filter, hp]
        exact this
      · simp only [List.eraseIdx_cons_succ, List.filter, hp, List.length_cons]
        omega

theorem isBossRef_of_get {heap : List Enemy} {id : ℕ} {e : Enemy} (h : heap[id]? = some e) :
    isBossRef heap id = e.isBoss := by
  unfold isBossRef
  rw [h]

theorem isBossRef_set (heap : List Enemy) (id : ℕ) (e e' : Enemy) (h : heap[id]? = some e)
    (hb : e'.isBoss = e.isBoss) : isBossRef (heap.set id e') = isBossRef heap := by
  funext j
  unfold isBossRef
  by_cases hj : id = j
  · subst hj
    rw [List.getElem?_set_self (getElem?_length_lt h), h]
    exact hb
  · rw [List.getElem?_set_ne hj]

theorem destroy_fields (e : Enemy) (i : ℕ) (c : Core) :
    (c.destroy e i).manager.enemies = c.manager.enemies.eraseIdx i ∧
      (c.destroy e i).manager.bossActive = (if e.isBoss then false else c.manager.bossActive) ∧
      (c.destroy e i).heap = c.heap ∧
      (c.destroy e i).schedule = c.schedule ∧
      (c.destroy e i).manager.score = c.manager.score +
        (if truthy e.value then e.value.getD 100 else 100) * c.manager.scoreMultiplier ∧
      (c.destroy e i).manager.gameScale = c.manager.gameScale := by
  by_cases h10 : c.manager.combo + 1 ≥ 10
  · unfold Core.destroy Core.schedule
    simp only [h10, if_true]
    simp
  · by_cases h5 : c.manager.combo + 1 ≥ 5
    · unfold Core.destroy Core.schedule
      simp only [h10, h5, if_true, if_false]
      simp
    · unfold Core.destroy Core.schedule
      simp only [h10, h5, if_false]
      simp

theorem bossInv_erase (c d : Core) (i id : ℕ) (e : Enemy)
    (hi : c.manager.enemies[i]? = some id) (hh : c.heap[id]? = some e)
    (henemies : d.manager.enemies = c.manager.enemies.eraseIdx i)
    (hflag : d.manager.bossActive = (if e.isBoss then false else c.manager.bossActive))
    (hheap : d.heap = c.heap) (h : BossInv c) : BossInv d := by
  obtain ⟨hvalid, hcount⟩ := h
  have hlen := filter_eraseIdx_length (isBossRef c.heap) c.manager.enemies i id hi
  rw [isBossRef_of_get hh] at hlen
  refine ⟨?_, ?_⟩
  · intro x hx
    rw [henemies] at hx
    rw [hheap]
    exact hvalid x ((List.eraseIdx_sublist _ _).subset hx)
  · unfold Core.bossCount at hcount ⊢
    rw [henemies, hheap, hflag]
    cases hb : e.isBoss
    · simp only [hb, Bool.false_eq_true, if_false, Nat.add_zero] at hlen ⊢
      rw [hlen, hcount]
    · simp only [hb, if_true] at hlen ⊢
      cases hf : c.manager.bossActive
      · rw [hf] at hcount
        simp only [Bool.false_eq_true, if_false] at hcount
        omega
      · rw [hf] at hcount
        simp only [if_true] at hcount
        simp only [Bool.false_eq_true, if_false]
        omega

theorem coreStep_bossInv {c d : Core} (hstep : CoreStep c d) (h : BossInv c) : BossInv d := by
  cases hstep with
  | write id e e' hh hb _ _ =>
    obtain ⟨hvalid, hcount⟩ := h
    refine ⟨?_, ?_⟩
    · intro x hx
      show x < (c.heap.set id e').length
      rw [List.length_set]
      exact hvalid x hx
    · show (c.manager.enemies.filter (isBossRef (c.heap.set id e'))).length = _
      rw [isBossRef_set c.heap id e e' hh hb]
      exact hcount
  | score points => exact h
  | destroy i id e hi hh =>
    obtain ⟨h1, h2, h3, _⟩ := destroy_fields e i c
    exact bossInv_erase c _ i id e hi hh h1 h2 h3 h
  | cull i id e hi hh => exact bossInv_erase c _ i id e hi hh rfl rfl rfl h

theorem coreSteps_bossInv {c d : Core} (hsteps : CoreSteps c d) (h : BossInv c) : BossInv d := by
  induction hsteps with
  | refl => exact h
  | tail b d' _ hstep ih => exact coreStep_bossInv hstep ih

theorem healthLe_refl (a : Option ℤ) : healthLe a a := by
  cases a with
  | none => trivial
  | some x => exact le_refl x

theorem healthLe_trans {a b c : Option ℤ} (h1 : healthLe a b) (h2 : healthLe b c) :
    healthLe a c := by
  cases a <;> cases b <;> cases c <;> simp only [healthLe] at h1 h2 ⊢
  exact le_trans h1 h2

theorem healthMono_refl (c : Core) : HealthMono c c :=
  fun _ e h => ⟨e, h, rfl, rfl, healthLe_refl _⟩

theorem healthMono_trans {a b c : Core} (h1 : HealthMono a b) (h2 : HealthMono b c) :
    HealthMono a c := by
  intro id e h
  obtain ⟨e1, he1, hb1, hv1, hl1⟩ := h1 id e h
  obtain ⟨e2, he2, hb2, hv2, hl2⟩ := h2 id e1 he1
  exact ⟨e2, he2, hb2.trans hb1, hv2.trans hv1, healthLe_trans hl2 hl1⟩

theorem healthMono_of_core_heap {c d : Core} (h : d.heap = c.heap) : HealthMono c d := by
  intro id e he
  exact ⟨e, by rw [h]; exact he, rfl, rfl, healthLe_refl _⟩

theorem coreStep_healthMono {c d : Core} (hstep : CoreStep c d) : HealthMono c d := by
  cases hstep with
  | write id e e' hh hb hv hhealth =>
    intro j e0 hj
    by_cases hid : id = j
    · subst hid
      rw [hh] at hj
      simp only [Option.some.injEq] at hj
      subst hj
      refine ⟨e', ?_, hb, hv, ?_⟩
      · show (c.heap.set id e')[id]? = some e'
        rw [List.getElem?_set_self (getElem?_length_lt hh)]
      · rcases hhealth with heq | ⟨x, hx, hx'⟩
        · rw [heq]
          exact healthLe_refl _
        · rw [hx, hx']
          show x - 1 ≤ x
          omega
    · refine ⟨e0, ?_, rfl, rfl, healthLe_refl _⟩
      show (c.heap.set id e')[j]? = some e0
      rw [List.getElem?_set_ne hid]
      exact hj
  | score points => exact healthMono_of_core_heap rfl
  | destroy i id e hi hh => exact healthMono_of_core_heap (destroy_fields e i c).2.2.1
  | cull i id e hi hh => exact healthMono_of_core_heap rfl

theorem coreSteps_healthMono {c d : Core} (hsteps : CoreSteps c d) : HealthMono c d := by
  induction hsteps with
  | refl => exact healthMono_refl _
  | tail b d' _ hstep ih => exact healthMono_trans ih (coreStep_healthMono hstep)

/-- The elementary changes leave the scheduling fields and the number of enemy objects alone,
never set `bossActive` and never lengthen the active list. -/
theorem coreStep_frame {c d : Core} (hstep : CoreStep c d) :
    d.schedule = c.schedule ∧ (d.manager.bossActive = true → c.manager.bossActive = true) ∧
      d.manager.enemies.length ≤ c.manager.enemies.length ∧
      d.heap.length = c.heap.length ∧ d.manager.gameScale = c.manager.gameScale := by
  cases hstep with
  | write k e e' hh hb hv hhealth =>
    exact ⟨rfl, fun h => h, le_refl _, List.length_set _ _ _, rfl⟩
  | score points => exact ⟨rfl, id, le_refl _, rfl, rfl⟩
  | destroy i k e hi hh =>
    obtain ⟨h1, h2, h3, h4, _, h6⟩ := destroy_fields e i c
    refine ⟨h4, ?_, ?_, by rw [h3], h6⟩
    · rw [h2]
      split_ifs
      · intro hf
        exact absurd hf (by decide)
      · exact fun h => h
    · rw [h1]
      exact (List.eraseIdx_sublist _ _).length_le
  | cull i k e hi hh =>
    refine ⟨rfl, ?_, (List.eraseIdx_sublist _ _).length_le, rfl, rfl⟩
    show (if e.isBoss then false else c.manager.bossActive) = true → _
    split_ifs
    · intro hf
      exact absurd hf (by decide)
    · exact fun h => h

theorem coreSteps_frame {c d : Core} (hsteps : CoreSteps c d) :
    d.schedule = c.schedule ∧ (d.manager.bossActive = true → c.manager.bossActive = true) ∧
      d.manager.enemies.length ≤ c.manager.enemies.length ∧
      d.heap.length = c.heap.length ∧ d.manager.gameScale = c.manager.gameScale := by
  induction hsteps with
  | refl => exact ⟨rfl, id, le_refl _, rfl, rfl⟩
  | tail b d' _ hstep ih =>
    obtain ⟨h1, h2, h3, h4, h5⟩ := coreStep_frame hstep
    obtain ⟨i1, i2, i3, i4, i5⟩ := ih
    exact ⟨h1.trans i1, fun h => i2 (h2 h), le_trans h3 i3, h4.trans i4, h5.trans i5⟩

/-! ## The boss bookkeeping through the blocks of `update()` -/

theorem bossInv_congr {c d : Core} (henemies : d.manager.enemies = c.manager.enemies)
    (hheap : d.heap = c.heap) (hflag : d.manager.bossActive = c.manager.bossActive)
    (h : BossInv c) : BossInv d := by
  unfold BossInv Core.bossCount at h ⊢
  rw [henemies, hheap, hflag]
  exact h

theorem bossInv_of_roster {w v : World}
    (henemies : v.enemyManager.enemies = w.enemyManager.enemies) (hheap : v.heap = w.heap)
    (hflag : v.enemyManager.bossActive = w.enemyManager.bossActive) (h : BossInv w.core) :
    BossInv v.core :=
  @bossInv_congr w.core v.core henemies hheap hflag h

theorem isBossRef_append_left (heap : List Enemy) (e : Enemy) {x : ℕ} (hx : x < heap.length) :
    isBossRef (heap ++ [e]) x = isBossRef heap x := by
  unfold isBossRef
  rw [List.getElem?_append_left hx]

theorem isBossRef_append_length (heap : List Enemy) (e : Enemy) :
    isBossRef (heap ++ [e]) heap.length = e.isBoss := by
  unfold isBossRef
  simp

theorem filter_isBossRef_append (heap : List Enemy) (e : Enemy) (l : List ℕ)
    (hl : ∀ x ∈ l, x < heap.length) :
    l.filter (isBossRef (heap ++ [e])) = l.filter (isBossRef heap) :=
  List.filter_congr (fun x hx => isBossRef_append_left heap e (hl x hx))

theorem bossInv_admit_plain (c d : Core) (e : Enemy) (ids : List ℕ) (he : e.isBoss = false)
    (hheap : d.heap = c.heap ++ [e]) (henemies : d.manager.enemies = c.manager.enemies ++ ids)
    (hids : ∀ x ∈ ids, x = c.heap.length)
    (hflag : d.manager.bossActive = c.manager.bossActive) (h : BossInv c) : BossInv d := by
  obtain ⟨hvalid, hcount⟩ := h
  refine ⟨?_, ?_⟩
  · intro x hx
    rw [henemies, List.mem_append] at hx
    rw [hheap, List.length_append, List.length_singleton]
    rcases hx with hx | hx
    · exact Nat.lt_succ_of_lt (hvalid x hx)
    · rw [hids x hx]
      exact Nat.lt_succ_self _
  · unfold Core.bossCount at hcount ⊢
    rw [henemies, hheap, hflag, List.filter_append,
      filter_isBossRef_append c.heap e _ hvalid, List.length_append, hcount]
    have : ids.filter (isBossRef (c.heap ++ [e])) = [] := by
      rw [List.filter_eq_nil_iff]
      intro x hx
      rw [hids x hx, isBossRef_append_length, he]
      decide
    rw [this]
    rfl

theorem bossInv_admit_boss (c d : Core) (e : Enemy) (he : e.isBoss = true)
    (hheap : d.heap = c.heap ++ [e])
    (henemies : d.manager.enemies = c.manager.enemies ++ [c.heap.length])
    (hold : c.manager.bossActive = false)
    (hflag : d.manager.bossActive = true) (h : BossInv c) : BossInv d := by
  obtain ⟨hvalid, hcount⟩ := h
  refine ⟨?_, ?_⟩
  · intro x hx
    rw [henemies, List.mem_append] at hx
    rw [hheap, List.length_append, List.length_singleton]
    rcases hx with hx | hx
    · exact Nat.lt_succ_of_lt (hvalid x hx)
    · rw [List.mem_singleton.mp hx]
      exact Nat.lt_succ_self _
  · unfold Core.bossCount at hcount ⊢
    rw [hold] at hcount
    rw [henemies, hheap, hflag, List.filter_append,
      filter_isBossRef_append c.heap e _ hvalid, List.length_append, hcount]
    have : [c.heap.length].filter (isBossRef (c.heap ++ [e])) = [c.heap.length] := by
      rw [List.filter_cons_of_pos]
      · rfl
      · rw [isBossRef_append_length, he]
    rw [this]
    rfl

/-- The first block of `update()`, case by case: nothing while a boss is active; otherwise
the countdown, and at its end a new boss object with health 20 and value 1000 appended to the
active list, `bossActive` set and the countdown rearmed. -/
theorem bossTimerPhase_cases (w : World) :
    (w.enemyManager.bossActive = true → bossTimerPhase w = w) ∧
    (w.enemyManager.bossActive = false → 0 < w.enemyManager.bossTimer - 1 →
      bossTimerPhase w = { w with enemyManager :=
        { w.enemyManager with bossTimer := w.enemyManager.bossTimer - 1 } }) ∧
    (w.enemyManager.bossActive = false → w.enemyManager.bossTimer - 1 ≤ 0 →
      ∃ boss : Enemy, boss.identity = (true, some 20, some 1000, EnemyType.boss) ∧
        bossTimerPhase w = { w with
          heap := w.heap ++ [boss]
          enemyManager :=
            { w.enemyManager with
                bossTimer := w.enemyManager.bossSpawnThreshold
                bossActive := true
                enemies := w.enemyManager.enemies ++ [w.heap.length] } }) := by
  refine ⟨?_, ?_, ?_⟩
  · intro h
    unfold bossTimerPhase
    simp [h]
  · intro h ht
    unfold bossTimerPhase
    have : ¬ w.enemyManager.bossTimer - 1 ≤ 0 := not_le.mpr ht
    simp only [h, Bool.not_false, if_true, this, if_false]
  · intro h ht
    unfold bossTimerPhase spawnBoss createBoss
    simp only [h, Bool.not_false, if_true, ht, Bool.false_eq_true, if_false]
    refine ⟨_, ?_, rfl⟩
    rfl

theorem bossTimerPhase_bossInv (w : World) (h : BossInv w.core) :
    BossInv (bossTimerPhase w).core := by
  obtain ⟨h1, h2, h3⟩ := bossTimerPhase_cases w
  cases hb : w.enemyManager.bossActive
  · by_cases ht : w.enemyManager.bossTimer - 1 ≤ 0
    · obtain ⟨boss, hboss, heq⟩ := h3 hb ht
      rw [heq]
      simp only [Enemy.identity, Prod.mk.injEq] at hboss
      exact bossInv_admit_boss w.core _ boss hboss.1 rfl rfl hb rfl h
    · rw [h2 hb (not_le.mp ht)]
      exact bossInv_congr rfl rfl rfl h
  · rw [h1 hb]
    exact h

theorem createWanderer_eq (position : Vector) (color : String) (w : World) :
    ∃ (e : Enemy) (n : ℕ), e.identity = (false, none, some 50, EnemyType.wanderer) ∧
      createWanderer position color w
        = (w.heap.length, { w with heap := w.heap ++ [e], randomCalls := n }) := by
  unfold createWanderer
  refine ⟨_, _, ?_, rfl⟩
  rfl

theorem createSpinner_eq (position : Vector) (color : String) (w : World) :
    ∃ (e : Enemy) (n : ℕ), e.identity = (false, none, some 150, EnemyType.spinner) ∧
      createSpinner position color w
        = (w.heap.length, { w with heap := w.heap ++ [e], randomCalls := n }) := by
  unfold createSpinner
  refine ⟨_, _, ?_, rfl⟩
  rfl

theorem createSeeker_eq (position : Vector) (color : String) (w : World) :
    ∃ e : Enemy, e.identity = (false, none, none, EnemyType.seeker) ∧
      createSeeker position color w
        = (w.heap.length, { w with
            heap := w.heap ++ [e]
            enemyManager :=
              { w.enemyManager with
                  enemies := w.enemyManager.enemies ++ [w.heap.length] } }) := by
  unfold createSeeker
  refine ⟨_, ?_, rfl⟩
  rfl

/-- The method `spawn()`: one new enemy object, no boss, appended to the active list once
by `spawn` itself and, for a seeker, once more before that by `createSeeker`. -/
theorem spawn_cases (w : World) :
    ∃ (e : Enemy) (n : ℕ), e.isBoss = false ∧
      e.type = (if w.randomInt 0 0 2 = 1 then EnemyType.wanderer
        else if w.randomInt 0 0 2 = 2 then EnemyType.spinner else EnemyType.seeker) ∧
      spawn w = { w with
        heap := w.heap ++ [e]
        randomCalls := n
        enemyManager :=
          { w.enemyManager with
              enemies :=
                if e.type = EnemyType.seeker then
                  (w.enemyManager.enemies ++ [w.heap.length]) ++ [w.heap.length]
                else w.enemyManager.enemies ++ [w.heap.length] } } := by
  unfold spawn
  lift_lets
  intro typeIndex side position colorIndex color w1 r
  by_cases h1 : typeIndex = 1
  · have hr : r = createWanderer position color w1 := if_pos h1
    obtain ⟨e, n, hid, heq⟩ := createWanderer_eq position color w1
    simp only [Enemy.identity, Prod.mk.injEq] at hid
    obtain ⟨hb, _, _, ht⟩ := hid
    refine ⟨e, n, hb, ?_, ?_⟩
    · rw [ht, if_pos h1]
    · rw [hr, heq, ht]
      rfl
  · by_cases h2 : typeIndex = 2
    · have hr : r = createSpinner position color w1 := by
        show (if typeIndex = 1 then _ else _) = _
        rw [if_neg h1, if_pos h2]
      obtain ⟨e, n, hid, heq⟩ := createSpinner_eq position color w1
      simp only [Enemy.identity, Prod.mk.injEq] at hid
      obtain ⟨hb, _, _, ht⟩ := hid
      refine ⟨e, n, hb, ?_, ?_⟩
      · rw [ht, if_neg h1, if_pos h2]
      · rw [hr, heq, ht]
        rfl
    · have hr : r = createSeeker position color w1 := by
        show (if typeIndex = 1 then _ else _) = _
        rw [if_neg h1, if_neg h2]
      obtain ⟨e, hid, heq⟩ := createSeeker_eq position color w1
      simp only [Enemy.identity, Prod.mk.injEq] at hid
      obtain ⟨hb, _, _, ht⟩ := hid
      refine ⟨e, w1.randomCalls, hb, ?_, ?_⟩
      · rw [ht, if_neg h1, if_neg h2]
      · rw [hr, heq, ht]
        rfl

theorem spawn_bossInv (w : World) (h : BossInv w.core) : BossInv (spawn w).core := by
  obtain ⟨e, n, he, _, heq⟩ := spawn_cases w
  rw [heq]
  by_cases hs : e.type = EnemyType.seeker
  · refine bossInv_admit_plain w.core _ e [w.heap.length, w.heap.length] he rfl ?_ ?_ rfl h
    · show (if e.type = EnemyType.seeker then _ else _) = _
      rw [if_pos hs, List.append_assoc]
      rfl
    · intro x hx
      simp only [List.mem_cons, List.mem_singleton, or_self, List.not_mem_nil, or_false] at hx
      exact hx
  · refine bossInv_admit_plain w.core _ e [w.heap.length] he rfl ?_ ?_ rfl h
    · show (if e.type = EnemyType.seeker then _ else _) = _
      rw [if_neg hs]
      rfl
    · intro x hx
      exact List.mem_singleton.mp hx

theorem spawnPhase_bossInv (w : World) (h : BossInv w.core) : BossInv (spawnPhase w).core := by
  unfold spawnPhase
  simp only []
  split_ifs
  · refine bossInv_congr rfl rfl rfl (spawn_bossInv _ ?_)
    exact bossInv_congr rfl rfl rfl h
  · exact bossInv_congr rfl rfl rfl h

theorem difficultyPhase_roster (w : World) :
    (difficultyPhase w).enemyManager.enemies = w.enemyManager.enemies ∧
      (difficultyPhase w).heap = w.heap ∧
      (difficultyPhase w).enemyManager.bossActive = w.enemyManager.bossActive ∧
      (difficultyPhase w).enemyManager.bossTimer = w.enemyManager.bossTimer ∧
      (difficultyPhase w).enemyManager.bossSpawnThreshold
        = w.enemyManager.bossSpawnThreshold := by
  unfold difficultyPhase increaseDifficulty
  simp only []
  split_ifs <;> exact ⟨rfl, rfl, rfl, rfl, rfl⟩

theorem timerPhases_roster (w : World) :
    (multiplierPhase (comboPhase w)).enemyManager.enemies = w.enemyManager.enemies ∧
      (multiplierPhase (comboPhase w)).heap = w.heap ∧
      (multiplierPhase (comboPhase w)).enemyManager.bossActive = w.enemyManager.bossActive ∧
      (multiplierPhase (comboPhase w)).core.schedule = w.core.schedule := by
  unfold multiplierPhase comboPhase
  simp only []
  split_ifs <;> exact ⟨rfl, rfl, rfl, rfl⟩

/-- The whole of `update()` on the core: the three countdown blocks, then elementary changes,
then the two timer blocks. -/
theorem updateEntities_steps (w : World) :
    CoreSteps (difficultyPhase (spawnPhase (bossTimerPhase w))).core (updateEntities w).core := by
  unfold updateEntities
  exact coreSteps_trans (enemyLoop_steps _ _) (updateProjectiles_steps _)

theorem update_bossInv (w : World) (h : BossInv w.core) :
    BossInv (EnemyManager.update w).core := by
  unfold EnemyManager.update
  obtain ⟨t1, t2, t3, _⟩ := timerPhases_roster (updateEntities w)
  refine bossInv_of_roster t1 t2 t3 ?_
  refine coreSteps_bossInv (updateEntities_steps w) ?_
  obtain ⟨d1, d2, d3, _⟩ := difficultyPhase_roster (spawnPhase (bossTimerPhase w))
  exact bossInv_of_roster d1 d2 d3 (spawnPhase_bossInv _ (bossTimerPhase_bossInv w h))

theorem reset_bossInv (w : World) : BossInv (EnemyManager.reset w).core := by
  refine ⟨?_, rfl⟩
  intro x hx
  exact absurd hx (List.not_mem_nil x)

theorem reachable_bossInv (w : World) (h : Reachable w) : BossInv w.core := by
  induction h with
  | init w gameScale hnew hheap =>
    refine ⟨?_, ?_⟩
    · intro x hx
      have : w.core.manager.enemies = [] := by
        show w.enemyManager.enemies = []
        rw [hnew]
        rfl
      rw [this] at hx
      exact absurd hx (List.not_mem_nil x)
    · unfold Core.bossCount
      show (w.enemyManager.enemies.filter _).length = if w.enemyManager.bossActive then 1 else 0
      rw [hnew]
      rfl
  | update w _ ih => exact update_bossInv w ih
  | reset w _ _ => exact reset_bossInv w
  | surroundings w v _ hm hh _ ih =>
    exact bossInv_of_roster (by rw [hm]) hh (by rw [hm]) ih

/-! ## C15: at most one boss -/

/-- C15: in every state reachable from a newly constructed manager by `update()` and
`reset()` calls, at most one entry of the active enemy list is a boss, and `bossActive` is
true exactly when some entry of the list is a boss. -/
theorem at_most_one_boss (w : World) (h : Reachable w) :
    w.core.bossCount ≤ 1 ∧
      (w.enemyManager.bossActive = true ↔
        ∃ id ∈ w.enemyManager.enemies, isBossRef w.heap id = true) := by
  obtain ⟨_, hcount⟩ := reachable_bossInv w h
  have hcount2 : (w.enemyManager.enemies.filter (isBossRef w.heap)).length
      = if w.enemyManager.bossActive then 1 else 0 := hcount
  refine ⟨?_, ?_, ?_⟩
  · rw [hcount]
    split_ifs <;> omega
  · intro hflag
    rw [hflag] at hcount2
    simp only [if_true] at hcount2
    have hpos : 0 < (w.enemyManager.enemies.filter (isBossRef w.heap)).length := by omega
    obtain ⟨id, hid⟩ := List.exists_mem_of_length_pos hpos
    rw [List.mem_filter] at hid
    exact ⟨id, hid.1, hid.2⟩
  · rintro ⟨id, hmem, hboss⟩
    have hid : id ∈ w.enemyManager.enemies.filter (isBossRef w.heap) :=
      List.mem_filter.mpr ⟨hmem, hboss⟩
    have hpos : 0 < (w.enemyManager.enemies.filter (isBossRef w.heap)).length :=
      List.length_pos_of_mem hid
    rw [hcount2] at hpos
    by_contra hflag
    simp only [hflag, if_false, Nat.lt_irrefl] at hpos

/-- C15, worked example: the sample session, a new manager after one `update()`. -/
theorem at_most_one_boss_witness :
    Reachable (EnemyManager.update sampleWorld) ∧
      (EnemyManager.update sampleWorld).core.bossCount ≤ 1 :=
  ⟨Reachable.update _ (Reachable.init sampleWorld 1 rfl rfl),
    (at_most_one_boss _ (Reachable.update _ (Reachable.init sampleWorld 1 rfl rfl))).1⟩

/-! ## The scheduling fields through `update()` -/

/-- The spawn block of `update()` writes `spawnTimer`, the active list and the enemy objects,
and nothing else of the scheduling or boss fields. -/
theorem spawnPhase_frame (w : World) :
    (spawnPhase w).enemyManager.bossActive = w.enemyManager.bossActive ∧
      (spawnPhase w).enemyManager.bossTimer = w.enemyManager.bossTimer ∧
      (spawnPhase w).enemyManager.bossSpawnThreshold = w.enemyManager.bossSpawnThreshold ∧
      (spawnPhase w).enemyManager.spawnRate = w.enemyManager.spawnRate ∧
      (spawnPhase w).enemyManager.maxEnemies = w.enemyManager.maxEnemies ∧
      (spawnPhase w).enemyManager.difficultyTimer = w.enemyManager.difficultyTimer ∧
      (spawnPhase w).enemyManager.difficultyInterval = w.enemyManager.difficultyInterval := by
  unfold spawnPhase
  simp only []
  split_ifs
  · obtain ⟨e, n, _, _, heq⟩ := spawn_cases
      { w with enemyManager := { w.enemyManager with spawnTimer := w.enemyManager.spawnTimer + 1 } }
    rw [heq]
    exact ⟨rfl, rfl, rfl, rfl, rfl, rfl, rfl⟩
  · exact ⟨rfl, rfl, rfl, rfl, rfl, rfl, rfl⟩

/-- After the three countdown blocks, `update()` never writes a scheduling field and never
sets `bossActive`. -/
theorem update_schedule (w : World) :
    (EnemyManager.update w).core.schedule
        = (difficultyPhase (spawnPhase (bossTimerPhase w))).core.schedule ∧
      ((EnemyManager.update w).enemyManager.bossActive = true →
        (bossTimerPhase w).enemyManager.bossActive = true) := by
  unfold EnemyManager.update
  obtain ⟨_, _, t3, t4⟩ := timerPhases_roster (updateEntities w)
  obtain ⟨f1, f2, _⟩ := coreSteps_frame (updateEntities_steps w)
  obtain ⟨_, _, d3, _⟩ := difficultyPhase_roster (spawnPhase (bossTimerPhase w))
  obtain ⟨s1, _⟩ := spawnPhase_frame (bossTimerPhase w)
  refine ⟨t4.trans f1, ?_⟩
  intro h
  rw [t3] at h
  have h2 := f2 h
  have h3 : (difficultyPhase (spawnPhase (bossTimerPhase w))).enemyManager.bossActive = true :=
    h2
  rw [d3, s1] at h3
  exact h3

theorem schedule_bossTimer (w : World) :
    w.core.schedule.bossTimer = w.enemyManager.bossTimer := rfl

theorem schedule_bossSpawnThreshold (w : World) :
    w.core.schedule.bossSpawnThreshold = w.enemyManager.bossSpawnThreshold := rfl

theorem schedule_spawnTimer (w : World) :
    w.core.schedule.spawnTimer = w.enemyManager.spawnTimer := rfl

theorem schedule_spawnRate (w : World) :
    w.core.schedule.spawnRate = w.enemyManager.spawnRate := rfl

theorem schedule_difficultyTimer (w : World) :
    w.core.schedule.difficultyTimer = w.enemyManager.difficultyTimer := rfl

theorem schedule_difficultyInterval (w : World) :
    w.core.schedule.difficultyInterval = w.enemyManager.difficultyInterval := rfl

theorem schedule_maxEnemies (w : World) :
    w.core.schedule.maxEnemies = w.enemyManager.maxEnemies := rfl

/-- The boss clock after one `update()` is the one its first block leaves. -/
theorem update_bossClock (w : World) :
    (EnemyManager.update w).enemyManager.bossTimer
        = (bossTimerPhase w).enemyManager.bossTimer ∧
      (EnemyManager.update w).enemyManager.bossSpawnThreshold
        = (bossTimerPhase w).enemyManager.bossSpawnThreshold ∧
      ((EnemyManager.update w).enemyManager.bossActive = true →
        (bossTimerPhase w).enemyManager.bossActive = true) := by
  obtain ⟨hs, hflag⟩ := update_schedule w
  obtain ⟨_, _, _, d4, d5⟩ := difficultyPhase_roster (spawnPhase (bossTimerPhase w))
  obtain ⟨_, s2, s3, _⟩ := spawnPhase_frame (bossTimerPhase w)
  refine ⟨?_, ?_, hflag⟩
  · rw [← schedule_bossTimer, hs, schedule_bossTimer, d4, s2]
  · rw [← schedule_bossSpawnThreshold, hs, schedule_bossSpawnThreshold, d5, s3]

theorem bossTimerPhase_threshold (w : World) :
    (bossTimerPhase w).enemyManager.bossSpawnThreshold = w.enemyManager.bossSpawnThreshold := by
  obtain ⟨h1, h2, h3⟩ := bossTimerPhase_cases w
  cases hb : w.enemyManager.bossActive
  · by_cases ht : w.enemyManager.bossTimer - 1 ≤ 0
    · obtain ⟨boss, _, heq⟩ := h3 hb ht
      rw [heq]
    · rw [h2 hb (not_le.mp ht)]
  · rw [h1 hb]

theorem reachable_threshold (w : World) (h : Reachable w) :
    w.enemyManager.bossSpawnThreshold = 1800 := by
  induction h with
  | init w gameScale hnew _ =>
    rw [hnew]
    rfl
  | update w _ ih =>
    rw [(update_bossClock w).2.1, bossTimerPhase_threshold, ih]
  | reset w _ ih => exact ih
  | surroundings w v _ hm _ _ ih =>
    rw [hm]
    exact ih

/-! ## C16: the boss countdown -/

/-- C16: the boss countdown runs only while no boss is active. For every session: with
`bossActive` true `update()` leaves `bossTimer` unchanged; with `bossActive` false and
`bossTimer` above 1 it lowers `bossTimer` by exactly 1, its first block spawns nothing and
`bossActive` is still false afterwards; with `bossActive` false and `bossTimer` at most 1 (the
update in which the countdown reaches 0) its first block appends a new boss object with
health 20 to the active list and sets `bossActive`, and `bossTimer` is back at
`bossSpawnThreshold` after the update. A new manager, and a reachable one after `reset()`,
start with an empty list, `bossActive` false and both `bossTimer` and `bossSpawnThreshold` at
1800; along every run from such a start (anything may happen between updates that leaves the
manager and the enemy objects alone) the list holds no boss and `bossTimer` is `1800 - k`
after `k` updates for `k` up to 1799, and the 1800th update spawns the first boss and leaves
`bossTimer` at 1800. -/
theorem boss_countdown (pre : ℕ → World)
    (hstart : (pre 0).enemyManager.enemies = [] ∧ (pre 0).enemyManager.bossActive = false ∧
      (pre 0).enemyManager.bossTimer = 1800 ∧ (pre 0).enemyManager.bossSpawnThreshold = 1800)
    (hstep : ∀ k, (pre (k + 1)).enemyManager = (EnemyManager.update (pre k)).enemyManager ∧
      (pre (k + 1)).heap = (EnemyManager.update (pre k)).heap) :
    (∀ w : World, w.enemyManager.bossActive = true →
        (EnemyManager.update w).enemyManager.bossTimer = w.enemyManager.bossTimer) ∧
    (∀ w : World, w.enemyManager.bossActive = false → 1 < w.enemyManager.bossTimer →
        (EnemyManager.update w).enemyManager.bossTimer = w.enemyManager.bossTimer - 1 ∧
        (EnemyManager.update w).enemyManager.bossActive = false ∧
        bossTimerPhase w = { w with enemyManager :=
          { w.enemyManager with bossTimer := w.enemyManager.bossTimer - 1 } }) ∧
    (∀ w : World, w.enemyManager.bossActive = false → w.enemyManager.bossTimer ≤ 1 →
        (EnemyManager.update w).enemyManager.bossTimer = w.enemyManager.bossSpawnThreshold ∧
        ∃ boss : Enemy, boss.identity = (true, some 20, some 1000, EnemyType.boss) ∧
          bossTimerPhase w = { w with
            heap := w.heap ++ [boss]
            enemyManager :=
              { w.enemyManager with
                  bossTimer := w.enemyManager.bossSpawnThreshold
                  bossActive := true
                  enemies := w.enemyManager.enemies ++ [w.heap.length] } }) ∧
    (∀ gameScale : ℚ, (EnemyManager.new gameScale).enemies = [] ∧
        (EnemyManager.new gameScale).bossActive = false ∧
        (EnemyManager.new gameScale).bossTimer = 1800 ∧
        (EnemyManager.new gameScale).bossSpawnThreshold = 1800) ∧
    (∀ v : World, Reachable v → (EnemyManager.reset v).enemyManager.enemies = [] ∧
        (EnemyManager.reset v).enemyManager.bossActive = false ∧
        (EnemyManager.reset v).enemyManager.bossTimer = 1800 ∧
        (EnemyManager.reset v).enemyManager.bossSpawnThreshold = 1800) ∧
    (∀ k, k ≤ 1799 → (pre k).enemyManager.bossActive = false ∧ (pre k).core.bossCount = 0 ∧
        (pre k).enemyManager.bossTimer = 1800 - (k : ℤ)) ∧
    (∃ boss : Enemy, boss.identity = (true, some 20, some 1000, EnemyType.boss) ∧
        bossTimerPhase (pre 1799) = { pre 1799 with
          heap := (pre 1799).heap ++ [boss]
          enemyManager :=
            { (pre 1799).enemyManager with
                bossTimer := (pre 1799).enemyManager.bossSpawnThreshold
                bossActive := true
                enemies := (pre 1799).enemyManager.enemies ++ [(pre 1799).heap.length] } }) ∧
    (EnemyManager.update (pre 1799)).enemyManager.bossTimer = 1800 := by
  have hactive : ∀ w : World, w.enemyManager.bossActive = true →
      (EnemyManager.update w).enemyManager.bossTimer = w.enemyManager.bossTimer := by
    intro w hb
    rw [(update_bossClock w).1, (bossTimerPhase_cases w).1 hb]
  have hcount : ∀ w : World, w.enemyManager.bossActive = false → 1 < w.enemyManager.bossTimer →
      (EnemyManager.update w).enemyManager.bossTimer = w.enemyManager.bossTimer - 1 ∧
      (EnemyManager.update w).enemyManager.bossActive = false ∧
      bossTimerPhase w = { w with enemyManager :=
        { w.enemyManager with bossTimer := w.enemyManager.bossTimer - 1 } } := by
    intro w hb ht
    have heq := (bossTimerPhase_cases w).2.1 hb (by omega)
    obtain ⟨c1, _, c3⟩ := update_bossClock w
    refine ⟨?_, ?_, heq⟩
    · rw [c1, heq]
    · cases hu : (EnemyManager.update w).enemyManager.bossActive
      · rfl
      · have h3 := c3 hu
        rw [heq] at h3
        exact absurd (hb.symm.trans h3) (by decide)
  have hspawn : ∀ w : World, w.enemyManager.bossActive = false → w.enemyManager.bossTimer ≤ 1 →
      (EnemyManager.update w).enemyManager.bossTimer = w.enemyManager.bossSpawnThreshold ∧
      ∃ boss : Enemy, boss.identity = (true, some 20, some 1000, EnemyType.boss) ∧
        bossTimerPhase w = { w with
          heap := w.heap ++ [boss]
          enemyManager :=
            { w.enemyManager with
                bossTimer := w.enemyManager.bossSpawnThreshold
                bossActive := true
                enemies := w.enemyManager.enemies ++ [w.heap.length] } } := by
    intro w hb ht
    obtain ⟨boss, hboss, heq⟩ := (bossTimerPhase_cases w).2.2 hb (by omega)
    refine ⟨?_, boss, hboss, heq⟩
    rw [(update_bossClock w).1, heq]
  have hrun : ∀ k, k ≤ 1799 → BossInv (pre k).core ∧
      (pre k).enemyManager.bossSpawnThreshold = 1800 ∧
      (pre k).enemyManager.bossActive = false ∧
      (pre k).enemyManager.bossTimer = 1800 - (k : ℤ) := by
    intro k
    induction k with
    | zero =>
      intro _
      obtain ⟨h1, h2, h3, h4⟩ := hstart
      refine ⟨⟨?_, ?_⟩, h4, h2, by rw [h3]; norm_num⟩
      · intro x hx
        have : x ∈ (pre 0).enemyManager.enemies := hx
        rw [h1] at this
        exact absurd this (List.not_mem_nil x)
      · show ((pre 0).enemyManager.enemies.filter _).length
          = if (pre 0).enemyManager.bossActive then 1 else 0
        rw [h1, h2]
        rfl
    | succ n ih =>
      intro hn
      obtain ⟨hinv, hthr, hflag, htimer⟩ := ih (by omega)
      obtain ⟨hm, hh⟩ := hstep n
      obtain ⟨u1, u2, _⟩ := hcount (pre n) hflag (by rw [htimer]; omega)
      refine ⟨?_, ?_, ?_, ?_⟩
      · exact bossInv_of_roster (by rw [hm]) hh (by rw [hm]) (update_bossInv (pre n) hinv)
      · rw [hm, (update_bossClock (pre n)).2.1, bossTimerPhase_threshold, hthr]
      · rw [hm, u2]
      · rw [hm, u1, htimer]
        push_cast
        ring
  refine ⟨hactive, hcount, hspawn, fun _ => ⟨rfl, rfl, rfl, rfl⟩, ?_, ?_, ?_, ?_⟩
  · intro v hv
    exact ⟨rfl, rfl, reachable_threshold v hv, reachable_threshold v hv⟩
  · intro k hk
    obtain ⟨hinv, _, hflag, htimer⟩ := hrun k hk
    refine ⟨hflag, ?_, htimer⟩
    rw [hinv.2]
    have : (pre k).core.manager.bossActive = false := hflag
    rw [this]
    rfl
  · obtain ⟨_, _, hflag, htimer⟩ := hrun 1799 (le_refl _)
    exact (hspawn (pre 1799) hflag (by rw [htimer]; norm_num)).2
  · obtain ⟨_, hthr, hflag, htimer⟩ := hrun 1799 (le_refl _)
    rw [(hspawn (pre 1799) hflag (by rw [htimer]; norm_num)).1, hthr]

/-- C16, worked example: the run of the sample session, a new manager under `update()`
alone. No boss during the first 1799 updates, with the countdown at `1800 - k`; the 1800th
update leaves the countdown at 1800. -/
theorem boss_countdown_witness :
    (∀ k, k ≤ 1799 → (bossRun k).enemyManager.bossActive = false ∧
        (bossRun k).core.bossCount = 0 ∧
        (bossRun k).enemyManager.bossTimer = 1800 - (k : ℤ)) ∧
      (EnemyManager.update (bossRun 1799)).enemyManager.bossTimer = 1800 :=
  ⟨(boss_countdown bossRun ⟨rfl, rfl, rfl, rfl⟩ (fun _ => ⟨rfl, rfl⟩)).2.2.2.2.2.1,
    (boss_countdown bossRun ⟨rfl, rfl, rfl, rfl⟩ (fun _ => ⟨rfl, rfl⟩)).2.2.2.2.2.2.2⟩

/-! ## Hits on a multi-hit enemy -/

/-- The core after a player-projectile hit on a multi-hit enemy: 50 points, then the
damage. -/
theorem core_hitEnemy_damage (enemy : Enemy) (index id : ℕ) (w : World) :
    ∃ e' : Enemy,
      e'.identity = (enemy.isBoss, enemy.health.map (fun h => h - 1), enemy.value, enemy.type) ∧
      (hitEnemy enemy index id w).core = (w.core.addScore 50).damage id index e' := by
  obtain ⟨e', hid, hcore⟩ := core_hitEnemy enemy index id w
  exact ⟨e', hid, hcore⟩

/-- The core after the hit of a reflected projectile on a multi-hit enemy: the damage, then
100 points. -/
theorem core_reflectedHit_damage (i j id : ℕ) (enemy : Enemy) (w : World)
    (ht : truthy enemy.health = true) :
    (reflectedHit i j id enemy w).core =
      (w.core.damage id j { enemy with health := enemy.health.map (fun h => h - 1) }).addScore
        100 := by
  rw [core_reflectedHit, core_reflectedDamage, if_pos ht]
  rfl

theorem bossInv_flag_of_mem {c : Core} (h : BossInv c) {id : ℕ} (hmem : id ∈ c.manager.enemies)
    (hboss : isBossRef c.heap id = true) : c.manager.bossActive = true := by
  have hid : id ∈ c.manager.enemies.filter (isBossRef c.heap) :=
    List.mem_filter.mpr ⟨hmem, hboss⟩
  have hpos : 0 < (c.manager.enemies.filter (isBossRef c.heap)).length :=
    List.length_pos_of_mem hid
  have hcount : (c.manager.enemies.filter (isBossRef c.heap)).length
      = if c.manager.bossActive then 1 else 0 := h.2
  rw [hcount] at hpos
  by_contra hflag
  simp only [hflag, if_false, Nat.lt_irrefl] at hpos

theorem bossInv_not_mem {c : Core} (h : BossInv c) (hflag : c.manager.bossActive = false)
    {id : ℕ} (hboss : isBossRef c.heap id = true) : id ∉ c.manager.enemies := by
  intro hmem
  have := bossInv_flag_of_mem h hmem hboss
  rw [hflag] at this
  exact absurd this (by decide)

/-- What the damage does to a boss of health `h` held at index `i` under reference `id`. -/
theorem damage_spec (c : Core) (id i : ℕ) (e e' : Enemy) (h : ℤ) (hinv : BossInv c)
    (hi : c.manager.enemies[i]? = some id) (hh : c.heap[id]? = some e)
    (hboss : e.isBoss = true) (hhealth : e.health = some h)
    (hboss' : e'.isBoss = true) (hvalue : e'.value = e.value)
    (hhealth' : e'.health = some (h - 1)) :
    (c.damage id i e').heap[id]? = some e' ∧ BossInv (c.damage id i e') ∧
      (2 ≤ h → (c.damage id i e').manager = c.manager) ∧
      (h ≤ 1 → (c.damage id i e').manager.enemies = c.manager.enemies.eraseIdx i ∧
        (c.damage id i e').manager.bossActive = false ∧
        id ∉ (c.damage id i e').manager.enemies ∧
        (c.damage id i e').manager.score = c.manager.score +
          (if truthy e'.value then e'.value.getD 100 else 100) * c.manager.scoreMultiplier) := by
  have hlt : id < c.heap.length := getElem?_length_lt hh
  have hset : (c.setEnemy id e').heap[id]? = some e' := by
    show (c.heap.set id e')[id]? = some e'
    rw [List.getElem?_set_self hlt]
  have hwrite : CoreStep c (c.setEnemy id e') :=
    CoreStep.write c id e e' hh (hboss'.trans hboss.symm) hvalue
      (Or.inr ⟨h, hhealth, hhealth'⟩)
  have hinv1 : BossInv (c.setEnemy id e') := coreStep_bossInv hwrite hinv
  by_cases hle : h - 1 ≤ 0
  · have hd : c.damage id i e' = (c.setEnemy id e').destroy e' i := by
      unfold Core.damage
      rw [hhealth']
      exact if_pos hle
    obtain ⟨f1, f2, f3, _, f5, _⟩ := destroy_fields e' i (c.setEnemy id e')
    have hinv2 : BossInv ((c.setEnemy id e').destroy e' i) :=
      coreStep_bossInv (CoreStep.destroy (c.setEnemy id e') i id e' hi hset) hinv1
    have hflag : ((c.setEnemy id e').destroy e' i).manager.bossActive = false := by
      rw [f2, hboss']
      rfl
    rw [hd]
    refine ⟨by rw [f3]; exact hset, hinv2, fun h2 => absurd hle (by omega), fun _ => ?_⟩
    refine ⟨f1, hflag, ?_, f5⟩
    refine bossInv_not_mem hinv2 hflag ?_
    rw [f3, isBossRef_of_get hset, hboss']
  · have hd : c.damage id i e' = c.setEnemy id e' := by
      unfold Core.damage
      rw [hhealth']
      exact if_neg hle
    rw [hd]
    exact ⟨hset, hinv1, fun _ => rfl, fun h1 => absurd h1 (by omega)⟩

theorem bossAt_get {id : ℕ} {h : ℤ} {c : Core} (hb : BossAt id h c) {e : Enemy}
    (he : c.heap[id]? = some e) : e.isBoss = true ∧ e.health = some h := by
  obtain ⟨_, _, e0, he0, hb0, hh0⟩ := hb
  rw [he0] at he
  simp only [Option.some.injEq] at he
  subst he
  exact ⟨hb0, hh0⟩

theorem bossAt_flag {id : ℕ} {h : ℤ} {c : Core} (hb : BossAt id h c) :
    c.manager.bossActive = true := by
  obtain ⟨hinv, hmem, e0, he0, hb0, _⟩ := hb
  exact bossInv_flag_of_mem hinv hmem (by rw [isBossRef_of_get he0, hb0])

/-- One hit on the boss referenced by `id`, of health `h`: the health is `h - 1` afterwards;
the list and `bossActive` are unchanged when `h` is at least 2, and the boss is gone from the
list with `bossActive` false when `h` is 1. -/
theorem hit_spec (id : ℕ) (h : ℤ) (w v : World) (hb : BossAt id h w.core) (hhit : Hit id w v) :
    (∃ e' : Enemy, v.heap[id]? = some e' ∧ e'.isBoss = true ∧ e'.health = some (h - 1)) ∧
      BossInv v.core ∧
      (2 ≤ h → v.enemyManager.enemies = w.enemyManager.enemies ∧
        v.enemyManager.bossActive = true ∧ BossAt id (h - 1) v.core) ∧
      (h ≤ 1 → id ∉ v.enemyManager.enemies ∧ v.enemyManager.bossActive = false) := by
  obtain ⟨i, e, hi, hh, ht, hv⟩ := hhit
  obtain ⟨hboss, hhealth⟩ := bossAt_get hb hh
  have hflag := bossAt_flag hb
  have key : ∀ (c : Core) (e' : Enemy), BossInv c → c.manager.enemies = w.enemyManager.enemies →
      c.manager.bossActive = w.enemyManager.bossActive → c.heap = w.heap →
      e'.isBoss = true → e'.value = e.value → e'.health = some (h - 1) →
      ∀ d : Core, d.heap = (c.damage id i e').heap →
        d.manager.enemies = (c.damage id i e').manager.enemies →
        d.manager.bossActive = (c.damage id i e').manager.bossActive →
      (∃ e' : Enemy, d.heap[id]? = some e' ∧ e'.isBoss = true ∧ e'.health = some (h - 1)) ∧
        BossInv d ∧
        (2 ≤ h → d.manager.enemies = w.enemyManager.enemies ∧
          d.manager.bossActive = true ∧ BossAt id (h - 1) d) ∧
        (h ≤ 1 → id ∉ d.manager.enemies ∧ d.manager.bossActive = false) := by
    intro c e' hinv hen hfl hheap hb' hv' hh' d dheap denemies dflag
    obtain ⟨s1, s2, s3, s4⟩ := damage_spec c id i e e' h hinv (by rw [hen]; exact hi)
      (by rw [hheap]; exact hh) hboss hhealth hb' hv' hh'
    have hinvd : BossInv d := bossInv_congr denemies dheap dflag s2
    have hget : d.heap[id]? = some e' := by rw [dheap]; exact s1
    refine ⟨⟨e', hget, hb', hh'⟩, hinvd, ?_, ?_⟩
    · intro h2
      have hm := s3 h2
      have he : d.manager.enemies = w.enemyManager.enemies := by rw [denemies, hm, hen]
      refine ⟨he, by rw [dflag, hm, hfl]; exact hflag, hinvd, ?_, e', hget, hb', hh'⟩
      rw [he]
      exact hb.2.1
    · intro h1
      obtain ⟨_, t2, t3, _⟩ := s4 h1
      exact ⟨by rw [denemies]; exact t3, by rw [dflag]; exact t2⟩
  rcases hv with hv | ⟨p, hv⟩
  · obtain ⟨e', hid, hcore⟩ := core_hitEnemy_damage e i id w
    simp only [Enemy.identity, Prod.mk.injEq] at hid
    obtain ⟨hb', hh', hv', _⟩ := hid
    have := key (w.core.addScore 50) e' hb.1 rfl rfl rfl (hb'.trans hboss) hv'
      (by rw [hh', hhealth]; rfl) v.core (by rw [hv, hcore]) (by rw [hv, hcore])
      (by rw [hv, hcore])
    exact this
  · have hcore := core_reflectedHit_damage p i id e w ht
    have := key w.core { e with health := e.health.map (fun h => h - 1) } hb.1 rfl rfl rfl
      hboss rfl (by show e.health.map (fun h => h - 1) = _; rw [hhealth]; rfl) v.core
      (by rw [hv, hcore]; rfl) (by rw [hv, hcore]; rfl) (by rw [hv, hcore]; rfl)
    exact this

theorem identity_get_of_map {u v : List Enemy}
    (h : u.map Enemy.identity = v.map Enemy.identity) {id : ℕ} {e : Enemy}
    (he : v[id]? = some e) : ∃ e2 : Enemy, u[id]? = some e2 ∧ e2.identity = e.identity := by
  have h2 : (u.map Enemy.identity)[id]? = (v.map Enemy.identity)[id]? := by rw [h]
  rw [List.getElem?_map, List.getElem?_map, he] at h2
  cases hu : u[id]? with
  | none =>
    rw [hu] at h2
    exact absurd h2 (by simp)
  | some e2 =>
    rw [hu] at h2
    simp only [Option.map_some', Option.some.injEq] at h2
    exact ⟨e2, rfl, h2⟩

theorem isBossRef_of_map {u v : List Enemy}
    (h : u.map Enemy.identity = v.map Enemy.identity) : isBossRef u = isBossRef v := by
  funext id
  unfold isBossRef
  cases hv : v[id]? with
  | some e =>
    obtain ⟨e2, he2, hid⟩ := identity_get_of_map h hv
    rw [he2]
    simp only [Enemy.identity, Prod.mk.injEq] at hid
    exact hid.1
  | none =>
    cases hu : u[id]? with
    | none => rfl
    | some e =>
      obtain ⟨e2, he2, _⟩ := identity_get_of_map h.symm hu
      rw [hv] at he2
      exact absurd he2 (by simp)

/-- The state of a boss carries over what happens between two hits. -/
theorem bossAt_between {id : ℕ} {h : ℤ} {v u : World} (hb : BossAt id h v.core)
    (hbetween : Between v u) : BossAt id h u.core := by
  obtain ⟨b1, b2, _, _, b5⟩ := hbetween
  obtain ⟨⟨hvalid, hcount⟩, hmem, e, he, hboss, hhealth⟩ := hb
  have hlen : u.heap.length = v.heap.length := by
    have := congrArg List.length b5
    simpa using this
  refine ⟨⟨?_, ?_⟩, ?_, ?_⟩
  · intro x hx
    have hx2 : x ∈ v.enemyManager.enemies := by rw [← b1]; exact hx
    show x < u.heap.length
    rw [hlen]
    exact hvalid x hx2
  · show (u.enemyManager.enemies.filter (isBossRef u.heap)).length
      = if u.enemyManager.bossActive then 1 else 0
    rw [b1, b2, isBossRef_of_map b5]
    exact hcount
  · show id ∈ u.enemyManager.enemies
    rw [b1]
    exact hmem
  · obtain ⟨e2, he2, hid⟩ := identity_get_of_map b5 he
    simp only [Enemy.identity, Prod.mk.injEq] at hid
    exact ⟨e2, he2, hid.1.trans hboss, hid.2.1.trans hhealth⟩

theorem between_refl (v : World) : Between v v := ⟨rfl, rfl, rfl, rfl, rfl⟩

/-! ## Nothing raises the health of an enemy -/

theorem healthMono_of_append {c d : Core} (l : List Enemy) (h : d.heap = c.heap ++ l) :
    HealthMono c d := by
  intro id e he
  refine ⟨e, ?_, rfl, rfl, healthLe_refl _⟩
  rw [h, List.getElem?_append_left (getElem?_length_lt he)]
  exact he

theorem healthMono_of_heap {w v : World} (h : v.heap = w.heap) : HealthMono w.core v.core :=
  @healthMono_of_core_heap w.core v.core h

theorem bossTimerPhase_healthMono (w : World) : HealthMono w.core (bossTimerPhase w).core := by
  obtain ⟨h1, h2, h3⟩ := bossTimerPhase_cases w
  cases hb : w.enemyManager.bossActive
  · by_cases ht : w.enemyManager.bossTimer - 1 ≤ 0
    · obtain ⟨boss, _, heq⟩ := h3 hb ht
      rw [heq]
      exact @healthMono_of_append w.core _ [boss] rfl
    · rw [h2 hb (not_le.mp ht)]
      exact healthMono_of_heap rfl
  · rw [h1 hb]
    exact healthMono_refl _

theorem spawnPhase_healthMono (w : World) : HealthMono w.core (spawnPhase w).core := by
  unfold spawnPhase
  simp only []
  split_ifs
  · obtain ⟨e, n, _, _, heq⟩ := spawn_cases
      { w with enemyManager := { w.enemyManager with spawnTimer := w.enemyManager.spawnTimer + 1 } }
    rw [heq]
    exact @healthMono_of_append w.core _ [e] rfl
  · exact healthMono_of_heap rfl

/-- One `update()` keeps every enemy object there is, with the same `isBoss` and `value`, and
never with a higher health. -/
theorem update_healthMono (w : World) : HealthMono w.core (EnemyManager.update w).core := by
  have h1 := bossTimerPhase_healthMono w
  have h2 := spawnPhase_healthMono (bossTimerPhase w)
  have h3 : HealthMono (spawnPhase (bossTimerPhase w)).core
      (difficultyPhase (spawnPhase (bossTimerPhase w))).core :=
    healthMono_of_heap (difficultyPhase_roster _).2.1
  have h4 := coreSteps_healthMono (updateEntities_steps w)
  have h5 : HealthMono (updateEntities w).core (EnemyManager.update w).core :=
    healthMono_of_heap (timerPhases_roster _).2.1
  exact healthMono_trans (healthMono_trans (healthMono_trans (healthMono_trans h1 h2) h3) h4) h5

/-! ## C17: the health of the boss -/

/-- C17: `createBoss` makes a boss with health 20. Every hit on a boss of the active list,
by a player projectile or by a reflected projectile, lowers its health by exactly 1, and no
`update()` raises the health of any enemy object. Along a run of 20 hits on a boss that
starts with health 20 (between the hits anything may happen that leaves the active list,
`bossActive` and the `isBoss` and `health` of the enemy objects alone), the boss is in the
active list with `bossActive` true and health `20 - k` after `k` hits for `k` up to 19, and
the 20th hit removes it from the list and sets `bossActive` to false. -/
theorem boss_takes_20_hits (id : ℕ) (pre : ℕ → World)
    (hstart : BossAt id 20 (pre 0).core)
    (hstep : ∀ k, k < 20 → ∃ v, Hit id (pre k) v ∧ Between v (pre (k + 1))) :
    (∀ (position : Vector) (w : World), ∃ boss : Enemy,
        (createBoss position w).2.heap[(createBoss position w).1]? = some boss ∧
        boss.isBoss = true ∧ boss.health = some 20) ∧
    (∀ (ref : ℕ) (h : ℤ) (w v : World), BossAt ref h w.core → Hit ref w v →
        ∃ e' : Enemy, v.heap[ref]? = some e' ∧ e'.isBoss = true ∧ e'.health = some (h - 1)) ∧
    (∀ w : World, HealthMono w.core (EnemyManager.update w).core) ∧
    (∀ k : ℕ, k ≤ 19 → BossAt id (20 - (k : ℤ)) (pre k).core ∧
        (pre k).enemyManager.bossActive = true) ∧
    (id ∉ (pre 20).enemyManager.enemies ∧ (pre 20).enemyManager.bossActive = false) := by
  have hrun : ∀ k : ℕ, k ≤ 19 → BossAt id (20 - (k : ℤ)) (pre k).core := by
    intro k
    induction k with
    | zero =>
      intro _
      simpa using hstart
    | succ n ih =>
      intro hn
      have hb := ih (by omega)
      obtain ⟨v, hhit, hbetween⟩ := hstep n (by omega)
      obtain ⟨_, _, h2, _⟩ := hit_spec id _ _ v hb hhit
      have hb2 := (h2 (by omega)).2.2
      have hb3 := bossAt_between hb2 hbetween
      have he : (20 : ℤ) - (n : ℤ) - 1 = 20 - ((n + 1 : ℕ) : ℤ) := by
        push_cast
        ring
      rw [he] at hb3
      exact hb3
  refine ⟨?_, ?_, update_healthMono, ?_, ?_⟩
  · intro position w
    have hget : ∀ b : Enemy, (w.heap ++ [b])[w.heap.length]? = some b := fun b => by simp
    unfold createBoss
    exact ⟨_, hget _, rfl, rfl⟩
  · intro ref h w v hb hhit
    exact (hit_spec ref h w v hb hhit).1
  · intro k hk
    exact ⟨hrun k hk, bossAt_flag (hrun k hk)⟩
  · have hb := hrun 19 (le_refl _)
    obtain ⟨v, hhit, hbetween⟩ := hstep 19 (by omega)
    obtain ⟨_, _, _, h1⟩ := hit_spec id _ _ v hb hhit
    obtain ⟨g1, g2⟩ := h1 (by norm_num)
    obtain ⟨b1, b2, _⟩ := hbetween
    exact ⟨by rw [b1]; exact g1, by rw [b2]; exact g2⟩

theorem bossWorld_bossAt : BossAt 0 20 bossWorld.core := by
  refine ⟨⟨?_, ?_⟩, ?_, ?_⟩
  · intro x hx
    have hx2 : x ∈ [0] := hx
    rw [List.mem_singleton] at hx2
    rw [hx2]
    exact Nat.zero_lt_one
  · rfl
  · exact List.mem_singleton.mpr rfl
  · exact ⟨_, rfl, rfl, rfl⟩

theorem hitRun_succ (k : ℕ) (e : Enemy) (he : (hitRun k).heap[0]? = some e) :
    hitRun (k + 1) = hitEnemy e 0 0 (hitRun k) := by
  show (match (hitRun k).heap[0]? with
    | some e => hitEnemy e 0 0 (hitRun k)
    | none => hitRun k) = _
  rw [he]

/-- Along the run of hits the boss is the only entry of the active list until its health
is used up. -/
theorem hitRun_inv (k : ℕ) (hk : k ≤ 19) :
    (hitRun k).enemyManager.enemies = [0] ∧ BossAt 0 (20 - (k : ℤ)) (hitRun k).core ∧
      (hitRun k).enemyManager.scoreMultiplier = 1 := by
  induction k with
  | zero => exact ⟨rfl, by simpa using bossWorld_bossAt, rfl⟩
  | succ n ih =>
    obtain ⟨hen, hb, hmul⟩ := ih (by omega)
    obtain ⟨_, _, e, he, hboss, hhealth⟩ := hb
    have hhit : Hit 0 (hitRun n) (hitRun (n + 1)) :=
      ⟨0, e, by rw [hen]; rfl, he, by rw [hhealth]; simp only [truthy]; simp; omega,
        Or.inl (hitRun_succ n e he)⟩
    obtain ⟨_, _, h2, _⟩ := hit_spec 0 _ _ _ (ih (by omega)).2.1 hhit
    obtain ⟨g1, _, g3⟩ := h2 (by omega)
    have he2 : (20 : ℤ) - (n : ℤ) - 1 = 20 - ((n + 1 : ℕ) : ℤ) := by
      push_cast
      ring
    rw [he2] at g3
    refine ⟨by rw [g1, hen], g3, ?_⟩
    obtain ⟨e', hid, hcore⟩ := core_hitEnemy_damage e 0 0 (hitRun n)
    simp only [Enemy.identity, Prod.mk.injEq] at hid
    obtain ⟨hb', hh', hv', _⟩ := hid
    have hm := (damage_spec ((hitRun n).core.addScore 50) 0 0 e e' (20 - (n : ℤ))
      (ih (by omega)).2.1.1 (by show (hitRun n).enemyManager.enemies[0]? = _; rw [hen]; rfl)
      he hboss hhealth (hb'.trans hboss) hv' (by rw [hh', hhealth]; rfl)).2.2.1 (by omega)
    have hm2 : (hitRun (n + 1)).core.manager = ((hitRun n).core.addScore 50).manager := by
      rw [hitRun_succ n e he, hcore, hm]
    have hm3 := congrArg EnemyManager.scoreMultiplier hm2
    exact hm3.trans hmul

theorem hitRun_hit (k : ℕ) (hk : k < 20) : Hit 0 (hitRun k) (hitRun (k + 1)) := by
  obtain ⟨hen, hb, _⟩ := hitRun_inv k (by omega)
  obtain ⟨_, _, e, he, hboss, hhealth⟩ := hb
  exact ⟨0, e, by rw [hen]; rfl, he, by rw [hhealth]; simp only [truthy]; simp; omega,
    Or.inl (hitRun_succ k e he)⟩

/-- C17, worked example: the run of 20 player-projectile hits on the boss of `bossWorld`. -/
theorem boss_takes_20_hits_witness :
    (∀ k : ℕ, k ≤ 19 → BossAt 0 (20 - (k : ℤ)) (hitRun k).core ∧
        (hitRun k).enemyManager.bossActive = true) ∧
      (0 ∉ (hitRun 20).enemyManager.enemies ∧ (hitRun 20).enemyManager.bossActive = false) :=
  (boss_takes_20_hits 0 hitRun bossWorld_bossAt
    (fun k hk => ⟨hitRun (k + 1), hitRun_hit k hk, between_refl _⟩)).2.2.2

/-! ## C18: the points of a hit -/

theorem damage_score (c : Core) (id i : ℕ) (e : Enemy) :
    (c.damage id i e).manager.score = c.manager.score +
      (if e.health.getD 0 ≤ 0 then
        (if truthy e.value then e.value.getD 100 else 100) * c.manager.scoreMultiplier
      else 0) := by
  unfold Core.damage
  by_cases h : e.health.getD 0 ≤ 0
  · rw [if_pos h, if_pos h]
    exact (destroy_fields e i (c.setEnemy id e)).2.2.2.2.1
  · rw [if_neg h, if_neg h]
    exact (add_zero _).symm

/-- The score after a player-projectile hit on a multi-hit enemy: 50 more, whatever the
multiplier, and on top of that the kill value times the multiplier when the hit destroys. -/
theorem hitEnemy_score (e : Enemy) (i id : ℕ) (w : World) :
    (hitEnemy e i id w).enemyManager.score = w.enemyManager.score + 50 +
      (if (e.health.map (fun h => h - 1)).getD 0 ≤ 0 then
        (if truthy e.value then e.value.getD 100 else 100) * w.enemyManager.scoreMultiplier
      else 0) := by
  obtain ⟨e', hid, hcore⟩ := core_hitEnemy_damage e i id w
  simp only [Enemy.identity, Prod.mk.injEq] at hid
  obtain ⟨_, hh', hv', _⟩ := hid
  have h1 : (hitEnemy e i id w).core.manager.score
      = ((w.core.addScore 50).damage id i e').manager.score := by rw [hcore]
  rw [damage_score, hh', hv'] at h1
  exact h1

theorem playerHit_hit {id : ℕ} {w v : World} (h : PlayerHit id w v) : Hit id w v := by
  obtain ⟨i, e, hi, hh, ht, hv⟩ := h
  exact ⟨i, e, hi, hh, ht, Or.inl hv⟩

/-- One player-projectile hit on the boss referenced by `id`, of health `h` and value
`val`: the value is kept and the score grows by 50, plus the value times the multiplier when
`h` is 1. -/
theorem playerHit_spec (id : ℕ) (h val : ℤ) (w v : World) (hb : BossAt id h w.core)
    (hval : ∃ e : Enemy, w.heap[id]? = some e ∧ e.value = some val) (hval0 : val ≠ 0)
    (hhit : PlayerHit id w v) :
    (∃ e' : Enemy, v.heap[id]? = some e' ∧ e'.value = some val) ∧
      v.enemyManager.score = w.enemyManager.score + 50 +
        (if h - 1 ≤ 0 then val * w.enemyManager.scoreMultiplier else 0) := by
  obtain ⟨i, e, hi, hh, ht, hv⟩ := hhit
  obtain ⟨e0, he0, hv0⟩ := hval
  rw [hh] at he0
  simp only [Option.some.injEq] at he0
  subst he0
  obtain ⟨hboss, hhealth⟩ := bossAt_get hb hh
  obtain ⟨e', hid, hcore⟩ := core_hitEnemy_damage e i id w
  simp only [Enemy.identity, Prod.mk.injEq] at hid
  obtain ⟨hb', hh', hv', _⟩ := hid
  have hd := (damage_spec (w.core.addScore 50) id i e e' h hb.1 hi hh hboss hhealth
    (hb'.trans hboss) hv' (by rw [hh', hhealth]; rfl)).1
  refine ⟨⟨e', ?_, hv'.trans hv0⟩, ?_⟩
  · have : v.core.heap[id]? = some e' := by rw [hv, hcore]; exact hd
    exact this
  · rw [hv, hitEnemy_score, hhealth, hv0]
    have ht2 : truthy (some val) = true := by
      simp only [truthy]
      simpa using hval0
    simp only [Option.map_some', Option.getD_some, ht2, if_true]

/-- C18: a player-projectile hit on a multi-hit enemy adds exactly 50 to the score whatever
the multiplier, plus, when it is the destroying hit, the kill value times the multiplier; a
hit on a one-hit enemy adds the kill value times the multiplier and no 50. Along a run of 20
player-projectile hits on a boss that starts with health 20 and value 1000, the multiplier
being 1 at every hit and the score untouched between the hits, the score has grown by `50 k`
after `k` hits for `k` up to 19 and by exactly 2000 after the 20th. -/
theorem boss_hit_score (id : ℕ) (pre : ℕ → World)
    (hstart : BossAt id 20 (pre 0).core)
    (hvalue : ∃ e : Enemy, (pre 0).heap[id]? = some e ∧ e.value = some 1000)
    (hmul : ∀ k : ℕ, k < 20 → (pre k).enemyManager.scoreMultiplier = 1)
    (hstep : ∀ k : ℕ, k < 20 → ∃ v, PlayerHit id (pre k) v ∧ Between v (pre (k + 1))) :
    (∀ (e : Enemy) (i ref : ℕ) (w : World),
        (hitEnemy e i ref w).enemyManager.score = w.enemyManager.score + 50 +
          (if (e.health.map (fun h => h - 1)).getD 0 ≤ 0 then
            (if truthy e.value then e.value.getD 100 else 100) *
              w.enemyManager.scoreMultiplier
          else 0)) ∧
    (∀ (e : Enemy) (i ref : ℕ) (w : World), truthy e.health = false →
        (enemyResolve e i ref true w).enemyManager.score = w.enemyManager.score +
          (if truthy e.value then e.value.getD 100 else 100) *
            w.enemyManager.scoreMultiplier) ∧
    (∀ k : ℕ, k ≤ 19 →
        (pre k).enemyManager.score = (pre 0).enemyManager.score + 50 * (k : ℤ)) ∧
    (pre 20).enemyManager.score = (pre 0).enemyManager.score + 2000 := by
  have hrun : ∀ k : ℕ, k ≤ 19 → BossAt id (20 - (k : ℤ)) (pre k).core ∧
      (∃ e : Enemy, (pre k).heap[id]? = some e ∧ e.value = some 1000) ∧
      (pre k).enemyManager.score = (pre 0).enemyManager.score + 50 * (k : ℤ) := by
    intro k
    induction k with
    | zero =>
      intro _
      exact ⟨by simpa using hstart, hvalue, by simp⟩
    | succ n ih =>
      intro hn
      obtain ⟨hb, hv, hs⟩ := ih (by omega)
      obtain ⟨v, hhit, hbetween⟩ := hstep n (by omega)
      obtain ⟨_, _, h2, _⟩ := hit_spec id _ _ v hb (playerHit_hit hhit)
      have hb2 := (h2 (by omega)).2.2
      have hb3 := bossAt_between hb2 hbetween
      have he : (20 : ℤ) - (n : ℤ) - 1 = 20 - ((n + 1 : ℕ) : ℤ) := by
        push_cast
        ring
      rw [he] at hb3
      obtain ⟨⟨e', he', hv'⟩, hscore⟩ :=
        playerHit_spec id _ 1000 (pre n) v hb hv (by norm_num) hhit
      obtain ⟨_, _, b3, _, b5⟩ := hbetween
      obtain ⟨e2, he2, hid⟩ := identity_get_of_map b5 he'
      simp only [Enemy.identity, Prod.mk.injEq] at hid
      refine ⟨hb3, ⟨e2, he2, hid.2.2.1.trans hv'⟩, ?_⟩
      rw [b3, hscore, hs, if_neg (by omega)]
      push_cast
      ring
  refine ⟨hitEnemy_score, ?_, fun k hk => (hrun k hk).2.2, ?_⟩
  · intro e i ref w ht
    unfold enemyResolve
    simp only [if_true, ht, Bool.false_eq_true, if_false]
    have h1 : (destroyEnemy e i w).core.manager.score = w.core.manager.score +
        (if truthy e.value then e.value.getD 100 else 100) * w.core.manager.scoreMultiplier := by
      rw [core_destroyEnemy]
      exact (destroy_fields e i w.core).2.2.2.2.1
    exact h1
  · obtain ⟨hb, hv, hs⟩ := hrun 19 (le_refl _)
    obtain ⟨v, hhit, hbetween⟩ := hstep 19 (by omega)
    obtain ⟨_, hscore⟩ := playerHit_spec id _ 1000 (pre 19) v hb hv (by norm_num) hhit
    obtain ⟨_, _, b3, _, _⟩ := hbetween
    rw [b3, hscore, hs, hmul 19 (by omega), if_pos (by norm_num)]
    norm_num
    ring

theorem hitRun_playerHit (k : ℕ) (hk : k < 20) : PlayerHit 0 (hitRun k) (hitRun (k + 1)) := by
  obtain ⟨hen, hb, _⟩ := hitRun_inv k (by omega)
  obtain ⟨_, _, e, he, hboss, hhealth⟩ := hb
  exact ⟨0, e, by rw [hen]; rfl, he, by rw [hhealth]; simp only [truthy]; simp; omega,
    hitRun_succ k e he⟩

/-- C18, worked example: the 20 player-projectile hits on the boss of `bossWorld` at
multiplier 1 raise the score by 2000. -/
theorem boss_hit_score_witness :
    (hitRun 20).enemyManager.score = (hitRun 0).enemyManager.score + 2000 :=
  (boss_hit_score 0 hitRun bossWorld_bossAt ⟨_, rfl, rfl⟩
    (fun k hk => (hitRun_inv k (by omega)).2.2)
    (fun k hk => ⟨hitRun (k + 1), hitRun_playerHit k hk, between_refl _⟩)).2.2.2

/-! ## The list of enemy projectiles through `update()` -/

theorem blind_projectiles : ParticleBlind (fun w => w.enemyManager.enemyProjectiles) :=
  fun _ _ _ _ => rfl

theorem eraseIdx_set_self {α : Type} (l : List α) (i : ℕ) (a : α) :
    (l.set i a).eraseIdx i = l.eraseIdx i := by
  induction l generalizing i with
  | nil => rfl
  | cons b rest ih =>
    cases i with
    | zero => rfl
    | succ k =>
      simp only [List.set_cons_succ, List.eraseIdx_cons_succ]
      rw [ih]

theorem projectiles_die (w : World) :
    (Player.die w).enemyManager.enemyProjectiles = w.enemyManager.enemyProjectiles := by
  unfold Player.die
  split
  · rfl
  · simp only [Grid.addCameraShake]
    show (createDebris _ _ _ _ _ _).enemyManager.enemyProjectiles = _
    rw [createDebris_blind blind_projectiles, createMassiveExplosion_blind blind_projectiles]

theorem player_die (w : World) (h1 : w.player.isInvincible = false)
    (h2 : w.player.godMode = false) :
    (Player.die w).player = { w.player with alive := false } := by
  unfold Player.die
  simp only [h1, h2, Bool.or_self, Bool.false_eq_true, if_false, Grid.addCameraShake]
  show (createDebris _ _ _ _ _ _).player = _
  rw [createDebris_blind blind_player, createMassiveExplosion_blind blind_player]

theorem projectiles_destroyEnemy (e : Enemy) (i : ℕ) (w : World) :
    (destroyEnemy e i w).enemyManager.enemyProjectiles = w.enemyManager.enemyProjectiles := by
  rw [destroyEnemy_enemyManager, updateScore_enemyManager]
  split_ifs <;> rfl

theorem player_updateScore (e : Enemy) (w : World) : (updateScore e w).player = w.player := by
  unfold updateScore
  simp only [createScoreText_blind blind_player]

theorem player_destroyEnemy (e : Enemy) (i : ℕ) (w : World) :
    (destroyEnemy e i w).player = w.player := by
  unfold destroyEnemy
  simp only [World.spliceEnemy]
  rw [player_updateScore]
  split_ifs
  · simp only [createDebris_blind blind_player, createExplosion_blind blind_player]
  · simp only [createDebris_blind blind_player, createExplosion_blind blind_player]

theorem projectiles_reflectedDamage (j id : ℕ) (e : Enemy) (w : World) :
    (reflectedDamage j id e w).enemyManager.enemyProjectiles
      = w.enemyManager.enemyProjectiles := by
  unfold reflectedDamage
  simp only []
  split_ifs
  · rw [projectiles_destroyEnemy, createExplosion_blind blind_projectiles]
    rfl
  · rw [createExplosion_blind blind_projectiles]
    rfl
  · rw [projectiles_destroyEnemy]

theorem player_reflectedDamage (j id : ℕ) (e : Enemy) (w : World) :
    (reflectedDamage j id e w).player = w.player := by
  unfold reflectedDamage
  simp only []
  split_ifs
  · rw [player_destroyEnemy, createExplosion_blind blind_player]
    rfl
  · rw [createExplosion_blind blind_player]
    rfl
  · rw [player_destroyEnemy]

/-- The world in which the body of the loop of `updateProjectiles` resolves the projectile at
index `i`: the projectile has moved, a trail particle may have been added. -/
theorem projectileStep_eq (i : ℕ) (w : World) (stored : Projectile)
    (hi : w.enemyManager.enemyProjectiles[i]? = some stored) :
    ∃ w2 : World, w2.player = w.player ∧ w2.platform = w.platform ∧ w2.heap = w.heap ∧
      w2.canvas = w.canvas ∧
      w2.enemyManager = { w.enemyManager with
        enemyProjectiles := w.enemyManager.enemyProjectiles.set i
          { stored with position := stored.position.add stored.velocity } } ∧
      projectileStep i w =
        projectileResolve i { stored with position := stored.position.add stored.velocity }
          w2 := by
  unfold projectileStep
  rw [hi]
  simp only []
  split_ifs
  · refine ⟨_, ?_, ?_, ?_, ?_, ?_, rfl⟩ <;> rfl
  · refine ⟨_, ?_, ?_, ?_, ?_, ?_, rfl⟩ <;> rfl

/-- The shield reflection rewrites the projectile at index `i` and touches neither the
player nor the core. -/
theorem reflectProjectile_eq (i : ℕ) (p : Projectile) (dx dy dist : ℚ) (w : World) :
    (reflectProjectile i p dx dy dist w).enemyManager.enemyProjectiles
        = w.enemyManager.enemyProjectiles.set i
          { p with
            velocity :=
              ⟨(p.velocity.x - 2 * (p.velocity.x * (dx / dist) + p.velocity.y * (dy / dist)) *
                  (dx / dist)) * 1.5,
               (p.velocity.y - 2 * (p.velocity.x * (dx / dist) + p.velocity.y * (dy / dist)) *
                  (dy / dist)) * 1.5⟩
            color := "#ffd700"
            isReflected := true
            position :=
              ⟨p.position.x + dx / dist * (w.player.shieldRadius + p.size - dist + 5),
               p.position.y + dy / dist * (w.player.shieldRadius + p.size - dist + 5)⟩ } ∧
      (reflectProjectile i p dx dy dist w).player = w.player := by
  unfold reflectProjectile
  simp only [World.setEnemyProjectile]
  rw [createExplosion_blind blind_projectiles, createExplosion_blind blind_player]
  exact ⟨rfl, rfl⟩

/-- The body of the loop of `updateProjectiles` either removes the projectile at index `i` or
rewrites it, and leaves every other projectile alone; it never clears `isReflected`. -/
theorem projectileStep_list (i : ℕ) (w : World) (stored : Projectile)
    (hi : w.enemyManager.enemyProjectiles[i]? = some stored) :
    (projectileStep i w).enemyManager.enemyProjectiles
        = w.enemyManager.enemyProjectiles.eraseIdx i ∨
      ∃ p' : Projectile,
        (projectileStep i w).enemyManager.enemyProjectiles
          = w.enemyManager.enemyProjectiles.set i p' ∧
        (stored.isReflected = true → p'.isReflected = true) := by
  obtain ⟨w2, _, _, _, _, hm, heq⟩ := projectileStep_eq i w stored hi
  have hp : w2.enemyManager.enemyProjectiles = w.enemyManager.enemyProjectiles.set i
      { stored with position := stored.position.add stored.velocity } := by rw [hm]
  rw [heq]
  have hvp : ∀ p : Projectile,
      (projectileVersusPlayer i p w2).enemyManager.enemyProjectiles
          = w2.enemyManager.enemyProjectiles.eraseIdx i ∨
        (projectileVersusPlayer i p w2).enemyManager.enemyProjectiles
          = w2.enemyManager.enemyProjectiles := by
    intro p
    unfold projectileVersusPlayer
    simp only []
    split_ifs
    · left
      show (Player.die w2).enemyManager.enemyProjectiles.eraseIdx i = _
      rw [projectiles_die]
    · left
      rfl
    · right
      rfl
  have hfin : ∀ p : Projectile,
      (projectileVersusPlayer i p w2).enemyManager.enemyProjectiles
          = w.enemyManager.enemyProjectiles.eraseIdx i ∨
        ∃ p' : Projectile,
          (projectileVersusPlayer i p w2).enemyManager.enemyProjectiles
            = w.enemyManager.enemyProjectiles.set i p' ∧
          (stored.isReflected = true → p'.isReflected = true) := by
    intro p
    rcases hvp p with h | h
    · left
      rw [h, hp, eraseIdx_set_self]
    · right
      exact ⟨{ stored with position := stored.position.add stored.velocity }, by rw [h, hp],
        fun hr => hr⟩
  unfold projectileResolve
  simp only []
  split_ifs
  · right
    rw [(reflectProjectile_eq _ _ _ _ _ _).1, hp, List.set_set]
    exact ⟨_, rfl, fun _ => rfl⟩
  · split
    · left
      show ((reflectedDamage _ _ _ w2).enemyManager.enemyProjectiles).eraseIdx i = _
      rw [projectiles_reflectedDamage, hp, eraseIdx_set_self]
    · exact hfin _
  · exact hfin _

theorem kept_refl (w : World) : ProjectilesKept w w := ⟨[], by simp⟩

theorem kept_of_eq {w v : World}
    (h : v.enemyManager.enemyProjectiles = w.enemyManager.enemyProjectiles) :
    ProjectilesKept w v := ⟨[], by simp [h]⟩

theorem kept_trans {u v w : World} (h1 : ProjectilesKept u v)
    (h2 : ProjectilesKept v w) : ProjectilesKept u w := by
  obtain ⟨l1, e1⟩ := h1
  obtain ⟨l2, e2⟩ := h2
  exact ⟨l1 ++ l2, by rw [e2, e1, List.append_assoc]⟩

theorem kept_fireProjectile (e : Enemy) (speed size : ℚ) (w : World) :
    ProjectilesKept w (fireProjectile e speed size w) := ⟨[_], rfl⟩

theorem kept_fireProjectileAngle (e : Enemy) (angle speed size : ℚ) (color : String)
    (w : World) : ProjectilesKept w (fireProjectileAngle e angle speed size color w) :=
  ⟨[_], rfl⟩

theorem foldl_kept {β : Type} (f : World → β → World)
    (hf : ∀ w b, ProjectilesKept w (f w b)) (l : List β) (w : World) :
    ProjectilesKept w (l.foldl f w) := by
  induction l generalizing w with
  | nil => exact kept_refl w
  | cons b rest ih => exact kept_trans (hf w b) (ih _)

theorem kept_fireCircleAttack (e : Enemy) (count speed : ℚ) (w : World) :
    ProjectilesKept w (fireCircleAttack e count speed w) := by
  unfold fireCircleAttack
  exact foldl_kept
    (fun (acc : World) (i : ℕ) =>
      fireProjectileAngle e ((i : ℚ) / count * acc.platform.PI * 2) speed 5 "#ff0" acc)
    (fun _ _ => kept_fireProjectileAngle _ _ _ _ _ _) _ w

theorem kept_seekerAim (e : Enemy) (w : World) : ProjectilesKept w (seekerAim e w).2 := by
  unfold seekerAim
  split_ifs <;> exact kept_of_eq rfl

theorem kept_seekerFire (e : Enemy) (w : World) : ProjectilesKept w (seekerFire e w).2 := by
  unfold seekerFire
  split_ifs
  · exact kept_trans (@kept_of_eq w (w.advance 1) rfl) (kept_fireProjectile _ _ _ _)
  · exact kept_of_eq rfl
  · exact kept_refl w

theorem kept_seekerUpdate (e : Enemy) (w : World) :
    ProjectilesKept w (seekerUpdate e w).2 := by
  unfold seekerUpdate
  exact kept_trans (kept_seekerAim e w) (kept_seekerFire _ _)

theorem kept_wandererTurn (e : Enemy) (w : World) :
    ProjectilesKept w (wandererTurn e w).2 := by
  unfold wandererTurn
  simp only []
  split_ifs <;> exact kept_of_eq rfl

theorem kept_wandererShoot (e : Enemy) (w : World) :
    ProjectilesKept w (wandererShoot e w).2 := by
  unfold wandererShoot
  split_ifs
  · have h1 : ProjectilesKept w (w.advance 1) := kept_of_eq rfl
    have h2 := kept_fireProjectile e 3 5 (w.advance 1)
    have h3 : ProjectilesKept (fireProjectile e 3 5 (w.advance 1))
        ((fireProjectile e 3 5 (w.advance 1)).advance 1) := kept_of_eq rfl
    exact kept_trans (kept_trans h1 h2) h3
  · exact kept_of_eq rfl
  · exact kept_refl w

theorem kept_wandererUpdate (e : Enemy) (w : World) :
    ProjectilesKept w (wandererUpdate e w).2 := by
  unfold wandererUpdate
  exact kept_trans (kept_wandererTurn e w) (kept_wandererShoot _ _)

theorem kept_spinnerRetarget (e : Enemy) (w : World) :
    ProjectilesKept w (spinnerRetarget e w).2 := by
  unfold spinnerRetarget
  split_ifs <;> exact kept_of_eq rfl

theorem kept_spinnerShoot (e : Enemy) (w : World) :
    ProjectilesKept w (spinnerShoot e w).2 := by
  unfold spinnerShoot
  split_ifs
  · exact kept_fireProjectile _ _ _ _
  · have h2 := kept_fireProjectile e 7 3 w
    have h3 : ProjectilesKept (fireProjectile e 7 3 w) ((fireProjectile e 7 3 w).advance 1) :=
      kept_of_eq rfl
    exact kept_trans h2 h3
  · exact kept_refl w

theorem kept_spinnerUpdate (e : Enemy) (w : World) :
    ProjectilesKept w (spinnerUpdate e w).2 := by
  unfold spinnerUpdate
  exact kept_trans (kept_spinnerRetarget _ w) (kept_spinnerShoot _ _)

theorem kept_bossAttack (e : Enemy) (w : World) : ProjectilesKept w (bossAttack e w).2 := by
  unfold bossAttack
  simp only []
  split_ifs
  · exact kept_fireCircleAttack _ _ _ _
  · exact kept_trans (kept_trans (kept_fireProjectileAngle _ _ _ _ _ _)
      (kept_fireProjectileAngle _ _ _ _ _ _)) (kept_fireProjectileAngle _ _ _ _ _ _)
  · exact kept_fireProjectileAngle _ _ _ _ _ _
  · exact kept_refl w

theorem kept_enemyBehaviour (e : Enemy) (w : World) :
    ProjectilesKept w (enemyBehaviour e w).2 := by
  unfold enemyBehaviour
  split
  · exact kept_seekerUpdate e w
  · exact kept_wandererUpdate e w
  · exact kept_spinnerUpdate e w
  · exact kept_bossAttack _ w

theorem projectiles_enemyTrail (e : Enemy) (w : World) :
    (enemyTrail e w).enemyManager.enemyProjectiles = w.enemyManager.enemyProjectiles := by
  unfold enemyTrail
  split_ifs <;> rfl

theorem projectiles_shieldBounce (e : Enemy) (w : World) :
    (shieldBounce e w).2.enemyManager.enemyProjectiles = w.enemyManager.enemyProjectiles := by
  unfold shieldBounce
  simp only []
  split_ifs
  · exact createExplosion_blind blind_projectiles _ _ _ _ _ _ _ _
  · rfl
  · rfl
  · rfl

theorem projectiles_hitEnemy (e : Enemy) (i id : ℕ) (w : World) :
    (hitEnemy e i id w).enemyManager.enemyProjectiles = w.enemyManager.enemyProjectiles := by
  have hp : ∀ (e1 : Enemy) (now : ℤ) (u : World),
      (hitParticles e1 now u).2.enemyManager.enemyProjectiles
        = u.enemyManager.enemyProjectiles := by
    intro e1 now u
    unfold hitParticles
    simp only []
    split_ifs <;>
      first
        | rfl
        | exact createExplosion_blind blind_projectiles _ _ _ _ _ _ _ _
  have hs : ∀ (e1 : Enemy) (now pts : ℤ) (u : World),
      (hitScoreText e1 now pts u).2.enemyManager.enemyProjectiles
        = u.enemyManager.enemyProjectiles := by
    intro e1 now pts u
    unfold hitScoreText
    split_ifs
    · exact createScoreText_blind blind_projectiles _ _ _ _ _
    · rfl
  unfold hitEnemy
  lift_lets
  intro e1 now r hitPoints r2 w3
  have h3 : w3.enemyManager.enemyProjectiles = w.enemyManager.enemyProjectiles := by
    show (hitScoreText _ _ _ ((hitParticles _ _ _).2.addScore _)).2.enemyManager.enemyProjectiles
      = _
    rw [hs]
    show (hitParticles _ _ _).2.enemyManager.enemyProjectiles = _
    rw [hp]
    rfl
  split_ifs
  · rw [projectiles_destroyEnemy, h3]
  · exact h3

theorem projectiles_enemyResolve (e : Enemy) (i id : ℕ) (hit : Bool) (w : World) :
    (enemyResolve e i id hit w).enemyManager.enemyProjectiles
      = w.enemyManager.enemyProjectiles := by
  unfold enemyResolve
  split_ifs
  · exact projectiles_hitEnemy _ _ _ _
  · exact projectiles_destroyEnemy _ _ _
  · rfl
  · rfl
  · rfl

/-- The body of the enemy loop leaves every enemy projectile there is alone; it can only
append new ones. -/
theorem kept_enemyStep (i : ℕ) (w : World) : ProjectilesKept w (enemyStep i w) := by
  unfold enemyStep
  split
  · exact kept_refl w
  · split
    · exact kept_refl w
    · rename_i id _ stored _
      lift_lets
      intro r1 w2 r3 enemy w3 w4 r5
      have h1 : ProjectilesKept w r1.2 := kept_enemyBehaviour stored w
      have h5 : r5.2.enemyManager.enemyProjectiles = r1.2.enemyManager.enemyProjectiles := by
        have h4 : w4.enemyManager.enemyProjectiles = w3.enemyManager.enemyProjectiles := by
          show (if Player.checkCollision w3 enemy then Player.die w3
            else w3).enemyManager.enemyProjectiles = _
          split_ifs
          · exact projectiles_die w3
          · rfl
        show w4.enemyManager.enemyProjectiles = _
        rw [h4]
        show (shieldBounce _ _).2.enemyManager.enemyProjectiles = _
        rw [projectiles_shieldBounce, projectiles_enemyTrail]
      refine kept_trans h1 (kept_of_eq ?_)
      rw [projectiles_enemyResolve, h5]

theorem kept_enemyLoop (n : ℕ) (w : World) : ProjectilesKept w (enemyLoop n w) := by
  induction n generalizing w with
  | zero => exact kept_refl w
  | succ k ih => exact kept_trans (kept_enemyStep k w) (ih _)

/-! ## Lengths from their squares -/

theorem eq_of_sq (a b : ℚ) (ha : 0 ≤ a) (hb : 0 ≤ b) (h : a * a = b ^ 2) : a = b := by
  have h2 : a * a = b * b := by rw [h]; ring
  rcases mul_self_eq_mul_self_iff.mp h2 with h3 | h3
  · exact h3
  · linarith

theorem scaled_of_sq (s s' : ℚ) (hs : 0 ≤ s) (hs' : 0 ≤ s') (h : s' * s' = 1.5 ^ 2 * (s * s)) :
    s' = 1.5 * s := by
  have hb : (0 : ℚ) ≤ 1.5 * s := by linarith
  exact eq_of_sq s' (1.5 * s) hs' hb (by rw [h]; ring)

theorem sample_sqrt_25 : samplePlatform.sqrt 25 = 5 := by
  have h25 : Nat.sqrt 25 = 5 := by norm_num
  have hf : Int.floor (25 : ℚ) = 25 := by norm_num
  have ht : Int.toNat 25 = 25 := by decide
  simp only [samplePlatform, hf, ht, h25]
  norm_num

/-! ## C20: a reflected projectile and the player -/

/-- C20 fails: the body of the loop of `updateProjectiles` kills the player on account of a
reflected projectile. When the projectile at index `i` has `isReflected` set, overlaps no
enemy of the active list after its move, and is then within `size + projectile.size` of a
player who is alive and neither invulnerable nor in god mode nor invincible, the step calls
`die()`: the player is not alive afterwards. -/
theorem reflected_projectile_kills_player (i : ℕ) (w : World) (stored : Projectile)
    (hi : w.enemyManager.enemyProjectiles[i]? = some stored)
    (hreflected : stored.isReflected = true)
    (halive : w.player.alive = true) (hinv : w.player.invulnerable = false)
    (hgod : w.player.godMode = false) (hinvincible : w.player.isInvincible = false)
    (hmiss : firstOverlap w.platform w.heap
      { stored with position := stored.position.add stored.velocity }
      w.enemyManager.enemies 0 = none)
    (hnear : w.platform.sqrt
      ((stored.position.x + stored.velocity.x - w.player.position.x) ^ 2 +
        (stored.position.y + stored.velocity.y - w.player.position.y) ^ 2)
      < w.player.size + stored.size) :
    (projectileStep i w).player.alive = false ∧
      (projectileStep i w).enemyManager.enemyProjectiles
        = w.enemyManager.enemyProjectiles.eraseIdx i := by
  obtain ⟨w2, hpl, hplat, hheap, _, hm, heq⟩ := projectileStep_eq i w stored hi
  have hp : w2.enemyManager.enemyProjectiles = w.enemyManager.enemyProjectiles.set i
      { stored with position := stored.position.add stored.velocity } := by rw [hm]
  have hen : w2.enemyManager.enemies = w.enemyManager.enemies := by rw [hm]
  have hres : projectileResolve i
      { stored with position := stored.position.add stored.velocity } w2
      = projectileVersusPlayer i
          { stored with position := stored.position.add stored.velocity } w2 := by
    unfold projectileResolve
    simp only []
    have hc : ¬ ((w2.player.alive && w2.player.godMode) = true ∧
        w2.platform.sqrt
          (((stored.position.add stored.velocity).x - w2.player.position.x) *
              ((stored.position.add stored.velocity).x - w2.player.position.x) +
            ((stored.position.add stored.velocity).y - w2.player.position.y) *
              ((stored.position.add stored.velocity).y - w2.player.position.y))
          < w2.player.shieldRadius + stored.size) := by
      rw [hpl, hgod]
      simp
    rw [if_neg hc, if_pos hreflected, hplat, hheap, hen, hmiss]
  have hvs : projectileVersusPlayer i
      { stored with position := stored.position.add stored.velocity } w2
      = (Player.die w2).spliceEnemyProjectile i := by
    unfold projectileVersusPlayer
    simp only []
    have hc : (w2.player.alive && !w2.player.invulnerable && !w2.player.godMode &&
        !w2.player.isInvincible) = true ∧
        w2.platform.sqrt
          (((stored.position.add stored.velocity).x - w2.player.position.x) ^ 2 +
            ((stored.position.add stored.velocity).y - w2.player.position.y) ^ 2)
          < w2.player.size + stored.size := by
      rw [hpl, hplat, halive, hinv, hgod, hinvincible]
      refine ⟨rfl, ?_⟩
      simp only [Vector.add]
      exact hnear
    rw [if_pos hc]
  rw [heq, hres, hvs]
  refine ⟨?_, ?_⟩
  · show (Player.die w2).player.alive = false
    rw [player_die w2 (by rw [hpl]; exact hinvincible) (by rw [hpl]; exact hgod)]
  · show (Player.die w2).enemyManager.enemyProjectiles.eraseIdx i = _
    rw [projectiles_die, hp, eraseIdx_set_self]

/-- C20, failing input: in `reflectedWorld` (god mode off, no enemy, one projectile with
`isReflected` set that its move brings to distance 5 of the player, whose size is 12)
`updateProjectiles()` kills the player. -/
theorem reflected_projectile_kills_player_witness :
    reflectedWorld.player.alive = true ∧
      reflectedWorld.enemyManager.enemyProjectiles
        = [{ sampleBolt with color := "#ffd700", isReflected := true }] ∧
      (updateProjectiles reflectedWorld).player.alive = false := by
  have harg : ((403 : ℚ) + 0 - 400) ^ 2 + (307 + -3 - 300) ^ 2 = 25 := by norm_num
  refine ⟨rfl, rfl, ?_⟩
  exact (reflected_projectile_kills_player 0 reflectedWorld
    { sampleBolt with color := "#ffd700", isReflected := true }
    rfl rfl rfl rfl rfl rfl rfl
    (by
      show samplePlatform.sqrt (((403 : ℚ) + 0 - 400) ^ 2 + (307 + -3 - 300) ^ 2) < 12 + 3
      rw [harg, sample_sqrt_25]
      norm_num)).1

/-! ## C23: the difficulty ramp -/

/-- The fields of the difficulty ramp after the difficulty block of `update()`. -/
theorem difficultyPhase_ramp (w : World) :
    (difficultyPhase w).enemyManager.difficultyInterval = w.enemyManager.difficultyInterval ∧
      (w.enemyManager.difficultyTimer + 1 < w.enemyManager.difficultyInterval →
        (difficultyPhase w).enemyManager.difficultyTimer = w.enemyManager.difficultyTimer + 1 ∧
        (difficultyPhase w).enemyManager.spawnRate = w.enemyManager.spawnRate ∧
        (difficultyPhase w).enemyManager.maxEnemies = w.enemyManager.maxEnemies) ∧
      (w.enemyManager.difficultyInterval ≤ w.enemyManager.difficultyTimer + 1 →
        (difficultyPhase w).enemyManager.difficultyTimer = 0 ∧
        (difficultyPhase w).enemyManager.spawnRate
          = (if w.enemyManager.spawnRate > 30 then w.enemyManager.spawnRate - 1
            else w.enemyManager.spawnRate) ∧
        (difficultyPhase w).enemyManager.maxEnemies
          = (if w.enemyManager.maxEnemies < 50 then w.enemyManager.maxEnemies + 1
            else w.enemyManager.maxEnemies)) := by
  refine ⟨(difficultyPhase_roster w) |> fun _ => ?_, ?_, ?_⟩
  · unfold difficultyPhase increaseDifficulty
    simp only []
    split_ifs <;> rfl
  · intro h
    have hn : ¬ (w.enemyManager.difficultyTimer + 1 ≥ w.enemyManager.difficultyInterval) :=
      not_le.mpr h
    unfold difficultyPhase
    simp only [hn, if_false]
    exact ⟨trivial, trivial, trivial⟩
  · intro h
    have hp : w.enemyManager.difficultyTimer + 1 ≥ w.enemyManager.difficultyInterval := h
    unfold difficultyPhase increaseDifficulty
    simp only [hp, if_true]
    refine ⟨trivial, ?_, ?_⟩
    · split_ifs <;> rfl
    · split_ifs <;> rfl

theorem bossTimerPhase_ramp (w : World) :
    (bossTimerPhase w).enemyManager.difficultyTimer = w.enemyManager.difficultyTimer ∧
      (bossTimerPhase w).enemyManager.difficultyInterval = w.enemyManager.difficultyInterval ∧
      (bossTimerPhase w).enemyManager.spawnRate = w.enemyManager.spawnRate ∧
      (bossTimerPhase w).enemyManager.maxEnemies = w.enemyManager.maxEnemies ∧
      (bossTimerPhase w).enemyManager.spawnTimer = w.enemyManager.spawnTimer := by
  obtain ⟨h1, h2, h3⟩ := bossTimerPhase_cases w
  cases hb : w.enemyManager.bossActive
  · by_cases ht : w.enemyManager.bossTimer - 1 ≤ 0
    · obtain ⟨boss, _, heq⟩ := h3 hb ht
      rw [heq]
      exact ⟨rfl, rfl, rfl, rfl, rfl⟩
    · rw [h2 hb (not_le.mp ht)]
      exact ⟨rfl, rfl, rfl, rfl, rfl⟩
  · rw [h1 hb]
    exact ⟨rfl, rfl, rfl, rfl, rfl⟩

/-- The fields of the difficulty ramp after one `update()` are those its difficulty block
computes from the fields before. -/
theorem update_ramp (w : World) :
    (EnemyManager.update w).enemyManager.difficultyInterval
        = w.enemyManager.difficultyInterval ∧
      (w.enemyManager.difficultyTimer + 1 < w.enemyManager.difficultyInterval →
        (EnemyManager.update w).enemyManager.difficultyTimer
          = w.enemyManager.difficultyTimer + 1 ∧
        (EnemyManager.update w).enemyManager.spawnRate = w.enemyManager.spawnRate ∧
        (EnemyManager.update w).enemyManager.maxEnemies = w.enemyManager.maxEnemies) ∧
      (w.enemyManager.difficultyInterval ≤ w.enemyManager.difficultyTimer + 1 →
        (EnemyManager.update w).enemyManager.difficultyTimer = 0 ∧
        (EnemyManager.update w).enemyManager.spawnRate
          = (if w.enemyManager.spawnRate > 30 then w.enemyManager.spawnRate - 1
            else w.enemyManager.spawnRate) ∧
        (EnemyManager.update w).enemyManager.maxEnemies
          = (if w.enemyManager.maxEnemies < 50 then w.enemyManager.maxEnemies + 1
            else w.enemyManager.maxEnemies)) := by
  obtain ⟨hs, _⟩ := update_schedule w
  obtain ⟨b1, b2, b3, b4, _⟩ := bossTimerPhase_ramp w
  obtain ⟨_, _, _, s4, s5, s6, s7⟩ := spawnPhase_frame (bossTimerPhase w)
  obtain ⟨d1, d2, d3⟩ := difficultyPhase_ramp (spawnPhase (bossTimerPhase w))
  rw [s6, s7, s4, s5, b1, b2, b3, b4] at d2 d3
  rw [s7, b2] at d1
  refine ⟨?_, ?_, ?_⟩
  · rw [← schedule_difficultyInterval, hs, schedule_difficultyInterval, d1]
  · intro h
    obtain ⟨e1, e2, e3⟩ := d2 h
    refine ⟨?_, ?_, ?_⟩
    · rw [← schedule_difficultyTimer, hs, schedule_difficultyTimer, e1]
    · rw [← schedule_spawnRate, hs, schedule_spawnRate, e2]
    · rw [← schedule_maxEnemies, hs, schedule_maxEnemies, e3]
  · intro h
    obtain ⟨e1, e2, e3⟩ := d3 h
    refine ⟨?_, ?_, ?_⟩
    · rw [← schedule_difficultyTimer, hs, schedule_difficultyTimer, e1]
    · rw [← schedule_spawnRate, hs, schedule_spawnRate, e2]
    · rw [← schedule_maxEnemies, hs, schedule_maxEnemies, e3]

/-- In every reachable state the ramp fields are within their bounds, the interval is 1000
and the difficulty timer is in `[0, 1000)`. -/
theorem reachable_ramp (w : World) (h : Reachable w) :
    w.enemyManager.difficultyInterval = 1000 ∧
      (0 ≤ w.enemyManager.difficultyTimer ∧ w.enemyManager.difficultyTimer < 1000) ∧
      (30 ≤ w.enemyManager.spawnRate ∧ w.enemyManager.spawnRate ≤ 120) ∧
      (20 ≤ w.enemyManager.maxEnemies ∧ w.enemyManager.maxEnemies ≤ 50) := by
  induction h with
  | init w gameScale hnew _ =>
    rw [hnew]
    simp [EnemyManager.new]
  | update w _ ih =>
    obtain ⟨i1, ⟨i2, i3⟩, ⟨i4, i5⟩, ⟨i6, i7⟩⟩ := ih
    obtain ⟨u1, u2, u3⟩ := update_ramp w
    rw [i1] at u1 u2 u3
    by_cases hlt : w.enemyManager.difficultyTimer + 1 < 1000
    · obtain ⟨e1, e2, e3⟩ := u2 hlt
      rw [u1, e1, e2, e3]
      exact ⟨rfl, ⟨by omega, hlt⟩, ⟨i4, i5⟩, ⟨i6, i7⟩⟩
    · obtain ⟨e1, e2, e3⟩ := u3 (not_lt.mp hlt)
      rw [u1, e1, e2, e3]
      refine ⟨rfl, ⟨le_refl _, by norm_num⟩, ⟨?_, ?_⟩, ⟨?_, ?_⟩⟩
      · split_ifs <;> omega
      · split_ifs <;> omega
      · split_ifs <;> omega
      · split_ifs <;> omega
  | reset w _ ih =>
    obtain ⟨i1, _, _, i6⟩ := ih
    refine ⟨i1, ⟨le_refl _, ?_⟩, ⟨?_, le_refl _⟩, i6⟩
    · show (0 : ℤ) < 1000
      norm_num
    · show (30 : ℤ) ≤ 120
      norm_num
  | surroundings w v _ hm _ _ ih =>
    rw [hm]
    exact ih

/-- Along a run of updates that starts with the difficulty timer at 0, the ramp fields stay
put for 999 updates and the 1000th update applies the ramp once. -/
theorem ramp_run (pre : ℕ → World)
    (hstart : (pre 0).enemyManager.difficultyTimer = 0 ∧
      (pre 0).enemyManager.difficultyInterval = 1000)
    (hstep : ∀ k, (pre (k + 1)).enemyManager = (EnemyManager.update (pre k)).enemyManager) :
    (∀ k : ℕ, k ≤ 999 → (pre k).enemyManager.difficultyInterval = 1000 ∧
        (pre k).enemyManager.difficultyTimer = (k : ℤ) ∧
        (pre k).enemyManager.spawnRate = (pre 0).enemyManager.spawnRate ∧
        (pre k).enemyManager.maxEnemies = (pre 0).enemyManager.maxEnemies) ∧
      ((EnemyManager.update (pre 999)).enemyManager.difficultyTimer = 0 ∧
        (EnemyManager.update (pre 999)).enemyManager.spawnRate
          = (if (pre 0).enemyManager.spawnRate > 30 then (pre 0).enemyManager.spawnRate - 1
            else (pre 0).enemyManager.spawnRate) ∧
        (EnemyManager.update (pre 999)).enemyManager.maxEnemies
          = (if (pre 0).enemyManager.maxEnemies < 50 then (pre 0).enemyManager.maxEnemies + 1
            else (pre 0).enemyManager.maxEnemies)) := by
  have hrun : ∀ k : ℕ, k ≤ 999 → (pre k).enemyManager.difficultyInterval = 1000 ∧
      (pre k).enemyManager.difficultyTimer = (k : ℤ) ∧
      (pre k).enemyManager.spawnRate = (pre 0).enemyManager.spawnRate ∧
      (pre k).enemyManager.maxEnemies = (pre 0).enemyManager.maxEnemies := by
    intro k
    induction k with
    | zero =>
      intro _
      exact ⟨hstart.2, by rw [hstart.1]; rfl, rfl, rfl⟩
    | succ n ih =>
      intro hn
      obtain ⟨i1, i2, i3, i4⟩ := ih (by omega)
      obtain ⟨u1, u2, _⟩ := update_ramp (pre n)
      obtain ⟨e1, e2, e3⟩ := u2 (by rw [i1, i2]; omega)
      rw [hstep n, u1, e1, e2, e3, i1, i2, i3, i4]
      refine ⟨rfl, ?_, rfl, rfl⟩
      push_cast
      rfl
  refine ⟨hrun, ?_⟩
  obtain ⟨i1, i2, i3, i4⟩ := hrun 999 (le_refl _)
  obtain ⟨_, _, u3⟩ := update_ramp (pre 999)
  obtain ⟨e1, e2, e3⟩ := u3 (by rw [i1, i2]; norm_num)
  rw [i3] at e2
  rw [i4] at e3
  exact ⟨e1, e2, e3⟩

/-- C23: `increaseDifficulty` lowers `spawnRate` by exactly 1 when it is above 30 and raises
`maxEnemies` by exactly 1 when it is below 50, and changes nothing else. In every state
reachable from a new manager by `update()` and `reset()` calls `30 ≤ spawnRate ≤ 120` and
`20 ≤ maxEnemies ≤ 50`; there the difficulty timer is in `[0, 1000)`, an update that finds
it below 999 only counts it up, and an update that finds it at 999 applies the ramp once and
sets it back to 0. So along every run of updates from a difficulty timer of 0 (a new or
reset manager) the ramp fields stay put for 999 updates and the 1000th update applies the
ramp. -/
theorem difficulty_ramp (pre : ℕ → World)
    (hstart : (pre 0).enemyManager.difficultyTimer = 0 ∧
      (pre 0).enemyManager.difficultyInterval = 1000)
    (hstep : ∀ k, (pre (k + 1)).enemyManager = (EnemyManager.update (pre k)).enemyManager) :
    (∀ w : World, increaseDifficulty w = { w with enemyManager :=
        { w.enemyManager with
            spawnRate := if w.enemyManager.spawnRate > 30 then w.enemyManager.spawnRate - 1
              else w.enemyManager.spawnRate
            maxEnemies := if w.enemyManager.maxEnemies < 50 then w.enemyManager.maxEnemies + 1
              else w.enemyManager.maxEnemies } }) ∧
    (∀ w : World, Reachable w →
        (30 ≤ w.enemyManager.spawnRate ∧ w.enemyManager.spawnRate ≤ 120) ∧
        (20 ≤ w.enemyManager.maxEnemies ∧ w.enemyManager.maxEnemies ≤ 50)) ∧
    (∀ w : World, Reachable w →
        (0 ≤ w.enemyManager.difficultyTimer ∧ w.enemyManager.difficultyTimer < 1000) ∧
        (w.enemyManager.difficultyTimer < 999 →
          (EnemyManager.update w).enemyManager.difficultyTimer
            = w.enemyManager.difficultyTimer + 1 ∧
          (EnemyManager.update w).enemyManager.spawnRate = w.enemyManager.spawnRate ∧
          (EnemyManager.update w).enemyManager.maxEnemies = w.enemyManager.maxEnemies) ∧
        (w.enemyManager.difficultyTimer = 999 →
          (EnemyManager.update w).enemyManager.difficultyTimer = 0 ∧
          (EnemyManager.update w).enemyManager.spawnRate
            = (if w.enemyManager.spawnRate > 30 then w.enemyManager.spawnRate - 1
              else w.enemyManager.spawnRate) ∧
          (EnemyManager.update w).enemyManager.maxEnemies
            = (if w.enemyManager.maxEnemies < 50 then w.enemyManager.maxEnemies + 1
              else w.enemyManager.maxEnemies))) ∧
    (∀ k : ℕ, k ≤ 999 →
        (pre k).enemyManager.difficultyTimer = (k : ℤ) ∧
        (pre k).enemyManager.spawnRate = (pre 0).enemyManager.spawnRate ∧
        (pre k).enemyManager.maxEnemies = (pre 0).enemyManager.maxEnemies) ∧
    ((EnemyManager.update (pre 999)).enemyManager.difficultyTimer = 0 ∧
      (EnemyManager.update (pre 999)).enemyManager.spawnRate
        = (if (pre 0).enemyManager.spawnRate > 30 then (pre 0).enemyManager.spawnRate - 1
          else (pre 0).enemyManager.spawnRate) ∧
      (EnemyManager.update (pre 999)).enemyManager.maxEnemies
        = (if (pre 0).enemyManager.maxEnemies < 50 then (pre 0).enemyManager.maxEnemies + 1
          else (pre 0).enemyManager.maxEnemies)) := by
  obtain ⟨r1, r2⟩ := ramp_run pre hstart hstep
  refine ⟨?_, ?_, ?_, fun k hk => (r1 k hk).2, r2⟩
  · intro w
    unfold increaseDifficulty
    simp only []
    split_ifs <;> rfl
  · intro w hw
    exact (reachable_ramp w hw).2.2
  · intro w hw
    obtain ⟨i1, i2, _⟩ := reachable_ramp w hw
    obtain ⟨_, u2, u3⟩ := update_ramp w
    rw [i1] at u2 u3
    exact ⟨i2, fun h => u2 (by omega), fun h => u3 (by omega)⟩

/-- C23, worked example: the run of the sample session, a new manager. After 999 updates
the ramp fields are still 120 and 20; the 1000th update makes them 119 and 21. -/
theorem difficulty_ramp_witness :
    ((bossRun 999).enemyManager.spawnRate = 120 ∧ (bossRun 999).enemyManager.maxEnemies = 20) ∧
      ((EnemyManager.update (bossRun 999)).enemyManager.spawnRate = 119 ∧
        (EnemyManager.update (bossRun 999)).enemyManager.maxEnemies = 21) := by
  obtain ⟨_, _, _, h4, h5⟩ := difficulty_ramp bossRun ⟨rfl, rfl⟩ (fun _ => rfl)
  obtain ⟨_, a2, a3⟩ := h4 999 (le_refl _)
  obtain ⟨_, b2, b3⟩ := h5
  refine ⟨⟨a2, a3⟩, ⟨?_, ?_⟩⟩
  · rw [b2]
    rfl
  · rw [b3]
    rfl

/-! ## C30: what `reset()` restores -/

theorem reachable_bossRun (k : ℕ) : Reachable (bossRun k) := by
  induction k with
  | zero => exact Reachable.init sampleWorld 1 rfl rfl
  | succ n ih => exact Reachable.update _ ih

/-- C30 fails on `maxEnemies`: `reset()` writes the twelve fields `enemies`,
`enemyProjectiles`, `spawnTimer`, `spawnRate`, `difficultyTimer`, `score`,
`scoreMultiplier`, `combo`, `comboTimer`, `multiplierTimer`, `bossActive` and `bossTimer`
(the last from `bossSpawnThreshold`) and leaves `maxEnemies` as it is. After the 1000 updates
of the run of the sample session, a new manager, the difficulty ramp has made `maxEnemies`
21, and it is still 21 after `reset()`, where the constructor value is 20. -/
theorem reset_leaves_maxEnemies :
    (∀ w : World,
        (EnemyManager.reset w).enemyManager.enemies = [] ∧
        (EnemyManager.reset w).enemyManager.enemyProjectiles = [] ∧
        (EnemyManager.reset w).enemyManager.spawnTimer = 0 ∧
        (EnemyManager.reset w).enemyManager.spawnRate = 120 ∧
        (EnemyManager.reset w).enemyManager.difficultyTimer = 0 ∧
        (EnemyManager.reset w).enemyManager.score = 0 ∧
        (EnemyManager.reset w).enemyManager.scoreMultiplier = 1 ∧
        (EnemyManager.reset w).enemyManager.combo = 0 ∧
        (EnemyManager.reset w).enemyManager.comboTimer = 0 ∧
        (EnemyManager.reset w).enemyManager.multiplierTimer = 0 ∧
        (EnemyManager.reset w).enemyManager.bossActive = false ∧
        (EnemyManager.reset w).enemyManager.bossTimer = w.enemyManager.bossSpawnThreshold ∧
        (EnemyManager.reset w).enemyManager.maxEnemies = w.enemyManager.maxEnemies) ∧
      (∀ w : World, Reachable w → (EnemyManager.reset w).enemyManager.bossTimer = 1800) ∧
      Reachable (EnemyManager.update (bossRun 999)) ∧
      (EnemyManager.update (bossRun 999)).enemyManager.maxEnemies = 21 ∧
      (EnemyManager.reset (EnemyManager.update (bossRun 999))).enemyManager.maxEnemies = 21 ∧
      (EnemyManager.new 1).maxEnemies = 20 := by
  have h21 : (EnemyManager.update (bossRun 999)).enemyManager.maxEnemies = 21 := by
    obtain ⟨_, _, _, b3⟩ := ramp_run bossRun ⟨rfl, rfl⟩ (fun _ => rfl)
    rw [b3]
    rfl
  have hkeep : ∀ w : World,
      (EnemyManager.reset w).enemyManager.maxEnemies = w.enemyManager.maxEnemies :=
    fun _ => rfl
  refine ⟨fun w => ⟨rfl, rfl, rfl, rfl, rfl, rfl, rfl, rfl, rfl, rfl, rfl, rfl, rfl⟩,
    fun w hw => reachable_threshold w hw, Reachable.update _ (reachable_bossRun 999), h21,
    (hkeep _).trans h21, rfl⟩

/-! ## C22: what `spawn()` appends to the active list -/

/-- C22 fails for a seeker: when the type drawn is neither `"wanderer"` nor `"spinner"`,
`spawn()` appends two entries to the active list, both the same new seeker object (once in
`createSeeker`, once in `spawn` itself); for a wanderer or a spinner it appends one. With
the spawn countdown due and one free place below `maxEnemies`, the spawn block of `update()`
then leaves `maxEnemies + 1` entries. -/
theorem spawn_seeker_twice (w : World)
    (hdraw : w.randomInt 0 0 2 ≠ 1 ∧ w.randomInt 0 0 2 ≠ 2) :
    (∃ seeker : Enemy, seeker.identity = (false, none, none, EnemyType.seeker) ∧
        (spawn w).heap = w.heap ++ [seeker] ∧
        (spawn w).enemyManager.enemies
          = w.enemyManager.enemies ++ [w.heap.length] ++ [w.heap.length]) ∧
      (spawn w).enemyManager.enemies.length = w.enemyManager.enemies.length + 2 ∧
      (∀ u : World, u.randomInt 0 0 2 = 1 ∨ u.randomInt 0 0 2 = 2 →
        (spawn u).enemyManager.enemies = u.enemyManager.enemies ++ [u.heap.length]) ∧
      (w.enemyManager.spawnRate ≤ w.enemyManager.spawnTimer + 1 →
        (w.enemyManager.enemies.length : ℤ) + 1 = w.enemyManager.maxEnemies →
        ((spawnPhase w).enemyManager.enemies.length : ℤ) = w.enemyManager.maxEnemies + 1) := by
  have hseeker : ∀ v : World, v.randomInt 0 0 2 ≠ 1 → v.randomInt 0 0 2 ≠ 2 →
      ∃ seeker : Enemy, seeker.identity = (false, none, none, EnemyType.seeker) ∧
        (spawn v).heap = v.heap ++ [seeker] ∧
        (spawn v).enemyManager.enemies
          = v.enemyManager.enemies ++ [v.heap.length] ++ [v.heap.length] := by
    intro v h1 h2
    unfold spawn
    lift_lets
    intro typeIndex side position colorIndex color w1 r
    have hr : r = createSeeker position color w1 := by
      show (if typeIndex = 1 then _ else _) = _
      rw [if_neg h1, if_neg h2]
    obtain ⟨e, hid, heq⟩ := createSeeker_eq position color w1
    refine ⟨e, hid, ?_, ?_⟩
    · rw [hr, heq]
      rfl
    · rw [hr, heq]
      rfl
  obtain ⟨seeker, hid, hheap, hen⟩ := hseeker w hdraw.1 hdraw.2
  refine ⟨⟨seeker, hid, hheap, hen⟩, ?_, ?_, ?_⟩
  · rw [hen]
    simp
  · intro u hu
    obtain ⟨e, n, _, htype, heq⟩ := spawn_cases u
    have hne : e.type ≠ EnemyType.seeker := by
      rw [htype]
      rcases hu with h | h
      · rw [if_pos h]
        decide
      · by_cases h1 : u.randomInt 0 0 2 = 1
        · rw [if_pos h1]
          decide
        · rw [if_neg h1, if_pos h]
          decide
    rw [heq]
    show (if e.type = EnemyType.seeker then _ else _) = _
    rw [if_neg hne]
  · intro hdue hroom
    have hcond : (w.enemyManager.spawnTimer + 1 ≥ w.enemyManager.spawnRate) ∧
        (w.enemyManager.enemies.length : ℤ) < w.enemyManager.maxEnemies :=
      ⟨hdue, by omega⟩
    have hphase : (spawnPhase w).enemyManager.enemies
        = (spawn { w with enemyManager :=
            { w.enemyManager with spawnTimer := w.enemyManager.spawnTimer + 1 } }
          ).enemyManager.enemies := by
      unfold spawnPhase
      simp only []
      rw [if_pos hcond]
    obtain ⟨s2, _, _, hen2⟩ := hseeker
      { w with enemyManager :=
        { w.enemyManager with spawnTimer := w.enemyManager.spawnTimer + 1 } }
      hdraw.1 hdraw.2
    rw [hphase, hen2]
    simp only [List.length_append, List.length_singleton]
    push_cast
    omega

theorem seekerWorld_draw : seekerWorld.randomInt 0 0 2 = 0 := by
  unfold World.randomInt World.random World.rand
  show Int.floor ((0 : ℚ) * (2 + 1 - 0) + 0) = 0
  norm_num

/-- C22, failing input: on a platform whose draws are all 0 the first `spawn()` of a new
manager leaves two entries in the active list, both the reference 0. -/
theorem spawn_seeker_twice_witness :
    (spawn seekerWorld).enemyManager.enemies = [0, 0] ∧
      (spawn seekerWorld).enemyManager.enemies.length = 2 := by
  have hd : seekerWorld.randomInt 0 0 2 ≠ 1 ∧ seekerWorld.randomInt 0 0 2 ≠ 2 := by
    rw [seekerWorld_draw]
    exact ⟨by decide, by decide⟩
  obtain ⟨⟨_, _, _, h1⟩, h2, _⟩ := spawn_seeker_twice seekerWorld hd
  exact ⟨h1, h2⟩

/-! ## The hit of a reflected projectile on an enemy -/

/-- What `firstOverlap` returns is the first entry of the list, from the left, whose enemy
object the projectile touches. -/
theorem firstOverlap_first (P : Platform) (heap : List Enemy) (p : Projectile) (l : List ℕ)
    (j k id : ℕ) (e : Enemy) (h : firstOverlap P heap p l j = some (k, id, e)) :
    ∃ m, k = j + m ∧ l[m]? = some id ∧ heap[id]? = some e ∧ Touches P p e ∧
      ∀ (m' : ℕ) (id' : ℕ) (e' : Enemy), m' < m → l[m']? = some id' → heap[id']? = some e' →
        ¬ Touches P p e' := by
  induction l generalizing j with
  | nil => simp [firstOverlap] at h
  | cons a rest ih =>
    unfold firstOverlap at h
    split at h
    · rename_i hnone
      obtain ⟨m, hm, hl, hh, ht, hfirst⟩ := ih (j + 1) h
      refine ⟨m + 1, by omega, by simpa using hl, hh, ht, ?_⟩
      intro m' id' e' hlt hl' hh'
      cases m' with
      | zero =>
        simp only [List.getElem?_cons_zero, Option.some.injEq] at hl'
        subst hl'
        rw [hnone] at hh'
        exact absurd hh' (by simp)
      | succ n =>
        simp only [List.getElem?_cons_succ] at hl'
        exact hfirst n id' e' (by omega) hl' hh'
    · rename_i enemy henemy
      simp only [] at h
      split_ifs at h with htouch
      · simp only [Option.some.injEq, Prod.mk.injEq] at h
        obtain ⟨h1, h2, h3⟩ := h
        subst h1 h2 h3
        refine ⟨0, rfl, by simp, henemy, htouch, ?_⟩
        intro m' _ _ hlt
        exact absurd hlt (Nat.not_lt_zero _)
      · obtain ⟨m, hm, hl, hh, ht, hfirst⟩ := ih (j + 1) h
        refine ⟨m + 1, by omega, by simpa using hl, hh, ht, ?_⟩
        intro m' id' e' hlt hl' hh'
        cases m' with
        | zero =>
          simp only [List.getElem?_cons_zero, Option.some.injEq] at hl'
          subst hl'
          rw [henemy] at hh'
          simp only [Option.some.injEq] at hh'
          subst hh'
          exact htouch
        | succ n =>
          simp only [List.getElem?_cons_succ] at hl'
          exact hfirst n id' e' (by omega) hl' hh'

theorem damage_fields (c : Core) (id i : ℕ) (e : Enemy) :
    (c.damage id i e).heap = c.heap.set id e ∧
      (c.damage id i e).manager.enemies
        = (if e.health.getD 0 ≤ 0 then c.manager.enemies.eraseIdx i else c.manager.enemies) := by
  unfold Core.damage
  by_cases h : e.health.getD 0 ≤ 0
  · rw [if_pos h, if_pos h]
    obtain ⟨f1, _, f3, _⟩ := destroy_fields e i (c.setEnemy id e)
    exact ⟨f3, f1⟩
  · rw [if_neg h, if_neg h]
    exact ⟨rfl, rfl⟩

/-- The body of the loop of `updateProjectiles` for a reflected projectile that the shield
does not bounce again and that overlaps an enemy: it is the hit on the enemy found by
`firstOverlap`, in a world that differs from the one before only by the move and the
trail. -/
theorem projectileStep_hit (i : ℕ) (w : World) (stored : Projectile) (j id : ℕ)
    (enemy : Enemy)
    (hi : w.enemyManager.enemyProjectiles[i]? = some stored)
    (hreflected : stored.isReflected = true)
    (hshield : ¬ ((w.player.alive && w.player.godMode) = true ∧
      w.platform.sqrt
        ((stored.position.x + stored.velocity.x - w.player.position.x) *
            (stored.position.x + stored.velocity.x - w.player.position.x) +
          (stored.position.y + stored.velocity.y - w.player.position.y) *
            (stored.position.y + stored.velocity.y - w.player.position.y))
        < w.player.shieldRadius + stored.size))
    (hov : firstOverlap w.platform w.heap
      { stored with position := stored.position.add stored.velocity }
      w.enemyManager.enemies 0 = some (j, id, enemy)) :
    ∃ w2 : World, w2.core = w.core ∧
      w2.enemyManager.enemyProjectiles = w.enemyManager.enemyProjectiles.set i
        { stored with position := stored.position.add stored.velocity } ∧
      projectileStep i w = reflectedHit i j id enemy w2 := by
  obtain ⟨w2, hpl, hplat, hheap, _, hm, heq⟩ := projectileStep_eq i w stored hi
  have hen : w2.enemyManager.enemies = w.enemyManager.enemies := by rw [hm]
  have hcore : w2.core = w.core := by
    unfold World.core
    rw [hm, hheap]
  refine ⟨w2, hcore, by rw [hm], ?_⟩
  rw [heq]
  unfold projectileResolve
  simp only []
  have hc : ¬ ((w2.player.alive && w2.player.godMode) = true ∧
      w2.platform.sqrt
        (((stored.position.add stored.velocity).x - w2.player.position.x) *
            ((stored.position.add stored.velocity).x - w2.player.position.x) +
          ((stored.position.add stored.velocity).y - w2.player.position.y) *
            ((stored.position.add stored.velocity).y - w2.player.position.y))
        < w2.player.shieldRadius + stored.size) := by
    rw [hpl, hplat]
    exact hshield
  rw [if_neg hc, if_pos hreflected, hplat, hheap, hen, hov]

/-- What the step of the pass does when a reflected projectile that the shield does not
bounce again is found by `firstOverlap` to overlap an enemy: the entry found is the first of
the active list whose enemy the projectile touches; a multi-hit enemy loses one health point
(and is destroyed when that leaves none), a one-hit enemy is destroyed; the score grows by
100 on top of the kill value times the multiplier of a destroyed enemy; the projectile is
removed from the list. -/
theorem reflectedStep_fields (i : ℕ) (w : World) (stored : Projectile) (j id : ℕ)
    (enemy : Enemy)
    (hi : w.enemyManager.enemyProjectiles[i]? = some stored)
    (hreflected : stored.isReflected = true)
    (hshield : ¬ ((w.player.alive && w.player.godMode) = true ∧
      w.platform.sqrt
        ((stored.position.x + stored.velocity.x - w.player.position.x) *
            (stored.position.x + stored.velocity.x - w.player.position.x) +
          (stored.position.y + stored.velocity.y - w.player.position.y) *
            (stored.position.y + stored.velocity.y - w.player.position.y))
        < w.player.shieldRadius + stored.size))
    (hov : firstOverlap w.platform w.heap
      { stored with position := stored.position.add stored.velocity }
      w.enemyManager.enemies 0 = some (j, id, enemy)) :
    (w.enemyManager.enemies[j]? = some id ∧ w.heap[id]? = some enemy ∧
      Touches w.platform { stored with position := stored.position.add stored.velocity }
        enemy ∧
      ∀ (m : ℕ) (id' : ℕ) (e' : Enemy), m < j → w.enemyManager.enemies[m]? = some id' →
        w.heap[id']? = some e' →
        ¬ Touches w.platform { stored with position := stored.position.add stored.velocity }
          e') ∧
    (projectileStep i w).enemyManager.enemyProjectiles
      = w.enemyManager.enemyProjectiles.eraseIdx i ∧
    (truthy enemy.health = true →
      (projectileStep i w).heap
        = w.heap.set id { enemy with health := enemy.health.map (fun h => h - 1) } ∧
      (projectileStep i w).enemyManager.enemies
        = (if (enemy.health.map (fun h => h - 1)).getD 0 ≤ 0
            then w.enemyManager.enemies.eraseIdx j else w.enemyManager.enemies) ∧
      (projectileStep i w).enemyManager.score = w.enemyManager.score +
        (if (enemy.health.map (fun h => h - 1)).getD 0 ≤ 0 then
          (if truthy enemy.value then enemy.value.getD 100 else 100) *
            w.enemyManager.scoreMultiplier
        else 0) + 100) ∧
    (truthy enemy.health = false →
      (projectileStep i w).heap = w.heap ∧
      (projectileStep i w).enemyManager.enemies = w.enemyManager.enemies.eraseIdx j ∧
      (projectileStep i w).enemyManager.score = w.enemyManager.score +
        (if truthy enemy.value then enemy.value.getD 100 else 100) *
          w.enemyManager.scoreMultiplier + 100) := by
  obtain ⟨m, hm, hl, hh, ht, hfirst⟩ := firstOverlap_first _ _ _ _ _ _ _ _ hov
  have hjm : j = m := by omega
  subst hjm
  obtain ⟨w2, hcore, hp, heq⟩ :=
    projectileStep_hit i w stored j id enemy hi hreflected hshield hov
  refine ⟨⟨hl, hh, ht, fun m' id' e' hlt => hfirst m' id' e' hlt⟩, ?_, ?_, ?_⟩
  · rw [heq]
    show ((reflectedDamage j id enemy w2).enemyManager.enemyProjectiles).eraseIdx i = _
    rw [projectiles_reflectedDamage, hp, eraseIdx_set_self]
  · intro htruthy
    have hc : (projectileStep i w).core =
        (w.core.damage id j
          { enemy with health := enemy.health.map (fun h => h - 1) }).addScore 100 := by
      rw [heq, core_reflectedHit_damage i j id enemy w2 htruthy, hcore]
    obtain ⟨d1, d2⟩ := damage_fields w.core id j
      { enemy with health := enemy.health.map (fun h => h - 1) }
    have d3 := damage_score w.core id j
      { enemy with health := enemy.health.map (fun h => h - 1) }
    refine ⟨?_, ?_, ?_⟩
    · have := congrArg Core.heap hc
      exact this.trans d1
    · have := congrArg (fun c : Core => c.manager.enemies) hc
      exact this.trans d2
    · have := congrArg (fun c : Core => c.manager.score) hc
      refine this.trans ?_
      show (w.core.damage id j _).manager.score + 100 = _
      rw [d3]
      rfl
  · intro hfalse
    have hc : (projectileStep i w).core = (w.core.destroy enemy j).addScore 100 := by
      rw [heq, core_reflectedHit, core_reflectedDamage, hcore]
      simp only [hfalse, Bool.false_eq_true, if_false]
    obtain ⟨f1, _, f3, _, f5, _⟩ := destroy_fields enemy j w.core
    refine ⟨?_, ?_, ?_⟩
    · have := congrArg Core.heap hc
      exact this.trans f3
    · have := congrArg (fun c : Core => c.manager.enemies) hc
      exact this.trans f1
    · have := congrArg (fun c : Core => c.manager.score) hc
      refine this.trans ?_
      show (w.core.destroy enemy j).manager.score + 100 = _
      rw [f5]
      rfl

theorem sample_sqrt_0 : samplePlatform.sqrt 0 = 0 := by
  have h0 : Nat.sqrt 0 = 0 := by norm_num
  have hf : Int.floor (0 : ℚ) = 0 := by norm_num
  have ht : Int.toNat 0 = 0 := by decide
  simp only [samplePlatform, hf, ht, h0]
  norm_num

/-! ## C24: the particle pool takes what fits -/

/-- Iterating a step that appends one particle and leaves the limits alone appends as many
particles as there are iterations. -/
theorem iterate_push (f : World → World)
    (hf : ∀ w, ∃ p : Particle, (f w).particles.particles = w.particles.particles ++ [p] ∧
      (f w).particles.trailParticles = w.particles.trailParticles ∧
      (f w).particles.maxParticles = w.particles.maxParticles ∧
      (f w).particles.maxTrailParticles = w.particles.maxTrailParticles)
    (k : ℕ) (w : World) :
    ∃ l : List Particle, l.length = k ∧
      (f^[k] w).particles.particles = w.particles.particles ++ l ∧
      (f^[k] w).particles.trailParticles = w.particles.trailParticles ∧
      (f^[k] w).particles.maxParticles = w.particles.maxParticles ∧
      (f^[k] w).particles.maxTrailParticles = w.particles.maxTrailParticles := by
  induction k generalizing w with
  | zero => exact ⟨[], rfl, by simp, rfl, rfl, rfl⟩
  | succ n ih =>
    obtain ⟨p, h1, h2, h3, h4⟩ := hf w
    obtain ⟨l, hl, g1, g2, g3, g4⟩ := ih (f w)
    refine ⟨p :: l, by simp [hl], ?_, ?_, ?_, ?_⟩
    · rw [Function.iterate_succ_apply, g1, h1, List.append_assoc]
      rfl
    · rw [Function.iterate_succ_apply, g2, h2]
    · rw [Function.iterate_succ_apply, g3, h3]
    · rw [Function.iterate_succ_apply, g4, h4]

/-- The number of iterations of a loop bounded by the smaller of two integers, the second
positive. -/
theorem loopCount_min (n : ℕ) (a : ℤ) (ha : 0 < a) :
    ((loopCount (min (n : ℚ) (a : ℚ)) : ℕ) : ℤ) = min (n : ℤ) a := by
  unfold loopCount
  have h1 : min (n : ℚ) (a : ℚ) = ((min (n : ℤ) a : ℤ) : ℚ) := by
    push_cast
    rfl
  rw [h1, Int.ceil_intCast]
  have h2 : 0 ≤ min (n : ℤ) a := le_min (Int.natCast_nonneg n) (le_of_lt ha)
  exact Int.toNat_of_nonneg h2

theorem createExplosionStep_push (x y : ℚ) (color : String) (speed size decay : ℚ)
    (w : World) :
    ∃ p : Particle,
      (createExplosionStep x y color speed size decay w).particles.particles
        = w.particles.particles ++ [p] ∧
      (createExplosionStep x y color speed size decay w).particles.trailParticles
        = w.particles.trailParticles ∧
      (createExplosionStep x y color speed size decay w).particles.maxParticles
        = w.particles.maxParticles ∧
      (createExplosionStep x y color speed size decay w).particles.maxTrailParticles
        = w.particles.maxTrailParticles :=
  ⟨_, rfl, rfl, rfl, rfl⟩

theorem createDebrisStep_push (x y : ℚ) (color : String) (speed : ℚ) (w : World) :
    ∃ p : Particle,
      (createDebrisStep x y color speed w).particles.particles
        = w.particles.particles ++ [p] ∧
      (createDebrisStep x y color speed w).particles.trailParticles
        = w.particles.trailParticles ∧
      (createDebrisStep x y color speed w).particles.maxParticles
        = w.particles.maxParticles ∧
      (createDebrisStep x y color speed w).particles.maxTrailParticles
        = w.particles.maxTrailParticles :=
  ⟨_, rfl, rfl, rfl, rfl⟩

/-- A loop of `count` pushes capped by the free slots of the pool. -/
theorem capped_pushes (f : World → World)
    (hf : ∀ w, ∃ p : Particle, (f w).particles.particles = w.particles.particles ++ [p] ∧
      (f w).particles.trailParticles = w.particles.trailParticles ∧
      (f w).particles.maxParticles = w.particles.maxParticles ∧
      (f w).particles.maxTrailParticles = w.particles.maxTrailParticles)
    (w : World) (n : ℕ)
    (hlen : (w.particles.particles.length : ℤ) ≤ w.particles.maxParticles) :
    ∃ l : List Particle,
      (l.length : ℤ)
        = min (n : ℤ) (w.particles.maxParticles - (w.particles.particles.length : ℤ)) ∧
      (if ((w.particles.maxParticles : ℚ) - (w.particles.particles.length : ℚ)) ≤ 0 then w
        else f^[loopCount (min (n : ℚ)
          ((w.particles.maxParticles : ℚ) - (w.particles.particles.length : ℚ)))]
            w).particles
        = { w.particles with particles := w.particles.particles ++ l } := by
  have hcast : ((w.particles.maxParticles : ℚ) - (w.particles.particles.length : ℚ))
      = ((w.particles.maxParticles - (w.particles.particles.length : ℤ) : ℤ) : ℚ) := by
    push_cast
    rfl
  by_cases havail : ((w.particles.maxParticles : ℚ) - (w.particles.particles.length : ℚ)) ≤ 0
  · rw [if_pos havail]
    rw [hcast] at havail
    have h0 : w.particles.maxParticles - (w.particles.particles.length : ℤ) ≤ 0 := by
      exact_mod_cast havail
    refine ⟨[], ?_, by simp⟩
    have : w.particles.maxParticles - (w.particles.particles.length : ℤ) = 0 := by omega
    rw [this]
    simp
  · rw [if_neg havail]
    have hpos : 0 < w.particles.maxParticles - (w.particles.particles.length : ℤ) := by
      rw [hcast] at havail
      have : ¬ (w.particles.maxParticles - (w.particles.particles.length : ℤ) ≤ 0) := by
        intro h
        exact havail (by exact_mod_cast h)
      omega
    obtain ⟨l, hl, g1, g2, g3, g4⟩ := iterate_push f hf
      (loopCount (min (n : ℚ)
        ((w.particles.maxParticles : ℚ) - (w.particles.particles.length : ℚ)))) w
    refine ⟨l, ?_, ?_⟩
    · rw [hl, hcast]
      exact loopCount_min n _ hpos
    · cases hps : (f^[loopCount (min (n : ℚ)
          ((w.particles.maxParticles : ℚ) - (w.particles.particles.length : ℚ)))] w).particles
      rw [hps] at g1 g2 g3 g4
      simp only at g1 g2 g3 g4
      rw [g1, g2, g3, g4]

/-- C24: on a pool with `particles.length ≤ maxParticles`, for a non-negative integer
`count`, `createExplosion` and `createDebris` append exactly
`min(count, maxParticles - particles.length)` particles after the existing ones, which are
kept as they are, and change nothing else of the particle system; `createScoreText` appends
exactly one particle when `particles.length < maxParticles`; on a full pool each of the three
returns with the world unchanged. -/
theorem pool_takes_what_fits (w : World) (n : ℕ)
    (hlen : (w.particles.particles.length : ℤ) ≤ w.particles.maxParticles) :
    (∀ (x y : ℚ) (color : String) (speed size decay : ℚ), ∃ l : List Particle,
        (l.length : ℤ)
          = min (n : ℤ) (w.particles.maxParticles - (w.particles.particles.length : ℤ)) ∧
        (createExplosion x y n color speed size decay w).particles
          = { w.particles with particles := w.particles.particles ++ l }) ∧
    (∀ (x y : ℚ) (color : String) (speed : ℚ), ∃ l : List Particle,
        (l.length : ℤ)
          = min (n : ℤ) (w.particles.maxParticles - (w.particles.particles.length : ℤ)) ∧
        (createDebris x y n color speed w).particles
          = { w.particles with particles := w.particles.particles ++ l }) ∧
    (∀ (x y : ℚ) (text color : String),
        (w.particles.particles.length : ℤ) < w.particles.maxParticles →
        ∃ p : Particle, (createScoreText x y text color w).particles
          = { w.particles with particles := w.particles.particles ++ [p] }) ∧
    ((w.particles.particles.length : ℤ) = w.particles.maxParticles →
      (∀ (x y : ℚ) (color : String) (speed size decay : ℚ),
        createExplosion x y n color speed size decay w = w) ∧
      (∀ (x y : ℚ) (color : String) (speed : ℚ), createDebris x y n color speed w = w) ∧
      (∀ (x y : ℚ) (text color : String), createScoreText x y text color w = w)) := by
  refine ⟨?_, ?_, ?_, ?_⟩
  · intro x y color speed size decay
    exact capped_pushes (createExplosionStep x y color speed size decay)
      (createExplosionStep_push x y color speed size decay) w n hlen
  · intro x y color speed
    exact capped_pushes (createDebrisStep x y color speed)
      (createDebrisStep_push x y color speed) w n hlen
  · intro x y text color hlt
    unfold createScoreText
    rw [if_neg (not_le.mpr hlt)]
    exact ⟨_, rfl⟩
  · intro hfull
    have h0 : ((w.particles.maxParticles : ℚ) - (w.particles.particles.length : ℚ)) ≤ 0 := by
      rw [← hfull]
      push_cast
      linarith
    refine ⟨?_, ?_, ?_⟩
    · intro x y color speed size decay
      unfold createExplosion
      exact if_pos h0
    · intro x y color speed
      unfold createDebris
      exact if_pos h0
    · intro x y text color
      unfold createScoreText
      exact if_pos (le_of_eq hfull.symm)

/-- C24, worked example: on the empty pool of the sample session (limit 200) a request for 5
particles appends 5, and on the full pool of `fullPoolWorld` it changes nothing. -/
theorem pool_takes_what_fits_witness :
    (∃ l : List Particle, l.length = 5 ∧
        (createExplosion 0 0 5 "#fff" 2 2 0.05 sampleWorld).particles.particles = l) ∧
      createExplosion 0 0 5 "#fff" 2 2 0.05 fullPoolWorld = fullPoolWorld := by
  have hlen : (sampleWorld.particles.particles.length : ℤ) ≤ sampleWorld.particles.maxParticles :=
    by decide
  have hfull : (fullPoolWorld.particles.particles.length : ℤ)
      ≤ fullPoolWorld.particles.maxParticles := by
    show ((List.replicate 200 _).length : ℤ) ≤ 200
    simp only [List.length_replicate]
    norm_num
  constructor
  · obtain ⟨l, hl, heq⟩ :=
      (pool_takes_what_fits sampleWorld 5 hlen).1 0 0 "#fff" 2 2 0.05
    refine ⟨l, ?_, ?_⟩
    · have h5 : (l.length : ℤ) = 5 := by
        rw [hl]
        decide
      exact_mod_cast h5
    · have := congrArg ParticleSystem.particles heq
      simpa [sampleWorld] using this
  · exact ((pool_takes_what_fits fullPoolWorld 5 hfull).2.2.2 (by
      show ((List.replicate 200 _).length : ℤ) = 200
      simp only [List.length_replicate]
      norm_num)).1 0 0 "#fff" 2 2 0.05

/-! ## C25: the trail pool evicts its oldest particle -/

/-- C25: `addTrail(x, y, color, size)` always appends the new trail particle as the last
element. When the pool is not full the earlier particles are all kept, in order; when it is
full (`length ≥ maxTrailParticles`) exactly the first, oldest particle is dropped and the
rest keep their order. For a pool with `length ≤ maxTrailParticles` and a positive limit (the
constructor sets it to 100) the length afterwards is `min(length + 1, maxTrailParticles)`. -/
theorem addTrail_fifo (x y : ℚ) (color : String) (size : ℚ) (w : World)
    (hlen : (w.particles.trailParticles.length : ℤ) ≤ w.particles.maxTrailParticles)
    (hmax : 0 < w.particles.maxTrailParticles) :
    (addTrail x y color size w).particles.trailParticles.getLast?
        = some { position := ⟨x, y⟩, size := size, color := color, alpha := 0.5,
                 decay := 0.05 } ∧
      ((w.particles.trailParticles.length : ℤ) < w.particles.maxTrailParticles →
        (addTrail x y color size w).particles.trailParticles
          = w.particles.trailParticles ++
            [{ position := ⟨x, y⟩, size := size, color := color, alpha := 0.5,
               decay := 0.05 }]) ∧
      ((w.particles.trailParticles.length : ℤ) = w.particles.maxTrailParticles →
        (addTrail x y color size w).particles.trailParticles
          = w.particles.trailParticles.tail ++
            [{ position := ⟨x, y⟩, size := size, color := color, alpha := 0.5,
               decay := 0.05 }]) ∧
      ((addTrail x y color size w).particles.trailParticles.length : ℤ)
        = min ((w.particles.trailParticles.length : ℤ) + 1) w.particles.maxTrailParticles ∧
      (addTrail x y color size w).particles.particles = w.particles.particles := by
  have hnot : (w.particles.trailParticles.length : ℤ) < w.particles.maxTrailParticles →
      (addTrail x y color size w).particles.trailParticles
        = w.particles.trailParticles ++
          [{ position := ⟨x, y⟩, size := size, color := color, alpha := 0.5,
             decay := 0.05 }] := by
    intro h
    unfold addTrail
    simp only [if_neg (not_le.mpr h)]
  have hfull : (w.particles.trailParticles.length : ℤ) = w.particles.maxTrailParticles →
      (addTrail x y color size w).particles.trailParticles
        = w.particles.trailParticles.tail ++
          [{ position := ⟨x, y⟩, size := size, color := color, alpha := 0.5,
             decay := 0.05 }] := by
    intro h
    unfold addTrail
    simp only [if_pos (le_of_eq h.symm)]
  refine ⟨?_, hnot, hfull, ?_, rfl⟩
  · unfold addTrail
    simp only [List.getLast?_append, List.getLast?_singleton]
    rfl
  · rcases lt_or_eq_of_le hlen with h | h
    · rw [hnot h, List.length_append, List.length_singleton]
      push_cast
      rw [min_eq_left (by omega)]
    · rw [hfull h, List.length_append, List.length_singleton, List.length_tail]
      have hpos : 0 < w.particles.trailParticles.length := by omega
      rw [min_eq_right (by omega), ← h]
      have : w.particles.trailParticles.length - 1 + 1 = w.particles.trailParticles.length :=
        Nat.sub_add_cancel hpos
      exact_mod_cast this

/-- C25, worked example: a trail pool of limit 2 holding two particles; the new one replaces
the oldest. -/
theorem addTrail_fifo_witness :
    (addTrail 9 9 "#fff" 1
      { sampleWorld with particles :=
        { particles := [], maxParticles := 200, maxTrailParticles := 2
          trailParticles := [⟨⟨1, 1⟩, 1, "#a", 0.5, 0.05⟩, ⟨⟨2, 2⟩, 1, "#b", 0.5, 0.05⟩] } }
      ).particles.trailParticles
      = [⟨⟨2, 2⟩, 1, "#b", 0.5, 0.05⟩, ⟨⟨9, 9⟩, 1, "#fff", 0.5, 0.05⟩] :=
  (addTrail_fifo 9 9 "#fff" 1
    { sampleWorld with particles :=
      { particles := [], maxParticles := 200, maxTrailParticles := 2
        trailParticles := [⟨⟨1, 1⟩, 1, "#a", 0.5, 0.05⟩, ⟨⟨2, 2⟩, 1, "#b", 0.5, 0.05⟩] } }
    (by decide) (by decide)).2.2.1 (by decide)

/-! ## C27: the wanderer bounces off the canvas edges -/

/-- The movement block of the wanderer closure: the velocity is first scaled to `speed` when
its magnitude is positive, the position advances by it, and then each component of the
velocity is negated exactly when the new coordinate is outside the canvas on that axis. -/
theorem wandererMove_bounce (e : Enemy) (w : World) :
    ∃ v : Vector,
      (0 < w.platform.sqrt (e.velocity.x * e.velocity.x + e.velocity.y * e.velocity.y) →
        v = ⟨e.velocity.x /
              w.platform.sqrt (e.velocity.x * e.velocity.x + e.velocity.y * e.velocity.y) *
              e.speed,
            e.velocity.y /
              w.platform.sqrt (e.velocity.x * e.velocity.x + e.velocity.y * e.velocity.y) *
              e.speed⟩) ∧
      (¬ 0 < w.platform.sqrt (e.velocity.x * e.velocity.x + e.velocity.y * e.velocity.y) →
        v = e.velocity) ∧
      (wandererMove e w).position = e.position.add v ∧
      (wandererMove e w).velocity.x =
        (if (wandererMove e w).position.x < 0 ∨ (wandererMove e w).position.x > w.canvas.width
          then v.x * -1 else v.x) ∧
      (wandererMove e w).velocity.y =
        (if (wandererMove e w).position.y < 0 ∨
            (wandererMove e w).position.y > w.canvas.height
          then v.y * -1 else v.y) := by
  by_cases hm : w.platform.sqrt (e.velocity.x * e.velocity.x + e.velocity.y * e.velocity.y) > 0
  · refine ⟨⟨e.velocity.x /
        w.platform.sqrt (e.velocity.x * e.velocity.x + e.velocity.y * e.velocity.y) * e.speed,
      e.velocity.y /
        w.platform.sqrt (e.velocity.x * e.velocity.x + e.velocity.y * e.velocity.y) *
        e.speed⟩, fun _ => rfl, fun h => absurd hm h, ?_⟩
    unfold wandererMove
    simp only [hm, if_true]
    split_ifs <;> exact ⟨rfl, rfl, rfl⟩
  · refine ⟨e.velocity, fun h => absurd h hm, fun _ => rfl, ?_⟩
    unfold wandererMove
    simp only [hm, if_false]
    split_ifs <;> exact ⟨rfl, rfl, rfl⟩

theorem wandererShoot_motion (e : Enemy) (w : World) :
    (wandererShoot e w).1.position = e.position ∧
      (wandererShoot e w).1.velocity = e.velocity := by
  unfold wandererShoot
  split_ifs <;> exact ⟨rfl, rfl⟩

theorem wandererTurn_world (e : Enemy) (w : World) :
    (wandererTurn e w).2.canvas = w.canvas ∧ (wandererTurn e w).2.platform = w.platform := by
  unfold wandererTurn
  simp only []
  split_ifs <;> exact ⟨rfl, rfl⟩

theorem wandererTurn_quiet (e : Enemy) (w : World)
    (hturn : e.directionTimer + 1 < e.directionChangeInterval) :
    (wandererTurn e w).1.position = e.position ∧
      (wandererTurn e w).1.velocity = e.velocity ∧
      (wandererTurn e w).1.speed = e.speed := by
  unfold wandererTurn
  simp only [if_neg (not_le.mpr hturn)]
  exact ⟨trivial, trivial, trivial⟩

/-- C27: in a wanderer's update, with `t` the wanderer after the direction-timer block and
`v` the velocity the position is advanced by, `velocity.x` afterwards is `-v.x` exactly when
the new `position.x` is below 0 or above `canvas.width`, and `v.x` otherwise; likewise for
`y` and `canvas.height`. So for a wanderer moving left (negative `velocity.x`, positive
speed and magnitude, no new heading drawn in this update): the new `position.x` is the old
one plus the scaled negative velocity, the x-velocity afterwards is positive if the new
`position.x` is below 0, and still negative if it is within the canvas. -/
theorem wanderer_bounce (e : Enemy) (w : World) (m : ℚ)
    (hturn : e.directionTimer + 1 < e.directionChangeInterval)
    (hsqrt : w.platform.sqrt (e.velocity.x * e.velocity.x + e.velocity.y * e.velocity.y) = m)
    (hm : 0 < m) (hspeed : 0 < e.speed) (hleft : e.velocity.x < 0) :
    (∀ (e' : Enemy) (w' : World), ∃ v : Vector,
        (wandererUpdate e' w').1.position = (wandererTurn e' w').1.position.add v ∧
        (wandererUpdate e' w').1.velocity.x =
          (if (wandererUpdate e' w').1.position.x < 0 ∨
              (wandererUpdate e' w').1.position.x > w'.canvas.width
            then -v.x else v.x) ∧
        (wandererUpdate e' w').1.velocity.y =
          (if (wandererUpdate e' w').1.position.y < 0 ∨
              (wandererUpdate e' w').1.position.y > w'.canvas.height
            then -v.y else v.y)) ∧
      (wandererUpdate e w).1.position.x = e.position.x + e.velocity.x / m * e.speed ∧
      ((wandererUpdate e w).1.position.x < 0 → 0 < (wandererUpdate e w).1.velocity.x) ∧
      (0 ≤ (wandererUpdate e w).1.position.x →
        (wandererUpdate e w).1.position.x ≤ w.canvas.width →
        (wandererUpdate e w).1.velocity.x < 0) := by
  have hgen : ∀ (e' : Enemy) (w' : World), ∃ v : Vector,
      (0 < w'.platform.sqrt ((wandererTurn e' w').1.velocity.x *
          (wandererTurn e' w').1.velocity.x +
          (wandererTurn e' w').1.velocity.y * (wandererTurn e' w').1.velocity.y) →
        v.x = (wandererTurn e' w').1.velocity.x /
          w'.platform.sqrt ((wandererTurn e' w').1.velocity.x *
            (wandererTurn e' w').1.velocity.x +
            (wandererTurn e' w').1.velocity.y * (wandererTurn e' w').1.velocity.y) *
          (wandererTurn e' w').1.speed) ∧
      (wandererUpdate e' w').1.position = (wandererTurn e' w').1.position.add v ∧
      (wandererUpdate e' w').1.velocity.x =
        (if (wandererUpdate e' w').1.position.x < 0 ∨
            (wandererUpdate e' w').1.position.x > w'.canvas.width
          then -v.x else v.x) ∧
      (wandererUpdate e' w').1.velocity.y =
        (if (wandererUpdate e' w').1.position.y < 0 ∨
            (wandererUpdate e' w').1.position.y > w'.canvas.height
          then -v.y else v.y) := by
    intro e' w'
    obtain ⟨v, hv1, _, hpos, hvx, hvy⟩ :=
      wandererMove_bounce (wandererTurn e' w').1 (wandererTurn e' w').2
    obtain ⟨hc, hp⟩ := wandererTurn_world e' w'
    obtain ⟨s1, s2⟩ := wandererShoot_motion
      (wandererMove (wandererTurn e' w').1 (wandererTurn e' w').2) (wandererTurn e' w').2
    have hu : (wandererUpdate e' w').1
        = (wandererShoot (wandererMove (wandererTurn e' w').1 (wandererTurn e' w').2)
            (wandererTurn e' w').2).1 := rfl
    rw [hc] at hvx hvy
    rw [hp] at hv1
    refine ⟨v, ?_, ?_, ?_, ?_⟩
    · intro h
      rw [hv1 h]
    · rw [hu, s1, hpos]
    · rw [hu, s2, s1, hvx]
      simp only [mul_neg, mul_one]
    · rw [hu, s2, s1, hvy]
      simp only [mul_neg, mul_one]
  obtain ⟨v, hv, hpos, hvx, _⟩ := hgen e w
  obtain ⟨t1, t2, t3⟩ := wandererTurn_quiet e w hturn
  rw [t2, t3, hsqrt] at hv
  have hvneg : v.x < 0 := by
    rw [hv hm]
    exact mul_neg_of_neg_of_pos (div_neg_of_neg_of_pos hleft hm) hspeed
  have hx : (wandererUpdate e w).1.position.x = e.position.x + e.velocity.x / m * e.speed := by
    rw [hpos, t1, ← hv hm]
    rfl
  refine ⟨?_, hx, ?_, ?_⟩
  · intro e' w'
    obtain ⟨v', _, h2, h3, h4⟩ := hgen e' w'
    exact ⟨v', h2, h3, h4⟩
  · intro hout
    rw [hvx, if_pos (Or.inl hout)]
    linarith
  · intro h0 hw
    rw [hvx, if_neg (by
      intro h
      rcases h with h | h
      · linarith
      · linarith)]
    exact hvneg

theorem sample_sqrt_1 : samplePlatform.sqrt 1 = 1 := by
  have h1 : Nat.sqrt 1 = 1 := by norm_num
  have hf : Int.floor (1 : ℚ) = 1 := by norm_num
  have ht : Int.toNat 1 = 1 := by decide
  simp only [samplePlatform, hf, ht, h1]
  norm_num

/-- C27, worked example: a wanderer of speed 1 heading left with velocity `(-1, 0)` on the
800 by 600 canvas. From `(5, 300)` one update takes it to `x = 4` and it keeps heading left;
from `(1/2, 300)` one update takes it to `x = -1/2`, below 0, and its x-velocity is positive
afterwards. -/
theorem wanderer_bounce_witness :
    ((wandererUpdate { sampleWanderer with position := ⟨5, 300⟩, velocity := ⟨-1, 0⟩ }
        sampleWorld).1.position.x = 4 ∧
      (wandererUpdate { sampleWanderer with position := ⟨5, 300⟩, velocity := ⟨-1, 0⟩ }
        sampleWorld).1.velocity.x < 0) ∧
    ((wandererUpdate { sampleWanderer with position := ⟨1 / 2, 300⟩, velocity := ⟨-1, 0⟩ }
        sampleWorld).1.position.x = -1 / 2 ∧
      0 < (wandererUpdate { sampleWanderer with position := ⟨1 / 2, 300⟩, velocity := ⟨-1, 0⟩ }
        sampleWorld).1.velocity.x) := by
  have harg : ((-1 : ℚ) * -1 + 0 * 0) = 1 := by norm_num
  have hs : sampleWorld.platform.sqrt ((-1 : ℚ) * -1 + 0 * 0) = 1 := by
    show samplePlatform.sqrt ((-1 : ℚ) * -1 + 0 * 0) = 1
    rw [harg]
    exact sample_sqrt_1
  obtain ⟨_, a2, _, a4⟩ := wanderer_bounce
    { sampleWanderer with position := ⟨5, 300⟩, velocity := ⟨-1, 0⟩ } sampleWorld 1
    (by decide) hs (by norm_num) (by
      show (0 : ℚ) < 1
      norm_num) (by
      show (-1 : ℚ) < 0
      norm_num)
  obtain ⟨_, b2, b3, _⟩ := wanderer_bounce
    { sampleWanderer with position := ⟨1 / 2, 300⟩, velocity := ⟨-1, 0⟩ } sampleWorld 1
    (by decide) hs (by norm_num) (by
      show (0 : ℚ) < 1
      norm_num) (by
      show (-1 : ℚ) < 0
      norm_num)
  have a2' : (wandererUpdate { sampleWanderer with position := ⟨5, 300⟩, velocity := ⟨-1, 0⟩ }
      sampleWorld).1.position.x = 4 := by
    rw [a2]
    show (5 : ℚ) + -1 / 1 * 1 = 4
    norm_num
  have b2' : (wandererUpdate
      { sampleWanderer with position := ⟨1 / 2, 300⟩, velocity := ⟨-1, 0⟩ }
      sampleWorld).1.position.x = -1 / 2 := by
    rw [b2]
    show (1 / 2 : ℚ) + -1 / 1 * 1 = -1 / 2
    norm_num
  refine ⟨⟨a2', a4 ?_ ?_⟩, ⟨b2', b3 ?_⟩⟩
  · rw [a2']
    norm_num
  · rw [a2']
    show (4 : ℚ) ≤ 800
    norm_num
  · rw [b2']
    norm_num

/-! ## C28: the attack phases of the boss -/

/-- The battle-phase branch of the boss closure on the phase fields: the timer counts up and,
once it is above 180, the phase advances modulo 4 and the timer restarts. -/
theorem bossBattlePhase_phase (e : Enemy) (w : World) :
    (bossBattlePhase e w).attackPhase
        = (if e.phaseTimer + 1 > 180 then Int.tmod (e.attackPhase + 1) 4 else e.attackPhase) ∧
      (bossBattlePhase e w).phaseTimer
        = (if e.phaseTimer + 1 > 180 then 0 else e.phaseTimer + 1) := by
  have key : ∀ X : ℤ × ℤ,
      X = (if e.phaseTimer + 1 > 180 then (Int.tmod (e.attackPhase + 1) 4, 0)
          else (e.attackPhase, e.phaseTimer + 1)) →
      (fun x : Enemy => (x.attackPhase, x.phaseTimer)) (bossBattlePhase e w) = X := by
    intro X hX
    unfold bossBattlePhase
    lift_lets
    intro a b c d
    have hb : (fun x : Enemy => (x.attackPhase, x.phaseTimer)) b = X := by
      rw [hX]
      show (fun x : Enemy => (x.attackPhase, x.phaseTimer))
        (if e.phaseTimer + 1 > 180 then _ else a) = _
      split_ifs <;> rfl
    have hc : (fun x : Enemy => (x.attackPhase, x.phaseTimer)) c = X := by
      show (fun x : Enemy => (x.attackPhase, x.phaseTimer))
        (if b.attackPhase = 0 then _ else if b.attackPhase = 1 then _
          else if b.attackPhase = 2 then _ else if b.attackPhase = 3 then _ else b) = X
      split_ifs <;> exact hb
    have hd : (fun x : Enemy => (x.attackPhase, x.phaseTimer)) d = X := by
      show (fun x : Enemy => (x.attackPhase, x.phaseTimer))
        (if c.position.x < c.size then _
          else if c.position.x > w.canvas.width - c.size then _ else c) = X
      split_ifs <;> exact hc
    show (fun x : Enemy => (x.attackPhase, x.phaseTimer))
      (if d.position.y < d.size then _
        else if d.position.y > w.canvas.height / 2 then _ else d) = X
    split_ifs <;> exact hd
  have key := key _ rfl
  simp only at key
  split_ifs at key ⊢ with h
  · simp only [Prod.mk.injEq] at key
    exact key
  · simp only [Prod.mk.injEq] at key
    exact key

/-- The phase fields after the whole boss closure: changed by the battle-phase branch only. -/
theorem bossUpdate_phase (e : Enemy) (w : World) :
    (e.position.y < w.canvas.height / 4 →
      (bossUpdate e w).1.attackPhase = e.attackPhase ∧
      (bossUpdate e w).1.phaseTimer = e.phaseTimer) ∧
    (¬ e.position.y < w.canvas.height / 4 →
      (bossUpdate e w).1.attackPhase
        = (if e.phaseTimer + 1 > 180 then Int.tmod (e.attackPhase + 1) 4
          else e.attackPhase) ∧
      (bossUpdate e w).1.phaseTimer
        = (if e.phaseTimer + 1 > 180 then 0 else e.phaseTimer + 1)) := by
  have hattack : ∀ b : Enemy, (bossAttack b w).1.attackPhase = b.attackPhase ∧
      (bossAttack b w).1.phaseTimer = b.phaseTimer := by
    intro b
    unfold bossAttack
    simp only []
    split_ifs <;> exact ⟨rfl, rfl⟩
  obtain ⟨a1, a2⟩ := hattack (bossMove e w)
  have hu : (bossUpdate e w).1 = (bossAttack (bossMove e w) w).1 := rfl
  constructor
  · intro h
    have hm : (bossMove e w).attackPhase = e.attackPhase ∧
        (bossMove e w).phaseTimer = e.phaseTimer := by
      unfold bossMove
      simp only [if_pos h]
      exact ⟨trivial, trivial⟩
    rw [hu, a1, a2]
    exact hm
  · intro h
    have hm : (bossMove e w).attackPhase = (bossBattlePhase e w).attackPhase ∧
        (bossMove e w).phaseTimer = (bossBattlePhase e w).phaseTimer := by
      unfold bossMove
      simp only [if_neg h]
      exact ⟨trivial, trivial⟩
    obtain ⟨p1, p2⟩ := bossBattlePhase_phase e w
    rw [hu, a1, a2, hm.1, hm.2]
    exact ⟨p1, p2⟩

/-- A boss in attack phase 0 whose phase does not change in this update, standing between its
own size and half the canvas height, keeps its height and its size through the battle-phase
branch and has no vertical velocity after it. -/
theorem bossBattlePhase_still (e : Enemy) (w : World) (h0 : e.attackPhase = 0)
    (ht : e.phaseTimer + 1 ≤ 180) (hy1 : e.size ≤ e.position.y)
    (hy2 : e.position.y ≤ w.canvas.height / 2) :
    (bossBattlePhase e w).position.y = e.position.y ∧
      (bossBattlePhase e w).velocity.y = 0 ∧ (bossBattlePhase e w).size = e.size := by
  have key : (fun x : Enemy => (x.position.y, x.velocity.y, x.size)) (bossBattlePhase e w)
      = (e.position.y, 0, e.size) := by
    unfold bossBattlePhase
    lift_lets
    intro a b c d
    have hb : b = a := if_neg (by show ¬ e.phaseTimer + 1 > 180; omega)
    have hc : (fun x : Enemy => (x.position.y, x.velocity.y, x.size)) c
        = (e.position.y, 0, e.size) := by
      have h : b.attackPhase = 0 := by rw [hb]; exact h0
      show (fun x : Enemy => (x.position.y, x.velocity.y, x.size))
        (if b.attackPhase = 0 then _ else _) = _
      rw [if_pos h, hb]
    have hd : (fun x : Enemy => (x.position.y, x.velocity.y, x.size)) d
        = (e.position.y, 0, e.size) := by
      show (fun x : Enemy => (x.position.y, x.velocity.y, x.size))
        (if c.position.x < c.size then _
          else if c.position.x > w.canvas.width - c.size then _ else c) = _
      split_ifs <;> exact hc
    have hd1 : d.position.y = e.position.y := congrArg (fun t : ℚ × ℚ × ℚ => t.1) hd
    have hd3 : d.size = e.size := congrArg (fun t : ℚ × ℚ × ℚ => t.2.2) hd
    show (fun x : Enemy => (x.position.y, x.velocity.y, x.size))
      (if d.position.y < d.size then _
        else if d.position.y > w.canvas.height / 2 then _ else d) = _
    rw [if_neg (by rw [hd1, hd3]; exact not_lt.mpr hy1),
      if_neg (by rw [hd1]; exact not_lt.mpr hy2)]
    exact hd
  exact ⟨congrArg (fun t : ℚ × ℚ × ℚ => t.1) key, congrArg (fun t : ℚ × ℚ × ℚ => t.2.1) key,
    congrArg (fun t : ℚ × ℚ × ℚ => t.2.2) key⟩

/-- The same through the whole boss closure: height and size are as before. -/
theorem bossUpdate_still (e : Enemy) (w : World) (hbattle : ¬ e.position.y < w.canvas.height / 4)
    (h0 : e.attackPhase = 0) (ht : e.phaseTimer + 1 ≤ 180) (hy1 : e.size ≤ e.position.y)
    (hy2 : e.position.y ≤ w.canvas.height / 2) :
    (bossUpdate e w).1.position.y = e.position.y ∧ (bossUpdate e w).1.size = e.size := by
  have hattack : ∀ b : Enemy, (bossAttack b w).1.position = b.position ∧
      (bossAttack b w).1.size = b.size := by
    intro b
    unfold bossAttack
    simp only []
    split_ifs <;> exact ⟨rfl, rfl⟩
  obtain ⟨a1, a2⟩ := hattack (bossMove e w)
  obtain ⟨s1, s2, s3⟩ := bossBattlePhase_still e w h0 ht hy1 hy2
  have hu : (bossUpdate e w).1 = (bossAttack (bossMove e w) w).1 := rfl
  have hm : (bossMove e w).position.y
        = (bossBattlePhase e w).position.y + (bossBattlePhase e w).velocity.y ∧
      (bossMove e w).size = (bossBattlePhase e w).size := by
    unfold bossMove
    simp only [if_neg hbattle]
    exact ⟨rfl, trivial⟩
  rw [hu, a1, a2, hm.1, hm.2, s1, s2, s3, add_zero]
  exact ⟨rfl, rfl⟩

/-- The sample boss run stays put for its first 180 updates: height 150, size 45, attack
phase 0, and the phase timer counts the updates. -/
theorem phaseRun_inv (k : ℕ) (hk : k ≤ 180) :
    (phaseRun k).position.y = 150 ∧ (phaseRun k).size = 45 ∧
      (phaseRun k).attackPhase = 0 ∧ (phaseRun k).phaseTimer = (k : ℤ) := by
  induction k with
  | zero => exact ⟨rfl, rfl, rfl, rfl⟩
  | succ n ih =>
    obtain ⟨i1, i2, i3, i4⟩ := ih (by omega)
    have hcanvas : sampleWorld.canvas.height = 600 := rfl
    have hbattle : ¬ (phaseRun n).position.y < sampleWorld.canvas.height / 4 := by
      rw [i1, hcanvas]; norm_num
    have ht : (phaseRun n).phaseTimer + 1 ≤ 180 := by rw [i4]; omega
    obtain ⟨y1, y2⟩ := bossUpdate_still (phaseRun n) sampleWorld hbattle i3 ht
      (by rw [i1, i2]; norm_num) (by rw [i1, hcanvas]; norm_num)
    obtain ⟨p1, p2⟩ := (bossUpdate_phase (phaseRun n) sampleWorld).2 hbattle
    have hs : phaseRun (n + 1) = (bossUpdate (phaseRun n) sampleWorld).1 := rfl
    rw [hs, y1, y2, p1, p2, if_neg (by omega), if_neg (by omega), i1, i2, i3, i4]
    exact ⟨rfl, rfl, rfl, by push_cast; rfl⟩

/-- The phase fields over one period, for any run of boss updates that stays in the battle
phase: from a timer of 0, 180 updates leave the phase alone while the timer counts them, and
the 181st advances the phase and restarts the timer. -/
theorem phase_block (es : ℕ → Enemy) (ws : ℕ → World)
    (hstart : (es 0).phaseTimer = 0)
    (hbattle : ∀ k, k ≤ 180 → ¬ (es k).position.y < (ws k).canvas.height / 4)
    (hstep : ∀ k, (es (k + 1)).attackPhase = (bossUpdate (es k) (ws k)).1.attackPhase ∧
      (es (k + 1)).phaseTimer = (bossUpdate (es k) (ws k)).1.phaseTimer) :
    (∀ k : ℕ, k ≤ 180 →
        (es k).attackPhase = (es 0).attackPhase ∧ (es k).phaseTimer = (k : ℤ)) ∧
      (es 181).attackPhase = Int.tmod ((es 0).attackPhase + 1) 4 ∧
      (es 181).phaseTimer = 0 := by
  have hrun : ∀ k : ℕ, k ≤ 180 →
      (es k).attackPhase = (es 0).attackPhase ∧ (es k).phaseTimer = (k : ℤ) := by
    intro k
    induction k with
    | zero => intro _; exact ⟨rfl, by rw [hstart]; rfl⟩
    | succ n ih =>
      intro hn
      obtain ⟨i1, i2⟩ := ih (by omega)
      obtain ⟨p1, p2⟩ := (bossUpdate_phase (es n) (ws n)).2 (hbattle n (by omega))
      rw [(hstep n).1, (hstep n).2, p1, p2, if_neg (by omega), if_neg (by omega), i1, i2]
      exact ⟨rfl, by push_cast; rfl⟩
  refine ⟨hrun, ?_⟩
  obtain ⟨i1, i2⟩ := hrun 180 (le_refl _)
  obtain ⟨p1, p2⟩ := (bossUpdate_phase (es 180) (ws 180)).2 (hbattle 180 (le_refl _))
  have h : (es 180).phaseTimer + 1 > 180 := by rw [i2]; norm_num
  rw [if_pos h] at p1 p2
  exact ⟨((hstep 180).1.trans p1).trans (by rw [i1]), (hstep 180).2.trans p2⟩

/-- C28, as the code has it: while a boss stays in its battle phase (position.y not below a
quarter of the canvas height at the start of each update), starting from a phase timer of 0,
the attack phase is unchanged through 180 updates, during which the timer counts 1 to 180, and
advances by one modulo 4 in the 181st update, which also resets the timer to 0. The period of
the cycle 0, 1, 2, 3, 0 is 181 updates. -/
theorem boss_phase_period (es : ℕ → Enemy) (ws : ℕ → World)
    (hstart : (es 0).phaseTimer = 0)
    (hphase : 0 ≤ (es 0).attackPhase ∧ (es 0).attackPhase ≤ 3)
    (hbattle : ∀ k, k ≤ 180 → ¬ (es k).position.y < (ws k).canvas.height / 4)
    (hstep : ∀ k, (es (k + 1)).attackPhase = (bossUpdate (es k) (ws k)).1.attackPhase ∧
      (es (k + 1)).phaseTimer = (bossUpdate (es k) (ws k)).1.phaseTimer) :
    (∀ k : ℕ, k ≤ 180 →
        (es k).attackPhase = (es 0).attackPhase ∧ (es k).phaseTimer = (k : ℤ)) ∧
      (es 181).attackPhase = ((es 0).attackPhase + 1) % 4 ∧
      (es 181).phaseTimer = 0 ∧
      ((es 0).attackPhase = 0 → (es 181).attackPhase = 1) ∧
      ((es 0).attackPhase = 1 → (es 181).attackPhase = 2) ∧
      ((es 0).attackPhase = 2 → (es 181).attackPhase = 3) ∧
      ((es 0).attackPhase = 3 → (es 181).attackPhase = 0) := by
  obtain ⟨hrun, h1, h2⟩ := phase_block es ws hstart hbattle hstep
  have hmod : Int.tmod ((es 0).attackPhase + 1) 4 = ((es 0).attackPhase + 1) % 4 :=
    Int.tmod_eq_emod (by omega) (by norm_num)
  rw [hmod] at h1
  refine ⟨hrun, h1, h2, ?_, ?_, ?_, ?_⟩ <;> intro h <;> rw [h1, h] <;> rfl

theorem boss_phase_period_witness :
    (phaseRun 0).phaseTimer = 0 ∧ (phaseRun 0).attackPhase = 0 ∧
      (∀ k : ℕ, k ≤ 180 → (phaseRun k).attackPhase = 0 ∧ (phaseRun k).phaseTimer = (k : ℤ)) ∧
      (phaseRun 181).attackPhase = 1 ∧ (phaseRun 181).phaseTimer = 0 := by
  have hbattle : ∀ k, k ≤ 180 →
      ¬ (phaseRun k).position.y < ((fun _ : ℕ => sampleWorld) k).canvas.height / 4 := by
    intro k hk
    have hcanvas : sampleWorld.canvas.height = 600 := rfl
    show ¬ (phaseRun k).position.y < sampleWorld.canvas.height / 4
    rw [(phaseRun_inv k hk).1, hcanvas]
    norm_num
  obtain ⟨hrun, _, h2, h3, _⟩ := boss_phase_period phaseRun (fun _ => sampleWorld) rfl
    ⟨by decide, by decide⟩ hbattle (fun _ => ⟨rfl, rfl⟩)
  exact ⟨rfl, rfl, hrun, h3 rfl, h2⟩

/-- C28, the reading with a period of 180: the sample boss, in its battle phase throughout
with the phase timer at 0 at the start, is still in attack phase 0 after 180 updates, with the
timer at 180; the phase advances to 1 only in the 181st update. -/
theorem boss_phase_not_after_180 :
    (phaseRun 0).phaseTimer = 0 ∧ (phaseRun 0).attackPhase = 0 ∧
      (∀ k : ℕ, k ≤ 180 → ¬ (phaseRun k).position.y < sampleWorld.canvas.height / 4) ∧
      (phaseRun 180).attackPhase = 0 ∧ (phaseRun 180).phaseTimer = 180 ∧
      (phaseRun 180).attackPhase ≠ ((phaseRun 0).attackPhase + 1) % 4 ∧
      (bossUpdate (phaseRun 180) sampleWorld).1.attackPhase = 1 := by
  have hcanvas : sampleWorld.canvas.height = 600 := rfl
  have hbattle : ∀ k : ℕ, k ≤ 180 →
      ¬ (phaseRun k).position.y < sampleWorld.canvas.height / 4 := by
    intro k hk
    rw [(phaseRun_inv k hk).1, hcanvas]
    norm_num
  obtain ⟨_, _, i3, i4⟩ := phaseRun_inv 180 (le_refl _)
  obtain ⟨p1, _⟩ := (bossUpdate_phase (phaseRun 180) sampleWorld).2 (hbattle 180 (le_refl _))
  have h0 : (phaseRun 0).attackPhase = 0 := rfl
  refine ⟨rfl, rfl, hbattle, i3, by rw [i4]; rfl, by rw [i3, h0]; decide, ?_⟩
  rw [p1, if_pos (by rw [i4]; norm_num), i3]
  rfl

/-! ## C29: the burst fire of the spinner -/

/-- The draw of `randomInt(60, 120)` lies between 60 and 120. -/
theorem randomInt_60_120 (w : World) (k : ℕ) :
    60 ≤ w.randomInt k 60 120 ∧ w.randomInt k 60 120 ≤ 120 := by
  obtain ⟨h0, h1⟩ := w.platform.random_range (w.randomCalls + k)
  unfold World.randomInt World.random World.rand
  constructor
  · apply Int.le_floor.mpr
    push_cast
    nlinarith
  · have h : Int.floor (w.platform.randomSeq (w.randomCalls + k) * (120 + 1 - 60) + 60)
        < 121 := by
      apply Int.floor_lt.mpr
      push_cast
      nlinarith
    omega

/-- The first two blocks of the spinner closure on the burst fields and on the world: the shoot
timer counts one, nothing else of the burst fields moves, and the world keeps its player and
its manager. -/
theorem spinnerRetarget_burst (e : Enemy) (w : World) :
    (spinnerRetarget (spinnerMove e w) w).1.burstCount = e.burstCount ∧
      (spinnerRetarget (spinnerMove e w) w).1.burstSize = e.burstSize ∧
      (spinnerRetarget (spinnerMove e w) w).1.burstDelay = e.burstDelay ∧
      (spinnerRetarget (spinnerMove e w) w).1.shootTimer = e.shootTimer + 1 ∧
      (spinnerRetarget (spinnerMove e w) w).1.shootDelay = e.shootDelay ∧
      (spinnerRetarget (spinnerMove e w) w).2.player = w.player ∧
      (spinnerRetarget (spinnerMove e w) w).2.enemyManager = w.enemyManager := by
  unfold spinnerRetarget
  split_ifs <;> exact ⟨rfl, rfl, rfl, rfl, rfl, rfl, rfl⟩

/-- One call of `fireProjectile` adds exactly one enemy projectile. -/
theorem fireProjectile_length (e : Enemy) (speed size : ℚ) (w : World) :
    (fireProjectile e speed size w).enemyManager.enemyProjectiles.length
      = w.enemyManager.enemyProjectiles.length + 1 := by
  unfold fireProjectile
  simp only [World.pushEnemyProjectile, World.advance, List.length_append, List.length_singleton]

/-- The burst block of the spinner closure, case by case. -/
theorem spinnerShoot_burst (e : Enemy) (w : World) :
    (spinnerShoot e w).1.burstSize = e.burstSize ∧
      (spinnerShoot e w).1.burstDelay = e.burstDelay ∧
      (e.burstCount > 0 ∧ e.shootTimer ≥ e.burstDelay →
        (spinnerShoot e w).1.burstCount = e.burstCount - 1 ∧
        (spinnerShoot e w).1.shootTimer = 0 ∧
        (spinnerShoot e w).1.shootDelay = e.shootDelay ∧
        (spinnerShoot e w).2.enemyManager.enemyProjectiles.length
          = w.enemyManager.enemyProjectiles.length + 1) ∧
      (¬ (e.burstCount > 0 ∧ e.shootTimer ≥ e.burstDelay) →
        e.burstCount = 0 ∧ e.shootTimer ≥ e.shootDelay ∧ w.player.alive = true →
        (spinnerShoot e w).1.burstCount = e.burstSize - 1 ∧
        (spinnerShoot e w).1.shootTimer = 0 ∧
        60 ≤ (spinnerShoot e w).1.shootDelay ∧ (spinnerShoot e w).1.shootDelay ≤ 120 ∧
        (spinnerShoot e w).2.enemyManager.enemyProjectiles.length
          = w.enemyManager.enemyProjectiles.length + 1) ∧
      (¬ (e.burstCount > 0 ∧ e.shootTimer ≥ e.burstDelay) →
        ¬ (e.burstCount = 0 ∧ e.shootTimer ≥ e.shootDelay ∧ w.player.alive = true) →
        (spinnerShoot e w).1.burstCount = e.burstCount ∧
        (spinnerShoot e w).1.shootTimer = e.shootTimer ∧
        (spinnerShoot e w).1.shootDelay = e.shootDelay ∧
        (spinnerShoot e w).2.enemyManager.enemyProjectiles.length
          = w.enemyManager.enemyProjectiles.length) := by
  refine ⟨?_, ?_, ?_, ?_, ?_⟩
  · unfold spinnerShoot
    split_ifs <;> rfl
  · unfold spinnerShoot
    split_ifs <;> rfl
  · intro hA
    unfold spinnerShoot
    rw [if_pos hA]
    exact ⟨rfl, rfl, rfl, fireProjectile_length e 7 3 w⟩
  · intro hA hB
    unfold spinnerShoot
    rw [if_neg hA, if_pos hB]
    obtain ⟨r1, r2⟩ := randomInt_60_120 (fireProjectile e 7 3 w) 0
    exact ⟨rfl, rfl, r1, r2, fireProjectile_length e 7 3 w⟩
  · intro hA hB
    unfold spinnerShoot
    rw [if_neg hA, if_neg hB]
    exact ⟨rfl, rfl, rfl, rfl⟩

/-- The whole spinner closure on the burst fields and on the number of enemy projectiles, case
by case, in terms of the state before the update. -/
theorem spinnerUpdate_burst (e : Enemy) (w : World) :
    (spinnerUpdate e w).1.burstSize = e.burstSize ∧
      (spinnerUpdate e w).1.burstDelay = e.burstDelay ∧
      (e.burstCount > 0 ∧ e.shootTimer + 1 ≥ e.burstDelay →
        (spinnerUpdate e w).1.burstCount = e.burstCount - 1 ∧
        (spinnerUpdate e w).1.shootTimer = 0 ∧
        (spinnerUpdate e w).1.shootDelay = e.shootDelay ∧
        (spinnerUpdate e w).2.enemyManager.enemyProjectiles.length
          = w.enemyManager.enemyProjectiles.length + 1) ∧
      (¬ (e.burstCount > 0 ∧ e.shootTimer + 1 ≥ e.burstDelay) →
        e.burstCount = 0 ∧ e.shootTimer + 1 ≥ e.shootDelay ∧ w.player.alive = true →
        (spinnerUpdate e w).1.burstCount = e.burstSize - 1 ∧
        (spinnerUpdate e w).1.shootTimer = 0 ∧
        60 ≤ (spinnerUpdate e w).1.shootDelay ∧ (spinnerUpdate e w).1.shootDelay ≤ 120 ∧
        (spinnerUpdate e w).2.enemyManager.enemyProjectiles.length
          = w.enemyManager.enemyProjectiles.length + 1) ∧
      (¬ (e.burstCount > 0 ∧ e.shootTimer + 1 ≥ e.burstDelay) →
        ¬ (e.burstCount = 0 ∧ e.shootTimer + 1 ≥ e.shootDelay ∧ w.player.alive = true) →
        (spinnerUpdate e w).1.burstCount = e.burstCount ∧
        (spinnerUpdate e w).1.shootTimer = e.shootTimer + 1 ∧
        (spinnerUpdate e w).1.shootDelay = e.shootDelay ∧
        (spinnerUpdate e w).2.enemyManager.enemyProjectiles.length
          = w.enemyManager.enemyProjectiles.length) := by
  obtain ⟨m1, m2, m3, m4, m5, m6, m7⟩ := spinnerRetarget_burst e w
  have hu : spinnerUpdate e w
      = spinnerShoot (spinnerRetarget (spinnerMove e w) w).1
          (spinnerRetarget (spinnerMove e w) w).2 := rfl
  have key := spinnerShoot_burst (spinnerRetarget (spinnerMove e w) w).1
    (spinnerRetarget (spinnerMove e w) w).2
  rw [← hu, m1, m2, m3, m4, m5, m6, m7] at key
  exact key

/-- C29: a spinner with burstSize 3 and burstDelay 10 whose update starts a burst (burstCount
0, the shoot timer reaching shootDelay in that update, player alive) adds exactly one enemy
projectile in that update and in the updates 10 and 20 after it, whatever happens to the player
after the first, and none in any other of the 79 updates that follow the first; burstCount is
2, then 1, then 0 again right after the third shot, and it stays 0 with the shoot timer
counting up from 0 toward a shootDelay of at least 60, so that no burst starts in the 59
updates after the third shot. -/
theorem spinner_burst (es : ℕ → Enemy) (ws : ℕ → World)
    (hsize : (es 0).burstSize = 3) (hdelay : (es 0).burstDelay = 10)
    (hcount : (es 0).burstCount = 0)
    (htimer : (es 0).shootTimer + 1 ≥ (es 0).shootDelay)
    (halive : (ws 0).player.alive = true)
    (hstep : ∀ k, (es (k + 1)).burst = (spinnerUpdate (es k) (ws k)).1.burst) :
    (∀ k : ℕ, k ≤ 79 →
        (spinnerUpdate (es k) (ws k)).2.enemyManager.enemyProjectiles.length
          = (ws k).enemyManager.enemyProjectiles.length
            + (if k = 0 ∨ k = 10 ∨ k = 20 then 1 else 0)) ∧
      (es 1).burstCount = 2 ∧ (es 11).burstCount = 1 ∧ (es 21).burstCount = 0 ∧
      (∀ k : ℕ, 21 ≤ k → k ≤ 80 →
        (es k).burstCount = 0 ∧ (es k).shootTimer = (k : ℤ) - 21 ∧
        60 ≤ (es k).shootDelay) := by
  have hfields : ∀ k, (es (k + 1)).burstCount = (spinnerUpdate (es k) (ws k)).1.burstCount ∧
      (es (k + 1)).burstSize = (spinnerUpdate (es k) (ws k)).1.burstSize ∧
      (es (k + 1)).burstDelay = (spinnerUpdate (es k) (ws k)).1.burstDelay ∧
      (es (k + 1)).shootTimer = (spinnerUpdate (es k) (ws k)).1.shootTimer ∧
      (es (k + 1)).shootDelay = (spinnerUpdate (es k) (ws k)).1.shootDelay := by
    intro k
    have h := hstep k
    simp only [Enemy.burst, Prod.mk.injEq] at h
    exact h
  have hconst : ∀ k, (es k).burstSize = 3 ∧ (es k).burstDelay = 10 := by
    intro k
    induction k with
    | zero => exact ⟨hsize, hdelay⟩
    | succ n ih =>
      obtain ⟨u1, u2, _⟩ := spinnerUpdate_burst (es n) (ws n)
      obtain ⟨_, f2, f3, _⟩ := hfields n
      exact ⟨f2.trans (u1.trans ih.1), f3.trans (u2.trans ih.2)⟩
  have hinv : ∀ k : ℕ, 1 ≤ k → k ≤ 80 →
      60 ≤ (es k).shootDelay ∧
      (k ≤ 10 → (es k).burstCount = 2 ∧ (es k).shootTimer = (k : ℤ) - 1) ∧
      (11 ≤ k → k ≤ 20 → (es k).burstCount = 1 ∧ (es k).shootTimer = (k : ℤ) - 11) ∧
      (21 ≤ k → (es k).burstCount = 0 ∧ (es k).shootTimer = (k : ℤ) - 21) := by
    intro k
    induction k with
    | zero => intro h; omega
    | succ n ih =>
      intro _ hn
      obtain ⟨c1, c2⟩ := hconst n
      obtain ⟨_, _, uA, uB, uC⟩ := spinnerUpdate_burst (es n) (ws n)
      obtain ⟨f1, _, _, f4, f5⟩ := hfields n
      rw [f1, f4, f5]
      by_cases h0 : n = 0
      · subst h0
        have hA : ¬ ((es 0).burstCount > 0 ∧ (es 0).shootTimer + 1 ≥ (es 0).burstDelay) := by
          rw [hcount]; omega
        obtain ⟨b1, b2, b3, _, _⟩ := uB hA ⟨hcount, htimer, halive⟩
        rw [b1, b2, c1]
        refine ⟨b3, ?_, ?_, ?_⟩
        · intro _; exact ⟨by norm_num, by norm_num⟩
        · intro h; omega
        · intro h; omega
      · obtain ⟨i1, i2, i3, i4⟩ := ih (by omega) (by omega)
        rw [c2] at uA uB uC
        by_cases hA : (es n).burstCount > 0 ∧ (es n).shootTimer + 1 ≥ 10
        · obtain ⟨a1, a2, a3, _⟩ := uA hA
          rw [a1, a2, a3]
          refine ⟨i1, ?_, ?_, ?_⟩
          · intro h; push_cast; omega
          · intro h1 h2; push_cast; omega
          · intro h; push_cast; omega
        · have hB : ¬ ((es n).burstCount = 0 ∧ (es n).shootTimer + 1 ≥ (es n).shootDelay ∧
              (ws n).player.alive = true) := by
            rintro ⟨b1, b2, _⟩
            omega
          obtain ⟨a1, a2, a3, _⟩ := uC hA hB
          rw [a1, a2, a3]
          refine ⟨i1, ?_, ?_, ?_⟩
          · intro h; push_cast; omega
          · intro h1 h2; push_cast; omega
          · intro h; push_cast; omega
  refine ⟨?_, ((hinv 1 (by omega) (by omega)).2.1 (by omega)).1,
    ((hinv 11 (by omega) (by omega)).2.2.1 (by omega) (by omega)).1,
    ((hinv 21 (by omega) (by omega)).2.2.2 (by omega)).1, ?_⟩
  · intro k hk
    obtain ⟨c1, c2⟩ := hconst k
    obtain ⟨_, _, uA, uB, uC⟩ := spinnerUpdate_burst (es k) (ws k)
    by_cases h0 : k = 0
    · subst h0
      have hA : ¬ ((es 0).burstCount > 0 ∧ (es 0).shootTimer + 1 ≥ (es 0).burstDelay) := by
        rw [hcount]; omega
      obtain ⟨_, _, _, _, b5⟩ := uB hA ⟨hcount, htimer, halive⟩
      rw [b5, if_pos (Or.inl rfl)]
    · obtain ⟨i1, i2, i3, i4⟩ := hinv k (by omega) (by omega)
      rw [c2] at uA uB uC
      by_cases hA : (es k).burstCount > 0 ∧ (es k).shootTimer + 1 ≥ 10
      · obtain ⟨_, _, _, a4⟩ := uA hA
        have hk2 : k = 0 ∨ k = 10 ∨ k = 20 := by omega
        rw [a4, if_pos hk2]
      · have hB : ¬ ((es k).burstCount = 0 ∧ (es k).shootTimer + 1 ≥ (es k).shootDelay ∧
            (ws k).player.alive = true) := by
          rintro ⟨b1, b2, _⟩
          omega
        obtain ⟨_, _, _, a4⟩ := uC hA hB
        have hk2 : ¬ (k = 0 ∨ k = 10 ∨ k = 20) := by omega
        rw [a4, if_neg hk2, add_zero]
  · intro k h1 h2
    obtain ⟨i1, _, _, i4⟩ := hinv k (by omega) h2
    exact ⟨(i4 h1).1, (i4 h1).2, i1⟩

theorem spinner_burst_witness :
    (burstRun 0).2.player.alive = true ∧
      (∀ k : ℕ, (burstRun (k + 1)).2.player.alive = false) ∧
      (∀ k : ℕ, k ≤ 79 →
        (spinnerUpdate (burstRun k).1 (burstRun k).2).2.enemyManager.enemyProjectiles.length
          = (burstRun k).2.enemyManager.enemyProjectiles.length
            + (if k = 0 ∨ k = 10 ∨ k = 20 then 1 else 0)) ∧
      (burstRun 1).1.burstCount = 2 ∧ (burstRun 11).1.burstCount = 1 ∧
      (burstRun 21).1.burstCount = 0 ∧
      (∀ k : ℕ, 21 ≤ k → k ≤ 80 →
        (burstRun k).1.burstCount = 0 ∧ (burstRun k).1.shootTimer = (k : ℤ) - 21 ∧
        60 ≤ (burstRun k).1.shootDelay) :=
  ⟨rfl, fun _ => rfl,
    spinner_burst (fun k => (burstRun k).1) (fun k => (burstRun k).2) rfl rfl rfl
      (by show (59 : ℤ) + 1 ≥ 60; norm_num) rfl (fun _ => rfl)⟩

/-! ## The pass of `updateProjectiles` over the list -/

/-- The pass of `updateProjectiles` reaches index `i` in the world `projectileLoopFrom`
returns, and goes on from there. -/
theorem projectileLoop_split (i : ℕ) (n : ℕ) (w : World) (h : i < n) :
    projectileLoop n w = projectileLoop (i + 1) (projectileLoopFrom i n w) := by
  induction n generalizing w with
  | zero => omega
  | succ m ih =>
    by_cases hm : m ≤ i
    · have him : i = m := by omega
      subst him
      show _ = projectileLoop (i + 1) (if i ≤ i then w else _)
      rw [if_pos (le_refl i)]
    · show projectileLoop m (projectileStep m w)
        = projectileLoop (i + 1) (if m ≤ i then w else projectileLoopFrom i m (projectileStep m w))
      rw [if_neg hm]
      exact ih (projectileStep m w) (by omega)

theorem platform_updateScore (e : Enemy) (w : World) :
    (updateScore e w).platform = w.platform := by
  unfold updateScore
  simp only [createScoreText_blind blind_platform]

theorem platform_destroyEnemy (e : Enemy) (i : ℕ) (w : World) :
    (destroyEnemy e i w).platform = w.platform := by
  unfold destroyEnemy
  simp only [World.spliceEnemy]
  rw [platform_updateScore]
  split_ifs
  · simp only [createDebris_blind blind_platform, createExplosion_blind blind_platform]
  · simp only [createDebris_blind blind_platform, createExplosion_blind blind_platform]

theorem platform_reflectedDamage (j id : ℕ) (e : Enemy) (w : World) :
    (reflectedDamage j id e w).platform = w.platform := by
  unfold reflectedDamage
  simp only []
  split_ifs
  · rw [platform_destroyEnemy, createExplosion_blind blind_platform]
    rfl
  · rw [createExplosion_blind blind_platform]
    rfl
  · rw [platform_destroyEnemy]

theorem platform_die (w : World) : (Player.die w).platform = w.platform := by
  unfold Player.die
  split
  · rfl
  · simp only [Grid.addCameraShake]
    show (createDebris _ _ _ _ _ _).platform = _
    rw [createDebris_blind blind_platform, createMassiveExplosion_blind blind_platform]

theorem platform_projectileResolve (i : ℕ) (p : Projectile) (w : World) :
    (projectileResolve i p w).platform = w.platform := by
  have hvp : (projectileVersusPlayer i p w).platform = w.platform := by
    unfold projectileVersusPlayer
    simp only []
    split_ifs
    · show (Player.die w).platform = _
      exact platform_die w
    · rfl
    · rfl
  unfold projectileResolve
  simp only []
  split_ifs
  · unfold reflectProjectile
    simp only [World.setEnemyProjectile]
    exact createExplosion_blind blind_platform _ _ _ _ _ _ _ _
  · split
    · show (reflectedDamage _ _ _ w).platform = _
      exact platform_reflectedDamage _ _ _ w
    · exact hvp
  · exact hvp

/-- No step of the pass changes the platform. -/
theorem platform_projectileStep (i : ℕ) (w : World) :
    (projectileStep i w).platform = w.platform := by
  cases hi : w.enemyManager.enemyProjectiles[i]? with
  | none =>
    unfold projectileStep
    rw [hi]
  | some stored =>
    obtain ⟨w2, _, hplat, _, _, _, heq⟩ := projectileStep_eq i w stored hi
    rw [heq, platform_projectileResolve, hplat]

/-- While the player is in god mode no step of the pass changes the player. -/
theorem player_projectileStep (i : ℕ) (w : World) (hgod : w.player.godMode = true) :
    (projectileStep i w).player = w.player := by
  cases hi : w.enemyManager.enemyProjectiles[i]? with
  | none =>
    unfold projectileStep
    rw [hi]
  | some stored =>
    obtain ⟨w2, hpl, _, _, _, _, heq⟩ := projectileStep_eq i w stored hi
    rw [heq, ← hpl]
    have hg2 : w2.player.godMode = true := by rw [hpl]; exact hgod
    have hvp : ∀ p : Projectile, (projectileVersusPlayer i p w2).player = w2.player := by
      intro p
      unfold projectileVersusPlayer
      simp only []
      have hc : ¬ ((w2.player.alive && !w2.player.invulnerable && !w2.player.godMode &&
          !w2.player.isInvincible) = true ∧
          w2.platform.sqrt ((p.position.x - w2.player.position.x) ^ 2 +
            (p.position.y - w2.player.position.y) ^ 2) < w2.player.size + p.size) := by
        rw [hg2]
        simp
      rw [if_neg hc]
      split_ifs <;> rfl
    unfold projectileResolve
    simp only []
    split_ifs
    · exact (reflectProjectile_eq _ _ _ _ _ _).2
    · split
      · show (reflectedDamage _ _ _ w2).player = _
        exact player_reflectedDamage _ _ _ w2
      · exact hvp _
    · exact hvp _

/-- A step of the pass at index `i` leaves the projectiles below `i` as they are. -/
theorem projectileStep_below (i k : ℕ) (w : World) (hk : k < i) :
    (projectileStep i w).enemyManager.enemyProjectiles[k]?
      = w.enemyManager.enemyProjectiles[k]? := by
  cases hi : w.enemyManager.enemyProjectiles[i]? with
  | none =>
    unfold projectileStep
    rw [hi]
  | some stored =>
    rcases projectileStep_list i w stored hi with h | ⟨p', h, _⟩
    · rw [h, List.getElem?_eraseIdx, if_pos hk]
    · rw [h, List.getElem?_set_ne (by omega)]

/-- The world in which the pass reaches index `i`: the projectiles up to index `i` are those
of the start, the platform is the same, and so is the player when in god mode. -/
theorem projectileLoopFrom_spec (i : ℕ) (n : ℕ) (w : World) :
    (∀ k, k ≤ i → (projectileLoopFrom i n w).enemyManager.enemyProjectiles[k]?
        = w.enemyManager.enemyProjectiles[k]?) ∧
      (projectileLoopFrom i n w).platform = w.platform ∧
      (w.player.godMode = true → (projectileLoopFrom i n w).player = w.player) := by
  induction n generalizing w with
  | zero => exact ⟨fun _ _ => rfl, rfl, fun _ => rfl⟩
  | succ m ih =>
    by_cases hm : m ≤ i
    · have he : projectileLoopFrom i (m + 1) w = w := if_pos hm
      rw [he]
      exact ⟨fun _ _ => rfl, rfl, fun _ => rfl⟩
    · have he : projectileLoopFrom i (m + 1) w = projectileLoopFrom i m (projectileStep m w) :=
        if_neg hm
      rw [he]
      obtain ⟨h1, h2, h3⟩ := ih (projectileStep m w)
      refine ⟨?_, ?_, ?_⟩
      · intro k hk
        rw [h1 k hk, projectileStep_below m k w (by omega)]
      · rw [h2, platform_projectileStep]
      · intro hgod
        have hp := player_projectileStep m w hgod
        rw [h3 (by rw [hp]; exact hgod), hp]

theorem drop_set_self {α : Type} (l : List α) (i : ℕ) (a : α) (h : i < l.length) :
    (l.set i a).drop i = a :: l.drop (i + 1) := by
  induction l generalizing i with
  | nil => simp at h
  | cons b rest ih =>
    cases i with
    | zero => rfl
    | succ k =>
      simp only [List.set_cons_succ, List.drop_succ_cons]
      exact ih k (by simpa using h)

theorem drop_eraseIdx_self {α : Type} (l : List α) (i : ℕ) :
    (l.eraseIdx i).drop i = l.drop (i + 1) := by
  induction l generalizing i with
  | nil => simp
  | cons b rest ih =>
    cases i with
    | zero => rfl
    | succ k =>
      simp only [List.eraseIdx_cons_succ, List.drop_succ_cons]
      exact ih k

/-- The rest of the pass, from index `n - 1` down: the projectiles from index `n` on stay as
they are, and each of the first `n` is either removed or rewritten, never losing the
`isReflected` flag; `ks` records, index by index, what became of them. -/
theorem projectileLoop_list (n : ℕ) (w : World) (hn : n ≤ w.enemyManager.enemyProjectiles.length) :
    ∃ ks : List (Option Projectile), ks.length = n ∧
      (projectileLoop n w).enemyManager.enemyProjectiles
        = ks.reduceOption ++ w.enemyManager.enemyProjectiles.drop n ∧
      ∀ (k : ℕ) (q q' : Projectile), w.enemyManager.enemyProjectiles[k]? = some q →
        ks[k]? = some (some q') → q.isReflected = true → q'.isReflected = true := by
  induction n generalizing w with
  | zero => exact ⟨[], rfl, by simp [projectileLoop], by simp⟩
  | succ i ih =>
    have hlt : i < w.enemyManager.enemyProjectiles.length := by omega
    have hi : w.enemyManager.enemyProjectiles[i]?
        = some (w.enemyManager.enemyProjectiles.get ⟨i, hlt⟩) := by
      simp
    have hloop : projectileLoop (i + 1) w = projectileLoop i (projectileStep i w) := rfl
    rw [hloop]
    rcases projectileStep_list i w _ hi with h | ⟨p', h, hflag⟩
    · have hlen : i ≤ (projectileStep i w).enemyManager.enemyProjectiles.length := by
        rw [h, List.length_eraseIdx, if_pos hlt]
        omega
      obtain ⟨ks, hk1, hk2, hk3⟩ := ih (projectileStep i w) hlen
      refine ⟨ks ++ [none], by simp [hk1], ?_, ?_⟩
      · rw [hk2, h, drop_eraseIdx_self, List.reduceOption_append]
        simp
      · intro k q q' hq hks hr
        by_cases hki : k < i
        · rw [List.getElem?_append_left (by omega)] at hks
          exact hk3 k q q' (by rw [projectileStep_below i k w hki]; exact hq) hks hr
        · by_cases hke : k = i
          · subst hke
            rw [List.getElem?_append_right (by omega)] at hks
            simp [hk1] at hks
          · have : (ks ++ [none])[k]? = none := by
              rw [List.getElem?_eq_none]
              simp [hk1]
              omega
            rw [this] at hks
            exact absurd hks (by simp)
    · have hlen : i ≤ (projectileStep i w).enemyManager.enemyProjectiles.length := by
        rw [h, List.length_set]
        omega
      obtain ⟨ks, hk1, hk2, hk3⟩ := ih (projectileStep i w) hlen
      refine ⟨ks ++ [some p'], by simp [hk1], ?_, ?_⟩
      · rw [hk2, h, drop_set_self _ _ _ hlt, List.reduceOption_append]
        simp
      · intro k q q' hq hks hr
        by_cases hki : k < i
        · rw [List.getElem?_append_left (by omega)] at hks
          exact hk3 k q q' (by rw [projectileStep_below i k w hki]; exact hq) hks hr
        · by_cases hke : k = i
          · subst hke
            rw [List.getElem?_append_right (by omega)] at hks
            simp [hk1] at hks
            subst hks
            rw [hi] at hq
            simp only [Option.some.injEq] at hq
            subst hq
            exact hflag hr
          · have : (ks ++ [some p'])[k]? = none := by
              rw [List.getElem?_eq_none]
              simp [hk1]
              omega
            rw [this] at hks
            exact absurd hks (by simp)

/-- While the player is in god mode the pass does not change the player. -/
theorem player_projectileLoop (n : ℕ) (w : World) (hgod : w.player.godMode = true) :
    (projectileLoop n w).player = w.player := by
  induction n generalizing w with
  | zero => rfl
  | succ i ih =>
    have hloop : projectileLoop (i + 1) w = projectileLoop i (projectileStep i w) := rfl
    have hp := player_projectileStep i w hgod
    rw [hloop, ih _ (by rw [hp]; exact hgod), hp]

/-! ## C19: the reflection off the shield -/

/-- The step of the pass at a projectile that ends its move within reach of the shield of a
live god-mode player: the projectile is rewritten in place as the reflection block computes
it, and neither the player nor the core changes. -/
theorem projectileStep_reflect (i : ℕ) (w : World) (stored : Projectile) (dx dy dist : ℚ)
    (hi : w.enemyManager.enemyProjectiles[i]? = some stored)
    (halive : w.player.alive = true) (hgod : w.player.godMode = true)
    (hdx : dx = stored.position.x + stored.velocity.x - w.player.position.x)
    (hdy : dy = stored.position.y + stored.velocity.y - w.player.position.y)
    (hsqrt : w.platform.sqrt (dx * dx + dy * dy) = dist)
    (hin : dist < w.player.shieldRadius + stored.size) :
    (projectileStep i w).enemyManager.enemyProjectiles
        = w.enemyManager.enemyProjectiles.set i
          { stored with
            position :=
              ⟨stored.position.x + stored.velocity.x +
                  dx / dist * (w.player.shieldRadius + stored.size - dist + 5),
               stored.position.y + stored.velocity.y +
                  dy / dist * (w.player.shieldRadius + stored.size - dist + 5)⟩
            velocity :=
              ⟨(stored.velocity.x - 2 * (stored.velocity.x * (dx / dist) +
                  stored.velocity.y * (dy / dist)) * (dx / dist)) * 1.5,
               (stored.velocity.y - 2 * (stored.velocity.x * (dx / dist) +
                  stored.velocity.y * (dy / dist)) * (dy / dist)) * 1.5⟩
            color := "#ffd700"
            isReflected := true } ∧
      (projectileStep i w).player = w.player ∧
      (projectileStep i w).core = w.core := by
  subst hdx hdy
  obtain ⟨w2, hpl, hplat, hheap, _, hm, heq⟩ := projectileStep_eq i w stored hi
  have hp : w2.enemyManager.enemyProjectiles = w.enemyManager.enemyProjectiles.set i
      { stored with position := stored.position.add stored.velocity } := by rw [hm]
  have hcore : w2.core = w.core := by
    unfold World.core
    rw [hm, hheap]
  have hd : w2.platform.sqrt
      (((stored.position.add stored.velocity).x - w2.player.position.x) *
          ((stored.position.add stored.velocity).x - w2.player.position.x) +
        ((stored.position.add stored.velocity).y - w2.player.position.y) *
          ((stored.position.add stored.velocity).y - w2.player.position.y)) = dist := by
    rw [hpl, hplat]
    simp only [Vector.add]
    exact hsqrt
  have hcond : (w2.player.alive && w2.player.godMode) = true ∧
      w2.platform.sqrt
        (((stored.position.add stored.velocity).x - w2.player.position.x) *
            ((stored.position.add stored.velocity).x - w2.player.position.x) +
          ((stored.position.add stored.velocity).y - w2.player.position.y) *
            ((stored.position.add stored.velocity).y - w2.player.position.y))
        < w2.player.shieldRadius + stored.size := by
    rw [hd, hpl, halive, hgod]
    exact ⟨rfl, hin⟩
  have hres : projectileResolve i
      { stored with position := stored.position.add stored.velocity } w2
      = reflectProjectile i { stored with position := stored.position.add stored.velocity }
          ((stored.position.add stored.velocity).x - w2.player.position.x)
          ((stored.position.add stored.velocity).y - w2.player.position.y)
          (w2.platform.sqrt
            (((stored.position.add stored.velocity).x - w2.player.position.x) *
                ((stored.position.add stored.velocity).x - w2.player.position.x) +
              ((stored.position.add stored.velocity).y - w2.player.position.y) *
                ((stored.position.add stored.velocity).y - w2.player.position.y))) w2 := by
    unfold projectileResolve
    simp only []
    rw [if_pos hcond]
  rw [heq, hres, hd]
  obtain ⟨r1, r2⟩ := reflectProjectile_eq i
    { stored with position := stored.position.add stored.velocity }
    ((stored.position.add stored.velocity).x - w2.player.position.x)
    ((stored.position.add stored.velocity).y - w2.player.position.y) dist w2
  rw [r1, r2, hp, List.set_set, hpl, core_reflectProjectile, hcore]
  exact ⟨rfl, rfl, rfl⟩

/-- The whole pass of `updateProjectiles` over a list in which the projectile at index `i`
ends its move within reach of the shield of a live god-mode player: the projectile is in the
list after the pass, rewritten as the reflection block computes it, before it what the pass
made of the first `i` projectiles and after it what the pass had made of the later ones; the
player is unchanged. -/
theorem updateProjectiles_reflect (i : ℕ) (w : World) (stored : Projectile) (dx dy dist : ℚ)
    (hi : w.enemyManager.enemyProjectiles[i]? = some stored)
    (halive : w.player.alive = true) (hgod : w.player.godMode = true)
    (hdx : dx = stored.position.x + stored.velocity.x - w.player.position.x)
    (hdy : dy = stored.position.y + stored.velocity.y - w.player.position.y)
    (hsqrt : w.platform.sqrt (dx * dx + dy * dy) = dist)
    (hin : dist < w.player.shieldRadius + stored.size) :
    ∃ pre : List Projectile, pre.length ≤ i ∧
      (updateProjectiles w).enemyManager.enemyProjectiles
        = pre ++
          { stored with
            position :=
              ⟨stored.position.x + stored.velocity.x +
                  dx / dist * (w.player.shieldRadius + stored.size - dist + 5),
               stored.position.y + stored.velocity.y +
                  dy / dist * (w.player.shieldRadius + stored.size - dist + 5)⟩
            velocity :=
              ⟨(stored.velocity.x - 2 * (stored.velocity.x * (dx / dist) +
                  stored.velocity.y * (dy / dist)) * (dx / dist)) * 1.5,
               (stored.velocity.y - 2 * (stored.velocity.x * (dx / dist) +
                  stored.velocity.y * (dy / dist)) * (dy / dist)) * 1.5⟩
            color := "#ffd700"
            isReflected := true } ::
          (projectileLoopFrom i w.enemyManager.enemyProjectiles.length
            w).enemyManager.enemyProjectiles.drop (i + 1) ∧
      (updateProjectiles w).player = w.player := by
  have hlt : i < w.enemyManager.enemyProjectiles.length := getElem?_length_lt hi
  obtain ⟨s1, s2, s3⟩ := projectileLoopFrom_spec i w.enemyManager.enemyProjectiles.length w
  have hpl := s3 hgod
  have hsplit : updateProjectiles w
      = projectileLoop i (projectileStep i
          (projectileLoopFrom i w.enemyManager.enemyProjectiles.length w)) :=
    projectileLoop_split i _ w hlt
  generalize projectileLoopFrom i w.enemyManager.enemyProjectiles.length w = W at *
  have hiW : W.enemyManager.enemyProjectiles[i]? = some stored := (s1 i (le_refl i)).trans hi
  have hltW : i < W.enemyManager.enemyProjectiles.length := getElem?_length_lt hiW
  obtain ⟨t1, t2, _⟩ := projectileStep_reflect i W stored dx dy dist hiW
    (by rw [hpl]; exact halive) (by rw [hpl]; exact hgod) (by rw [hpl]; exact hdx)
    (by rw [hpl]; exact hdy) (by rw [s2]; exact hsqrt) (by rw [hpl]; exact hin)
  rw [hpl] at t1 t2
  obtain ⟨ks, hk1, hk2, _⟩ := projectileLoop_list i (projectileStep i W)
    (by rw [t1, List.length_set]; omega)
  refine ⟨ks.reduceOption, ?_, ?_, ?_⟩
  · calc ks.reduceOption.length ≤ ks.length := List.reduceOption_length_le ks
      _ = i := hk1
  · rw [hsplit, hk2, t1, drop_set_self _ _ _ hltW]
  · rw [hsplit, player_projectileLoop _ _ (by rw [t2]; exact hgod), t2]

/-- The reflected velocity, whatever the normal: its squared length is 2.25 times the old one
corrected by the defect of the normal from unit length. -/
theorem reflect_speed_defect (vx vy nx ny : ℚ) :
    ((vx - 2 * (vx * nx + vy * ny) * nx) * 1.5) ^ 2 +
        ((vy - 2 * (vx * nx + vy * ny) * ny) * 1.5) ^ 2
      = 1.5 ^ 2 * (vx ^ 2 + vy ^ 2 + 4 * (vx * nx + vy * ny) ^ 2 * (nx * nx + ny * ny - 1)) := by
  ring

theorem normal_sq (dx dy dist : ℚ) :
    dx / dist * (dx / dist) + dy / dist * (dy / dist) = (dx * dx + dy * dy) / (dist * dist) := by
  rw [div_mul_div_comm, div_mul_div_comm, add_div]

theorem reflect_offset (x px dist reach : ℚ) (hne : dist ≠ 0) :
    x + (x - px) / dist * (reach - dist + 5) - px = (x - px) / dist * (reach + 5) := by
  have h : x - px = dist * ((x - px) / dist) := by rw [mul_div_cancel₀ _ hne]
  calc x + (x - px) / dist * (reach - dist + 5) - px
      = (x - px) + (x - px) / dist * (reach - dist + 5) := by ring
    _ = dist * ((x - px) / dist) + (x - px) / dist * (reach - dist + 5) := by rw [← h]
    _ = (x - px) / dist * (reach + 5) := by ring

theorem exact_of_sq (dx dy dist k : ℚ) (hne : dist ≠ 0) (hk : 0 < k)
    (h : k ^ 2 * ((dx * dx + dy * dy) / (dist * dist)) = k ^ 2) :
    dist * dist = dx * dx + dy * dy := by
  have hk2 : k ^ 2 ≠ 0 := pow_ne_zero 2 (ne_of_gt hk)
  have h1 : (dx * dx + dy * dy) / (dist * dist) = 1 := by
    have := mul_left_cancel₀ hk2 (h.trans (mul_one _).symm)
    exact this
  have hd : dist * dist ≠ 0 := mul_ne_zero hne hne
  rw [div_eq_one_iff_eq hd] at h1
  exact h1.symm

/-- C19, as the code has it: when the pass of `updateProjectiles` comes to a projectile that
ends its move at a computed distance `dist = Math.sqrt(dx² + dy²)` from a live god-mode player
with `0 < dist < shieldRadius + size`, the projectile is in the list after the pass with
`isReflected` true, velocity `1.5 (v - 2 (v·n) n)` and offset `(shieldRadius + size + 5) n`
from the unchanged player, `n = (dx / dist, dy / dist)` being the computed normal. The squared
speed is `1.5² (|v|² + 4 (v·n)² (|n|² - 1))` and the squared distance from the player is
`(shieldRadius + size + 5)² |n|²`, with `|n|² = (dx² + dy²) / dist²`: speed and distance are
exactly 1.5 times the old speed and `shieldRadius + size + 5` when the square root is exact
there, and the distance is exact only then. No operation clears `isReflected`: a pass of
`updateProjectiles` removes a projectile or rewrites it with the flag kept, and the enemy loop
only appends projectiles. -/
theorem shield_reflection (i : ℕ) (w : World) (stored : Projectile) (dx dy dist : ℚ)
    (hi : w.enemyManager.enemyProjectiles[i]? = some stored)
    (halive : w.player.alive = true) (hgod : w.player.godMode = true)
    (hdx : dx = stored.position.x + stored.velocity.x - w.player.position.x)
    (hdy : dy = stored.position.y + stored.velocity.y - w.player.position.y)
    (hsqrt : w.platform.sqrt (dx * dx + dy * dy) = dist)
    (hpos : 0 < dist) (hin : dist < w.player.shieldRadius + stored.size) :
    (∃ (pre post : List Projectile) (p' : Projectile),
        (updateProjectiles w).enemyManager.enemyProjectiles = pre ++ p' :: post ∧
        post = (projectileLoopFrom i w.enemyManager.enemyProjectiles.length
          w).enemyManager.enemyProjectiles.drop (i + 1) ∧
        pre.length ≤ i ∧
        (updateProjectiles w).player = w.player ∧
        p'.isReflected = true ∧ p'.size = stored.size ∧
        p'.velocity.x = (stored.velocity.x - 2 * (stored.velocity.x * (dx / dist) +
          stored.velocity.y * (dy / dist)) * (dx / dist)) * 1.5 ∧
        p'.velocity.y = (stored.velocity.y - 2 * (stored.velocity.x * (dx / dist) +
          stored.velocity.y * (dy / dist)) * (dy / dist)) * 1.5 ∧
        p'.position.x - w.player.position.x
          = dx / dist * (w.player.shieldRadius + stored.size + 5) ∧
        p'.position.y - w.player.position.y
          = dy / dist * (w.player.shieldRadius + stored.size + 5) ∧
        p'.velocity.x ^ 2 + p'.velocity.y ^ 2
          = 1.5 ^ 2 * (stored.velocity.x ^ 2 + stored.velocity.y ^ 2 +
              4 * (stored.velocity.x * (dx / dist) + stored.velocity.y * (dy / dist)) ^ 2 *
                ((dx * dx + dy * dy) / (dist * dist) - 1)) ∧
        (p'.position.x - w.player.position.x) ^ 2 + (p'.position.y - w.player.position.y) ^ 2
          = (w.player.shieldRadius + stored.size + 5) ^ 2 *
              ((dx * dx + dy * dy) / (dist * dist)) ∧
        (dist * dist = dx * dx + dy * dy →
          p'.velocity.x ^ 2 + p'.velocity.y ^ 2
            = 1.5 ^ 2 * (stored.velocity.x ^ 2 + stored.velocity.y ^ 2) ∧
          (∀ s s' : ℚ, 0 ≤ s → 0 ≤ s' →
            s * s = stored.velocity.x ^ 2 + stored.velocity.y ^ 2 →
            s' * s' = p'.velocity.x ^ 2 + p'.velocity.y ^ 2 → s' = 1.5 * s) ∧
          (p'.position.x - w.player.position.x) ^ 2 +
              (p'.position.y - w.player.position.y) ^ 2
            = (w.player.shieldRadius + stored.size + 5) ^ 2 ∧
          (∀ d : ℚ, 0 ≤ d →
            d * d = (p'.position.x - w.player.position.x) ^ 2 +
              (p'.position.y - w.player.position.y) ^ 2 →
            d = w.player.shieldRadius + stored.size + 5)) ∧
        ((p'.position.x - w.player.position.x) ^ 2 +
            (p'.position.y - w.player.position.y) ^ 2
          = (w.player.shieldRadius + stored.size + 5) ^ 2 →
          dist * dist = dx * dx + dy * dy)) ∧
    (∀ u : World, ∃ ks : List (Option Projectile),
        ks.length = u.enemyManager.enemyProjectiles.length ∧
        (updateProjectiles u).enemyManager.enemyProjectiles = ks.reduceOption ∧
        ∀ (k : ℕ) (q q' : Projectile), u.enemyManager.enemyProjectiles[k]? = some q →
          ks[k]? = some (some q') → q.isReflected = true → q'.isReflected = true) ∧
    (∀ (n : ℕ) (u : World), ProjectilesKept u (enemyLoop n u)) := by
  have hne : dist ≠ 0 := ne_of_gt hpos
  have hreach : 0 < w.player.shieldRadius + stored.size + 5 := by linarith
  obtain ⟨pre, hpre, hlist, hplayer⟩ :=
    updateProjectiles_reflect i w stored dx dy dist hi halive hgod hdx hdy hsqrt hin
  have hx : stored.position.x + stored.velocity.x +
        dx / dist * (w.player.shieldRadius + stored.size - dist + 5) - w.player.position.x
      = dx / dist * (w.player.shieldRadius + stored.size + 5) := by
    rw [hdx]
    exact reflect_offset _ _ dist _ hne
  have hy : stored.position.y + stored.velocity.y +
        dy / dist * (w.player.shieldRadius + stored.size - dist + 5) - w.player.position.y
      = dy / dist * (w.player.shieldRadius + stored.size + 5) := by
    rw [hdy]
    exact reflect_offset _ _ dist _ hne
  have hspeed : ((stored.velocity.x - 2 * (stored.velocity.x * (dx / dist) +
          stored.velocity.y * (dy / dist)) * (dx / dist)) * 1.5) ^ 2 +
        ((stored.velocity.y - 2 * (stored.velocity.x * (dx / dist) +
          stored.velocity.y * (dy / dist)) * (dy / dist)) * 1.5) ^ 2
      = 1.5 ^ 2 * (stored.velocity.x ^ 2 + stored.velocity.y ^ 2 +
          4 * (stored.velocity.x * (dx / dist) + stored.velocity.y * (dy / dist)) ^ 2 *
            ((dx * dx + dy * dy) / (dist * dist) - 1)) := by
    rw [← normal_sq]
    exact reflect_speed_defect _ _ _ _
  have hdist : (stored.position.x + stored.velocity.x +
          dx / dist * (w.player.shieldRadius + stored.size - dist + 5) -
            w.player.position.x) ^ 2 +
        (stored.position.y + stored.velocity.y +
          dy / dist * (w.player.shieldRadius + stored.size - dist + 5) -
            w.player.position.y) ^ 2
      = (w.player.shieldRadius + stored.size + 5) ^ 2 *
          ((dx * dx + dy * dy) / (dist * dist)) := by
    rw [hx, hy, ← normal_sq]
    ring
  refine ⟨⟨pre, _, _, hlist, rfl, hpre, hplayer, rfl, rfl, rfl, rfl, hx, hy, hspeed, hdist,
    ?_, ?_⟩, ?_, kept_enemyLoop⟩
  · intro hexact
    have hone : (dx * dx + dy * dy) / (dist * dist) = 1 := by
      rw [← hexact]
      exact div_self (mul_ne_zero hne hne)
    have hspeed1 := hspeed.trans
      (show 1.5 ^ 2 * (stored.velocity.x ^ 2 + stored.velocity.y ^ 2 +
          4 * (stored.velocity.x * (dx / dist) + stored.velocity.y * (dy / dist)) ^ 2 *
            ((dx * dx + dy * dy) / (dist * dist) - 1))
        = 1.5 ^ 2 * (stored.velocity.x ^ 2 + stored.velocity.y ^ 2) by rw [hone]; ring)
    have hdist1 := hdist.trans
      (show (w.player.shieldRadius + stored.size + 5) ^ 2 *
          ((dx * dx + dy * dy) / (dist * dist))
        = (w.player.shieldRadius + stored.size + 5) ^ 2 by rw [hone]; ring)
    refine ⟨hspeed1, ?_, hdist1, ?_⟩
    · intro s s' hs hs' e1 e2
      have e3 : s' * s' = 1.5 ^ 2 * (stored.velocity.x ^ 2 + stored.velocity.y ^ 2) :=
        e2.trans hspeed1
      rw [← e1] at e3
      exact scaled_of_sq s s' hs hs' e3
    · intro d hd0 e1
      exact eq_of_sq d _ hd0 (le_of_lt hreach) (e1.trans hdist1)
  · intro h
    exact exact_of_sq dx dy dist _ hne hreach (hdist.symm.trans h)
  · intro u
    obtain ⟨ks, hk1, hk2, hk3⟩ := projectileLoop_list u.enemyManager.enemyProjectiles.length u
      (le_refl _)
    refine ⟨ks, hk1, ?_, hk3⟩
    show (projectileLoop u.enemyManager.enemyProjectiles.length u).enemyManager.enemyProjectiles
      = _
    rw [hk2, List.drop_length, List.append_nil]

/-- C19, worked example: in `shieldWorld` the projectile ends its move 3 right of and 4 below
the god-mode player, at distance 5 inside the shield of radius 30, where the square root is
exact; the pass reflects it. -/
theorem shield_reflection_witness :
    ∃ (pre post : List Projectile) (p' : Projectile),
      (updateProjectiles shieldWorld).enemyManager.enemyProjectiles = pre ++ p' :: post ∧
      pre.length ≤ 0 ∧
      p'.isReflected = true ∧
      p'.velocity.x ^ 2 + p'.velocity.y ^ 2 = 1.5 ^ 2 * (0 ^ 2 + (-3) ^ 2) ∧
      (p'.position.x - 400) ^ 2 + (p'.position.y - 300) ^ 2 = (30 + 3 + 5) ^ 2 := by
  have harg : ((3 : ℚ) * 3 + 4 * 4) = 25 := by norm_num
  obtain ⟨pre, post, p', h1, _, h3, _, h5, _, _, _, _, _, _, _, hex, _⟩ :=
    (shield_reflection 0 shieldWorld sampleBolt 3 4 5 rfl rfl rfl
      (by
        show (3 : ℚ) = 403 + 0 - 400
        norm_num)
      (by
        show (4 : ℚ) = 307 + -3 - 300
        norm_num)
      (by
        show samplePlatform.sqrt ((3 : ℚ) * 3 + 4 * 4) = 5
        rw [harg]
        exact sample_sqrt_25)
      (by norm_num)
      (by
        show (5 : ℚ) < 30 + 3
        norm_num)).1
  obtain ⟨e1, _, e3, _⟩ := hex (by norm_num)
  exact ⟨pre, post, p', h1, h3, h5, e1, e3⟩

/-- No rational number squares to 2: no value `Math.sqrt` can return is exact at 2. -/
theorem no_exact_sqrt_two (d : ℚ) : d * d ≠ 2 := by
  intro hd
  have h : ((d * d : ℚ) : ℝ) = 2 := by rw [hd]; norm_num
  have h2 : Real.sqrt 2 = ((|d| : ℚ) : ℝ) := by
    rw [← h]
    push_cast
    exact Real.sqrt_mul_self_eq_abs _
  exact irrational_sqrt_two.ne_rat _ h2

theorem rounded_sqrt_two (q : ℚ) (hq : q = 2) :
    roundedPlatform.sqrt q = 6369051672525773 / 4503599627370496 := by
  show (if q = 2 then (6369051672525773 / 4503599627370496 : ℚ) else samplePlatform.sqrt q)
    = _
  rw [if_pos hq]

theorem graze_speed :
    ((0 - 2 * ((0 : ℚ) * (1 / (6369051672525773 / 4503599627370496)) +
          -3 * (1 / (6369051672525773 / 4503599627370496))) *
            (1 / (6369051672525773 / 4503599627370496))) * 1.5) ^ 2 +
        ((-3 - 2 * ((0 : ℚ) * (1 / (6369051672525773 / 4503599627370496)) +
          -3 * (1 / (6369051672525773 / 4503599627370496))) *
            (1 / (6369051672525773 / 4503599627370496))) * 1.5) ^ 2
      ≠ 1.5 ^ 2 * (0 ^ 2 + (-3) ^ 2) := by
  norm_num

theorem graze_distance :
    ((401 : ℚ) + 0 + 1 / (6369051672525773 / 4503599627370496) *
          (30 + 3 - 6369051672525773 / 4503599627370496 + 5) - 400) ^ 2 +
        ((304 : ℚ) + -3 + 1 / (6369051672525773 / 4503599627370496) *
          (30 + 3 - 6369051672525773 / 4503599627370496 + 5) - 300) ^ 2
      ≠ (30 + 3 + 5) ^ 2 := by
  norm_num

/-- C19, the reading with "exactly": in `grazeWorld` the projectile ends its move 1 right of
and 1 below the live god-mode player, where `Math.sqrt(2)` is the double nearest to the square
root of 2, well inside the shield. The pass reflects it, but its squared speed is not 1.5²
times the squared speed before and its squared distance from the player is not
`(shieldRadius + size + 5)²`. No other value of the square root would be exact there: no
rational number squares to `dx² + dy² = 2`. -/
theorem reflection_not_exact :
    grazeWorld.player.alive = true ∧ grazeWorld.player.godMode = true ∧
      grazeWorld.enemyManager.enemyProjectiles = [{ sampleBolt with position := ⟨401, 304⟩ }] ∧
      grazeWorld.platform.sqrt
          (((401 : ℚ) + 0 - 400) * (401 + 0 - 400) + (304 + -3 - 300) * (304 + -3 - 300))
        = 6369051672525773 / 4503599627370496 ∧
      (0 : ℚ) < 6369051672525773 / 4503599627370496 ∧
      (6369051672525773 / 4503599627370496 : ℚ) < 30 + 3 ∧
      (∃ p' : Projectile,
        (updateProjectiles grazeWorld).enemyManager.enemyProjectiles = [p'] ∧
        p'.isReflected = true ∧
        p'.velocity.x ^ 2 + p'.velocity.y ^ 2 ≠ 1.5 ^ 2 * (0 ^ 2 + (-3) ^ 2) ∧
        (p'.position.x - 400) ^ 2 + (p'.position.y - 300) ^ 2 ≠ (30 + 3 + 5) ^ 2) ∧
      ∀ d : ℚ, d * d
        ≠ ((401 : ℚ) + 0 - 400) * (401 + 0 - 400) + (304 + -3 - 300) * (304 + -3 - 300) := by
  have harg : ((401 : ℚ) + 0 - 400) * (401 + 0 - 400) + (304 + -3 - 300) * (304 + -3 - 300)
      = 2 := by norm_num
  have harg1 : ((1 : ℚ) * 1 + 1 * 1) = 2 := by norm_num
  have hroot := rounded_sqrt_two
  obtain ⟨t1, _, _⟩ := projectileStep_reflect 0 grazeWorld
    { sampleBolt with position := ⟨401, 304⟩ } 1 1 (6369051672525773 / 4503599627370496)
    rfl rfl rfl
    (by
      show (1 : ℚ) = 401 + 0 - 400
      norm_num)
    (by
      show (1 : ℚ) = 304 + -3 - 300
      norm_num)
    (hroot _ harg1)
    (by
      show (6369051672525773 / 4503599627370496 : ℚ) < 30 + 3
      norm_num)
  refine ⟨rfl, rfl, rfl, hroot _ harg, by norm_num, by norm_num,
    ⟨_, t1, rfl, graze_speed, graze_distance⟩, ?_⟩
  intro d
  rw [harg]
  exact no_exact_sqrt_two d

/-! ## C21: a reflected projectile and the enemies it overlaps -/

/-- The inner scan of `updateProjectiles` returns the first entry of the active list whose
enemy the projectile touches. -/
theorem firstOverlap_of_first (P : Platform) (heap : List Enemy) (p : Projectile) (l : List ℕ)
    (j0 j id : ℕ) (e : Enemy) (hl : l[j]? = some id) (hh : heap[id]? = some e)
    (ht : Touches P p e)
    (hfirst : ∀ (m : ℕ) (id' : ℕ) (e' : Enemy), m < j → l[m]? = some id' →
      heap[id']? = some e' → ¬ Touches P p e') :
    firstOverlap P heap p l j0 = some (j0 + j, id, e) := by
  induction l generalizing j j0 with
  | nil => simp at hl
  | cons a rest ih =>
    cases j with
    | zero =>
      simp only [List.getElem?_cons_zero, Option.some.injEq] at hl
      subst hl
      unfold firstOverlap
      rw [hh]
      simp only []
      exact if_pos ht
    | succ k =>
      simp only [List.getElem?_cons_succ] at hl
      have hrest : firstOverlap P heap p rest (j0 + 1) = some (j0 + 1 + k, id, e) :=
        ih (j0 + 1) k hl (fun m id' e' hm hl' hh' =>
          hfirst (m + 1) id' e' (by omega) (by simpa using hl') hh')
      have hidx : j0 + (k + 1) = j0 + 1 + k := by omega
      rw [hidx]
      unfold firstOverlap
      cases ha : heap[a]? with
      | none => exact hrest
      | some e0 =>
        simp only []
        have hno : ¬ Touches P p e0 := hfirst 0 a e0 (by omega) (by simp) ha
        exact (if_neg hno).trans hrest

/-- C21, as the code has it: in one pass of `updateProjectiles`, let `W` be the world in which
the pass reaches the reflected projectile at index `i`, and let the projectile after its move
overlap the enemy at index `j` of the active list and none before it. If the projectile is
then within reach of the shield of a live god-mode player, it is reflected again: it stays in
the list, and no enemy, nor the score, changes in that step. Otherwise the step damages that
enemy and no other: a multi-hit enemy loses one health point (and is destroyed when that
leaves none), a one-hit enemy is destroyed; the score grows by exactly 100 on top of the kill
value (times the multiplier) of a destroyed enemy; and the projectile is removed from the
list of enemy projectiles, so the rest of the pass does not visit it and it hits no second
enemy. -/
theorem reflected_hits_first (i : ℕ) (w W : World) (stored : Projectile) (j id : ℕ)
    (enemy : Enemy)
    (hi : w.enemyManager.enemyProjectiles[i]? = some stored)
    (hreflected : stored.isReflected = true)
    (hW : W = projectileLoopFrom i w.enemyManager.enemyProjectiles.length w)
    (hj : W.enemyManager.enemies[j]? = some id) (hh : W.heap[id]? = some enemy)
    (htouch : Touches W.platform
      { stored with position := stored.position.add stored.velocity } enemy)
    (hfirst : ∀ (m : ℕ) (id' : ℕ) (e' : Enemy), m < j →
      W.enemyManager.enemies[m]? = some id' → W.heap[id']? = some e' →
      ¬ Touches W.platform { stored with position := stored.position.add stored.velocity }
        e') :
    updateProjectiles w = projectileLoop i (projectileStep i W) ∧
    W.enemyManager.enemyProjectiles[i]? = some stored ∧
    (((W.player.alive && W.player.godMode) = true ∧
        W.platform.sqrt
          ((stored.position.x + stored.velocity.x - W.player.position.x) *
              (stored.position.x + stored.velocity.x - W.player.position.x) +
            (stored.position.y + stored.velocity.y - W.player.position.y) *
              (stored.position.y + stored.velocity.y - W.player.position.y))
          < W.player.shieldRadius + stored.size) →
      (projectileStep i W).heap = W.heap ∧
      (projectileStep i W).enemyManager.enemies = W.enemyManager.enemies ∧
      (projectileStep i W).enemyManager.score = W.enemyManager.score ∧
      ∃ p' : Projectile,
        (projectileStep i W).enemyManager.enemyProjectiles
          = W.enemyManager.enemyProjectiles.set i p' ∧
        p'.isReflected = true) ∧
    (¬ ((W.player.alive && W.player.godMode) = true ∧
        W.platform.sqrt
          ((stored.position.x + stored.velocity.x - W.player.position.x) *
              (stored.position.x + stored.velocity.x - W.player.position.x) +
            (stored.position.y + stored.velocity.y - W.player.position.y) *
              (stored.position.y + stored.velocity.y - W.player.position.y))
          < W.player.shieldRadius + stored.size) →
      (projectileStep i W).enemyManager.enemyProjectiles
        = W.enemyManager.enemyProjectiles.eraseIdx i ∧
      (∃ pre : List Projectile, pre.length ≤ i ∧
        (updateProjectiles w).enemyManager.enemyProjectiles
          = pre ++ W.enemyManager.enemyProjectiles.drop (i + 1)) ∧
      (truthy enemy.health = true →
        (projectileStep i W).heap
          = W.heap.set id { enemy with health := enemy.health.map (fun h => h - 1) } ∧
        (projectileStep i W).enemyManager.enemies
          = (if (enemy.health.map (fun h => h - 1)).getD 0 ≤ 0
              then W.enemyManager.enemies.eraseIdx j else W.enemyManager.enemies) ∧
        (projectileStep i W).enemyManager.score = W.enemyManager.score +
          (if (enemy.health.map (fun h => h - 1)).getD 0 ≤ 0 then
            (if truthy enemy.value then enemy.value.getD 100 else 100) *
              W.enemyManager.scoreMultiplier
          else 0) + 100) ∧
      (truthy enemy.health = false →
        (projectileStep i W).heap = W.heap ∧
        (projectileStep i W).enemyManager.enemies = W.enemyManager.enemies.eraseIdx j ∧
        (projectileStep i W).enemyManager.score = W.enemyManager.score +
          (if truthy enemy.value then enemy.value.getD 100 else 100) *
            W.enemyManager.scoreMultiplier + 100)) := by
  have hlt : i < w.enemyManager.enemyProjectiles.length := getElem?_length_lt hi
  obtain ⟨s1, _, _⟩ := projectileLoopFrom_spec i w.enemyManager.enemyProjectiles.length w
  have hsplit : updateProjectiles w = projectileLoop i (projectileStep i W) := by
    rw [hW]
    exact projectileLoop_split i _ w hlt
  have hiW : W.enemyManager.enemyProjectiles[i]? = some stored := by
    rw [hW]
    exact (s1 i (le_refl i)).trans hi
  have hltW : i < W.enemyManager.enemyProjectiles.length := getElem?_length_lt hiW
  refine ⟨hsplit, hiW, ?_, ?_⟩
  · intro hshield
    have halive : W.player.alive = true := by
      have := hshield.1
      simp only [Bool.and_eq_true] at this
      exact this.1
    have hgod : W.player.godMode = true := by
      have := hshield.1
      simp only [Bool.and_eq_true] at this
      exact this.2
    obtain ⟨t1, _, t3⟩ := projectileStep_reflect i W stored _ _ _ hiW halive hgod rfl rfl rfl
      hshield.2
    refine ⟨?_, ?_, ?_, _, t1, rfl⟩
    · exact congrArg Core.heap t3
    · exact congrArg (fun c : Core => c.manager.enemies) t3
    · exact congrArg (fun c : Core => c.manager.score) t3
  · intro hshield
    have hov : firstOverlap W.platform W.heap
        { stored with position := stored.position.add stored.velocity }
        W.enemyManager.enemies 0 = some (j, id, enemy) := by
      have := firstOverlap_of_first W.platform W.heap
        { stored with position := stored.position.add stored.velocity }
        W.enemyManager.enemies 0 j id enemy hj hh htouch hfirst
      rw [Nat.zero_add] at this
      exact this
    obtain ⟨_, f2, f3, f4⟩ :=
      reflectedStep_fields i W stored j id enemy hiW hreflected hshield hov
    refine ⟨f2, ?_, f3, f4⟩
    obtain ⟨ks, hk1, hk2, _⟩ := projectileLoop_list i (projectileStep i W)
      (by rw [f2, List.length_eraseIdx, if_pos hltW]; omega)
    refine ⟨ks.reduceOption, ?_, ?_⟩
    · calc ks.reduceOption.length ≤ ks.length := List.reduceOption_length_le ks
        _ = i := hk1
    · rw [hsplit, hk2, f2, drop_eraseIdx_self]

theorem volleyWorld_touch :
    Touches samplePlatform
      { position := Vector.add ⟨403, 307⟩ ⟨0, -3⟩, velocity := ⟨0, -3⟩, size := 3,
        color := "#ffd700", isReflected := true }
      { sampleSpinner with position := ⟨403, 304⟩ } := by
  have harg : ((403 : ℚ) + 0 - 403) * (403 + 0 - 403) + (307 + -3 - 304) * (307 + -3 - 304)
      = 0 := by norm_num
  show samplePlatform.sqrt
    (((403 : ℚ) + 0 - 403) * (403 + 0 - 403) + (307 + -3 - 304) * (307 + -3 - 304)) < 12 + 3
  rw [harg, sample_sqrt_0]
  norm_num

/-- C21, worked example: in `volleyWorld`, where the player is not in god mode, the reflected
projectile ends its move on two enemies at once; only the first of the list, the one-hit
spinner of value 150, is destroyed, the score grows by 150 + 100 and the projectile is
gone. -/
theorem reflected_hits_first_witness :
    (updateProjectiles volleyWorld).enemyManager.enemyProjectiles = [] ∧
      (updateProjectiles volleyWorld).heap = volleyWorld.heap ∧
      (updateProjectiles volleyWorld).enemyManager.enemies = [1] ∧
      (updateProjectiles volleyWorld).enemyManager.score = 250 := by
  obtain ⟨h1, _, _, h4⟩ := reflected_hits_first 0 volleyWorld volleyWorld
    { sampleBolt with color := "#ffd700", isReflected := true } 0 0
    { sampleSpinner with position := ⟨403, 304⟩ } rfl rfl rfl rfl rfl
    volleyWorld_touch
    (fun m _ _ hm => absurd hm (Nat.not_lt_zero m))
  obtain ⟨g1, _, _, g4⟩ := h4 (by
    intro h
    exact absurd h.1 (by decide))
  obtain ⟨a1, a2, a3⟩ := g4 rfl
  have hstep : updateProjectiles volleyWorld = projectileStep 0 volleyWorld := h1
  rw [hstep]
  refine ⟨g1, a1, a2, ?_⟩
  rw [a3]
  rfl

/-- C21, the case the claim leaves out: in `reboundWorld` the reflected projectile ends its
move on the first enemy of the list, but also 5 away from the live god-mode player, inside the
shield of radius 30. The pass reflects it again: it is not removed, no enemy is damaged or
destroyed, and the score stays 0. -/
theorem reflected_rebounced :
    reboundWorld.player.alive = true ∧ reboundWorld.player.godMode = true ∧
      reboundWorld.enemyManager.enemyProjectiles
        = [{ sampleBolt with color := "#ffd700", isReflected := true }] ∧
      reboundWorld.enemyManager.enemies = [0, 1] ∧
      reboundWorld.heap[0]? = some { sampleSpinner with position := ⟨403, 304⟩ } ∧
      Touches reboundWorld.platform
        { position := Vector.add ⟨403, 307⟩ ⟨0, -3⟩, velocity := ⟨0, -3⟩, size := 3,
          color := "#ffd700", isReflected := true }
        { sampleSpinner with position := ⟨403, 304⟩ } ∧
      (updateProjectiles reboundWorld).enemyManager.enemyProjectiles.length = 1 ∧
      (updateProjectiles reboundWorld).heap = reboundWorld.heap ∧
      (updateProjectiles reboundWorld).enemyManager.enemies = [0, 1] ∧
      (updateProjectiles reboundWorld).enemyManager.score = 0 := by
  have harg : ((3 : ℚ) * 3 + 4 * 4) = 25 := by norm_num
  have hstep : updateProjectiles reboundWorld = projectileStep 0 reboundWorld := rfl
  obtain ⟨t1, _, t3⟩ := projectileStep_reflect 0 reboundWorld
    { sampleBolt with color := "#ffd700", isReflected := true } 3 4 5 rfl rfl rfl
    (by
      show (3 : ℚ) = 403 + 0 - 400
      norm_num)
    (by
      show (4 : ℚ) = 307 + -3 - 300
      norm_num)
    (by
      show samplePlatform.sqrt ((3 : ℚ) * 3 + 4 * 4) = 5
      rw [harg]
      exact sample_sqrt_25)
    (by
      show (5 : ℚ) < 30 + 3
      norm_num)
  refine ⟨rfl, rfl, rfl, rfl, rfl, volleyWorld_touch, ?_, ?_, ?_, ?_⟩
  · rw [hstep, t1]
    rfl
  · rw [hstep]
    exact congrArg Core.heap t3
  · rw [hstep]
    exact congrArg (fun c : Core => c.manager.enemies) t3
  · rw [hstep]
    exact congrArg (fun c : Core => c.manager.score) t3

/-! ## C26: the zero cases of the vector methods -/

/-- C26, as the code has it: `divide(0)` returns every vector unchanged; `normalize()` returns
the zero vector unchanged, whatever `Math.sqrt` gives; a vector whose computed magnitude
`m = Math.sqrt(x² + y²)` is 0 is returned unchanged; any other vector is returned divided by
`m`, so it is the result scaled by `m` (the same direction when `m > 0`), and the squared
length of the result is `(x² + y²) / m²`: it is 1 exactly when the square root is exact, and
then every exact magnitude of the result is 1. -/
theorem vector_zero_cases (P : Platform) (v : Vector) :
    (∀ u : Vector, u.divide 0 = u) ∧
      (∀ Q : Platform, Vector.normalize Q ⟨0, 0⟩ = ⟨0, 0⟩) ∧
      (P.sqrt (v.x * v.x + v.y * v.y) = 0 → v.normalize P = v) ∧
      (P.sqrt (v.x * v.x + v.y * v.y) ≠ 0 →
        v.normalize P
          = ⟨v.x / P.sqrt (v.x * v.x + v.y * v.y), v.y / P.sqrt (v.x * v.x + v.y * v.y)⟩ ∧
        v = (v.normalize P).multiply (P.sqrt (v.x * v.x + v.y * v.y)) ∧
        (v.normalize P).x * (v.normalize P).x + (v.normalize P).y * (v.normalize P).y
          = (v.x * v.x + v.y * v.y) /
              (P.sqrt (v.x * v.x + v.y * v.y) * P.sqrt (v.x * v.x + v.y * v.y)) ∧
        ((v.normalize P).x * (v.normalize P).x + (v.normalize P).y * (v.normalize P).y = 1 ↔
          P.sqrt (v.x * v.x + v.y * v.y) * P.sqrt (v.x * v.x + v.y * v.y)
            = v.x * v.x + v.y * v.y) ∧
        (P.sqrt (v.x * v.x + v.y * v.y) * P.sqrt (v.x * v.x + v.y * v.y)
            = v.x * v.x + v.y * v.y →
          ∀ d : ℚ, 0 ≤ d →
            d * d = (v.normalize P).x * (v.normalize P).x +
              (v.normalize P).y * (v.normalize P).y →
            d = 1)) := by
  refine ⟨?_, ?_, ?_, ?_⟩
  · intro u
    unfold Vector.divide
    simp
  · intro Q
    unfold Vector.normalize Vector.getMagnitude Vector.divide
    simp only []
    split_ifs <;> simp
  · intro h0
    unfold Vector.normalize Vector.getMagnitude
    simp only [h0, ne_eq, not_true_eq_false, if_false]
  · intro hm0
    generalize hm : P.sqrt (v.x * v.x + v.y * v.y) = m at hm0
    have hnorm : v.normalize P = ⟨v.x / m, v.y / m⟩ := by
      unfold Vector.normalize Vector.getMagnitude Vector.divide
      simp only [hm, ne_eq, hm0, not_false_eq_true, if_true]
    have hsq : v.x / m * (v.x / m) + v.y / m * (v.y / m)
        = (v.x * v.x + v.y * v.y) / (m * m) := normal_sq v.x v.y m
    have hmm : m * m ≠ 0 := mul_ne_zero hm0 hm0
    have hiff : v.x / m * (v.x / m) + v.y / m * (v.y / m) = 1 ↔
        m * m = v.x * v.x + v.y * v.y := by
      rw [hsq, div_eq_one_iff_eq hmm]
      exact eq_comm
    rw [hnorm]
    refine ⟨rfl, ?_, hsq, hiff, ?_⟩
    · unfold Vector.multiply
      simp only [div_mul_cancel₀ _ hm0]
    · intro hexact d hd hdd
      have h1 : d * d = 1 := hdd.trans (hiff.mpr hexact)
      have h2 : d * d = 1 * 1 := by rw [h1]; norm_num
      rcases mul_self_eq_mul_self_iff.mp h2 with h3 | h3
      · exact h3
      · linarith

/-- C26, worked example: the vector `(3, 4)` on the sample platform, whose square root of 25
is 5, is normalised to `(3/5, 4/5)`, of squared length 1. -/
theorem vector_zero_cases_witness :
    Vector.normalize samplePlatform ⟨3, 4⟩ = ⟨3 / 5, 4 / 5⟩ ∧
      (Vector.normalize samplePlatform ⟨3, 4⟩).x * (Vector.normalize samplePlatform ⟨3, 4⟩).x +
        (Vector.normalize samplePlatform ⟨3, 4⟩).y * (Vector.normalize samplePlatform ⟨3, 4⟩).y
        = 1 := by
  have harg : ((3 : ℚ) * 3 + 4 * 4) = 25 := by norm_num
  have hroot : samplePlatform.sqrt ((3 : ℚ) * 3 + 4 * 4) = 5 := by
    rw [harg]
    exact sample_sqrt_25
  obtain ⟨h1, _, _, h4, _⟩ := (vector_zero_cases samplePlatform ⟨3, 4⟩).2.2.2 (by
    show samplePlatform.sqrt ((3 : ℚ) * 3 + 4 * 4) ≠ 0
    rw [hroot]
    norm_num)
  refine ⟨?_, ?_⟩
  · rw [h1]
    show (⟨3 / samplePlatform.sqrt ((3 : ℚ) * 3 + 4 * 4),
      4 / samplePlatform.sqrt ((3 : ℚ) * 3 + 4 * 4)⟩ : Vector) = _
    rw [hroot]
  · refine h4.mpr ?_
    show samplePlatform.sqrt ((3 : ℚ) * 3 + 4 * 4) * samplePlatform.sqrt ((3 : ℚ) * 3 + 4 * 4)
      = 3 * 3 + 4 * 4
    rw [hroot]
    norm_num

/-- C26, the part on non-zero vectors: on `roundedPlatform`, where `Math.sqrt(2)` is the
double nearest to the square root of 2, `normalize()` turns the non-zero vector `(1, 1)` into
a vector whose squared length is not 1, so its magnitude is not 1; and whatever `Math.sqrt`
returns, the squared length of the result is not 1, no rational number being an exact square
root of 2. -/
theorem normalize_not_unit :
    Vector.normalize roundedPlatform ⟨1, 1⟩
        = ⟨1 / (6369051672525773 / 4503599627370496),
           1 / (6369051672525773 / 4503599627370496)⟩ ∧
      (Vector.normalize roundedPlatform ⟨1, 1⟩).x * (Vector.normalize roundedPlatform ⟨1, 1⟩).x +
        (Vector.normalize roundedPlatform ⟨1, 1⟩).y * (Vector.normalize roundedPlatform ⟨1, 1⟩).y
        ≠ 1 ∧
      ∀ P : Platform,
        (Vector.normalize P ⟨1, 1⟩).x * (Vector.normalize P ⟨1, 1⟩).x +
          (Vector.normalize P ⟨1, 1⟩).y * (Vector.normalize P ⟨1, 1⟩).y ≠ 1 := by
  have harg : ((1 : ℚ) * 1 + 1 * 1) = 2 := by norm_num
  have hroot : roundedPlatform.sqrt ((1 : ℚ) * 1 + 1 * 1)
      = 6369051672525773 / 4503599627370496 := rounded_sqrt_two _ harg
  have hnorm : Vector.normalize roundedPlatform ⟨1, 1⟩
      = ⟨1 / (6369051672525773 / 4503599627370496),
         1 / (6369051672525773 / 4503599627370496)⟩ := by
    unfold Vector.normalize Vector.getMagnitude Vector.divide
    simp only [hroot]
    norm_num
  refine ⟨hnorm, ?_, ?_⟩
  · rw [hnorm]
    norm_num
  · intro P
    by_cases hm : P.sqrt ((1 : ℚ) * 1 + 1 * 1) = 0
    · have hn : Vector.normalize P ⟨1, 1⟩ = ⟨1, 1⟩ := by
        unfold Vector.normalize Vector.getMagnitude
        simp only [hm, ne_eq, not_true_eq_false, if_false]
      rw [hn]
      norm_num
    · have hn : Vector.normalize P ⟨1, 1⟩
          = ⟨1 / P.sqrt ((1 : ℚ) * 1 + 1 * 1), 1 / P.sqrt ((1 : ℚ) * 1 + 1 * 1)⟩ := by
        unfold Vector.normalize Vector.getMagnitude Vector.divide
        simp only [ne_eq, hm, not_false_eq_true, if_true]
      rw [hn]
      intro h
      have hsq := (normal_sq 1 1 (P.sqrt ((1 : ℚ) * 1 + 1 * 1))).symm.trans h
      rw [div_eq_one_iff_eq (mul_ne_zero hm hm), harg] at hsq
      exact no_exact_sqrt_two _ hsq.symm

end StarWars
